import Mathlib

/-!
# goat: block-boundary arithmetic, checksummed files and the erasure stripe reader

A shallow embedding of the data path of `balamurugana/goat`:

* `pkg/boundary/boundary.go`   : `CalcBoundaries`, `CalcPartBoundaries`
* `pkg/os/file.go`, `pkg/os/checksum-file.go`, `pkg/os/checksummed-reader.go`
* `pkg/erasure/info.go`, `pkg/erasure/encode.go`, `pkg/erasure/decode.go`
* `datasys/dataspace/disk/data-reader.go`, `datasys/dataspace/erasure/data-reader.go`
* `datasys/dataspace/erasure/erasure.go` : the quorum calls of the erasure group
* `pkg/hash/hash.go`, `pkg/hash/highway.go` : the hashes by name and key
* `datasys/dataspace/disk/disk.go` : the operations of a disk on its directory tree
* `sql/record.go` : `Record.Set`, `Record.Get`, `Record.Range`
* `message.go` : the progress message of the select response
* `pkg/rand/uuid.go` : the textual forms of a UUID

Go `int64`/`uint64` values are embedded as `Int`/`Nat`; a Go runtime panic is an
explicit outcome (`none`, or `Err.panic`).  Byte slices are lists of naturals, and
a slice that the source re-slices beyond its length is a `Buf` (backing array
plus length).
-/

namespace Goat

/-! ## pkg/boundary -/

/-- The five results of `CalcBoundaries`, in the order the source returns them. -/
structure Boundaries where
  blocksToSkip : Int
  blocksToRead : Int
  bytesToSkipInFirstBlock : Int
  bytesToReadInLastBlock : Int
  lastBlockSize : Int
deriving DecidableEq, Repr

/-- Go `boundary.CalcBoundaries` (boundary.go:3-50).  `none` is the
`panic("invalid offset/length for size")` (and the integer-divide-by-zero panic
of `offset / blockSize`).  Go's `/` on `int64` truncates towards zero: `Int.tdiv`. -/
def CalcBoundaries (size blockSize blockCount offset length : Int) : Option Boundaries :=
  if offset > size ∨ length > size ∨ offset + length > size then none
  else
    let lastBlockSize0 := size - (blockCount - 1) * blockSize
    let lastBlockSize := if lastBlockSize0 = 0 then blockSize else lastBlockSize0
    let blockSize := if blockCount ≤ 1 then lastBlockSize else blockSize
    if blockSize = 0 then none
    else
      let blocksToSkip := Int.tdiv offset blockSize
      let bytesToSkipInFirstBlock := offset - blocksToSkip * blockSize
      if bytesToSkipInFirstBlock > 0 ∧ length ≤ blockSize - bytesToSkipInFirstBlock then
        -- early return of lines 23-27
        some ⟨blocksToSkip, 1, bytesToSkipInFirstBlock, length, blockSize⟩
      else
        let blocksToRead0 : Int := if bytesToSkipInFirstBlock > 0 then 1 else 0
        let length :=
          if bytesToSkipInFirstBlock > 0 then length - (blockSize - bytesToSkipInFirstBlock)
          else length
        let blocksNeeded0 := Int.tdiv length blockSize
        let r := length - blocksNeeded0 * blockSize
        let bytesToReadInLastBlock :=
          if r > 0 then r else if r < 0 then length else blockSize
        let blocksNeeded := if r > 0 then blocksNeeded0 + 1 else blocksNeeded0
        let blocksToRead := blocksToRead0 + blocksNeeded
        let lastBlockSize :=
          if blocksToSkip + blocksToRead ≠ blockCount then blockSize else lastBlockSize
        some ⟨blocksToSkip, blocksToRead, bytesToSkipInFirstBlock, bytesToReadInLastBlock,
          lastBlockSize⟩

/-- The effective block size of `CalcBoundaries`: the last-block size (the remainder
`size - (blockCount-1)*blockSize`, promoted to `blockSize` when it is zero) when
`blockCount ≤ 1`, else `blockSize`. -/
def effectiveBlockSize (size blockSize blockCount : Int) : Int :=
  if blockCount ≤ 1 then
    (if size - (blockCount - 1) * blockSize = 0 then blockSize
     else size - (blockCount - 1) * blockSize)
  else blockSize

/-- The number of bytes a block window denotes, for effective block size `E`:
nothing for an empty window, the last-block count for a single block, and
otherwise the rest of the first block, the full middle blocks and the last-block
count. -/
def windowBytes (E : Int) (b : Boundaries) : Int :=
  if b.blocksToRead = 0 then 0
  else if b.blocksToRead = 1 then b.bytesToReadInLastBlock
  else (E - b.bytesToSkipInFirstBlock) + (b.blocksToRead - 2) * E + b.bytesToReadInLastBlock

/-- The physical size of block number `k` of a file of `size` bytes cut into
`blockCount` blocks of `blockSize` bytes: the remainder for the final block,
`blockSize` for every other block. -/
def physicalBlockSize (size blockSize blockCount k : Int) : Int :=
  if k = blockCount - 1 then size - (blockCount - 1) * blockSize else blockSize

/-! ## Bytes, errors, slices, readers -/

/-- A byte. -/
abbrev Byte := Nat

/-- The error values of the data path.  `panic` is a Go runtime panic (a crash, not
an error value); `fuel` is not a behaviour of the program: it marks a run of a
fuel-bounded loop of this embedding that was given too little fuel. -/
inductive Err where
  | eof                 -- io.EOF
  | unexpectedEOF       -- io.ErrUnexpectedEOF
  | checksumMismatch    -- "checksum mismatch; expected: .., got: .."
  | insufficientData    -- "insufficient data"
  | tooManyReadErrors   -- "too many read errors; .."
  | nilReader           -- "nil reader"
  | nilWriter           -- "nil writer"
  | getShardWriter      -- "multiple error on getShardWriter(); .."
  | tooManyWriteErrors  -- "too many write errors; .."
  | verifyFailed        -- "verification failed on encoded shards"
  | notExist            -- os.Open of a missing file
  | other (msg : String) -- any other error of a collaborator
  | panic (msg : String)
  | fuel
deriving DecidableEq, Repr

/-- Zero-extend or cut `l` to exactly `n` entries. -/
def padTake (l : List Byte) (n : Nat) : List Byte :=
  (l ++ List.replicate (n - l.length) 0).take n

/-- A Go byte slice together with its backing array: element `i < cap` of the array
is `data.getD i 0` (the array of `make` is all zero, so only a written prefix is
stored), and the slice is its first `len` elements. -/
structure Buf where
  data : List Byte
  cap : Nat
  len : Nat
deriving DecidableEq, Repr

/-- The result of `make([]byte, n)`. -/
def Buf.make (n : Nat) : Buf := ⟨[], n, n⟩

/-- The bytes of the slice. -/
def Buf.view (b : Buf) : List Byte := padTake b.data b.len

/-- The slice expression `b[:k]`: `none` is the panic `slice bounds out of range`. -/
def Buf.sliceTo (b : Buf) (k : Int) : Option Buf :=
  if 0 ≤ k ∧ k ≤ b.cap then some { b with len := k.toNat } else none

/-- Overwrite the first `bs.length` bytes of the slice (`bs.length ≤ len`). -/
def Buf.write (b : Buf) (bs : List Byte) : Buf :=
  { b with data := bs ++ b.data.drop bs.length }

/-- The statements `copy(b, b[j:]); b = b[:len(b)-j]` (`none`: `j` out of range). -/
def Buf.dropFront (b : Buf) (j : Int) : Option Buf :=
  if 0 ≤ j ∧ j ≤ b.len then
    let src := b.view.drop j.toNat
    some { (b.write src) with len := b.len - j.toNat }
  else none

/-- The statement `copy(b, b[j:])` (`none`: `j` out of range). -/
def Buf.copyFront (b : Buf) (j : Int) : Option Buf :=
  if 0 ≤ j ∧ j ≤ b.len then some (b.write (b.view.drop j.toNat)) else none

/-- The closure `clear` (encode.go:70-74): zero `b[offset .. length-1]`; `none` when
an index is out of range. -/
def Buf.clear (b : Buf) (offset length : Nat) : Option Buf :=
  if offset ≥ length then some b
  else if length > b.len then none
  else
    let d := padTake b.data (max b.data.length length)
    some { b with data := d.take offset ++ List.replicate (length - offset) 0 ++ d.drop length }

/-- Make the slice hold exactly the bytes `v` (a library call that refills it). -/
def Buf.setView (b : Buf) (v : List Byte) : Buf :=
  ⟨v ++ b.data.drop v.length, max b.cap v.length, v.length⟩

/-- Store the shard contents a library call returns into the shard slices. -/
def setViews : List Buf → List (List Byte) → List Buf
  | [], _ => []
  | b :: bs, [] => b :: bs
  | b :: bs, v :: vs => b.setView v :: setViews bs vs

/-- An `io.Reader` as far as `io.ReadFull` can observe it: the bytes it still
delivers and the error it reports after them (`Err.eof` for an ordinary end). -/
structure Stream where
  bytes : List Byte
  final : Err
deriving DecidableEq, Repr

/-- Go `io.ReadFull(r, buf)` with `len(buf) = k`: the bytes read, the error, the rest of
the reader.  An empty buffer reads nothing and reports no error; no byte at all is
the reader's own error; fewer than `k` bytes is `io.ErrUnexpectedEOF` when the
reader ended with `io.EOF`, else the reader's error. -/
def readFull (r : Stream) (k : Nat) : List Byte × Option Err × Stream :=
  if k = 0 then ([], none, r)
  else if k ≤ r.bytes.length then (r.bytes.take k, none, { r with bytes := r.bytes.drop k })
  else if r.bytes.length = 0 then ([], some r.final, r)
  else (r.bytes, some (if r.final = Err.eof then Err.unexpectedEOF else r.final),
    { r with bytes := [] })

/-- A hash of `pkg/hash` as the data path uses it: `Reset(); Write(b); HexSum(nil)`
is `hexSum b`, a string of `hashLength` characters.  HighwayHash-256 itself is a
library outside the repository. -/
structure Hasher where
  hexSum : List Byte → List Byte
  hashLength : Nat

/-! ## pkg/os: checksum sidecar -/

/-- Go `checksumHeader` (checksum-file.go:14-21).  `HashName` and `HashKey` select the
hash; the hash they select is the `Hasher` the functions below take. -/
structure checksumHeader where
  HashLength : Nat
  BlockSize : Nat
  BlockCount : Nat
  DataLength : Nat
deriving DecidableEq, Repr

/-- An open `checksumFile` (checksum-file.go:23-28): `rest` is the sidecar from the
current file position on, `buf` the reused digest buffer (`none`: still nil). -/
structure checksumFile where
  rest : List Byte
  header : checksumHeader
  buf : Option (List Byte)
deriving DecidableEq, Repr

/-- Go `checksumFile.Skip` (checksum-file.go:136-140): seek forward over `blockCount`
digest lines. -/
def checksumFile.Skip (cf : checksumFile) (blockCount : Nat) : checksumFile :=
  { cf with rest := cf.rest.drop (blockCount * (cf.header.HashLength + 1)) }

/-- Go `checksumFile.ReadSum` (checksum-file.go:142-152): one `Read` of
`HashLength+1` bytes into the reused buffer; a regular file delivers what is left,
and `io.EOF` when nothing is. -/
def checksumFile.ReadSum (cf : checksumFile) : Except Err (List Byte) × checksumFile :=
  let buf := cf.buf.getD (List.replicate (cf.header.HashLength + 1) 0)
  if cf.rest.length = 0 then (.error Err.eof, { cf with buf := some buf })
  else
    let got := cf.rest.take (cf.header.HashLength + 1)
    let buf := got ++ buf.drop got.length
    (.ok (buf.take cf.header.HashLength),
      { cf with buf := some buf, rest := cf.rest.drop (cf.header.HashLength + 1) })

/-- What `WriteFile` leaves on disk next to the main file: the parsed header line
and the bytes after it. -/
structure Sidecar where
  header : checksumHeader
  body : List Byte
deriving DecidableEq, Repr

/-- A file written by `WriteFile`: the main file and, with bitrot protection, its
`.checksum` sidecar. -/
structure StoredFile where
  data : List Byte
  sidecar : Option Sidecar
deriving DecidableEq, Repr

/-- The constant `defaultBlockSize` (file.go:14). -/
def defaultBlockSize : Nat := 1024 * 1024

/-- Conversion to `int64` (two's complement wrap-around; `2^63` and `2^64` written
out). -/
def int64 (x : Int) : Int :=
  (x + 9223372036854775808) % 18446744073709551616 - 9223372036854775808

/-- Conversion to `uint64` (wrap-around modulo `2^64`). -/
def uint64 (x : Int) : Nat := (x % 18446744073709551616).toNat

/-! ## pkg/os: WriteFile -/

/-- The block loop of `WriteFile` (file.go:67-79) for block size `blockSize`: `todo`
blocks are still to be written, `i` is the loop index.  Each block is filled by
`io.ReadFull` and handed to the multi-writer: the main file, then the sidecar
(`checksumFile.Write`, checksum-file.go:125-134: the block's hex digest and a
newline). -/
def WriteFile.blocks (H : Hasher) (blockSize size blockCount : Nat) :
    Nat → Nat → Stream → List Byte → List Byte → Option Err × List Byte × List Byte
  | 0, _, _, file, body => (none, file, body)
  | todo + 1, i, data, file, body =>
    let k := if i = blockCount - 1 then size - i * blockSize else blockSize
    match readFull data k with
    | (_, some e, _) => (some e, file, body)
    | (bs, none, data') =>
      WriteFile.blocks H blockSize size blockCount todo (i + 1) data' (file ++ bs)
        (body ++ (H.hexSum bs ++ [10]))

/-- Go `WriteFile` (file.go:36-82) with the constant `defaultBlockSize` as a parameter,
on a fresh file name: the returned digest or error, and the files left on disk. -/
def WriteFileWith (blockSize : Nat) (H : Hasher) (data : Stream) (size : Nat)
    (bitrotProtection : Bool) : Except Err (List Byte) × StoredFile :=
  let blockCount := if size / blockSize * blockSize < size then size / blockSize + 1
    else size / blockSize
  let r := WriteFile.blocks H blockSize size blockCount blockCount 0 data [] []
  let sidecar : Option Sidecar :=
    if bitrotProtection then some ⟨⟨H.hashLength, blockSize, blockCount, size⟩, r.2.2⟩
    else none
  match r.1 with
  | some e => (.error e, ⟨r.2.1, sidecar⟩)
  | none => (.ok (H.hexSum r.2.1), ⟨r.2.1, sidecar⟩)

/-- Go `WriteFile` (file.go:36-82). -/
def WriteFile (H : Hasher) (data : Stream) (size : Nat) (bitrotProtection : Bool) :
    Except Err (List Byte) × StoredFile :=
  WriteFileWith defaultBlockSize H data size bitrotProtection

/-! ## pkg/hash, and the files of pkg/os as bytes -/

/-- Lower-case hexadecimal digit of `d < 16`, as an ASCII code. -/
def hexDigit (d : Nat) : Byte := if d < 10 then 48 + d else 87 + d

/-- Go `hex.EncodeToString` of the standard library: two lower-case digits per byte. -/
def hexEncode : List Byte → List Byte
  | [] => []
  | b :: bs => hexDigit (b / 16) :: hexDigit (b % 16) :: hexEncode bs

/-- The value of a hexadecimal digit (either case), `none` for another character. -/
def hexVal (c : Byte) : Option Nat :=
  if 48 ≤ c ∧ c ≤ 57 then some (c - 48)
  else if 97 ≤ c ∧ c ≤ 102 then some (c - 87)
  else if 65 ≤ c ∧ c ≤ 70 then some (c - 55)
  else none

/-- Go `hex.DecodeString` of the standard library (`none`: odd length or a character
that is no digit). -/
def hexDecode : List Byte → Option (List Byte)
  | [] => some []
  | [_] => none
  | a :: b :: rest =>
    match hexVal a, hexVal b, hexDecode rest with
    | some x, some y, some r => some ((x * 16 + y) :: r)
    | _, _, _ => none

/-- The digest functions of the libraries behind `pkg/hash`:
`github.com/minio/highwayhash` (keyed), `crypto/sha256` and `crypto/md5`. -/
structure HashLib where
  highway : List Byte → List Byte → List Byte
  sha256 : List Byte → List Byte
  md5 : List Byte → List Byte

/-- Go `hash.Hash` of `pkg/hash` (hash.go:13-19): `Name`, `HashKey`, and `HashLength` and
`HexSum` as the `Hasher` the data path uses. -/
structure Hash extends Hasher where
  Name : String
  HashKey : List Byte

/-- The variable `defaultHighwayHashKey` (highway.go:10-15). -/
def defaultHighwayHashKey : List Byte :=
  [1, 2, 3, 4, 5, 6, 7, 8, 9, 10, 11, 12, 13, 14, 15, 16,
   17, 18, 19, 20, 21, 22, 23, 24, 25, 26, 27, 28, 29, 30, 31, 32]

/-- Go `NewHighwayHash256` (highway.go:24-38); `highwayhash.New` rejects a key that is
not 32 bytes long. -/
def NewHighwayHash256 (lib : HashLib) (key : Option (List Byte)) : Except Err Hash :=
  let key := key.getD defaultHighwayHashKey
  if key.length ≠ 32 then .error (Err.other "highwayhash: invalid key size")
  else .ok ⟨⟨fun data => hexEncode (lib.highway key data), 64⟩, "HighwayHash256", hexEncode key⟩

/-- Go `NewHash` (hash.go:33-44) with `NewSHA256` (sha256.go) and `NewMD5` (md5.go). -/
def NewHash (lib : HashLib) (name : String) (key : Option (List Byte)) : Except Err Hash :=
  if name = "HighwayHash256" then NewHighwayHash256 lib key
  else if name = "SHA256" then .ok ⟨⟨fun data => hexEncode (lib.sha256 data), 64⟩, "SHA256", []⟩
  else if name = "MD5" then .ok ⟨⟨fun data => hexEncode (lib.md5 data), 32⟩, "MD5", []⟩
  else .error (Err.other "unknown algorithm")

/-- Go `checksumHeader` (checksum-file.go:14-21) with all six fields, as the header
line of the sidecar holds it. -/
structure checksumHeaderLine extends checksumHeader where
  HashName : String
  HashKey : List Byte
deriving DecidableEq, Repr

/-- The JSON text of a header, by `encoding/json` of the standard library:
`json.NewEncoder(file).Encode(header)` writes `encode header` (the text and a
newline), `json.Unmarshal(data, header)` is `decode data`. -/
structure HeaderJSON where
  encode : checksumHeaderLine → List Byte
  decode : List Byte → Except Err checksumHeaderLine

/-- A file opened with `os.O_WRONLY|os.O_CREATE` (no `O_TRUNC`) that held `old` (empty
when it is created), after `new` was written from its start: the bytes of `old`
beyond the end of `new` stay. -/
def overwrite (old new : List Byte) : List Byte := new ++ old.drop new.length

/-- The two files `WriteFile` works on: `filename` and `filename + ".checksum"`
(`none`: the file does not exist). -/
structure Files where
  main : Option (List Byte)
  checksum : Option (List Byte)
deriving DecidableEq, Repr

/-- Go `MustGetNewHash` (hash.go:47-54); `none` is its panic. -/
def MustGetNewHash (lib : HashLib) (name : String) (key : Option (List Byte)) : Option Hash :=
  match NewHash lib name key with
  | .ok h => some h
  | .error _ => none

/-- Go `WriteFile` (file.go:36-82) on files that may exist already, with the constant
`defaultBlockSize` as a parameter; `h` is `MustGetNewHash(HighwayHash256Algorithm,
nil)`, the hash of `hashWriter` and of `createChecksumFile` (checksum-file.go:30-63),
which writes the header line.  The result is the digest or the error, and the two
files afterwards. -/
def WriteFileOverWith (blockSize : Nat) (J : HeaderJSON) (h : Hash) (prior : Files) (data : Stream)
    (size : Nat) (bitrotProtection : Bool) : Except Err (List Byte) × Files :=
  let blockCount := if size / blockSize * blockSize < size then size / blockSize + 1
    else size / blockSize
  let r := WriteFile.blocks h.toHasher blockSize size blockCount blockCount 0 data [] []
  let main := overwrite (prior.main.getD []) r.2.1
  let checksum : Option (List Byte) :=
    if bitrotProtection then
      some (overwrite (prior.checksum.getD [])
        (J.encode ⟨⟨h.hashLength, blockSize, blockCount, size⟩, h.Name, h.HashKey⟩ ++ r.2.2))
    else prior.checksum
  match r.1 with
  | some e => (.error e, ⟨some main, checksum⟩)
  | none => (.ok (h.hexSum r.2.1), ⟨some main, checksum⟩)

/-- Go `WriteFile` (file.go:36-82) on the bytes of `filename` and of its sidecar, which
may exist already; `none` is a panic. -/
def WriteFileOver (J : HeaderJSON) (lib : HashLib) (prior : Files) (data : Stream) (size : Nat)
    (bitrotProtection : Bool) : Option (Except Err (List Byte) × Files) :=
  match MustGetNewHash lib "HighwayHash256" none with
  | none => none
  | some h => some (WriteFileOverWith defaultBlockSize J h prior data size bitrotProtection)

/-- The header line the specification gives for the sidecar of a file of `size`
bytes. -/
def specHeader (size : Nat) : checksumHeaderLine :=
  ⟨⟨64, 1048576, (size + 1048575) / 1048576, size⟩, "HighwayHash256",
    hexEncode defaultHighwayHashKey⟩

/-- The loop of `openChecksumFile` that reads the header line (checksum-file.go:82-93):
`rest` is the file from the current position on, `data` the bytes read so far. -/
def openChecksumFile.line : Nat → List Byte → List Byte → Except Err (List Byte)
  | 0, _, _ => .error Err.fuel
  | fuel + 1, rest, data =>
    match readFull ⟨rest, Err.eof⟩ 1024 with
    | (bs, e, r) =>
      if e.isSome ∧ e ≠ some Err.unexpectedEOF then .error (e.getD Err.eof)
      else
        let data := data ++ bs
        if data.indexOf 10 < data.length then .ok (data.take (data.indexOf 10 + 1))
        else openChecksumFile.line fuel r.bytes data

/-- What `openChecksumFile` returns: the open file with its hash and the header. -/
structure openedChecksumFile where
  file : checksumFile
  hasher : Hash
  header : checksumHeaderLine

/-- Go `openChecksumFile` (checksum-file.go:65-123) on the bytes of the sidecar (`none`:
there is no such file). -/
def openChecksumFile (J : HeaderJSON) (lib : HashLib) (file : Option (List Byte)) :
    Except Err openedChecksumFile :=
  match file with
  | none => .error Err.notExist
  | some bytes =>
    match openChecksumFile.line (bytes.length / 1024 + 2) bytes [] with
    | .error e => .error e
    | .ok data =>
      match J.decode data with
      | .error e => .error e
      | .ok header =>
        match hexDecode header.HashKey with
        | none => .error (Err.other "encoding/hex: invalid string")
        | some key =>
          match NewHash lib header.HashName (if key.length = 0 then none else some key) with
          | .error e => .error e
          | .ok hasher =>
            .ok ⟨⟨bytes.drop data.length, header.tochecksumHeader, none⟩, hasher, header⟩

/-- Go `SectionFileReader` (file.go:16-34) over `io.SectionReader`: the file, the
current offset and the limit. -/
structure SectionFileReader where
  file : List Byte
  off : Int
  limit : Int
deriving DecidableEq, Repr

/-- Go `NewSectionFileReader` (file.go:29-34), i.e. `io.NewSectionReader(file, offset, length)`. -/
def NewSectionFileReader (file : List Byte) (offset length : Int) : SectionFileReader :=
  ⟨file, offset, if offset ≤ 9223372036854775807 - length then length + offset else 9223372036854775807⟩

/-- Go `SectionFileReader.Read` (file.go:21-23) on a buffer of `want` bytes:
`io.SectionReader.Read` over `os.File.ReadAt`. -/
def SectionFileReader.Read (s : SectionFileReader) (want : Nat) :
    List Byte × Option Err × SectionFileReader :=
  if s.off ≥ s.limit then ([], some Err.eof, s)
  else
    let k : Int := if (want : Int) > s.limit - s.off then s.limit - s.off else want
    let bs := (s.file.drop s.off.toNat).take k.toNat
    (bs, if (bs.length : Int) < k then some Err.eof else none,
      { s with off := s.off + bs.length })

/-- Go `checksummedReader` (checksummed-reader.go:10-22): `file` is the main file from
the current position on, `block` the reused block buffer (`none`: still nil). -/
structure checksummedReader where
  file : List Byte
  checksumFile : checksumFile
  blocksToRead : Int
  bytesToSkipInFirstBlock : Int
  bytesToReadInLastBlock : Int
  lastBlockSize : Int
  block : Option Buf
  bytesAvailable : Int
  index : Int
deriving DecidableEq, Repr

/-- Go `len(reader.block)`. -/
def checksummedReader.blockLen (r : checksummedReader) : Nat :=
  match r.block with
  | none => 0
  | some b => b.len

/-- Lines 29-37 of `checksummedReader.readBlock`: the block buffer is allocated with
the header's block size or re-extended to its capacity, and cut to `lastBlockSize`
for the last block of the window.  The first component is the buffer before the
cut, the second the buffer to fill (`none`: the cut panics). -/
def checksummedReader.prepareBlock (r : checksummedReader) : Buf × Option Buf :=
  let block : Buf := match r.block with
    | none => Buf.make r.checksumFile.header.BlockSize
    | some b => { b with len := b.cap }
  (block, if r.index = r.blocksToRead - 1 then block.sliceTo r.lastBlockSize else some block)

/-- Go `checksummedReader.readBlock` (checksummed-reader.go:24-73): the error (`none`
for nil) and the reader afterwards. -/
def checksummedReader.readBlock (H : Hasher) (r : checksummedReader) :
    Option Err × checksummedReader :=
  if r.index = r.blocksToRead then (some Err.eof, r)
  else
    -- lines 29-37
    match r.prepareBlock with
    | (block, none) =>
      (some (Err.panic "slice bounds out of range"), { r with block := some block })
    | (_, some block) =>
      -- lines 39-42
      match r.checksumFile.ReadSum with
      | (.error e, cf) => (some e, { r with block := some block, checksumFile := cf })
      | (.ok checksum, cf) =>
        -- lines 44-46
        match readFull ⟨r.file, Err.eof⟩ block.len with
        | (bs, some e, f) =>
          (some e, { r with block := some (block.write bs), checksumFile := cf, file := f.bytes })
        | (bs, none, f) =>
          let block := block.write bs
          let r := { r with block := some block, checksumFile := cf, file := f.bytes }
          -- lines 48-56
          if H.hexSum block.view ≠ checksum then (some Err.checksumMismatch, r)
          else
            -- lines 58-62
            let block? : Option Buf :=
              if r.index = 0 then block.dropFront r.bytesToSkipInFirstBlock else some block
            match block? with
            | none => (some (Err.panic "slice bounds out of range"), r)
            | some block =>
              -- lines 64-66
              let block? : Option Buf :=
                if r.index = r.blocksToRead - 1 then block.sliceTo r.bytesToReadInLastBlock
                else some block
              match block? with
              | none =>
                (some (Err.panic "slice bounds out of range"), { r with block := some block })
              | some block =>
                (none, { r with block := some block, index := r.index + 1,
                                bytesAvailable := block.len })

/-- The loop of `checksummedReader.Read` (checksummed-reader.go:76-88): `want` is
`len(b) - n`, `acc` the bytes copied into `b` so far. -/
def checksummedReader.readLoop (H : Hasher) :
    Nat → checksummedReader → Nat → List Byte → List Byte × Option Err × checksummedReader
  | 0, r, _, acc => (acc, some Err.fuel, r)
  | fuel + 1, r, want, acc =>
    if want = 0 then (acc, none, r)
    else
      let (e, r) := if r.bytesAvailable = 0 then r.readBlock H else (none, r)
      match e with
      | some e => (acc, some e, r)
      | none =>
        let off : Int := (r.blockLen : Int) - r.bytesAvailable
        if off < 0 ∨ off > r.blockLen then
          (acc, some (Err.panic "slice bounds out of range"), r)
        else
          let src := ((r.block.map Buf.view).getD []).drop off.toNat
          let copied := src.take want
          checksummedReader.readLoop H fuel
            { r with bytesAvailable := r.bytesAvailable - copied.length }
            (want - copied.length) (acc ++ copied)

/-- Go `checksummedReader.Read` (checksummed-reader.go:75-91) on a buffer of `want`
bytes: the bytes delivered, the error, the reader afterwards.  Every pass of the
loop copies a byte or consumes a digest line, so this fuel is enough. -/
def checksummedReader.Read (H : Hasher) (r : checksummedReader) (want : Nat) :
    List Byte × Option Err × checksummedReader :=
  checksummedReader.readLoop H (want + r.checksumFile.rest.length + 1) r want []

/-- The `io.ReadCloser` returned by `OpenFile`. -/
inductive FileReader where
  | plain (r : SectionFileReader)
  | verified (r : checksummedReader)
deriving DecidableEq, Repr

/-- Go `Read` of the reader returned by `OpenFile`. -/
def FileReader.Read (H : Hasher) (rd : FileReader) (want : Nat) :
    List Byte × Option Err × FileReader :=
  match rd with
  | .plain r => let (bs, e, r) := r.Read want; (bs, e, .plain r)
  | .verified r => let (bs, e, r) := r.Read H want; (bs, e, .verified r)

/-- Go `OpenFile` (file.go:103-189) on the file found under `filename` (`none`: no such
file), with `offset : int64` and `length : uint64`. -/
def OpenFile (f : Option StoredFile) (offset : Int) (length : Nat) (bitrotProtection : Bool) :
    Except Err FileReader :=
  match f with
  | none => .error Err.notExist
  | some f =>
    let dataLength := int64 length
    if !bitrotProtection then
      let size : Int := f.data.length
      let offset := if offset < 0 then int64 (size - offset) else offset
      if offset < 0 then .error Err.insufficientData
      else if int64 (offset + dataLength) > size then .error Err.insufficientData
      else .ok (.plain (NewSectionFileReader f.data offset dataLength))
    else
      match f.sidecar with
      | none => .error Err.notExist
      | some sc =>
        let size := int64 sc.header.DataLength
        let offset := if offset < 0 then int64 (size - offset) else offset
        if offset < 0 then .error Err.insufficientData
        else if int64 (offset + dataLength) > size then .error Err.insufficientData
        else
          match CalcBoundaries size (int64 sc.header.BlockSize) (int64 sc.header.BlockCount)
              offset dataLength with
          | none => .error (Err.panic "invalid offset/length for size")
          | some b =>
            let cf := (checksumFile.mk sc.body sc.header none).Skip (uint64 b.blocksToSkip)
            let bytesToSkip :=
              if sc.header.BlockCount ≤ 1 then int64 (b.blocksToSkip * b.lastBlockSize)
              else int64 (b.blocksToSkip * int64 sc.header.BlockSize)
            if bytesToSkip < 0 then .error (Err.other "seek: invalid argument")
            else
              .ok (.verified
                { file := f.data.drop bytesToSkip.toNat
                  checksumFile := cf
                  blocksToRead := b.blocksToRead
                  bytesToSkipInFirstBlock := b.bytesToSkipInFirstBlock
                  bytesToReadInLastBlock := b.bytesToReadInLastBlock
                  lastBlockSize := b.lastBlockSize
                  block := none
                  bytesAvailable := 0
                  index := 0 })

/-- Drain a reader as `io.Copy` does: `Read` with buffers of `want` bytes until an
error; `io.EOF` ends the copy successfully.  Returns the bytes and the error
(`none` on success). -/
def FileReader.drain (H : Hasher) (want : Nat) :
    Nat → FileReader → List Byte → List Byte × Option Err
  | 0, _, acc => (acc, some Err.fuel)
  | fuel + 1, rd, acc =>
    match rd.Read H want with
    | (bs, none, rd) => FileReader.drain H want fuel rd (acc ++ bs)
    | (bs, some Err.eof, _) => (acc ++ bs, none)
    | (bs, some e, _) => (acc ++ bs, some e)

/-- Go `OpenFile` followed by `io.Copy`, as `TestOpenFile` does (file_test.go:219-275):
the error of `OpenFile`, or the bytes copied and the error of the copy. -/
def copyFile (H : Hasher) (f : Option StoredFile) (offset : Int) (length : Nat)
    (bitrotProtection : Bool) (want fuel : Nat) : Except Err (List Byte × Option Err) :=
  (OpenFile f offset length bitrotProtection).map (fun rd => rd.drain H want fuel [])

/-! ## pkg/boundary: parts -/

/-- The loop of `CalcPartBoundaries` (boundary.go:56-74) from index `i` on; `total`
is `len(partSizes)`, the value `endPart` keeps when the loop never breaks. -/
def CalcPartBoundaries.loop (total : Int) :
    List Int → Int → Bool → Int → Int → Int → Int × Int × Int × Int
  | [], _, _, startPart, offset, length => (startPart, total, offset, length)
  | partSize :: rest, i, offsetFound, startPart, offset, length =>
    if !offsetFound ∧ partSize ≤ offset then
      CalcPartBoundaries.loop total rest (i + 1) false startPart (offset - partSize) length
    else
      let startPart := if !offsetFound then i else startPart
      let partSize := if !offsetFound then partSize - offset else partSize
      if length ≤ partSize then (startPart, i + 1, offset, length)
      else CalcPartBoundaries.loop total rest (i + 1) true startPart offset (length - partSize)

/-- Go `boundary.CalcPartBoundaries` (boundary.go:52-77): `(startPart, endPart,
bytesToSkipInStartPart, bytesToReadInEndPart)`. -/
def CalcPartBoundaries (partSizes : List Int) (offset length : Int) : Int × Int × Int × Int :=
  CalcPartBoundaries.loop partSizes.length partSizes 0 false 0 offset length

/-- The slice expression `l[lo:hi]` on a list standing for a slice of that length
and capacity (`none`: the bounds panic). -/
def sliceRange {α : Type} (l : List α) (lo hi : Int) : Option (List α) :=
  if 0 ≤ lo ∧ lo ≤ hi ∧ hi ≤ l.length then some ((l.drop lo.toNat).take (hi - lo).toNat)
  else none

/-- The bytes read from the selected parts the way both part walkers read them
(disk/data-reader.go:57-66, erasure/data-reader.go:99-113): the first part from
byte `skip` on, the last part for `n` bytes (after the skip when it is also the
first), every part in between in full. -/
def readParts : List (List Byte) → Nat → Nat → List Byte
  | [], _, _ => []
  | [p], skip, n => (p.drop skip).take n
  | p :: q :: rest, skip, n => p.drop skip ++ readParts (q :: rest) 0 n

/-- The bytes selected by a result `(startPart, endPart, skip, read)` of
`CalcPartBoundaries` from the parts with the given contents (`none`: the slice
`parts[startPart:endPart]` panics). -/
def readSelected (parts : List (List Byte)) (b : Int × Int × Int × Int) : Option (List Byte) :=
  (sliceRange parts b.1 b.2.1).map (fun sel => readParts sel b.2.2.1.toNat b.2.2.2.toNat)

namespace dataspace.disk

/-- Go `disk.Part` (data-reader.go:12-15). -/
structure Part where
  ID : String
  Size : Nat
deriving DecidableEq, Repr

/-- Go `disk.DataInfo` (data-reader.go:17-20). -/
structure DataInfo where
  Parts : List Part
  Size : Nat
deriving DecidableEq, Repr

/-- Go `DataInfo.getParts` (data-reader.go:22-31); `none` is the slice-bounds panic. -/
def DataInfo.getParts (dataInfo : DataInfo) (offset length : Int) :
    Option (List Part × Int × Int) :=
  let b := CalcPartBoundaries (dataInfo.Parts.map (fun p => int64 p.Size)) offset length
  (sliceRange dataInfo.Parts b.1 b.2.1).map (fun ps => (ps, b.2.2.1, b.2.2.2))

/-- Go `disk.dataReader` (data-reader.go:33-42); the data directory is the `dir`
argument of `Read`. -/
structure dataReader where
  requiredParts : List Part
  bytesToSkip : Int
  bytesToRead : Int
  rc : Option FileReader
  index : Nat
  err : Option Err
deriving DecidableEq, Repr

/-- Go `dataReader.Read` (data-reader.go:44-90) on a buffer of `want` bytes; `dir` maps
a part file name to the file stored under it. -/
def dataReader.Read (H : Hasher) (dir : String → Option StoredFile) (dr : dataReader)
    (want : Nat) : List Byte × Option Err × dataReader :=
  match dr.err with
  | some e =>
    -- lines 45-53
    let e := if e = Err.unexpectedEOF ∧ dr.index = dr.requiredParts.length then Err.eof else e
    ([], some e, { dr with err := some e })
  | none =>
    -- lines 55-74
    let opened : Except (Err × dataReader) (FileReader × dataReader) :=
      match dr.rc with
      | some rc => .ok (rc, dr)
      | none =>
        match dr.requiredParts.get? dr.index with
        | none => .error (Err.panic "index out of range", dr)
        | some part =>
          let offset : Int := if dr.index = 0 then dr.bytesToSkip else 0
          let length : Nat := uint64 ((part.Size : Int) - uint64 offset)
          let length : Nat :=
            if (dr.index : Int) = (dr.requiredParts.length : Int) - 1 then uint64 dr.bytesToRead
            else length
          match OpenFile (dir (part.ID ++ ".part")) offset length true with
          | .error e => .error (e, { dr with err := some e })
          | .ok rc => .ok (rc, { dr with rc := some rc, index := dr.index + 1 })
    match opened with
    | .error (e, dr) => ([], some e, dr)
    | .ok (rc, dr) =>
      -- lines 76-89
      match rc.Read H want with
      | (bs, none, rc) => (bs, none, { dr with rc := some rc })
      | (bs, some e, _) =>
        let err : Option Err :=
          if (e = Err.unexpectedEOF ∨ e = Err.eof) ∧ dr.index ≠ dr.requiredParts.length then none
          else some e
        (bs, err, { dr with rc := none, err := err })

/-- Go `newDataReader` (data-reader.go:102-127), with `offset : int64`, `length : uint64`. -/
def newDataReader (dataInfo : DataInfo) (offset : Int) (length : Nat) : Except Err dataReader :=
  let dataLength := int64 length
  let size := int64 dataInfo.Size
  let offset := if offset < 0 then int64 (size - offset) else offset
  if offset < 0 then .error Err.insufficientData
  else if int64 (offset + dataLength) > size then .error Err.insufficientData
  else
    match dataInfo.getParts offset dataLength with
    | none => .error (Err.panic "slice bounds out of range")
    | some (parts, bytesToSkip, bytesToRead) =>
      .ok ⟨parts, bytesToSkip, bytesToRead, none, 0, none⟩

/-- Drain the reader as `io.Copy` does (buffers of `want` bytes, at most `fuel`
calls of `Read`): the bytes delivered and the error, `none` after `io.EOF`. -/
def dataReader.drain (H : Hasher) (dir : String → Option StoredFile) (want : Nat) :
    Nat → dataReader → List Byte → List Byte × Option Err
  | 0, _, acc => (acc, some Err.fuel)
  | fuel + 1, dr, acc =>
    match dr.Read H dir want with
    | (bs, none, dr) => dataReader.drain H dir want fuel dr (acc ++ bs)
    | (bs, some Err.eof, _) => (acc ++ bs, none)
    | (bs, some e, _) => (acc ++ bs, some e)

/-- The reader after a sequence of `Read` calls with the given buffer sizes. -/
def dataReader.after (H : Hasher) (dir : String → Option StoredFile) :
    dataReader → List Nat → dataReader
  | dr, [] => dr
  | dr, w :: ws => dataReader.after H dir (dr.Read H dir w).2.2 ws

/-- Go `newDataReader` followed by `io.Copy`, as `TestDataReader` does
(data-reader_test.go:79-90). -/
def copyData (H : Hasher) (dir : String → Option StoredFile) (dataInfo : DataInfo)
    (offset : Int) (length : Nat) (want fuel : Nat) : Except Err (List Byte × Option Err) :=
  (newDataReader dataInfo offset length).map (fun dr => dr.drain H dir want fuel [])

end dataspace.disk

/-! ## pkg/erasure -/

namespace erasure

/-- Go `erasure.Info` (info.go:16-33). -/
structure Info where
  DataCount : Nat
  ParityCount : Nat
  Size : Nat
  ShardSize : Nat
  ShardIDs : List String
deriving DecidableEq, Repr

/-- Go `Info.Compute` (info.go:35-48) in `uint64` arithmetic: `(blockCount, blockSize,
lastBlockSize, lastShardSize)`; `none` is the integer-divide-by-zero panic. -/
def Info.Compute (info : Info) : Option (Nat × Nat × Nat × Nat) :=
  let blockSize := (info.DataCount * info.ShardSize) % 18446744073709551616
  if blockSize = 0 ∨ info.DataCount = 0 then none
  else
    let blockCount := info.Size / blockSize
    let lastBlockSize := info.Size - blockCount * blockSize
    if lastBlockSize > 0 then
      some (blockCount + 1, blockSize, lastBlockSize,
        ((lastBlockSize + info.DataCount - 1) % 18446744073709551616) / info.DataCount)
    else some (blockCount, blockSize, blockSize, info.ShardSize)

/-- The Reed-Solomon coder of `github.com/klauspost/reedsolomon`, a library outside
the repository, as the stripe engine uses it: `valid` is whether `reedsolomon.New`
accepts `(dataShards, parityShards)`; `encode` returns the shards with the parity
shards filled in; `reconstructData` returns the shards with the empty data shards
rebuilt.  Shards are passed as their byte contents. -/
structure Codec where
  valid : Nat → Nat → Bool
  encode : Nat → Nat → List (List Byte) → Except Err (List (List Byte))
  verify : Nat → Nat → List (List Byte) → Except Err Bool
  reconstructData : Nat → Nat → List (List Byte) → Except Err (List (List Byte))

/-- Go `GetShardReader` (decode.go:14): the reader for a shard id, offset and length,
or an error. -/
abbrev GetShardReader := String → Int → Int → Except Err Stream

/-- Go `decodeReader` (decode.go:16-37); `getShardReader` and the decoder are arguments
of the methods. -/
structure decodeReader where
  readersLen : Nat
  info : Info
  blockOffset : Int
  blockLength : Int
  readers : List (Option Stream)
  shards : List Buf
  shardSize : Nat
  lastShardSize : Nat
  blocksToRead : Nat
  bytesToSkipInFirstBlock : Nat
  bytesToReadInLastBlock : Nat
  errs : List (Option Err)
  index : Nat
  shardIndex : Nat
  byteIndex : Nat
  bytesAvailable : Nat
deriving DecidableEq, Repr

/-- The goroutines of `populate` (decode.go:46-53): slots `readersLen ..
readersLen+count-1`, `todo` of them still to run, each storing the result of
`getShardReader` for its shard id.  `none`: an index is out of range (panic). -/
def decodeReader.openSlots (getShardReader : GetShardReader) (offset length : Int) :
    Nat → Nat → decodeReader → Option decodeReader
  | 0, _, dr => some dr
  | todo + 1, i, dr =>
    match dr.info.ShardIDs.get? i with
    | none => none
    | some id =>
      if i < dr.readers.length ∧ i < dr.errs.length then
        let dr := match getShardReader id offset length with
          | .ok rd => { dr with readers := dr.readers.set i (some rd), errs := dr.errs.set i none }
          | .error e => { dr with readers := dr.readers.set i none, errs := dr.errs.set i (some e) }
        decodeReader.openSlots getShardReader offset length todo (i + 1) dr
      else none

/-- The number of `j < n` with `errs[from + j] == nil`. -/
def countNil (errs : List (Option Err)) (start n : Nat) : Nat :=
  ((List.range n).filter (fun j => (errs.getD (start + j) (some Err.fuel)).isNone)).length

/-- Go `decodeReader.populate` (decode.go:39-67).  Every pass of the outer loop opens
at least one further slot, so `len(readers) + 1` passes are enough fuel. -/
def decodeReader.populate (getShardReader : GetShardReader) (offset length : Int) :
    Nat → decodeReader → Nat → Option Err × decodeReader
  | 0, dr, _ => (some Err.fuel, dr)
  | fuel + 1, dr, count =>
    if count = 0 then (none, dr)
    else if dr.readersLen = dr.readers.length then (some Err.tooManyReadErrors, dr)
    else
      match dr.openSlots getShardReader offset length count dr.readersLen with
      | none => (some (Err.panic "index out of range"), dr)
      | some dr' =>
        let successCount := countNil dr'.errs dr.readersLen count
        decodeReader.populate getShardReader offset length fuel
          { dr' with readersLen := dr.readersLen + count } (count - successCount)

/-- One goroutine of `readShards` (decode.go:73-88) on slot `(reader, shard, err)`. -/
def readSlot (rd : Option Stream) (sh : Buf) (er : Option Err) :
    Option Stream × Buf × Option Err :=
  match rd with
  | some r =>
    match readFull r sh.len with
    | (bs, none, r') => (some r', sh.write bs, none)
    | (bs, some e, _) => (none, { (sh.write bs) with len := 0 }, some e)
  | none => (none, { sh with len := 0 }, some (er.getD Err.nilReader))

/-- The goroutines of `readShards` for the slots `i ≤ j < readersLen`. -/
def decodeReader.readSlots (dr : decodeReader) (i : Nat) : decodeReader :=
  (List.range (dr.readersLen - i)).foldl
    (fun dr k =>
      let j := i + k
      match dr.readers.get? j, dr.shards.get? j, dr.errs.get? j with
      | some rd, some sh, some er =>
        let r := readSlot rd sh er
        { dr with readers := dr.readers.set j r.1, shards := dr.shards.set j r.2.1,
                  errs := dr.errs.set j r.2.2 }
      | _, _, _ => dr)
    dr

/-- Go `decodeReader.readShards` (decode.go:69-100): the success count (over all
opened slots) and the reader afterwards. -/
def decodeReader.readShards (dr : decodeReader) (i : Nat) : Nat × decodeReader :=
  let dr := dr.readSlots i
  (countNil dr.errs 0 dr.readersLen, dr)

/-- Lines 126-137 of `readBlock`: read the opened shards and open further ones until
the running `successCount` reaches `DataCount`. -/
def decodeReader.acquire (getShardReader : GetShardReader) :
    Nat → decodeReader → Nat → Nat → Option Err × decodeReader
  | 0, dr, _, _ => (some Err.fuel, dr)
  | fuel + 1, dr, successCount, i =>
    let (n, dr) := dr.readShards i
    let successCount := successCount + n
    if successCount ≥ dr.info.DataCount then (none, dr)
    else
      let i := dr.readersLen
      match decodeReader.populate getShardReader dr.blockOffset dr.blockLength
          (dr.readers.length + 1) dr (dr.info.DataCount - successCount) with
      | (some e, dr) => (some e, dr)
      | (none, dr) => decodeReader.acquire getShardReader fuel dr successCount i

/-- Apply `f` to every shard buffer (`for i := range dr.shards`). -/
def decodeReader.mapShards (dr : decodeReader) (f : Buf → Option Buf) : Option decodeReader :=
  (dr.shards.mapM f).map (fun shards => { dr with shards := shards })

/-- Lines 103-146 of `readBlock`: up to and including the reconstruction. -/
def decodeReader.loadBlock (C : Codec) (getShardReader : GetShardReader) (dr : decodeReader) :
    Option Err × decodeReader :=
  -- lines 107-111
  let dr? : Option decodeReader :=
    if dr.index = 1 ∧ dr.bytesToSkipInFirstBlock > 0 then
      dr.mapShards (fun b => b.sliceTo dr.shardSize)
    else some dr
  match dr? with
  | none => (some (Err.panic "slice bounds out of range"), dr)
  | some dr =>
    -- lines 113-118
    let dr? : Option decodeReader :=
      if (dr.index : Int) = (dr.blocksToRead : Int) - 1 ∧ dr.shardSize ≠ dr.lastShardSize then
        ({ dr with shardSize := dr.lastShardSize }).mapShards (fun b => b.sliceTo dr.lastShardSize)
      else some dr
    match dr? with
    | none => (some (Err.panic "slice bounds out of range"), dr)
    | some dr =>
      -- lines 120-124
      let (e, dr) :=
        if dr.readersLen = 0 then
          decodeReader.populate getShardReader dr.blockOffset dr.blockLength
            (dr.readers.length + 1) dr dr.info.DataCount
        else (none, dr)
      match e with
      | some e => (some e, dr)
      | none =>
        -- lines 126-137
        match decodeReader.acquire getShardReader (dr.readers.length + 2) dr 0 0 with
        | (some e, dr) => (some e, dr)
        | (none, dr) =>
          -- lines 139-140
          let dr := { dr with blockOffset := int64 (dr.blockOffset - int64 dr.shardSize),
                              blockLength := int64 (dr.blockLength - int64 dr.shardSize) }
          -- lines 142-146
          if dr.readersLen > dr.info.DataCount then
            match C.reconstructData dr.info.DataCount dr.info.ParityCount
                (dr.shards.map Buf.view) with
            | .error e => (some e, dr)
            | .ok views =>
              (none, { dr with shards := setViews dr.shards views })
          else (none, dr)

/-- The loop of decode.go:154-162: skip whole shards while more than `shardSize`
bytes are to be skipped, then move the rest of shard `shardIndex` to its front and
cut it to `shardSize - bytesToSkipInFirstBlock`.  `todo` is `DataCount - shardIndex`;
`none` is an index or slice-bounds panic. -/
def decodeReader.skipFirst : Nat → decodeReader → Option decodeReader
  | 0, dr => some dr
  | todo + 1, dr =>
    if dr.bytesToSkipInFirstBlock > dr.shardSize then
      decodeReader.skipFirst todo
        { dr with bytesToSkipInFirstBlock := dr.bytesToSkipInFirstBlock - dr.shardSize,
                  shardIndex := dr.shardIndex + 1 }
    else
      match dr.shards.get? dr.shardIndex with
      | none => none
      | some b =>
        match (b.copyFront dr.bytesToSkipInFirstBlock).bind
            (fun b => b.sliceTo ((dr.shardSize : Int) - dr.bytesToSkipInFirstBlock)) with
        | none => none
        | some b => some { dr with shards := dr.shards.set dr.shardIndex b }

/-- The loop of decode.go:179-181: empty the data shards `i ≤ j < DataCount`
(`todo = DataCount - i`). -/
def decodeReader.clearFrom : Nat → Nat → decodeReader → Option decodeReader
  | 0, _, dr => some dr
  | todo + 1, i, dr =>
    match dr.shards.get? i with
    | none => none
    | some b =>
      decodeReader.clearFrom todo (i + 1) { dr with shards := dr.shards.set i { b with len := 0 } }

/-- The loop of decode.go:169-177 followed by the one of lines 179-181: starting at
shard `i`, pass whole shards while more than `shardSize` bytes are to be read, cut
the shard that holds the end of the window to `bytesToReadInLastBlock`, and empty
the data shards after it (`todo = DataCount - i`). -/
def decodeReader.trimLast : Nat → Nat → decodeReader → Option decodeReader
  | 0, _, dr => some dr
  | todo + 1, i, dr =>
    if dr.bytesToReadInLastBlock > dr.shardSize then
      decodeReader.trimLast todo (i + 1)
        { dr with bytesToReadInLastBlock := dr.bytesToReadInLastBlock - dr.shardSize }
    else
      match dr.shards.get? i with
      | none => none
      | some b =>
        match b.sliceTo dr.bytesToReadInLastBlock with
        | none => none
        | some b =>
          decodeReader.clearFrom todo (i + 1) { dr with shards := dr.shards.set i b }

/-- Go `decodeReader.readBlock` (decode.go:102-187): the error (`none` for nil) and the
reader afterwards. -/
def decodeReader.readBlock (C : Codec) (getShardReader : GetShardReader) (dr : decodeReader) :
    Option Err × decodeReader :=
  if dr.index = dr.blocksToRead then (some Err.eof, dr)
  else
    match dr.loadBlock C getShardReader with
    | (some e, dr) => (some e, dr)
    | (none, dr) =>
      -- lines 148-150
      let dr := { dr with shardIndex := 0, byteIndex := 0,
                          bytesAvailable := (dr.info.DataCount * dr.shardSize) % 18446744073709551616 }
      -- lines 152-163
      let dr? : Option decodeReader :=
        if dr.index = 0 then
          decodeReader.skipFirst dr.info.DataCount
            { dr with bytesAvailable :=
                uint64 ((dr.bytesAvailable : Int) - dr.bytesToSkipInFirstBlock) }
        else some dr
      match dr? with
      | none => (some (Err.panic "index or slice bounds out of range"), dr)
      | some dr =>
        -- lines 165-182
        let dr? : Option decodeReader :=
          if (dr.index : Int) = (dr.blocksToRead : Int) - 1 then
            decodeReader.trimLast (dr.info.DataCount - dr.shardIndex) dr.shardIndex
              { dr with bytesAvailable := dr.bytesToReadInLastBlock }
          else some dr
        match dr? with
        | none => (some (Err.panic "index or slice bounds out of range"), dr)
        | some dr => (none, { dr with index := dr.index + 1 })

/-- The loop of `decodeReader.Read` (decode.go:190-207): `want` is `len(b) - n`,
`acc` the bytes copied into `b` so far. -/
def decodeReader.readLoop (C : Codec) (getShardReader : GetShardReader) :
    Nat → decodeReader → Nat → List Byte → List Byte × Option Err × decodeReader
  | 0, dr, _, acc => (acc, some Err.fuel, dr)
  | fuel + 1, dr, want, acc =>
    if want = 0 then (acc, none, dr)
    else
      let (e, dr) := if dr.bytesAvailable = 0 then dr.readBlock C getShardReader else (none, dr)
      match e with
      | some e => (acc, some e, dr)
      | none =>
        match dr.shards.get? dr.shardIndex with
        | none => (acc, some (Err.panic "index out of range"), dr)
        | some sh =>
          if dr.byteIndex > sh.len then (acc, some (Err.panic "slice bounds out of range"), dr)
          else
            let copied := (sh.view.drop dr.byteIndex).take want
            let dr :=
              if copied.length < sh.len - dr.byteIndex then
                { dr with byteIndex := dr.byteIndex + copied.length }
              else { dr with shardIndex := dr.shardIndex + 1, byteIndex := 0 }
            let avail : Nat := uint64 ((dr.bytesAvailable : Int) - (copied.length : Int))
            let dr := { dr with bytesAvailable := avail }
            decodeReader.readLoop C getShardReader fuel dr (want - copied.length) (acc ++ copied)

/-- Go `decodeReader.Read` (decode.go:189-210) on a buffer of `want` bytes.  Between
two calls of `readBlock` every pass copies a byte or moves to the next shard. -/
def decodeReader.Read (C : Codec) (getShardReader : GetShardReader) (dr : decodeReader)
    (want : Nat) : List Byte × Option Err × decodeReader :=
  decodeReader.readLoop C getShardReader
    (want + (dr.blocksToRead + 2) * (dr.shards.length + 2) + 1) dr want []

/-- Go `erasure.NewReader` (decode.go:213-276), with `offset : int64`, `length : uint64`. -/
def NewReader (C : Codec) (shards : List Buf) (info : Info) (offset : Int) (length : Nat) :
    Except Err decodeReader :=
  let count := (info.DataCount + info.ParityCount) % 18446744073709551616
  if shards.length ≠ count then
    .error (Err.panic "len(shards) != info.DataCount+info.ParityCount")
  else if shards.any (fun b => b.len ≠ info.ShardSize) then
    .error (Err.panic "len(shards[i]) != info.ShardSize")
  else if info.ShardIDs.length ≠ count then
    .error (Err.panic "len(info.ShardIDs) != info.DataCount+info.ParityCount")
  else if ¬ info.ShardIDs.Nodup then .error (Err.panic "duplicate IDs found in info.ShardIDs")
  else if ¬ C.valid info.DataCount info.ParityCount then .error (Err.panic "reedsolomon.New")
  else
    let offset := if offset < 0 then int64 (int64 info.Size - offset) else offset
    if offset < 0 then .error Err.insufficientData
    else if (uint64 offset + length) % 18446744073709551616 > info.Size then .error Err.insufficientData
    else
      match info.Compute with
      | none => .error (Err.panic "integer divide by zero")
      | some (blockCount, blockSize, _, lastShardSize) =>
        match CalcBoundaries (int64 info.Size) (int64 blockSize) (int64 blockCount) offset
            (int64 length) with
        | none => .error (Err.panic "invalid offset/length for size")
        | some b =>
          let lastShardSize :=
            if uint64 (b.blocksToSkip + b.blocksToRead) ≠ blockCount then info.ShardSize
            else lastShardSize
          .ok
            { readersLen := 0
              info := info
              blockOffset := int64 (b.blocksToSkip * int64 info.ShardSize)
              blockLength :=
                int64 (int64 lastShardSize + (b.blocksToRead - 1) * int64 info.ShardSize)
              readers := List.replicate count none
              shards := shards
              shardSize := info.ShardSize
              lastShardSize := lastShardSize
              blocksToRead := uint64 b.blocksToRead
              bytesToSkipInFirstBlock := uint64 b.bytesToSkipInFirstBlock
              bytesToReadInLastBlock := uint64 b.bytesToReadInLastBlock
              errs := List.replicate count none
              index := 0
              shardIndex := 0
              byteIndex := 0
              bytesAvailable := 0 }

/-- Drain the reader as `io.Copy` does (buffers of `want` bytes, at most `fuel`
calls of `Read`): the bytes delivered and the error, `none` after `io.EOF`. -/
def decodeReader.drain (C : Codec) (getShardReader : GetShardReader) (want : Nat) :
    Nat → decodeReader → List Byte → List Byte × Option Err
  | 0, _, acc => (acc, some Err.fuel)
  | fuel + 1, dr, acc =>
    match dr.Read C getShardReader want with
    | (bs, none, dr) => decodeReader.drain C getShardReader want fuel dr (acc ++ bs)
    | (bs, some Err.eof, _) => (acc ++ bs, none)
    | (bs, some e, _) => (acc ++ bs, some e)

/-- Go `NewReader` followed by `io.Copy`, as `TestNewReader` does (decode_test.go:92-100). -/
def copyStripes (C : Codec) (getShardReader : GetShardReader) (shards : List Buf) (info : Info)
    (offset : Int) (length : Nat) (want fuel : Nat) : Except Err (List Byte × Option Err) :=
  (NewReader C shards info offset length).map
    (fun dr => dr.drain C getShardReader want fuel [])

/-- The `getShardReader` of `TestNewReader` (decode_test.go:68-78): the shard with
the given id is a file, and its reader is the section `[offset, offset+length)` of
that file; an id without a file fails to open. -/
def shardFiles (files : List (String × List Byte)) : GetShardReader :=
  fun shardID offset length =>
    match files.lookup shardID with
    | none => .error Err.notExist
    | some c => .ok ⟨(c.drop offset.toNat).take length.toNat, Err.eof⟩

/-! ### pkg/erasure: Write -/

/-- An `io.Writer` handed out by `GetShardWriter`: the bytes it has accepted, and how
many further `Write` calls succeed (`none`: all of them). -/
structure Writer where
  written : List Byte
  failAfter : Option Nat
deriving DecidableEq, Repr

/-- Go `Write` on a shard writer. -/
def Writer.Write (w : Writer) (bs : List Byte) : Option Err × Writer :=
  match w.failAfter with
  | none => (none, { w with written := w.written ++ bs })
  | some 0 => (some (Err.other "write"), w)
  | some (n + 1) => (none, ⟨w.written ++ bs, some n⟩)

/-- Go `GetShardWriter` (encode.go:14). -/
abbrev GetShardWriter := String → Except Err Writer

/-- Slot `i` of the arrays of `Write`: `writers[i]`, `errs[i]`, the bytes absorbed by
`shardHashers[i]` (`none` once the hasher is set to nil), and the bytes that reached
the shard's writer. -/
structure WriteSlot where
  writer : Option Writer
  err : Option Err
  hashed : Option (List Byte)
  sink : List Byte
deriving DecidableEq, Repr

/-- The loop of encode.go:87-89: zero the data shards `s ≤ j < DataCount`
(`todo = DataCount - s`). -/
def clearShards (shardSize : Nat) : Nat → Nat → List Buf → Option (List Buf)
  | 0, _, shards => some shards
  | todo + 1, s, shards =>
    match shards.get? s with
    | none => none
    | some b =>
      match b.clear 0 shardSize with
      | none => none
      | some b => clearShards shardSize todo (s + 1) (shards.set s b)

/-- The state `readDataShards` works on: the input reader, the shard buffers and the
bytes absorbed by `dataHasher`. -/
structure ReadState where
  reader : Stream
  shards : List Buf
  hashed : List Byte
deriving DecidableEq, Repr

/-- The closure `readDataShards` (encode.go:77-99) from data shard `s` on, with
`todo = DataCount - s`; `blockSize` and `shardSize` are the captured variables. -/
def readDataShards (DataCount blockSize shardSize : Nat) :
    Nat → Nat → Nat → ReadState → Option Err × ReadState
  | 0, _, _, st => (none, st)
  | todo + 1, s, bytesRead, st =>
    match st.shards.get? s with
    | none => (some (Err.panic "index out of range"), st)
    | some sh =>
      match readFull st.reader sh.len with
      | (bs, none, rd) =>
        let sh := sh.write bs
        readDataShards DataCount blockSize shardSize todo (s + 1) (bytesRead + bs.length)
          ⟨rd, st.shards.set s sh, st.hashed ++ sh.view⟩
      | (bs, some e, rd) =>
        let sh := sh.write bs
        let bytesRead := bytesRead + bs.length
        if e = Err.unexpectedEOF ∧ bytesRead = blockSize then
          match (sh.clear bs.length shardSize).bind
              (fun sh => clearShards shardSize (DataCount - (s + 1)) (s + 1)
                (st.shards.set s sh)) with
          | none => (some (Err.panic "index out of range"), ⟨rd, st.shards.set s sh, st.hashed⟩)
          | some shards => (none, ⟨rd, shards, st.hashed ++ bs⟩)
        else (some e, ⟨rd, st.shards.set s sh, st.hashed⟩)

/-- One goroutine of `writeShards` (encode.go:109-124) on a slot and its shard. -/
def writeSlot (slot : WriteSlot) (shard : List Byte) : WriteSlot :=
  match slot.writer with
  | some w =>
    match w.Write shard with
    | (none, w) =>
      { slot with writer := some w, err := none,
                  hashed := slot.hashed.map (fun h => h ++ shard), sink := w.written }
    | (some e, _) => { slot with writer := none, err := some e, hashed := none }
  | none => { slot with err := some (slot.err.getD Err.nilWriter) }

/-- The state of the block loop of `Write`. -/
structure WriteState where
  rs : ReadState
  slots : List WriteSlot
  blockSize : Nat
  shardSize : Nat
deriving DecidableEq, Repr

/-- The block loop of `Write` (encode.go:142-173), `todo` blocks from block `i` on. -/
def Write.blocks (C : Codec) (info : Info) (minSuccessWriters blockCount lastBlockSize
    lastShardSize : Nat) : Nat → Nat → WriteState → Option Err × WriteState
  | 0, _, st => (none, st)
  | todo + 1, i, st =>
    -- lines 143-152
    let st? : Option WriteState :=
      if (i : Int) = (blockCount : Int) - 1 then
        let st := { st with blockSize := lastBlockSize }
        if st.shardSize ≠ lastShardSize then
          (st.rs.shards.mapM (fun (b : Buf) => b.sliceTo lastShardSize)).map
            (fun shards => { st with shardSize := lastShardSize,
                                     rs := { st.rs with shards := shards } })
        else some st
      else some st
    match st? with
    | none => (some (Err.panic "slice bounds out of range"), st)
    | some st =>
      -- lines 154-156
      match readDataShards info.DataCount st.blockSize st.shardSize info.DataCount 0 0 st.rs with
      | (some e, rs) => (some e, { st with rs := rs })
      | (none, rs) =>
        -- lines 158-168
        match C.encode info.DataCount info.ParityCount (rs.shards.map Buf.view) with
        | .error e => (some e, { st with rs := rs })
        | .ok views =>
          let rs := { rs with shards := setViews rs.shards views }
          let st := { st with rs := rs }
          match C.verify info.DataCount info.ParityCount (rs.shards.map Buf.view) with
          | .error e => (some e, st)
          | .ok false => (some Err.verifyFailed, st)
          | .ok true =>
            -- lines 170-172
            let slots := List.zipWith writeSlot st.slots (st.rs.shards.map Buf.view)
            let st := { st with slots := slots }
            if (slots.filter (fun sl => sl.err.isNone)).length < minSuccessWriters then
              (some Err.tooManyWriteErrors, st)
            else Write.blocks C info minSuccessWriters blockCount lastBlockSize lastShardSize
              todo (i + 1) st

/-- What `Write` returns and leaves behind: the result (per-shard digests and the
whole-data digest, or the error), the slots with what reached every shard writer,
and the input reader. -/
structure WriteResult where
  result : Except Err (List (List Byte) × List Byte)
  slots : List WriteSlot
  reader : Stream
deriving Repr

/-- Go `erasure.Write` (encode.go:18-183). -/
def Write (C : Codec) (H : Hasher) (getShardWriter : GetShardWriter) (shards : List Buf)
    (info : Info) (reader : Stream) (minSuccessWriters : Nat) : WriteResult :=
  let count := (info.DataCount + info.ParityCount) % 18446744073709551616
  if shards.length ≠ count then
    ⟨.error (Err.panic "len(shards) != info.DataCount+info.ParityCount"), [], reader⟩
  else if shards.any (fun b => b.len ≠ info.ShardSize) then
    ⟨.error (Err.panic "len(shards[i]) != info.ShardSize"), [], reader⟩
  else if info.ShardIDs.length ≠ count then
    ⟨.error (Err.panic "len(info.ShardIDs) != info.DataCount+info.ParityCount"), [], reader⟩
  else if ¬ info.ShardIDs.Nodup then
    ⟨.error (Err.panic "duplicate IDs found in info.ShardIDs"), [], reader⟩
  else if ¬ C.valid info.DataCount info.ParityCount then
    ⟨.error (Err.panic "reedsolomon.New"), [], reader⟩
  else
    match info.Compute with
    | none => ⟨.error (Err.panic "integer divide by zero"), [], reader⟩
    | some (blockCount, blockSize, lastBlockSize, lastShardSize) =>
      -- lines 47-68
      let slots : List WriteSlot := info.ShardIDs.map (fun id =>
        match getShardWriter id with
        | .ok w => ⟨some w, none, some [], w.written⟩
        | .error e => ⟨none, some e, some [], []⟩)
      if (slots.filter (fun sl => sl.err.isNone)).length < minSuccessWriters then
        ⟨.error Err.getShardWriter, slots, reader⟩
      else
        match Write.blocks C info minSuccessWriters blockCount lastBlockSize lastShardSize
            blockCount 0 ⟨⟨reader, shards, []⟩, slots, blockSize, info.ShardSize⟩ with
        | (some e, st) => ⟨.error e, st.slots, st.rs.reader⟩
        | (none, st) =>
          -- lines 175-182
          ⟨.ok (st.slots.map (fun sl => match sl.hashed with
              | some h => H.hexSum h
              | none => []), H.hexSum st.rs.hashed), st.slots, st.rs.reader⟩

/-- Whether the first `k` calls of `Write` on the writer all succeed. -/
def Writer.accepts (w : Writer) (k : Nat) : Bool :=
  match w.failAfter with
  | none => true
  | some n => decide (k ≤ n)

/-- The number of slots with `errs[i] == nil`, as the counting loops of `Write` count
them (encode.go:59-64, 128-133). -/
def liveSlots (slots : List WriteSlot) : Nat :=
  (slots.filter (fun sl => sl.err.isNone)).length

/-- The slots right after writer acquisition (encode.go:47-57), with the fresh
shard hashers of encode.go:101-104. -/
def acquiredSlots (getShardWriter : GetShardWriter) (shardIDs : List String) : List WriteSlot :=
  shardIDs.map (fun id =>
    match getShardWriter id with
    | .ok w => ⟨some w, none, some [], w.written⟩
    | .error e => ⟨none, some e, some [], []⟩)

/-- What slot `sl` looks like after `k` write fan-outs, given the result `a` of the
acquisition of its writer. -/
def SlotAt (k : Nat) (a : Except Err Writer) (sl : WriteSlot) : Prop :=
  match a with
  | .error _ => sl.writer = none ∧ sl.err.isSome = true
  | .ok w =>
    if w.accepts k = true then
      sl.err = none ∧ ∃ w', sl.writer = some w' ∧ w'.failAfter = w.failAfter.map (fun n => n - k)
    else sl.writer = none ∧ sl.err.isSome = true

end erasure

/-! ## datasys/dataspace/erasure: the part walker -/

namespace dataspace.erasure

/-- Go `erasure.Part` of the data space: an `erasure.Info` and the part id. -/
structure Part where
  Info : Goat.erasure.Info
  ID : String
deriving DecidableEq, Repr

/-- Go `erasure.DataInfo` of the data space. -/
structure DataInfo where
  Parts : List Part
  Size : Nat
deriving DecidableEq, Repr

/-- The per-shard size of a part, `lastShardSize + (blockCount-1)*ShardSize` in
`uint64` arithmetic (data-reader.go:117-118 and 173-174); `none`: `Compute` panics. -/
def shardPartSize (part : Part) : Option Nat :=
  part.Info.Compute.map (fun c =>
    uint64 ((c.2.2.2 : Int) + ((c.1 : Int) - 1) * (part.Info.ShardSize : Int)))

/-- Go `dataReader` (data-reader.go:13-27).  `reader` holds the stripe reader of the
current part together with the value of `shardPartsSize` its `getShardReader`
closure captured; `shards` are the shard buffers while no stripe reader is open. -/
structure dataReader where
  shardPartsSize : Nat
  parts : List Part
  index : Nat
  bytesToSkip : Int
  bytesToRead : Int
  reader : Option (Goat.erasure.decodeReader × Nat)
  shards : List Buf
  err : Option Err
deriving DecidableEq, Repr

/-- The closure `getShardReader` of `getReader` (data-reader.go:69-77). -/
def shiftedReader (getShardReader : Goat.erasure.GetShardReader) (shardPartsSize : Nat) :
    Goat.erasure.GetShardReader :=
  fun shardID offset length => getShardReader shardID (int64 (int64 shardPartsSize + offset)) length

/-- Go `dataReader.Read` (data-reader.go:86-137) on a buffer of `want` bytes. -/
def dataReader.Read (C : Goat.erasure.Codec) (getShardReader : Goat.erasure.GetShardReader)
    (dr : dataReader) (want : Nat) : List Byte × Option Err × dataReader :=
  match dr.err with
  | some e =>
    -- lines 87-95
    let e := if e = Err.unexpectedEOF ∧ dr.index = dr.parts.length then Err.eof else e
    ([], some e, { dr with err := some e })
  | none =>
    -- lines 97-121
    let opened : Except (Err × dataReader) ((Goat.erasure.decodeReader × Nat) × dataReader) :=
      match dr.reader with
      | some rd => .ok (rd, dr)
      | none =>
        match dr.parts.get? dr.index with
        | none => .error (Err.panic "index out of range", dr)
        | some part =>
          let offset : Int := if dr.index = 0 then dr.bytesToSkip else 0
          let shards : List Buf :=
            if dr.index = 0 then
              List.replicate ((part.Info.DataCount + part.Info.ParityCount) % 18446744073709551616)
                (Buf.make part.Info.ShardSize)
            else dr.shards
          let length : Nat := uint64 ((part.Info.Size : Int) - uint64 offset)
          let length : Nat :=
            if (dr.index : Int) = (dr.parts.length : Int) - 1 then uint64 dr.bytesToRead
            else length
          -- getReader, lines 65-84
          let shards := shards.map (fun b => { b with len := b.cap })
          match Goat.erasure.NewReader C shards part.Info offset length with
          | .error e => .error (e, { dr with shards := shards, err := some e })
          | .ok rd =>
            match shardPartSize part with
            | none => .error (Err.panic "integer divide by zero", dr)
            | some sz =>
              .ok ((rd, dr.shardPartsSize),
                { dr with reader := some (rd, dr.shardPartsSize), shards := shards,
                          shardPartsSize := (dr.shardPartsSize + sz) % 18446744073709551616,
                          index := dr.index + 1 })
    match opened with
    | .error (e, dr) => ([], some e, dr)
    | .ok ((rd, base), dr) =>
      -- lines 123-136
      match rd.Read C (shiftedReader getShardReader base) want with
      | (bs, none, rd) => (bs, none, { dr with reader := some (rd, base) })
      | (bs, some e, rd) =>
        let err : Option Err :=
          if (e = Err.unexpectedEOF ∨ e = Err.eof) ∧ dr.index ≠ dr.parts.length then none
          else some e
        (bs, err, { dr with reader := none, shards := rd.shards, err := err })

/-- The loop of data-reader.go:171-175: the shard-file offset at which part
`startPart` begins. -/
def shardPartsSizeBefore : List Part → Nat → Option Nat
  | _, 0 => some 0
  | [], _ + 1 => none
  | part :: parts, n + 1 =>
    match shardPartSize part, shardPartsSizeBefore parts n with
    | some sz, some rest => some ((sz + rest) % 18446744073709551616)
    | _, _ => none

/-- Go `newDataReader` (data-reader.go:149-185), with `offset : int64`, `length : uint64`. -/
def newDataReader (dataInfo : DataInfo) (offset : Int) (length : Nat) : Except Err dataReader :=
  let dataLength := int64 length
  let size := int64 dataInfo.Size
  let offset := if offset < 0 then int64 (size - offset) else offset
  if offset < 0 then .error Err.insufficientData
  else if int64 (offset + dataLength) > size then .error Err.insufficientData
  else
    let b := CalcPartBoundaries (dataInfo.Parts.map (fun p => int64 p.Info.Size)) offset
      dataLength
    match shardPartsSizeBefore dataInfo.Parts b.1.toNat with
    | none => .error (Err.panic "index out of range or integer divide by zero")
    | some shardPartsSize =>
      match sliceRange dataInfo.Parts b.1 b.2.1 with
      | none => .error (Err.panic "slice bounds out of range")
      | some parts => .ok ⟨shardPartsSize, parts, 0, b.2.2.1, b.2.2.2, none, [], none⟩

/-- Drain the reader as `io.Copy` does (buffers of `want` bytes, at most `fuel`
calls of `Read`): the bytes delivered and the error, `none` after `io.EOF`. -/
def dataReader.drain (C : Goat.erasure.Codec) (getShardReader : Goat.erasure.GetShardReader)
    (want : Nat) : Nat → dataReader → List Byte → List Byte × Option Err
  | 0, _, acc => (acc, some Err.fuel)
  | fuel + 1, dr, acc =>
    match dr.Read C getShardReader want with
    | (bs, none, dr) => dataReader.drain C getShardReader want fuel dr (acc ++ bs)
    | (bs, some Err.eof, _) => (acc ++ bs, none)
    | (bs, some e, _) => (acc ++ bs, some e)

/-- Go `newDataReader` followed by `io.Copy`, as `TestGet` does through `Erasure.Get`
(erasure_test.go:791-801). -/
def copyData (C : Goat.erasure.Codec) (getShardReader : Goat.erasure.GetShardReader)
    (dataInfo : DataInfo) (offset : Int) (length : Nat) (want fuel : Nat) :
    Except Err (List Byte × Option Err) :=
  (newDataReader dataInfo offset length).map (fun dr => dr.drain C getShardReader want fuel [])

/-! ### The erasure group (erasure.go) -/

/-- The methods of `disk.Disk` (disk.go:90-224) that the erasure group calls, as
functions on the state `D` of one disk: the error returned (`none` is `nil`) and
the disk after the call.  Upload, data and part ids are their strings. -/
structure DiskOps (D : Type) where
  RemoveTempFile : String → Bool → D → Option Err × D
  InitUpload : String → D → Option Err × D
  RevertInitUpload : String → D → Option Err × D
  UploadPart : String → String → String → D → Option Err × D
  RevertUploadPart : String → String → String → D → Option Err × D
  AbortUpload : String → D → Option Err × D
  RevertAbortUpload : String → D → Option Err × D
  CompleteUpload : String → String → List Goat.dataspace.disk.Part → D → Option Err × D
  RevertCompleteUpload : String → String → List Goat.dataspace.disk.Part → D → Option Err × D

/-- Go `Erasure` (erasure.go:35-38). -/
structure Erasure (D : Type) where
  shardDisks : List D
  minSuccess : Nat

/-- What a call on the group returns and leaves behind: the error returned, the
slice `errs` of the first fan-out, for every shard disk whether the second fan-out
called the paired revert on it, and the shard disks after the call. -/
structure GroupResult (D : Type) where
  err : Option Err
  errs : List (Option Err)
  reverted : List Bool
  shardDisks : List D

/-- The counting loop of every group method (`successCount`, e.g. erasure.go:159-164). -/
def successCount (errs : List (Option Err)) : Nat :=
  errs.countP (fun e => e.isNone)

/-- Go `Erasure.RemoveTempFile` (erasure.go:122-146). -/
def Erasure.RemoveTempFile {D : Type} (ops : DiskOps D) (ds : Erasure D) (filename : String)
    (bitrotProtection : Bool) : GroupResult D :=
  let rs := ds.shardDisks.map (ops.RemoveTempFile filename bitrotProtection)
  let errs := rs.map Prod.fst
  if successCount errs < ds.minSuccess then
    ⟨some (Err.other "too many errors"), errs, rs.map (fun _ => false), rs.map Prod.snd⟩
  else ⟨none, errs, rs.map (fun _ => false), rs.map Prod.snd⟩

/-- The body shared by `InitUpload`, `UploadPart`, `AbortUpload` and `CompleteUpload`
(erasure.go:149-183, 187-221, 229-263, 278-315): the fan-out of `forward`, the
count, and below the quorum the second fan-out, which calls `revert` on every disk
`i` with `errs[i] != nil`. -/
def Erasure.fanOut {D : Type} (forward revert : D → Option Err × D) (ds : Erasure D) :
    GroupResult D :=
  let rs := ds.shardDisks.map forward
  let errs := rs.map Prod.fst
  if successCount errs ≥ ds.minSuccess then
    ⟨none, errs, rs.map (fun _ => false), rs.map Prod.snd⟩
  else
    ⟨some (Err.other "too many errors"), errs,
      rs.map (fun r => r.1.isSome),
      rs.map (fun r => if r.1.isSome then (revert r.2).2 else r.2)⟩

/-- Go `Erasure.InitUpload` (erasure.go:148-184). -/
def Erasure.InitUpload {D : Type} (ops : DiskOps D) (ds : Erasure D) (uploadID : String) :
    GroupResult D :=
  Erasure.fanOut (ops.InitUpload uploadID) (ops.RevertInitUpload uploadID) ds

/-- Go `Erasure.UploadPart` (erasure.go:186-222). -/
def Erasure.UploadPart {D : Type} (ops : DiskOps D) (ds : Erasure D)
    (uploadID partID tempFile : String) : GroupResult D :=
  Erasure.fanOut (ops.UploadPart uploadID partID tempFile)
    (ops.RevertUploadPart uploadID partID tempFile) ds

/-- Go `Erasure.AbortUpload` (erasure.go:228-264). -/
def Erasure.AbortUpload {D : Type} (ops : DiskOps D) (ds : Erasure D) (uploadID : String) :
    GroupResult D :=
  Erasure.fanOut (ops.AbortUpload uploadID) (ops.RevertAbortUpload uploadID) ds

/-- The part list built by the first loop of `CompleteUpload` (erasure.go:267-274):
the id of every part with its per-shard size; `none`: `Compute` panics on a part. -/
def Erasure.diskPartList : List Part → Option (List Goat.dataspace.disk.Part)
  | [] => some []
  | part :: parts =>
    match shardPartSize part, Erasure.diskPartList parts with
    | some sz, some rest => some (⟨part.ID, sz⟩ :: rest)
    | _, _ => none

/-- The first loop of `CompleteUpload` (erasure.go:267-274): the per-disk part list
and `size`, the sum of the logical sizes accumulated in `uint64`. -/
def Erasure.diskParts (parts : List Part) : Option (List Goat.dataspace.disk.Part × Nat) :=
  (Erasure.diskPartList parts).map (fun diskParts =>
    (diskParts, parts.foldl (fun size part => (size + part.Info.Size) % 18446744073709551616) 0))

/-- Go `Erasure.CompleteUpload` (erasure.go:266-316): the `DataInfo` or the error, and
what the call leaves behind. -/
def Erasure.CompleteUpload {D : Type} (ops : DiskOps D) (ds : Erasure D)
    (dataID uploadID : String) (parts : List Part) : Except Err DataInfo × GroupResult D :=
  match Erasure.diskParts parts with
  | none =>
    (.error (Err.panic "integer divide by zero"),
      ⟨some (Err.panic "integer divide by zero"), [], [], ds.shardDisks⟩)
  | some (diskParts, size) =>
    let r := Erasure.fanOut (ops.CompleteUpload dataID uploadID diskParts)
      (ops.RevertCompleteUpload dataID uploadID diskParts) ds
    match r.err with
    | none => (.ok ⟨parts, size⟩, r)
    | some e => (.error e, r)

end dataspace.erasure

/-! ## pkg/erasure: runs of the decode reader -/

/-- Whether the result of a call is a Go runtime panic. -/
def isPanic : Option Err → Bool
  | some (Err.panic _) => true
  | _ => false

namespace erasure

/-- Lines 120-146 of `readBlock`: the part of `loadBlock` after the shard slices have
been cut to the size of the block. -/
def decodeReader.loadOpened (C : Codec) (getShardReader : GetShardReader) (dr : decodeReader) :
    Option Err × decodeReader :=
  -- lines 120-124
  let (e, dr) :=
    if dr.readersLen = 0 then
      decodeReader.populate getShardReader dr.blockOffset dr.blockLength
        (dr.readers.length + 1) dr dr.info.DataCount
    else (none, dr)
  match e with
  | some e => (some e, dr)
  | none =>
    -- lines 126-137
    match decodeReader.acquire getShardReader (dr.readers.length + 2) dr 0 0 with
    | (some e, dr) => (some e, dr)
    | (none, dr) =>
      -- lines 139-140
      let dr := { dr with blockOffset := int64 (dr.blockOffset - int64 dr.shardSize),
                          blockLength := int64 (dr.blockLength - int64 dr.shardSize) }
      -- lines 142-146
      if dr.readersLen > dr.info.DataCount then
        match C.reconstructData dr.info.DataCount dr.info.ParityCount
            (dr.shards.map Buf.view) with
        | .error e => (some e, dr)
        | .ok views =>
          (none, { dr with shards := setViews dr.shards views })
      else (none, dr)

/-- A sequence of `Read` calls on buffers of the sizes `ws`: what each call returned and
the reader afterwards (`none` once a call has panicked, which ends the program). -/
def decodeReader.reads (C : Codec) (getShardReader : GetShardReader) :
    decodeReader → List Nat → List (List Byte × Option Err) × Option decodeReader
  | dr, [] => ([], some dr)
  | dr, w :: ws =>
    match dr.Read C getShardReader w with
    | (bs, e, dr') =>
      if isPanic e then ([(bs, e)], none)
      else ((bs, e) :: (decodeReader.reads C getShardReader dr' ws).1,
        (decodeReader.reads C getShardReader dr' ws).2)

/-- The state of a decode reader between two blocks while its data shards are healthy:
`info`, `S` (the shard size), `L`, `B` are the `Info`, `ShardSize`, `lastShardSize` and
`blocksToRead` it was made with, `off` and `len` the window it opens shards with.
Before the first block no shard is open and every shard slice has `S` bytes; after
it the readers of the `DataCount` data shards are open and no other, each still
holding the bytes of the blocks to come, and the shard slices have `S` bytes again
once block 1 has resliced them. -/
def HealthyInv (info : Info) (S L B : Nat) (off len : Int) (dr : decodeReader) : Prop :=
  dr.info = info ∧ dr.blocksToRead = B ∧ dr.lastShardSize = L ∧ 1 ≤ info.DataCount ∧
  info.DataCount ≤ dr.readers.length ∧ info.DataCount ≤ dr.errs.length ∧
  info.DataCount ≤ dr.shards.length ∧ dr.index ≤ B ∧
  (dr.index = 0 →
    dr.readersLen = 0 ∧ dr.shardSize = S ∧ dr.blockOffset = off ∧ dr.blockLength = len ∧
      ∀ sh ∈ dr.shards, sh.len = S) ∧
  (0 < dr.index →
    dr.readersLen = info.DataCount ∧
    (dr.index < B →
      dr.shardSize = S ∧
      ((dr.index = 1 ∧ 0 < dr.bytesToSkipInFirstBlock) ∨ ∀ sh ∈ dr.shards, sh.len = S) ∧
      ∀ i, i < info.DataCount →
        ∃ r, dr.readers.get? i = some (some r) ∧ (B - 1 - dr.index) * S + L ≤ r.bytes.length))

end erasure

/-! ## datasys/dataspace/disk: the directory tree of a disk -/

namespace dataspace.disk

/-- The entry called `name` of a directory whose entries are `es` (`none`: there is
no such entry). -/
def entry {β : Type} : List (String × β) → String → Option β
  | [], _ => none
  | (n, v) :: rest, name => if n = name then some v else entry rest name

/-- The directory without the entry called `name`. -/
def without {β : Type} (es : List (String × β)) (name : String) : List (String × β) :=
  es.filter (fun e => e.1 ≠ name)

/-- The directory with `name` holding `v`, whatever it held before. -/
def withEntry {β : Type} (es : List (String × β)) (name : String) (v : β) : List (String × β) :=
  (name, v) :: without es name

/-- The directory after the entry called `name`, if there is one, was changed in place
to `v`. -/
def setEntry {β : Type} : List (String × β) → String → β → List (String × β)
  | [], _, _ => []
  | (n, x) :: rest, name, v =>
    if n = name then (n, v) :: rest else (n, x) :: setEntry rest name v

/-- A directory of regular files: the parts, sidecars and `data.json` of an upload or
of a published data id, or the temporary files. -/
abbrev Dir := List (String × List Byte)

/-- The tree under the store directory of a `Disk` (disk.go:15-23, 52-79): the files of
`tmp/` and the directories of `uploads/`, `data/` and `trash/`, one per id.  Names
are single path elements. -/
structure Disk where
  tmp : Dir
  uploads : List (String × Dir)
  data : List (String × Dir)
  trash : List (String × Dir)
deriving DecidableEq, Repr

/-- The error `os.ErrExist` (`EEXIST`) of the standard library. -/
def osErrExist : Err := Err.other "file exists"

/-- The error `ENOTEMPTY` of the standard library. -/
def osErrNotEmpty : Err := Err.other "directory not empty"

/-- The variable `ErrUploadIDAlreadyExist` (errors.go:6). -/
def ErrUploadIDAlreadyExist : Err := Err.other "upload ID already exist"

/-- The variable `ErrUploadIDNotFound` (errors.go:7). -/
def ErrUploadIDNotFound : Err := Err.other "upload ID not found"

/-- The variable `ErrPartNotFound` (errors.go:9). -/
def ErrPartNotFound : Err := Err.other "part file not found"

/-- The variable `ErrDataIDAlreadyExist` (errors.go:10). -/
def ErrDataIDAlreadyExist : Err := Err.other "data ID already exist"

/-- The variable `ErrDataIDNotFound` (errors.go:11). -/
def ErrDataIDNotFound : Err := Err.other "data ID not found"

/-- Modelled from the spec: `xos.Exist(name)`, which os.go:10-11 lists and whose source
file is not among the sources: whether the path exists. -/
def Exist {β : Type} (es : List (String × β)) (name : String) : Bool := (entry es name).isSome

/-- Go `os.Mkdir` of the standard library for a new directory `name` next to `es`. -/
def osMkdir (es : List (String × Dir)) (name : String) : Except Err (List (String × Dir)) :=
  if (entry es name).isSome then .error osErrExist else .ok (withEntry es name [])

/-- Go `os.Remove` of the standard library on the directory `name`: it must be empty. -/
def osRemoveDir (es : List (String × Dir)) (name : String) : Except Err (List (String × Dir)) :=
  match entry es name with
  | none => .error Err.notExist
  | some d => if d = [] then .ok (without es name) else .error osErrNotEmpty

/-- Go `os.Rename` of the standard library on a regular file: `old` of the directory
`src` becomes `new` of the directory `dst` and replaces what was there. -/
def osRenameFile (src : Dir) (old : String) (dst : Dir) (new : String) : Except Err (Dir × Dir) :=
  match entry src old with
  | none => .error Err.notExist
  | some c => .ok (without src old, withEntry dst new c)

/-- Go `os.Rename` of the standard library on a directory: a missing `old` is
`ErrNotExist`, and Go refuses an existing directory `new` with `EEXIST`. -/
def osRenameDir (src : List (String × Dir)) (old : String) (dst : List (String × Dir))
    (new : String) : Except Err (List (String × Dir) × List (String × Dir)) :=
  match entry src old with
  | none => .error Err.notExist
  | some d =>
    if (entry dst new).isSome then .error osErrExist
    else .ok (without src old, withEntry dst new d)

/-- Go `RenameFile` of `pkg/os` (file.go:191-199): the sidecar first, then the file; the
error, and the two directories afterwards. -/
def RenameFile (src : Dir) (old : String) (dst : Dir) (new : String) (bitrotProtection : Bool) :
    Option Err × Dir × Dir :=
  let step1 : Except Err (Dir × Dir) :=
    if bitrotProtection then osRenameFile src (old ++ ".checksum") dst (new ++ ".checksum")
    else .ok (src, dst)
  match step1 with
  | .error e => (some e, src, dst)
  | .ok (src1, dst1) =>
    match osRenameFile src1 old dst1 new with
    | .error e => (some e, src1, dst1)
    | .ok (src2, dst2) => (none, src2, dst2)

/-- Go `Disk.InitUpload` (disk.go:94-102). -/
def Disk.InitUpload (uploadID : String) (disk : Disk) : Option Err × Disk :=
  match osMkdir disk.uploads uploadID with
  | .error e => (some (if e = osErrExist then ErrUploadIDAlreadyExist else e), disk)
  | .ok uploads => (none, { disk with uploads := uploads })

/-- Go `Disk.RevertInitUpload` (disk.go:104-112). -/
def Disk.RevertInitUpload (uploadID : String) (disk : Disk) : Option Err × Disk :=
  match osRemoveDir disk.uploads uploadID with
  | .error e => (some (if e = Err.notExist then ErrUploadIDNotFound else e), disk)
  | .ok uploads => (none, { disk with uploads := uploads })

/-- Go `Disk.UploadPart` (disk.go:114-123). -/
def Disk.UploadPart (uploadID partID tempFile : String) (disk : Disk) : Option Err × Disk :=
  if ¬ Exist disk.uploads uploadID then (some ErrUploadIDNotFound, disk)
  else
    match RenameFile disk.tmp tempFile ((entry disk.uploads uploadID).getD [])
        (partID ++ ".part") true with
    | (err, tmp, dir) => (err, { disk with tmp := tmp, uploads := setEntry disk.uploads uploadID dir })

/-- Go `Disk.RevertUploadPart` (disk.go:125-138). -/
def Disk.RevertUploadPart (uploadID partID tempFile : String) (disk : Disk) : Option Err × Disk :=
  if ¬ Exist disk.uploads uploadID then (some ErrUploadIDNotFound, disk)
  else
    match RenameFile ((entry disk.uploads uploadID).getD []) (partID ++ ".part") disk.tmp
        tempFile true with
    | (err, dir, tmp) =>
      (err.map (fun e => if e = Err.notExist then ErrPartNotFound else e),
        { disk with tmp := tmp, uploads := setEntry disk.uploads uploadID dir })

/-- Go `Disk.AbortUpload` (disk.go:144-154). -/
def Disk.AbortUpload (uploadID : String) (disk : Disk) : Option Err × Disk :=
  match osRenameDir disk.uploads uploadID disk.trash uploadID with
  | .error e => (some (if e = Err.notExist then ErrUploadIDNotFound else e), disk)
  | .ok (uploads, trash) => (none, { disk with uploads := uploads, trash := trash })

/-- Go `Disk.RevertAbortUpload` (disk.go:156-164). -/
def Disk.RevertAbortUpload (uploadID : String) (disk : Disk) : Option Err × Disk :=
  match osRenameDir disk.trash uploadID disk.uploads uploadID with
  | .error e => (some (if e = Err.notExist then ErrUploadIDNotFound else e), disk)
  | .ok (trash, uploads) => (none, { disk with uploads := uploads, trash := trash })

/-- Go `Disk.CompleteUpload` (disk.go:166-204); `encode` is the JSON text the encoder
of the standard library writes for a `DataInfo`.  `data.json` is opened with
`os.O_WRONLY|os.O_CREATE`. -/
def Disk.CompleteUpload (encode : DataInfo → List Byte) (dataID uploadID : String)
    (parts : List Part) (disk : Disk) : Option Err × Disk :=
  if ¬ Exist disk.uploads uploadID then (some ErrUploadIDNotFound, disk)
  else if Exist disk.data dataID then (some ErrDataIDAlreadyExist, disk)
  else
    let size := parts.foldl (fun s part => (s + part.Size) % 18446744073709551616) 0
    let dataInfo : DataInfo := ⟨parts, size⟩
    let dir := (entry disk.uploads uploadID).getD []
    let dir := withEntry dir "data.json"
      (overwrite ((entry dir "data.json").getD []) (encode dataInfo))
    let uploads := setEntry disk.uploads uploadID dir
    match osRenameDir uploads uploadID disk.data dataID with
    | .error e => (some e, { disk with uploads := uploads })
    | .ok (uploads, data) => (none, { disk with uploads := uploads, data := data })

/-- Go `Disk.RevertCompleteUpload` (disk.go:206-220); the result of the final
`os.Remove` of `data.json` is dropped. -/
def Disk.RevertCompleteUpload (dataID uploadID : String) (_parts : List Part) (disk : Disk) :
    Option Err × Disk :=
  match osRenameDir disk.data dataID disk.uploads uploadID with
  | .error e => (some (if e = Err.notExist then ErrDataIDNotFound else e), disk)
  | .ok (data, uploads) =>
    let dir := without ((entry uploads uploadID).getD []) "data.json"
    (none, { disk with uploads := setEntry uploads uploadID dir, data := data })

/-- Go `Disk.Get` (disk.go:226-247); `decode` is the JSON decoder of the standard
library on the bytes of `data.json`.  Line 229 assigns `ErrDataIDNotFound` to `err`
when the data directory is missing, and line 233 assigns the result of reading
`data.json` to the same variable. -/
def Disk.Get (decode : List Byte → Except Err DataInfo) (disk : Disk) (dataID : String)
    (offset : Int) (length : Nat) : Except Err dataReader :=
  let _err : Option Err := if ¬ Exist disk.data dataID then some ErrDataIDNotFound else none
  let err : Except Err DataInfo :=
    match (entry disk.data dataID).bind (fun dir => entry dir "data.json") with
    | none => .error Err.notExist
    | some bytes => decode bytes
  match err with
  | .error e => .error e
  | .ok dataInfo => newDataReader dataInfo offset length

/-- Whether two directories hold the same files with the same contents. -/
def sameDir (a b : Dir) : Bool :=
  (a.map Prod.fst ++ b.map Prod.fst).all (fun name => entry a name = entry b name)

/-- Whether `uploads/` (or `data/`) holds the same directories with the same files. -/
def sameDirs (a b : List (String × Dir)) : Bool :=
  (a.map Prod.fst ++ b.map Prod.fst).all (fun id =>
    match entry a id, entry b id with
    | none, none => true
    | some x, some y => sameDir x y
    | _, _ => false)

/-- Whether two disks hold the same tree outside `trash/`: the same names and file
contents under `tmp/`, `uploads/` and `data/`. -/
def Disk.sameOutsideTrash (a b : Disk) : Bool :=
  sameDir a.tmp b.tmp && sameDirs a.uploads b.uploads && sameDirs a.data b.data

/-- The revert law of the specification for one pair of operations on one disk state:
if `op` succeeds then `revert` right after it succeeds and leaves the tree outside
`trash/` as it was before `op`, a second `op` then succeeds, and a second `revert`
without a new `op` fails. -/
def revertLaw (op revert : Disk → Option Err × Disk) (disk : Disk) : Prop :=
  (op disk).1 = none →
    (revert (op disk).2).1 = none ∧
    disk.sameOutsideTrash (revert (op disk).2).2 = true ∧
    (op (revert (op disk).2).2).1 = none ∧
    (revert (revert (op disk).2).2).1 ≠ none

end dataspace.disk

/-! ## sql: records -/

namespace sql

/-- Go `m[k]` on a map held as a list of bindings (`none`: no such key). -/
def mapGet {κ β : Type} [DecidableEq κ] (m : List (κ × β)) (k : κ) : Option β :=
  (m.find? (fun e => e.1 = k)).map Prod.snd

/-- Go `m[k] = v` on a map held as a list of bindings, one binding per key. -/
def mapSet {κ β : Type} [DecidableEq κ] (m : List (κ × β)) (k : κ) (v : β) : List (κ × β) :=
  (k, v) :: m.filter (fun e => e.1 ≠ k)

/-- Go `sql.Record` (record.go:29-34).  A `*Value` is an `Option V`, with `none` for the
nil pointer; `aliasName` is the field `alias`. -/
structure Record (V : Type) where
  aliasName : String
  indexNameMap : List (Int × String)
  nameValueMap : List (String × Option V)
  index : Int

/-- Go `NewRecord` (record.go:172-178). -/
def NewRecord {V : Type} (aliasName : String) : Record V := ⟨aliasName, [], [], 0⟩

/-- Go `Record.Set` (record.go:145-151); `atomic.AddInt64` returns the new value of
`r.index`. -/
def Record.Set {V : Type} (r : Record V) (name : String) (value : Option V) : Record V :=
  let r :=
    if (mapGet r.nameValueMap name).isNone then
      let index := int64 (r.index + 1)
      { r with index := index, indexNameMap := mapSet r.indexNameMap index name }
    else r
  { r with nameValueMap := mapSet r.nameValueMap name value }

/-- Go `Record.Get` (record.go:154-157). -/
def Record.Get {V : Type} (r : Record V) (name : String) : Option V × Bool :=
  match mapGet r.nameValueMap name with
  | some v => (v, true)
  | none => (none, false)

/-- The loop of `Record.Range` (record.go:163-168) from `i` on, `todo = length - i`:
the calls of `f` it makes, in order, each with the name and the value passed.  A
key that is not in a map reads as the zero value, `""` or nil. -/
def Record.Range.loop {V : Type} (r : Record V) (f : String → Option V → Bool) :
    Nat → Int → List (String × Option V)
  | 0, _ => []
  | todo + 1, i =>
    let name := (mapGet r.indexNameMap i).getD ""
    let value := (mapGet r.nameValueMap name).getD none
    (name, value) :: (if f name value then Record.Range.loop r f todo (i + 1) else [])

/-- Go `Record.Range` (record.go:161-169): the calls of `f` it makes. -/
def Record.Range {V : Type} (r : Record V) (f : String → Option V → Bool) :
    List (String × Option V) :=
  Record.Range.loop r f r.indexNameMap.length 0

end sql

/-! ## s3select: messages -/

namespace s3select

/-- The bytes of a string of ASCII characters. -/
def ascii (s : String) : List Byte := s.toList.map Char.toNat

/-- Go `totalByteLength` (message.go:33-35). -/
def totalByteLength (headerLength payloadLength : Int) : Int :=
  int64 (4 + 4 + 4 + headerLength + payloadLength + 4)

/-- Go `binary.Write(buf, binary.BigEndian, x)` for `x : uint32`: four bytes, the most
significant first. -/
def bigEndian32 (x : Nat) : List Byte :=
  [x / 16777216 % 256, x / 65536 % 256, x / 256 % 256, x % 256]

/-- Go `genMessage` (message.go:37-55); `crc32` is `crc32.ChecksumIEEE` of the standard
library, `uint32(totalLength)` the value modulo `2^32`. -/
def genMessage (crc32 : List Byte → Nat) (header payload : List Byte) : List Byte :=
  let headerLength : Int := header.length
  let payloadLength : Int := payload.length
  let totalLength := totalByteLength headerLength payloadLength
  let preamble :=
    bigEndian32 (totalLength % 4294967296).toNat ++ bigEndian32 (headerLength % 4294967296).toNat
  let message := preamble ++ bigEndian32 (crc32 preamble) ++ header ++ payload
  message ++ bigEndian32 (crc32 message)

/-- The variable `progressHeader` (message.go:96-100). -/
def progressHeader : List Byte :=
  13 :: ascii ":message-type" ++ 7 :: 0 :: 5 :: ascii "event" ++
  13 :: ascii ":content-type" ++ 7 :: 0 :: 8 :: ascii "text/xml" ++
  11 :: ascii ":event-type" ++ 7 :: 0 :: 8 :: ascii "Progress"

/-- Go `strconv.FormatInt(x, 10)` of the standard library: the decimal digits, after a
minus sign for a negative number. -/
def FormatInt (x : Int) : List Byte :=
  (if x < 0 then [45] else []) ++ (Nat.toDigits 10 x.natAbs).map Char.toNat

/-- The local `payload` of `newProgressMessage` (message.go:127-130). -/
def progressPayload (bytesScanned bytesProcessed bytesReturned : Int) : List Byte :=
  ascii "<?xml version=\"1.0\" encoding=\"UTF-8\"?><Progress><BytesScanned>" ++
    FormatInt bytesScanned ++ ascii "</BytesScanned><BytesProcessed>" ++
    FormatInt bytesProcessed ++ ascii "</BytesProcessed><BytesReturned>" ++
    FormatInt bytesReturned ++ ascii "</BytesReturned></Stats>"

/-- Go `newProgressMessage` (message.go:126-132). -/
def newProgressMessage (crc32 : List Byte → Nat)
    (bytesScanned bytesProcessed bytesReturned : Int) : List Byte :=
  genMessage crc32 progressHeader (progressPayload bytesScanned bytesProcessed bytesReturned)

end s3select

/-! ## pkg/rand: UUID -/

namespace rand

/-- Go `uuid` (uuid.go:12-14); a string is the list of its bytes. -/
structure uuid where
  value : List Byte
deriving DecidableEq, Repr

/-- The error of `hex.DecodeString`. -/
def hexErr : Err := Err.other "encoding/hex: invalid byte or odd length"

/-- Go `parseUUID` (uuid.go:16-66). -/
def parseUUID (s : List Byte) : Except Err uuid :=
  -- lines 22-24
  let s? : Option (List Byte) :=
    if s.head? = some 34 ∧ s.getLast? = some 34 then sliceRange s 1 ((s.length : Int) - 1)
    else some s
  match s? with
  | none => .error (Err.panic "slice bounds out of range")
  | some s =>
    if s.length = 32 then
      -- lines 26-32
      match hexDecode s with
      | none => .error hexErr
      | some _ => .ok ⟨s⟩
    else if s.length = 36 then
      -- lines 34-63
      match hexDecode (s.take 8) with
      | none => .error hexErr
      | some _ =>
        match hexDecode ((s.drop 9).take 4) with
        | none => .error hexErr
        | some _ =>
          match hexDecode ((s.drop 14).take 4) with
          | none => .error hexErr
          | some _ =>
            match hexDecode ((s.drop 19).take 4) with
            | none => .error hexErr
            | some _ =>
              match hexDecode (s.drop 24) with
              | none => .error hexErr
              | some _ =>
                .ok ⟨s.take 8 ++ (s.drop 9).take 4 ++ (s.drop 14).take 4 ++ (s.drop 19).take 4
                  ++ s.drop 24⟩
    else .error (Err.other "unknown UUID string")

/-- Go `newUUID` (uuid.go:68-83) on the 16 bytes read from `rand.Reader`; `none` is an
index panic. -/
def newUUID (b : List Byte) : Option uuid :=
  match b.get? 8, b.get? 6 with
  | some b8, some b6 =>
    let b := b.set 8 ((b8 &&& 63) ||| 128)
    let b := b.set 6 ((b6 &&& 15) ||| 64)
    some ⟨hexEncode b⟩
  | _, _ => none

/-- Go `uuid.Humanize` (uuid.go:89-91); `none` is the slice-bounds panic on a value of
fewer than 10 bytes. -/
def uuid.Humanize (u : uuid) : Option (List Byte) :=
  if u.value.length < 10 then none
  else
    some (u.value.take 4 ++ [45] ++ (u.value.drop 4).take 2 ++ [45] ++ (u.value.drop 6).take 2
      ++ [45] ++ (u.value.drop 8).take 2 ++ [45] ++ u.value.drop 10)

/-- Go `uuid.MarshalJSON` (uuid.go:93-95). -/
def uuid.MarshalJSON (u : uuid) : Option (List Byte) :=
  u.Humanize.map (fun h => [34] ++ h ++ [34])

/-- Go `uuid.UnmarshalJSON` (uuid.go:97-111): the value the receiver holds afterwards,
or the error; `jsonString` is `json.Unmarshal` into a string, of the standard
library. -/
def uuid.UnmarshalJSON (jsonString : List Byte → Except Err (List Byte)) (b : List Byte) :
    Except Err uuid :=
  match jsonString b with
  | .error e => .error e
  | .ok s =>
    match parseUUID s with
    | .error e => .error e
    | .ok u => .ok ⟨u.value⟩

/-- Go `ParseUUID` (uuid.go:129-136); a `UUID` is its `uuid`. -/
def ParseUUID (s : List Byte) : Except Err uuid := parseUUID s

/-- Go `UUID.Equal` (uuid.go:124-126). -/
def UUID.Equal (u v : uuid) : Bool := u.value = v.value

end rand

/-! ## pkg/erasure: the bytes handed to the shard writers -/

namespace erasure

/-- The number of bytes the first `k` write fan-outs of `Write` hand to a shard
writer: `ShardSize` bytes per block, and `lastShardSize` bytes for the last block. -/
def shardBytesOfBlocks (info : Info) (blockCount lastShardSize k : Nat) : Nat :=
  if k < blockCount then k * info.ShardSize
  else if blockCount = 0 then 0
  else (blockCount - 1) * info.ShardSize + lastShardSize

/-- What the slot `sl` of shard `id` holds when every write fan-out so far handed
`n` bytes in all to a live writer: a slot that still has its writer was acquired,
and its writer holds `n` bytes more than when it was acquired. -/
def SinkAt (getShardWriter : GetShardWriter) (n : Nat) (id : String) (sl : WriteSlot) : Prop :=
  ∀ w, sl.writer = some w →
    ∃ w0, getShardWriter id = .ok w0 ∧ sl.sink = w.written ∧
      w.written.length = w0.written.length + n

end erasure

/-! ## datasys/dataspace/erasure: runs of the part walker -/

namespace dataspace.erasure

/-- The reader after a sequence of `Read` calls with the given buffer sizes. -/
def dataReader.after (C : Goat.erasure.Codec) (getShardReader : Goat.erasure.GetShardReader) :
    dataReader → List Nat → dataReader
  | dr, [] => dr
  | dr, w :: ws => dataReader.after C getShardReader (dr.Read C getShardReader w).2.2 ws

/-- What one `Read` may do to the walker: the selected parts and the window stay;
either the position stays (the index, the shard-file offset, and the offset an
open stripe reader was given), or the next part `parts[index]` is opened: the index
moves on by one, the shard-file offset by the per-shard size of that part, and the
stripe reader, while it is open, was given the shard-file offset from before. -/
def dataReader.Step (dr dr' : dataReader) : Prop :=
  dr'.parts = dr.parts ∧ dr'.bytesToSkip = dr.bytesToSkip ∧ dr'.bytesToRead = dr.bytesToRead ∧
  ((dr'.index = dr.index ∧ dr'.shardPartsSize = dr.shardPartsSize ∧
      ∀ rd' b', dr'.reader = some (rd', b') → ∃ rd, dr.reader = some (rd, b')) ∨
    (dr.reader = none ∧ ∃ part sz, dr.parts.get? dr.index = some part ∧
      shardPartSize part = some sz ∧ dr'.index = dr.index + 1 ∧
      dr'.shardPartsSize = (dr.shardPartsSize + sz) % 18446744073709551616 ∧
      ∀ rd' b', dr'.reader = some (rd', b') → b' = dr.shardPartsSize))

end dataspace.erasure

/-! ## Stand-ins for the libraries, used to evaluate examples -/

deriving instance DecidableEq for Except

/-- A stand-in for HighwayHash-256 in examples: a one-character digest, a weighted
sum of the bytes. -/
def sumHasher : Hasher :=
  ⟨fun bs => [bs.foldl (fun a b => (a * 31 + b + 7) % 251) 0], 1⟩

/-- Byte-wise XOR of shards of length `len`. -/
def xorShards (vs : List (List Byte)) (len : Nat) : List Byte :=
  (List.range len).map (fun i => vs.foldl (fun a v => a ^^^ v.getD i 0) 0)

/-- A stand-in for the Reed-Solomon library in examples: every parity shard is the
XOR of the data shards, and `reconstructData` rebuilds one empty data shard from the
other data shards and a non-empty parity shard (more than one empty data shard, or
no parity shard, is the library's too-few-shards error). -/
def xorCodec : erasure.Codec where
  valid := fun n _ => decide (1 ≤ n)
  encode := fun n _ vs =>
    .ok (vs.take n ++ (vs.drop n).map (fun p => xorShards (vs.take n) p.length))
  verify := fun n _ vs =>
    .ok ((vs.drop n).all (fun p => p = xorShards (vs.take n) p.length))
  reconstructData := fun n _ vs =>
    let data := vs.take n
    let missing := (data.filter (fun d => d.length = 0)).length
    if missing = 0 then .ok vs
    else
      match (vs.drop n).find? (fun p => p.length ≠ 0) with
      | none => .error (Err.other "too few shards given")
      | some p =>
        if missing = 1 then
          .ok (data.map (fun d => if d.length = 0 then xorShards (p :: data) p.length else d)
            ++ vs.drop n)
        else .error (Err.other "too few shards given")

/-- A `getShardReader` over shard files of which some fail: an id in `failOpen`
fails to open, an id in `failRead` opens and fails on its first read. -/
def failingShardFiles (files : List (String × List Byte)) (failOpen failRead : List String) :
    erasure.GetShardReader :=
  fun shardID offset length =>
    if shardID ∈ failOpen then .error (Err.other "open")
    else if shardID ∈ failRead then .ok ⟨[], Err.other "read"⟩
    else erasure.shardFiles files shardID offset length

/-- A `getShardWriter` whose writers never fail. -/
def healthyWriters : erasure.GetShardWriter := fun _ => .ok ⟨[], none⟩

/-- A stand-in shard disk in examples of the erasure group: whether its forward
calls fail, and the names of the methods called on it, in order. -/
structure LogDisk where
  failing : Bool
  calls : List String
deriving DecidableEq, Repr

/-- A forward call on a `LogDisk`. -/
def LogDisk.forward (name : String) (d : LogDisk) : Option Err × LogDisk :=
  (if d.failing then some (Err.other "disk") else none, { d with calls := d.calls ++ [name] })

/-- A revert call on a `LogDisk`: it is logged and succeeds. -/
def LogDisk.revert (name : String) (d : LogDisk) : Option Err × LogDisk :=
  (none, { d with calls := d.calls ++ [name] })

/-- The methods of `LogDisk`. -/
def logDiskOps : dataspace.erasure.DiskOps LogDisk where
  RemoveTempFile := fun _ _ => LogDisk.forward "RemoveTempFile"
  InitUpload := fun _ => LogDisk.forward "InitUpload"
  RevertInitUpload := fun _ => LogDisk.revert "RevertInitUpload"
  UploadPart := fun _ _ _ => LogDisk.forward "UploadPart"
  RevertUploadPart := fun _ _ _ => LogDisk.revert "RevertUploadPart"
  AbortUpload := fun _ => LogDisk.forward "AbortUpload"
  RevertAbortUpload := fun _ => LogDisk.revert "RevertAbortUpload"
  CompleteUpload := fun _ _ _ => LogDisk.forward "CompleteUpload"
  RevertCompleteUpload := fun _ _ _ => LogDisk.revert "RevertCompleteUpload"

/-- A `getShardReader` over shard files of which some break: the reader of an id
listed in `broken` with `n` delivers `n` bytes of its window and then fails. -/
def breakingShardFiles (files : List (String × List Byte)) (broken : List (String × Nat)) :
    erasure.GetShardReader :=
  fun shardID offset length =>
    match erasure.shardFiles files shardID offset length, broken.lookup shardID with
    | .ok r, some n => .ok ⟨r.bytes.take n, Err.other "read"⟩
    | r, _ => r

/-- Decimal digits of `n`, most significant first, as ASCII codes (`fuel` bounds the
number of digits). -/
def decimalDigits : Nat → Nat → List Byte → List Byte
  | 0, _, acc => acc
  | fuel + 1, n, acc =>
    if n < 10 then (48 + n) :: acc else decimalDigits fuel (n / 10) ((48 + n % 10) :: acc)

/-- The fields of a line, which a space separates. -/
def spaceFields (line : List Byte) : List (List Byte) :=
  line.foldr (fun c acc =>
    if c = 32 then [] :: acc
    else match acc with
      | [] => [[c]]
      | f :: fs => (c :: f) :: fs) [[]]

/-- A stand-in for the JSON of the header line: the six fields in the order of the
struct, a space between them, numbers in decimal, and a newline at the end. -/
def lineJSON : HeaderJSON where
  encode h :=
    h.HashName.toList.map Char.toNat ++ 32 :: h.HashKey ++ 32 :: decimalDigits 20 h.HashLength []
      ++ 32 :: decimalDigits 20 h.BlockSize [] ++ 32 :: decimalDigits 20 h.BlockCount []
      ++ 32 :: decimalDigits 20 h.DataLength [] ++ [10]
  decode line :=
    match spaceFields (line.filter (· ≠ 10)) with
    | [name, key, hl, bs, bc, dl] =>
      let num := fun (ds : List Byte) => ds.foldl (fun a c => a * 10 + (c - 48)) 0
      .ok ⟨⟨num hl, num bs, num bc, num dl⟩, String.mk (name.map Char.ofNat), key⟩
    | _ => .error (Err.other "json")

/-- A stand-in for the digest libraries: 32 (16 for MD5) copies of the sum of the key
and the data modulo 256. -/
def sumHashLib : HashLib where
  highway key data := List.replicate 32 ((key.sum + data.sum) % 256)
  sha256 data := List.replicate 32 (data.sum % 256)
  md5 data := List.replicate 16 (data.sum % 256)

/-- The `i`-th block of the specification: consecutive slices of 1 MiB of the bytes
written. -/
def specBlock (written : List Byte) (i : Nat) : List Byte :=
  (written.drop (i * 1048576)).take 1048576

/-- A disk with the empty upload `u` and the temp file `t` with its sidecar. -/
def emptyUploadDisk : dataspace.disk.Disk :=
  ⟨[("t", [1, 2, 3]), ("t.checksum", [8])], [("u", [])], [], []⟩

/-- A disk whose upload `u` holds part `1` already, and the temp file `t` with its
sidecar. -/
def partReplacingDisk : dataspace.disk.Disk :=
  ⟨[("t", [1, 2, 3]), ("t.checksum", [8])],
    [("u", [("1.part", [7, 7]), ("1.part.checksum", [9])])], [], []⟩

/-! # Theorems -/

/-! ## pkg/boundary -/

theorem tdiv_spec (a E : Int) (ha : 0 ≤ a) (hE : 0 < E) :
    0 ≤ Int.tdiv a E ∧ 0 ≤ a - Int.tdiv a E * E ∧ a - Int.tdiv a E * E < E := by
  rw [Int.tdiv_eq_ediv ha (le_of_lt hE)]
  have h1 := Int.ediv_add_emod a E
  have h2 := Int.emod_nonneg a (ne_of_gt hE)
  have h3 := Int.emod_lt_of_pos a hE
  have h4 : 0 ≤ a / E := Int.ediv_nonneg ha (le_of_lt hE)
  have h5 : a / E * E = E * (a / E) := mul_comm _ _
  refine ⟨h4, ?_, ?_⟩ <;> omega

theorem effectiveBlockSize_pos (size blockSize blockCount : Int) (hbs : 1 ≤ blockSize)
    (hcons : ((blockCount - 1) * blockSize < size ∧ size ≤ blockCount * blockSize) ∨
      (size = 0 ∧ blockCount = 0)) :
    1 ≤ effectiveBlockSize size blockSize blockCount := by
  unfold effectiveBlockSize
  split_ifs with h1 h2
  · exact hbs
  · rcases hcons with ⟨h3, _⟩ | ⟨h3, h4⟩
    · omega
    · subst h3 h4; simp at h2 ⊢; omega
  · exact hbs

theorem CalcBoundaries_eq (size blockSize blockCount offset length : Int)
    (hwin : ¬ (offset > size ∨ length > size ∨ offset + length > size))
    (hE : effectiveBlockSize size blockSize blockCount ≠ 0) :
    CalcBoundaries size blockSize blockCount offset length =
      (let E := effectiveBlockSize size blockSize blockCount
       let q := Int.tdiv offset E
       let s := offset - q * E
       if s > 0 ∧ length ≤ E - s then some ⟨q, 1, s, length, E⟩
       else
         let l := if s > 0 then length - (E - s) else length
         let n := Int.tdiv l E
         let r := l - n * E
         some ⟨q, (if s > 0 then 1 else 0) + (if r > 0 then n + 1 else n), s,
           (if r > 0 then r else if r < 0 then l else E),
           (if q + ((if s > 0 then 1 else 0) + (if r > 0 then n + 1 else n)) ≠ blockCount then E
            else (if size - (blockCount - 1) * blockSize = 0 then blockSize
              else size - (blockCount - 1) * blockSize))⟩) := by
  unfold CalcBoundaries
  rw [if_neg hwin]
  have : (if blockCount ≤ 1 then
      (if size - (blockCount - 1) * blockSize = 0 then blockSize
        else size - (blockCount - 1) * blockSize) else blockSize) =
      effectiveBlockSize size blockSize blockCount := rfl
  simp only [this]
  rw [if_neg hE]

/-- C9. For every consistent `(size, blockSize, blockCount)` with `blockSize ≥ 1` and
every window `offset ≥ 0`, `length ≥ 0`, `offset + length ≤ size`, `CalcBoundaries`
returns, and with `E` the effective block size:
`blocksToSkip * E + bytesToSkipInFirstBlock = offset`, `0 ≤ bytesToSkipInFirstBlock < E`,
and the number of bytes the returned window denotes is `length`. -/
theorem CalcBoundaries_describes_window (size blockSize blockCount offset length : Int)
    (hbs : 1 ≤ blockSize)
    (hcons : ((blockCount - 1) * blockSize < size ∧ size ≤ blockCount * blockSize) ∨
      (size = 0 ∧ blockCount = 0))
    (hoff : 0 ≤ offset) (hlen : 0 ≤ length) (hwin : offset + length ≤ size) :
    ∃ b, CalcBoundaries size blockSize blockCount offset length = some b ∧
      b.blocksToSkip * effectiveBlockSize size blockSize blockCount
        + b.bytesToSkipInFirstBlock = offset ∧
      0 ≤ b.bytesToSkipInFirstBlock ∧
      b.bytesToSkipInFirstBlock < effectiveBlockSize size blockSize blockCount ∧
      0 ≤ b.blocksToRead ∧
      windowBytes (effectiveBlockSize size blockSize blockCount) b = length := by
  have hE := effectiveBlockSize_pos size blockSize blockCount hbs hcons
  have hg : ¬ (offset > size ∨ length > size ∨ offset + length > size) := by omega
  rw [CalcBoundaries_eq size blockSize blockCount offset length hg (by omega)]
  generalize effectiveBlockSize size blockSize blockCount = E at hE ⊢
  simp only []
  obtain ⟨hq0, hs0, hs1⟩ := tdiv_spec offset E hoff (by omega)
  generalize hq : Int.tdiv offset E = q at hq0 hs0 hs1 ⊢
  generalize hs : offset - q * E = s at hs0 hs1 ⊢
  by_cases hA : s > 0 ∧ length ≤ E - s
  · rw [if_pos hA]
    refine ⟨_, rfl, by simp only []; omega, hs0, hs1, by simp, ?_⟩
    simp [windowBytes]
  · rw [if_neg hA]
    have hl : 0 ≤ (if s > 0 then length - (E - s) else length) := by
      split_ifs with h
      · have : ¬ length ≤ E - s := fun h2 => hA ⟨h, h2⟩
        omega
      · exact hlen
    obtain ⟨hn0, hr0, hr1⟩ := tdiv_spec _ E hl (by omega)
    generalize hl' : (if s > 0 then length - (E - s) else length) = l at hl hn0 hr0 hr1 ⊢
    generalize hn : Int.tdiv l E = n at hn0 hr0 hr1 ⊢
    generalize hr : l - n * E = r at hr0 hr1 ⊢
    refine ⟨_, rfl, by simp only []; omega, hs0, hs1, ?_, ?_⟩
    · simp only []
      split_ifs <;> omega
    · simp only [windowBytes]
      by_cases hs' : s > 0
      · have hl2 : l = length - (E - s) := by rw [← hl', if_pos hs']
        have hl3 : 0 < l := by
          have : ¬ length ≤ E - s := fun h2 => hA ⟨hs', h2⟩
          omega
        simp only [if_pos hs']
        by_cases hr' : r > 0
        · simp only [if_pos hr']
          have e : (1 + (n + 1) - 2) * E = n * E := by ring
          split_ifs <;> omega
        · have hr2 : r = 0 := by omega
          have hn1 : 1 ≤ n := by
            by_contra hc
            have : n = 0 := by omega
            subst this; simp at hr; omega
          simp only [if_neg hr']
          have e : (1 + n - 2) * E = n * E - E := by ring
          have e2 : ¬ r < 0 := by omega
          simp only [if_neg e2]
          split_ifs <;> omega
      · have hs2 : s = 0 := by omega
        have hl2 : l = length := by rw [← hl', if_neg hs']
        simp only [if_neg hs']
        by_cases hr' : r > 0
        · simp only [if_pos hr']
          have e : (0 + (n + 1) - 2) * E = n * E - E := by ring
          split_ifs with h1 h2
          · omega
          · have : n = 0 := by omega
            subst this; simp at hr; omega
          · rw [e]; omega
        · have hr2 : r = 0 := by omega
          simp only [if_neg hr']
          have e2 : ¬ r < 0 := by omega
          simp only [if_neg e2]
          have e : (0 + n - 2) * E = n * E - E - E := by ring
          split_ifs with h1 h2
          · have : n = 0 := by omega
            subst this; simp at hr; omega
          · have : n = 1 := by omega
            subst this; simp at hr; omega
          · rw [e]; omega

/-- Witness for C9: a file of 10 bytes in 3 blocks of 4, window `[3, 9)`. -/
theorem CalcBoundaries_describes_window_witness :
    ∃ b, CalcBoundaries 10 4 3 3 6 = some b ∧
      b.blocksToSkip * effectiveBlockSize 10 4 3 + b.bytesToSkipInFirstBlock = 3 ∧
      0 ≤ b.bytesToSkipInFirstBlock ∧
      b.bytesToSkipInFirstBlock < effectiveBlockSize 10 4 3 ∧
      0 ≤ b.blocksToRead ∧
      windowBytes (effectiveBlockSize 10 4 3) b = 6 :=
  CalcBoundaries_describes_window 10 4 3 3 6 (by decide) (Or.inl (by decide)) (by decide)
    (by decide) (by decide)

/-- C10 (the code departs from the claim). On the file of the repository's own test
table (70009289 bytes, 67 blocks of 1 MiB, final block 803273 bytes) the window
`offset = 69206017, length = 100` lies in the final block at in-block offset 1; the
early return of boundary.go:23-27 reports `lastBlockSize = 1048576` although the last
block read, number `66 + 1 - 1`, has 803273 bytes.  The sibling window at in-block
offset 0 (`offset = 69206016`, a row of `TestCalcBoundaries`) reports 803273. -/
theorem CalcBoundaries_lastBlockSize_early_return :
    CalcBoundaries 70009289 1048576 67 69206017 100 = some ⟨66, 1, 1, 100, 1048576⟩ ∧
    physicalBlockSize 70009289 1048576 67 (66 + 1 - 1) = 803273 ∧
    CalcBoundaries 70009289 1048576 67 69206016 100 = some ⟨66, 1, 0, 100, 803273⟩ := by
  decide

/-! ## pkg/os: the checksummed reader -/

theorem padTake_append_exact (l rest : List Byte) (n : Nat) (h : l.length = n) :
    padTake (l ++ rest) n = l := by
  subst h
  simp [padTake]

theorem Buf_write_view (b : Buf) (bs : List Byte) (h : bs.length = b.len) :
    (b.write bs).view = bs := by
  simp only [Buf.write, Buf.view]
  exact padTake_append_exact bs _ _ h

theorem readFull_exact (blk data : List Byte) (k : Nat) (h : blk.length = k) :
    readFull ⟨blk ++ data, Err.eof⟩ k = (blk, none, ⟨data, Err.eof⟩) := by
  subst h
  unfold readFull
  by_cases h0 : blk.length = 0
  · have : blk = [] := List.length_eq_zero.mp h0
    subst this
    simp
  · simp [h0]

theorem ReadSum_line (cf : checksumFile) (digest sums : List Byte)
    (hlen : digest.length = cf.header.HashLength) (hrest : cf.rest = digest ++ 10 :: sums) :
    ∃ buf, cf.ReadSum = (.ok digest, { cf with buf := some buf, rest := sums }) := by
  unfold checksumFile.ReadSum
  have h1 : cf.rest.length ≠ 0 := by rw [hrest]; simp
  have h2 : cf.rest.take (cf.header.HashLength + 1) = digest ++ [10] := by
    rw [hrest, ← hlen]
    have : digest ++ 10 :: sums = (digest ++ [10]) ++ sums := by simp
    rw [this, List.take_left']
    simp
  have h3 : cf.rest.drop (cf.header.HashLength + 1) = sums := by
    rw [hrest, ← hlen]
    have : digest ++ 10 :: sums = (digest ++ [10]) ++ sums := by simp
    rw [this, List.drop_left']
    simp
  simp only [h1, if_false, h2, h3]
  refine ⟨digest ++ [10] ++ List.drop (digest ++ [10]).length
    (cf.buf.getD (List.replicate (cf.header.HashLength + 1) 0)), ?_⟩
  have h4 : List.take cf.header.HashLength (digest ++ [10] ++ List.drop (digest ++ [10]).length
      (cf.buf.getD (List.replicate (cf.header.HashLength + 1) 0))) = digest := by
    rw [List.append_assoc, ← hlen, List.take_left']
    rfl
  rw [h4]


theorem readBlock_mismatch (H : Hasher) (r : checksummedReader) (b0 buf : Buf)
    (digest sums blk data : List Byte)
    (hidx : r.index ≠ r.blocksToRead)
    (hbuf : r.prepareBlock = (b0, some buf))
    (hlen : digest.length = r.checksumFile.header.HashLength)
    (hsum : r.checksumFile.rest = digest ++ 10 :: sums)
    (hfile : r.file = blk ++ data) (hblk : blk.length = buf.len)
    (hne : H.hexSum blk ≠ digest) :
    ∃ cbuf, r.readBlock H = (some Err.checksumMismatch,
      { r with block := some (buf.write blk),
               checksumFile := { r.checksumFile with buf := some cbuf, rest := sums },
               file := data }) := by
  obtain ⟨cbuf, hrs⟩ := ReadSum_line r.checksumFile digest sums hlen hsum
  refine ⟨cbuf, ?_⟩
  unfold checksummedReader.readBlock
  rw [if_neg hidx, hbuf]
  simp only [hrs, hfile, readFull_exact blk data buf.len hblk]
  rw [Buf_write_view buf blk hblk]
  simp [hne]

/-- C6. Whenever the loop of `Read` has to read a block (`bytesAvailable = 0` and room
left in the caller's buffer), the next digest line of the sidecar is `digest`, the
next block of the file is `blk`, and the recomputed digest `H.hexSum blk` differs
from `digest`, then `readBlock` reports a checksum mismatch and `Read` returns at
once with that error: the call delivers exactly the bytes `acc` it had copied
from earlier blocks (none when the call starts with this block), and no byte of
`blk`; the reader's `index` and `bytesAvailable` are unchanged. -/
theorem checksummedReader_mismatch_delivers_no_byte (H : Hasher) (r : checksummedReader)
    (b0 buf : Buf) (digest sums blk data : List Byte) (want fuel : Nat) (acc : List Byte)
    (hwant : want ≠ 0) (hav : r.bytesAvailable = 0) (hidx : r.index ≠ r.blocksToRead)
    (hbuf : r.prepareBlock = (b0, some buf))
    (hlen : digest.length = r.checksumFile.header.HashLength)
    (hsum : r.checksumFile.rest = digest ++ 10 :: sums)
    (hfile : r.file = blk ++ data) (hblk : blk.length = buf.len)
    (hne : H.hexSum blk ≠ digest) :
    ∃ r', r.readBlock H = (some Err.checksumMismatch, r') ∧
      checksummedReader.readLoop H (fuel + 1) r want acc = (acc, some Err.checksumMismatch, r') ∧
      r.Read H want = ([], some Err.checksumMismatch, r') ∧
      r'.index = r.index ∧ r'.bytesAvailable = 0 := by
  obtain ⟨cbuf, hrb⟩ := readBlock_mismatch H r b0 buf digest sums blk data hidx hbuf hlen hsum
    hfile hblk hne
  refine ⟨_, hrb, ?_, ?_, rfl, hav⟩
  · simp [checksummedReader.readLoop, hwant, hav, hrb]
  · simp [checksummedReader.Read, checksummedReader.readLoop, hwant, hav, hrb]

/-- Witness for C6: the one-block file `[1, 2, 3]` written by `WriteFile`, its last
byte changed to 4, opened for the window `[0, 3)`. -/
theorem checksummedReader_mismatch_delivers_no_byte_witness :
    ∃ r', checksummedReader.readBlock sumHasher
        ⟨[1, 2, 4], ⟨[196, 10], ⟨1, 1048576, 1, 3⟩, none⟩, 1, 0, 3, 3, none, 0, 0⟩
        = (some Err.checksumMismatch, r') ∧
      checksummedReader.readLoop sumHasher (0 + 1)
        ⟨[1, 2, 4], ⟨[196, 10], ⟨1, 1048576, 1, 3⟩, none⟩, 1, 0, 3, 3, none, 0, 0⟩ 3 []
        = ([], some Err.checksumMismatch, r') ∧
      checksummedReader.Read sumHasher
        ⟨[1, 2, 4], ⟨[196, 10], ⟨1, 1048576, 1, 3⟩, none⟩, 1, 0, 3, 3, none, 0, 0⟩ 3
        = ([], some Err.checksumMismatch, r') ∧
      r'.index = 0 ∧ r'.bytesAvailable = 0 :=
  checksummedReader_mismatch_delivers_no_byte sumHasher
    ⟨[1, 2, 4], ⟨[196, 10], ⟨1, 1048576, 1, 3⟩, none⟩, 1, 0, 3, 3, none, 0, 0⟩
    (Buf.make 1048576) ⟨[], 1048576, 3⟩ [196] [] [1, 2, 4] [] 3 0 []
    (by decide) (by decide) (by decide) (by decide) (by decide) (by decide) (by decide)
    (by decide) (by decide)

/-- The reader of the witness of C6 is the one `OpenFile` returns for the file
`[1, 2, 3]` written by `WriteFile` after its last byte was changed to 4. -/
theorem OpenFile_corrupted_example :
    OpenFile (some { (WriteFile sumHasher ⟨[1, 2, 3], Err.eof⟩ 3 true).2 with data := [1, 2, 4] })
        0 3 true
      = .ok (.verified ⟨[1, 2, 4], ⟨[196, 10], ⟨1, 1048576, 1, 3⟩, none⟩, 1, 0, 3, 3, none, 0, 0⟩) := by
  decide

theorem readFull_short (rest : List Byte) (k : Nat) (h0 : rest.length ≠ 0)
    (hk : rest.length < k) :
    readFull ⟨rest, Err.eof⟩ k = (rest, some Err.unexpectedEOF, ⟨[], Err.eof⟩) := by
  unfold readFull
  have h1 : k ≠ 0 := by omega
  have h2 : ¬ k ≤ rest.length := by omega
  simp [h0, h1, h2]

theorem WriteFile_two_blocks (H : Hasher) (data : List Byte) (hlen : data.length = 1048578) :
    WriteFile H ⟨data, Err.eof⟩ 1048578 true =
      (.ok (H.hexSum data), ⟨data, some ⟨⟨H.hashLength, 1048576, 2, 1048578⟩,
        H.hexSum (data.take 1048576) ++ [10] ++ (H.hexSum (data.drop 1048576) ++ [10])⟩⟩) := by
  have e1 : readFull ⟨data, Err.eof⟩ 1048576
      = (data.take 1048576, none, ⟨data.drop 1048576, Err.eof⟩) := by
    have := readFull_exact (data.take 1048576) (data.drop 1048576) 1048576
      (by rw [List.length_take, hlen]; rfl)
    rwa [List.take_append_drop] at this
  have e2 : readFull ⟨data.drop 1048576, Err.eof⟩ 2
      = (data.drop 1048576, none, ⟨[], Err.eof⟩) := by
    have := readFull_exact (data.drop 1048576) [] 2 (by rw [List.length_drop, hlen])
    rwa [List.append_nil] at this
  have e3 : (if 1048578 / defaultBlockSize * defaultBlockSize < 1048578
      then 1048578 / defaultBlockSize + 1 else 1048578 / defaultBlockSize) = 2 := by decide
  unfold WriteFile WriteFileWith
  simp only [e3]
  have e4 : WriteFile.blocks H defaultBlockSize 1048578 2 2 0 ⟨data, Err.eof⟩ [] []
      = (none, data, H.hexSum (data.take 1048576) ++ [10] ++
          (H.hexSum (data.drop 1048576) ++ [10])) := by
    have k0 : (if 0 = 2 - 1 then 1048578 - 0 * defaultBlockSize else defaultBlockSize)
        = 1048576 := by decide
    have k1 : (if 0 + 1 = 2 - 1 then 1048578 - (0 + 1) * defaultBlockSize else defaultBlockSize)
        = 2 := by decide
    have k2 : 1048578 - (0 + 1) * defaultBlockSize = 2 := by decide
    simp only [WriteFile.blocks, k0, k1, k2, if_true, e1, e2, List.nil_append,
      List.take_append_drop]
  rw [e4]
  rfl

theorem OpenFile_verified_eq (data body : List Byte) (hashLength blockSize blockCount
    dataLength : Nat) (offset : Int) (length : Nat) (b : Boundaries) (k : Int) (skip : Nat)
    (h0 : ¬ offset < 0)
    (hle : ¬ int64 (offset + int64 length) > int64 dataLength)
    (hc : CalcBoundaries (int64 dataLength) (int64 blockSize) (int64 blockCount) offset
      (int64 length) = some b)
    (hk : (if blockCount ≤ 1 then int64 (b.blocksToSkip * b.lastBlockSize)
      else int64 (b.blocksToSkip * int64 blockSize)) = k)
    (hk0 : ¬ k < 0) (hs : uint64 b.blocksToSkip = skip) :
    OpenFile (some ⟨data, some ⟨⟨hashLength, blockSize, blockCount, dataLength⟩, body⟩⟩)
        offset length true =
      .ok (.verified
        { file := data.drop k.toNat
          checksumFile := ⟨body.drop (skip * (hashLength + 1)),
            ⟨hashLength, blockSize, blockCount, dataLength⟩, none⟩
          blocksToRead := b.blocksToRead
          bytesToSkipInFirstBlock := b.bytesToSkipInFirstBlock
          bytesToReadInLastBlock := b.bytesToReadInLastBlock
          lastBlockSize := b.lastBlockSize
          block := none
          bytesAvailable := 0
          index := 0 }) := by
  unfold OpenFile
  simp only [Bool.not_true, Bool.false_eq_true, if_false, h0, hle, hc, hk, hk0, hs,
    checksumFile.Skip]

theorem OpenFile_in_final_block (H : Hasher) (data : List Byte)
    (hH : ∀ b, (H.hexSum b).length = H.hashLength) :
    OpenFile (some ⟨data, some ⟨⟨H.hashLength, 1048576, 2, 1048578⟩,
        H.hexSum (data.take 1048576) ++ [10] ++ (H.hexSum (data.drop 1048576) ++ [10])⟩⟩)
      1048577 1 true =
    .ok (.verified ⟨data.drop 1048576,
      ⟨H.hexSum (data.drop 1048576) ++ [10], ⟨H.hashLength, 1048576, 2, 1048578⟩, none⟩,
      1, 1, 1, 1048576, none, 0, 0⟩) := by
  have h7 : List.drop (1 * (H.hashLength + 1))
      (H.hexSum (data.take 1048576) ++ [10] ++ (H.hexSum (data.drop 1048576) ++ [10]))
      = H.hexSum (data.drop 1048576) ++ [10] := by
    rw [List.drop_left']
    simp [hH]
  rw [OpenFile_verified_eq data _ H.hashLength 1048576 2 1048578 1048577 1
    ⟨1, 1, 1, 1, 1048576⟩ 1048576 1 (by decide) (by decide) (by decide) (by decide) (by decide)
    (by decide)]
  have h5 : (1048576 : Int).toNat = 1048576 := by decide
  simp only [h5, h7]

theorem Read_short_block (H : Hasher) (r : checksummedReader) (b0 buf : Buf)
    (digest sums : List Byte) (want : Nat)
    (hwant : want ≠ 0) (hav : r.bytesAvailable = 0) (hidx : r.index ≠ r.blocksToRead)
    (hbuf : r.prepareBlock = (b0, some buf))
    (hlen : digest.length = r.checksumFile.header.HashLength)
    (hsum : r.checksumFile.rest = digest ++ 10 :: sums)
    (h0 : r.file.length ≠ 0) (hk : r.file.length < buf.len) :
    ∃ r', r.Read H want = ([], some Err.unexpectedEOF, r') := by
  obtain ⟨cbuf, hrs⟩ := ReadSum_line r.checksumFile digest sums hlen hsum
  have hrb : r.readBlock H = (some Err.unexpectedEOF,
      { r with block := some (buf.write r.file),
               checksumFile := { r.checksumFile with buf := some cbuf, rest := sums },
               file := [] }) := by
    unfold checksummedReader.readBlock
    rw [if_neg hidx, hbuf]
    simp only [hrs, readFull_short r.file buf.len h0 hk]
  refine ⟨(r.readBlock H).2, ?_⟩
  simp [checksummedReader.Read, checksummedReader.readLoop, hwant, hav, hrb]


theorem OpenFile_plain_eq (data : List Byte) (sidecar : Option Sidecar) (offset : Int)
    (length : Nat) (h0 : ¬ offset < 0)
    (hle : ¬ int64 (offset + int64 length) > (data.length : Int)) :
    OpenFile (some ⟨data, sidecar⟩) offset length false
      = .ok (.plain (NewSectionFileReader data offset (int64 length))) := by
  unfold OpenFile
  simp only [Bool.not_false, if_true, h0, hle, if_false]

theorem SectionFileReader_read_one (data : List Byte) (off : Int) (want : Nat)
    (h : off.toNat < data.length) (hw : want ≠ 0) :
    SectionFileReader.Read ⟨data, off, off + 1⟩ want
      = ((data.drop off.toNat).take 1, none, ⟨data, off + 1, off + 1⟩) := by
  unfold SectionFileReader.Read
  have h1 : ¬ (off ≥ off + 1) := by omega
  have h2 : off + 1 - off = 1 := by omega
  have h3 : (if (want : Int) > 1 then (1 : Int) else want) = 1 := by
    split_ifs <;> omega
  have h4 : ((data.drop off.toNat).take 1).length = 1 := by
    rw [List.length_take, List.length_drop]; omega
  simp only [h1, if_false, h2, h3, Int.toNat_one, h4]
  simp

theorem SectionFileReader_read_end (data : List Byte) (off : Int) (want : Nat) :
    SectionFileReader.Read ⟨data, off, off⟩ want = ([], some Err.eof, ⟨data, off, off⟩) := by
  simp [SectionFileReader.Read]

theorem copyFile_of_open (H : Hasher) (f : Option StoredFile) (offset : Int) (length : Nat)
    (bitrotProtection : Bool) (want fuel : Nat) (rd : FileReader)
    (h : OpenFile f offset length bitrotProtection = .ok rd) :
    copyFile H f offset length bitrotProtection want fuel = .ok (rd.drain H want fuel []) := by
  unfold copyFile
  rw [h]
  rfl

theorem FileReader_Read_verified (H : Hasher) (r : checksummedReader) (want : Nat) :
    (FileReader.verified r).Read H want
      = ((r.Read H want).1, (r.Read H want).2.1, FileReader.verified (r.Read H want).2.2) := rfl

theorem FileReader_Read_plain (H : Hasher) (r : SectionFileReader) (want : Nat) :
    (FileReader.plain r).Read H want
      = ((r.Read want).1, (r.Read want).2.1, FileReader.plain (r.Read want).2.2) := rfl

theorem drain_error (H : Hasher) (want fuel : Nat) (rd rd' : FileReader) (acc bs : List Byte)
    (e : Err) (h : rd.Read H want = (bs, some e, rd')) (he : e ≠ Err.eof) :
    FileReader.drain H want (fuel + 1) rd acc = (acc ++ bs, some e) := by
  unfold FileReader.drain
  rw [h]
  cases e <;> first | rfl | exact absurd rfl he

theorem drain_eof (H : Hasher) (want fuel : Nat) (rd rd' : FileReader) (acc bs : List Byte)
    (h : rd.Read H want = (bs, some Err.eof, rd')) :
    FileReader.drain H want (fuel + 1) rd acc = (acc ++ bs, none) := by
  unfold FileReader.drain
  rw [h]

theorem drain_more (H : Hasher) (want fuel : Nat) (rd rd' : FileReader) (acc bs : List Byte)
    (h : rd.Read H want = (bs, none, rd')) :
    FileReader.drain H want (fuel + 1) rd acc = FileReader.drain H want fuel rd' (acc ++ bs) := by
  conv_lhs => unfold FileReader.drain
  rw [h]

/-- C8 (the code departs from the claim). A file of 1 MiB + 2 bytes written by
`WriteFile` with bitrot protection has two blocks, the final one of 2 bytes.  For
the window `offset = 1 MiB + 1, length = 1`, which starts at in-block offset 1 of
the final block, `CalcBoundaries` takes its early return and reports
`lastBlockSize = 1 MiB`; the checksummed reader asks `io.ReadFull` for a block of
1 MiB where 2 bytes are left, and the verified stream is an `io.ErrUnexpectedEOF`
with no byte, whereas the plain stream is the byte `file[1 MiB + 1]` and EOF. -/
theorem OpenFile_verified_differs_from_plain_in_final_block (H : Hasher)
    (hH : ∀ b, (H.hexSum b).length = H.hashLength) (data : List Byte)
    (hlen : data.length = 1048578) (want fuel : Nat) (hw : want ≠ 0) :
    copyFile H (some (WriteFile H ⟨data, Err.eof⟩ 1048578 true).2) 1048577 1 true want
        (fuel + 1) = .ok ([], some Err.unexpectedEOF) ∧
    copyFile H (some (WriteFile H ⟨data, Err.eof⟩ 1048578 true).2) 1048577 1 false want
        (fuel + 2) = .ok ((data.drop 1048577).take 1, none) := by
  rw [WriteFile_two_blocks H data hlen]
  constructor
  · have hpb : (checksummedReader.mk (data.drop 1048576)
        ⟨H.hexSum (data.drop 1048576) ++ [10], ⟨H.hashLength, 1048576, 2, 1048578⟩, none⟩
        1 1 1 1048576 none 0 0).prepareBlock
        = (Buf.make 1048576, some ⟨[], 1048576, 1048576⟩) := by
      simp [checksummedReader.prepareBlock, Buf.sliceTo, Buf.make]
    obtain ⟨r', hr'⟩ := Read_short_block H
      ⟨data.drop 1048576,
        ⟨H.hexSum (data.drop 1048576) ++ [10], ⟨H.hashLength, 1048576, 2, 1048578⟩, none⟩,
        1, 1, 1, 1048576, none, 0, 0⟩
      (Buf.make 1048576) ⟨[], 1048576, 1048576⟩ (H.hexSum (data.drop 1048576)) [] want hw rfl
      (by show (0 : Int) ≠ 1; decide)
      hpb (hH _) (by simp)
      (by rw [List.length_drop, hlen]; decide)
      (by rw [List.length_drop, hlen]; decide)
    rw [copyFile_of_open H _ _ _ _ _ _ _ (OpenFile_in_final_block H data hH)]
    rw [drain_error H want fuel _ (FileReader.verified r') [] [] Err.unexpectedEOF
      (by rw [FileReader_Read_verified, hr']) (by decide)]
    rfl
  · have e1 : int64 ((1 : Nat) : Int) = 1 := by decide
    have e2 : (if (1048577 : Int) ≤ 9223372036854775807 - 1 then (1 : Int) + 1048577
        else 9223372036854775807) = 1048577 + 1 := by decide
    have hp : OpenFile (some ⟨data, some ⟨⟨H.hashLength, 1048576, 2, 1048578⟩,
        H.hexSum (data.take 1048576) ++ [10] ++ (H.hexSum (data.drop 1048576) ++ [10])⟩⟩)
        1048577 1 false = .ok (.plain ⟨data, 1048577, 1048577 + 1⟩) := by
      rw [OpenFile_plain_eq data _ 1048577 1 (by decide) (by rw [hlen]; decide)]
      simp only [NewSectionFileReader, e1, e2]
    have e3 : (1048577 : Int).toNat = 1048577 := by decide
    have h1 := SectionFileReader_read_one data 1048577 want (by rw [e3, hlen]; decide) hw
    rw [e3] at h1
    have h2 := SectionFileReader_read_end data (1048577 + 1) want
    rw [copyFile_of_open H _ _ _ _ _ _ _ hp]
    rw [drain_more H want (fuel + 1) _ (FileReader.plain ⟨data, 1048577 + 1, 1048577 + 1⟩) []
      ((data.drop 1048577).take 1) (by rw [FileReader_Read_plain, h1])]
    rw [drain_eof H want fuel _ (FileReader.plain ⟨data, 1048577 + 1, 1048577 + 1⟩) _ []
      (by rw [FileReader_Read_plain, h2])]
    simp only [List.append_nil, List.nil_append]

/-- Witness for C8: a file of 1 MiB + 2 zero bytes. -/
theorem OpenFile_verified_differs_from_plain_in_final_block_witness :
    copyFile sumHasher
        (some (WriteFile sumHasher ⟨List.replicate 1048578 0, Err.eof⟩ 1048578 true).2)
        1048577 1 true 1 (0 + 1) = .ok ([], some Err.unexpectedEOF) ∧
    copyFile sumHasher
        (some (WriteFile sumHasher ⟨List.replicate 1048578 0, Err.eof⟩ 1048578 true).2)
        1048577 1 false 1 (0 + 2) = .ok (((List.replicate 1048578 0).drop 1048577).take 1, none) :=
  OpenFile_verified_differs_from_plain_in_final_block sumHasher (fun _ => rfl)
    (List.replicate 1048578 0) (List.length_replicate 1048578 0) 1 0 (by decide)

/-- The same divergence on a small scale: with blocks of 4 bytes, a file of 10 bytes
and the window `offset = 9, length = 1`, the verified stream is an
`io.ErrUnexpectedEOF` and the plain stream is the byte `file[9]`. -/
theorem OpenFile_verified_differs_from_plain_small :
    copyFile sumHasher
        (some (WriteFileWith 4 sumHasher ⟨[1, 2, 3, 4, 5, 6, 7, 8, 9, 10], Err.eof⟩ 10 true).2)
        9 1 true 8 4 = .ok ([], some Err.unexpectedEOF) ∧
    copyFile sumHasher
        (some (WriteFileWith 4 sumHasher ⟨[1, 2, 3, 4, 5, 6, 7, 8, 9, 10], Err.eof⟩ 10 true).2)
        9 1 false 8 4 = .ok ([10], none) := by
  decide

/-- C7 (the code departs from the claim). (a) The one-block file `[1, 2, 3]` written
by `WriteFile`, its last byte changed to 4, read through `OpenFile(0, 3, bitrot)`:
the first `Read` returns the checksum mismatch, the second `Read` returns a clean
`io.EOF`.  (b) A file of three blocks (block size 4 in the sidecar header) whose
first block is corrupted, read for the window `[0, 8)`: the first `Read` returns
the checksum mismatch, the second `Read` goes on with the next digest line and
the next block and delivers the eight bytes of blocks 1 and 2, which lie outside
the window, without an error. -/
theorem checksummedReader_reads_on_after_mismatch :
    ((OpenFile (some { (WriteFile sumHasher ⟨[1, 2, 3], Err.eof⟩ 3 true).2 with
          data := [1, 2, 4] }) 0 3 true).map (fun rd =>
        ((rd.Read sumHasher 3).1, (rd.Read sumHasher 3).2.1,
          ((rd.Read sumHasher 3).2.2.Read sumHasher 3).1,
          ((rd.Read sumHasher 3).2.2.Read sumHasher 3).2.1)))
      = .ok ([], some Err.checksumMismatch, [], some Err.eof) ∧
    ((OpenFile (some { (WriteFileWith 4 sumHasher
            ⟨[1, 2, 3, 4, 5, 6, 7, 8, 9, 10, 11, 12], Err.eof⟩ 12 true).2 with
          data := [1, 2, 3, 9, 5, 6, 7, 8, 9, 10, 11, 12] }) 0 8 true).map (fun rd =>
        ((rd.Read sumHasher 8).1, (rd.Read sumHasher 8).2.1,
          ((rd.Read sumHasher 8).2.2.Read sumHasher 8).1,
          ((rd.Read sumHasher 8).2.2.Read sumHasher 8).2.1)))
      = .ok ([], some Err.checksumMismatch, [5, 6, 7, 8, 9, 10, 11, 12], none) := by
  decide

/-! ## Evaluations of the stripe engine and the readers -/

/-- C1 (the code departs from the claim). `N = 2`, `M = 1`, `shardSize = 1`, `size = 1`:
the input `[7]` fills data shard 0, and the `io.ReadFull` for data shard 1 meets the
end of the input with no byte read, which is `io.EOF` and not
`io.ErrUnexpectedEOF`; `readDataShards` (encode.go:82-92) returns it and `Write` fails
with `io.EOF` with all three writers healthy, nothing written to any shard. -/
theorem Write_fails_when_input_ends_on_shard_boundary :
    (erasure.Write xorCodec sumHasher healthyWriters (List.replicate 3 (Buf.make 1))
        ⟨2, 1, 1, 1, ["s0", "s1", "s2"]⟩ ⟨[7], Err.eof⟩ 3).result = .error Err.eof ∧
    (erasure.Write xorCodec sumHasher healthyWriters (List.replicate 3 (Buf.make 1))
        ⟨2, 1, 1, 1, ["s0", "s1", "s2"]⟩ ⟨[7], Err.eof⟩ 3).slots.map (fun sl => sl.sink)
      = [[], [], []] := by
  decide

/-- C2 (the code departs from the claim). An object of two parts of 2 and 3 bytes
(`[1, 2]` and `[3, 4, 5]`), window `offset = 5 = Size`, `length = 0`:
`CalcPartBoundaries` never finds the offset and returns every part, and the part
walker of the disk layer and the one of the erasure layer both deliver the whole
first part, `[1, 2]`, before EOF, where the window holds no byte. -/
theorem dataReader_offset_at_size_delivers_first_parts :
    dataspace.disk.copyData sumHasher
        (fun name =>
          if name = "a.part" then some (WriteFile sumHasher ⟨[1, 2], Err.eof⟩ 2 true).2
          else if name = "b.part" then some (WriteFile sumHasher ⟨[3, 4, 5], Err.eof⟩ 3 true).2
          else none)
        ⟨[⟨"a", 2⟩, ⟨"b", 3⟩], 5⟩ 5 0 8 4 = .ok ([1, 2], none) ∧
    dataspace.erasure.copyData xorCodec
        (erasure.shardFiles [("s0", [1, 2, 3, 4, 5]), ("s1", [1, 2, 3, 4, 5])])
        ⟨[⟨⟨1, 1, 2, 4, ["s0", "s1"]⟩, "a"⟩, ⟨⟨1, 1, 3, 4, ["s0", "s1"]⟩, "b"⟩], 5⟩ 5 0 8 4
      = .ok ([1, 2], none) := by
  decide

/-- C3 (the code departs from the claim). `N = 2`, `M = 1`, `shardSize = 4`, one stripe
holding `[10 .. 17]`, every shard reader healthy.  The window `offset = 1, length = 4`
starts inside data shard 0 and ends in data shard 1: the reader delivers
`[11, 12, 13, 13]` (the last byte is a stale byte of shard 0) instead of
`[11, 12, 13, 14]`.  The window `offset = 1, length = 7` delivers six bytes of the
data, then the parity buffer (never read, still zero), and runs past the shard
buffers (an index panic).  The window `offset = 4, length = 1` delivers byte 0 instead of byte 4. -/
theorem decodeReader_window_across_shards_in_one_stripe :
    erasure.copyStripes xorCodec
        (erasure.shardFiles [("s0", [10, 11, 12, 13]), ("s1", [14, 15, 16, 17]),
          ("s2", [4, 4, 28, 28])])
        (List.replicate 3 (Buf.make 4)) ⟨2, 1, 8, 4, ["s0", "s1", "s2"]⟩ 1 4 16 3
      = .ok ([11, 12, 13, 13], none) ∧
    erasure.copyStripes xorCodec
        (erasure.shardFiles [("s0", [10, 11, 12, 13]), ("s1", [14, 15, 16, 17]),
          ("s2", [4, 4, 28, 28])])
        (List.replicate 3 (Buf.make 4)) ⟨2, 1, 8, 4, ["s0", "s1", "s2"]⟩ 1 7 16 3
      = .ok ([11, 12, 13, 14, 15, 16, 0, 0, 0, 0], some (Err.panic "index out of range")) ∧
    erasure.copyStripes xorCodec
        (erasure.shardFiles [("s0", [10, 11, 12, 13]), ("s1", [14, 15, 16, 17]),
          ("s2", [4, 4, 28, 28])])
        (List.replicate 3 (Buf.make 4)) ⟨2, 1, 8, 4, ["s0", "s1", "s2"]⟩ 4 1 16 3
      = .ok ([10], none) := by
  decide

/-- C4 (the code departs from the claim). `N = 2`, `M = 2`, `shardSize = 1`, one stripe
`[1, 2]` with parity `3`; shards `s1` and `s2` (two, at most `M`) fail when read.
`readShards` counts the nil error slots of all opened shards on every round, so
the running `successCount` of `readBlock` counts shard `s0` twice and the loop stops
after one shard was read; reconstruction receives the parity buffer of `s3`, which
was never opened or read, and the reader delivers `[1, 1]`.  With no failing shard
it delivers `[1, 2]`. -/
theorem decodeReader_two_read_failures_wrong_bytes :
    erasure.copyStripes xorCodec
        (failingShardFiles [("s0", [1]), ("s1", [2]), ("s2", [3]), ("s3", [3])] []
          ["s1", "s2"])
        (List.replicate 4 (Buf.make 1)) ⟨2, 2, 2, 1, ["s0", "s1", "s2", "s3"]⟩ 0 2 16 3
      = .ok ([1, 1], none) ∧
    erasure.copyStripes xorCodec
        (failingShardFiles [("s0", [1]), ("s1", [2]), ("s2", [3]), ("s3", [3])] [] [])
        (List.replicate 4 (Buf.make 1)) ⟨2, 2, 2, 1, ["s0", "s1", "s2", "s3"]⟩ 0 2 16 3
      = .ok ([1, 2], none) := by
  decide

/-- C5 (the code departs from the claim). `N = 2`, `M = 1`; shards `s0` and `s1` (two,
more than `M`) fail to open.  The first pass of `populate` opens slots 0 and 1 and
keeps `count = 2`; the second pass has `readersLen = 2 ≠ 3 = len(readers)`, so the
guard of decode.go:41 does not fire, and its second goroutine indexes slot 3 of
arrays of length 3: the read ends in an index-out-of-range panic, not in the
"too many read errors" error. -/
theorem decodeReader_populate_indexes_past_the_shards :
    erasure.copyStripes xorCodec
        (failingShardFiles [("s0", [1]), ("s1", [2]), ("s2", [3])] ["s0", "s1"] [])
        (List.replicate 3 (Buf.make 1)) ⟨2, 1, 2, 1, ["s0", "s1", "s2"]⟩ 0 2 16 3
      = .ok ([], some (Err.panic "index out of range")) := by
  decide

/-! ## Evaluations for the part windows, the digests and the window guards -/

/-- C11 (the code departs from the claim). Parts of 2 and 3 bytes, window
`offset = 5 = sum(partSizes)`, `length = 0`: every part satisfies
`partSize <= offset`, the loop of `CalcPartBoundaries` never finds the offset and
returns `(0, 2, 0, 0)`; reading parts 0 .. 1 by that result gives the two bytes of
part 0, where bytes `[5, 5)` of the concatenation are no bytes at all.  One byte
earlier, at `offset = 4, length = 1`, the result selects exactly the window. -/
theorem CalcPartBoundaries_offset_at_sum_selects_first_parts :
    CalcPartBoundaries [2, 3] 5 0 = (0, 2, 0, 0) ∧
    readSelected [[1, 2], [3, 4, 5]] (CalcPartBoundaries [2, 3] 5 0) = some [1, 2] ∧
    (([1, 2] ++ [3, 4, 5] : List Byte).drop 5).take 0 = [] ∧
    readSelected [[1, 2], [3, 4, 5]] (CalcPartBoundaries [2, 3] 4 1) = some [5] := by
  decide

/-- C14 (the code departs from the claim). `N = 2`, `M = 1`, `minSuccessWriters = 2`,
one stripe `[1, 2, 3, 4]`.  When `getShardWriter` fails for shard `s1`, `Write`
succeeds and the entry of `s1` is the digest of the empty input (its hasher is
created after the acquisition and never set to nil, encode.go:101-104), not the
empty string; when the writer of `s1` is acquired and its write fails, the hasher
is set to nil (encode.go:118) and the entry is the empty string. -/
theorem Write_shard_digest_of_unacquired_writer (H : Hasher) :
    (erasure.Write xorCodec H
        (fun id => if id = "s1" then .error (Err.other "open") else .ok ⟨[], none⟩)
        (List.replicate 3 (Buf.make 2)) ⟨2, 1, 4, 2, ["s0", "s1", "s2"]⟩
        ⟨[1, 2, 3, 4], Err.eof⟩ 2).result
      = .ok ([H.hexSum [1, 2], H.hexSum [], H.hexSum [2, 6]], H.hexSum [1, 2, 3, 4]) ∧
    (erasure.Write xorCodec H
        (fun id => if id = "s1" then .ok ⟨[], some 0⟩ else .ok ⟨[], none⟩)
        (List.replicate 3 (Buf.make 2)) ⟨2, 1, 4, 2, ["s0", "s1", "s2"]⟩
        ⟨[1, 2, 3, 4], Err.eof⟩ 2).result
      = .ok ([H.hexSum [1, 2], [], H.hexSum [2, 6]], H.hexSum [1, 2, 3, 4]) :=
  ⟨rfl, rfl⟩

/-- C19 (the code departs from the claim). A file and a part of 5 bytes, and the
`uint64` length `2^64 - 1`, which `int64(length)` turns into `-1`.
`OpenFile(offset = 0)` passes the guard `offset + dataLength > size` and returns a
reader made by `CalcBoundaries` with length `-1`; `OpenFile(offset = -1)` turns the
offset into `size + 1 = 6`, passes the guard with `6 + (-1) = 5` and `CalcBoundaries`
panics; both `newDataReader`s return a reader for `offset = 0` and for
`offset = -1`; `NewReader(offset = 1)` computes `uint64(1) + (2^64 - 1) = 0` and
returns a reader. -/
theorem window_guards_accept_length_above_int64 :
    (OpenFile (some (WriteFileWith 4 sumHasher ⟨[1, 2, 3, 4, 5], Err.eof⟩ 5 true).2)
        0 18446744073709551615 true).map
        (fun rd => match rd with
          | .verified r => some (r.blocksToRead, r.bytesToReadInLastBlock)
          | .plain _ => none) = .ok (some (0, -1)) ∧
    OpenFile (some (WriteFileWith 4 sumHasher ⟨[1, 2, 3, 4, 5], Err.eof⟩ 5 true).2)
        (-1) 18446744073709551615 true
      = .error (Err.panic "invalid offset/length for size") ∧
    (dataspace.disk.newDataReader ⟨[⟨"1", 5⟩], 5⟩ 0 18446744073709551615).map
        (fun dr => (dr.bytesToSkip, dr.bytesToRead)) = .ok (0, -1) ∧
    (dataspace.disk.newDataReader ⟨[⟨"1", 5⟩], 5⟩ (-1) 18446744073709551615).map
        (fun dr => (dr.bytesToSkip, dr.bytesToRead)) = .ok (1, -1) ∧
    (dataspace.erasure.newDataReader ⟨[⟨⟨2, 1, 5, 2, ["s0", "s1", "s2"]⟩, "1"⟩], 5⟩
        0 18446744073709551615).map
        (fun dr => (dr.bytesToSkip, dr.bytesToRead)) = .ok (0, -1) ∧
    (dataspace.erasure.newDataReader ⟨[⟨⟨2, 1, 5, 2, ["s0", "s1", "s2"]⟩, "1"⟩], 5⟩
        (-1) 18446744073709551615).map
        (fun dr => (dr.bytesToSkip, dr.bytesToRead)) = .ok (1, -1) ∧
    (erasure.NewReader xorCodec (List.replicate 3 (Buf.make 2))
        ⟨2, 1, 5, 2, ["s0", "s1", "s2"]⟩ 1 18446744073709551615).map
        (fun dr => (dr.bytesToSkipInFirstBlock, dr.bytesToReadInLastBlock))
      = .ok (1, 18446744073709551615) := by
  decide

/-- C20 (the code departs from the claim). An object with no parts, `Get(0, 0)`:
`newDataReader` of the disk layer and of the erasure layer both return a reader
over an empty part list, and the first `Read` indexes part 0 of it
(`requiredParts[dr.index]`, `parts[dr.index]`): an index-out-of-range panic, not
EOF.  With one part of size 0 the first `Read` of the disk layer reports EOF
with no byte. -/
theorem dataReader_Read_of_no_parts_indexes_part_zero :
    (dataspace.disk.newDataReader ⟨[], 0⟩ 0 0).map
        (fun dr => ((dr.Read sumHasher (fun _ => none) 16).1,
          (dr.Read sumHasher (fun _ => none) 16).2.1))
      = .ok ([], some (Err.panic "index out of range")) ∧
    (dataspace.erasure.newDataReader ⟨[], 0⟩ 0 0).map
        (fun dr => ((dr.Read xorCodec (erasure.shardFiles []) 16).1,
          (dr.Read xorCodec (erasure.shardFiles []) 16).2.1))
      = .ok ([], some (Err.panic "index out of range")) ∧
    (dataspace.disk.newDataReader ⟨[⟨"1", 0⟩], 0⟩ 0 0).map
        (fun dr => ((dr.Read sumHasher
            (fun _ => some (WriteFile sumHasher ⟨[], Err.eof⟩ 0 true).2) 16).1,
          (dr.Read sumHasher
            (fun _ => some (WriteFile sumHasher ⟨[], Err.eof⟩ 0 true).2) 16).2.1))
      = .ok ([], some Err.eof) := by
  decide

/-! ## pkg/erasure: Info.Compute -/

/-- The ceiling of a quotient of naturals, from the two inequalities that pin it. -/
theorem natCeil_div_eq (a b n : Nat) (hb : 0 < b) (h1 : a ≤ n * b)
    (h2 : n = 0 ∨ (n - 1) * b < a) : ⌈(a : ℚ) / (b : ℚ)⌉₊ = n := by
  have hbq : (0 : ℚ) < (b : ℚ) := by exact_mod_cast hb
  apply le_antisymm
  · rw [Nat.ceil_le, div_le_iff₀ hbq]
    exact_mod_cast h1
  · rcases h2 with h2 | h2
    · omega
    · have : n - 1 < ⌈(a : ℚ) / (b : ℚ)⌉₊ := by
        rw [Nat.lt_ceil, lt_div_iff₀ hbq]
        exact_mod_cast h2
      omega

/-- C12. For `DataCount = N ≥ 1` and `ShardSize ≥ 1`, with `N * ShardSize` and
`Size + N` below `2^64`, `Info.Compute` returns (it does not panic) with
`blockSize = N * ShardSize`, `blockCount = ⌈Size / blockSize⌉`,
`lastBlockSize = Size - (blockCount - 1) * blockSize` (as integers, so `blockSize` for
`Size = 0`), and `lastShardSize = ⌈lastBlockSize / N⌉` when `lastBlockSize < blockSize`
and `ShardSize` otherwise. -/
theorem Info_Compute_derived_quantities (info : erasure.Info) (hN : 1 ≤ info.DataCount)
    (hS : 1 ≤ info.ShardSize)
    (hbs : info.DataCount * info.ShardSize < 18446744073709551616)
    (hsz : info.Size + info.DataCount < 18446744073709551616) :
    ∃ blockCount blockSize lastBlockSize lastShardSize : Nat,
      info.Compute = some (blockCount, blockSize, lastBlockSize, lastShardSize) ∧
      blockSize = info.DataCount * info.ShardSize ∧
      blockCount = ⌈(info.Size : ℚ) / (blockSize : ℚ)⌉₊ ∧
      (lastBlockSize : Int) = (info.Size : Int) - ((blockCount : Int) - 1) * (blockSize : Int) ∧
      lastShardSize = (if lastBlockSize < blockSize
        then ⌈(lastBlockSize : ℚ) / (info.DataCount : ℚ)⌉₊ else info.ShardSize) := by
  obtain ⟨N, M, Z, S, ids⟩ := info
  simp only at hN hS hbs hsz ⊢
  have hpos : 0 < N * S := Nat.mul_pos hN hS
  have hdm := Nat.div_add_mod Z (N * S)
  have hml := Nat.mod_lt Z hpos
  have hsub : Z - Z / (N * S) * (N * S) = Z % (N * S) := by
    have : Z / (N * S) * (N * S) = N * S * (Z / (N * S)) := Nat.mul_comm _ _
    omega
  unfold erasure.Info.Compute
  simp only [Nat.mod_eq_of_lt hbs, hsub]
  have hne : ¬ (N * S = 0 ∨ N = 0) := by omega
  rw [if_neg hne]
  by_cases hr : Z % (N * S) > 0
  · rw [if_pos hr]
    have hlt : (Z % (N * S) + N - 1) < 18446744073709551616 := by
      have := Nat.mod_le Z (N * S); omega
    rw [Nat.mod_eq_of_lt hlt]
    refine ⟨_, _, _, _, rfl, rfl, ?_, ?_, ?_⟩
    · symm
      apply natCeil_div_eq _ _ _ hpos
      · rw [Nat.add_mul]; have : Z / (N * S) * (N * S) = N * S * (Z / (N * S)) := Nat.mul_comm _ _
        omega
      · right
        have : Z / (N * S) * (N * S) = N * S * (Z / (N * S)) := Nat.mul_comm _ _
        simp only [Nat.add_sub_cancel]; omega
    · have h5 : Z / (N * S) * (N * S) + Z % (N * S) = Z := by
        have := Nat.mul_comm (Z / (N * S)) (N * S)
        omega
      have : ((Z / (N * S) : Nat) : Int) * ((N * S : Nat) : Int)
          + ((Z % (N * S) : Nat) : Int) = (Z : Int) := by
        exact_mod_cast h5
      push_cast at this ⊢
      linarith
    · rw [if_pos hml]
      symm
      apply natCeil_div_eq _ _ _ (by omega)
      · have := Nat.div_add_mod (Z % (N * S) + N - 1) N
        have := Nat.mod_lt (Z % (N * S) + N - 1) (show 0 < N by omega)
        have : (Z % (N * S) + N - 1) / N * N = N * ((Z % (N * S) + N - 1) / N) := Nat.mul_comm _ _
        omega
      · right
        have := Nat.div_add_mod (Z % (N * S) + N - 1) N
        have := Nat.mod_lt (Z % (N * S) + N - 1) (show 0 < N by omega)
        have h3 : ((Z % (N * S) + N - 1) / N - 1) * N = N * ((Z % (N * S) + N - 1) / N) - N := by
          rw [Nat.sub_mul, Nat.one_mul, Nat.mul_comm]
        omega
  · rw [if_neg hr]
    have hz : Z % (N * S) = 0 := by omega
    refine ⟨_, _, _, _, rfl, rfl, ?_, ?_, ?_⟩
    · symm
      apply natCeil_div_eq _ _ _ hpos
      · have : Z / (N * S) * (N * S) = N * S * (Z / (N * S)) := Nat.mul_comm _ _
        omega
      · by_cases hq : Z / (N * S) = 0
        · left; exact hq
        · right
          have h3 : (Z / (N * S) - 1) * (N * S) = N * S * (Z / (N * S)) - N * S := by
            rw [Nat.sub_mul, Nat.one_mul, Nat.mul_comm]
          have h4 : N * S ≤ N * S * (Z / (N * S)) := Nat.le_mul_of_pos_right _ (Nat.pos_of_ne_zero hq)
          omega
    · have h5 : Z / (N * S) * (N * S) = Z := by
        have := Nat.mul_comm (Z / (N * S)) (N * S)
        omega
      have : ((Z / (N * S) : Nat) : Int) * ((N * S : Nat) : Int) = (Z : Int) := by
        exact_mod_cast h5
      push_cast at this ⊢
      linarith
    · rw [if_neg (lt_irrefl _)]

/-- The theorem at the case `Info{4, 4, 32283, MiB}` of `TestInfoCompute`. -/
theorem Info_Compute_derived_quantities_witness :
    ∃ blockCount blockSize lastBlockSize lastShardSize : Nat,
      (⟨4, 4, 32283, 1048576, []⟩ : erasure.Info).Compute
        = some (blockCount, blockSize, lastBlockSize, lastShardSize) ∧
      blockSize = 4 * 1048576 ∧
      blockCount = ⌈((32283 : Nat) : ℚ) / (blockSize : ℚ)⌉₊ ∧
      (lastBlockSize : Int) = ((32283 : Nat) : Int) - ((blockCount : Int) - 1) * (blockSize : Int) ∧
      lastShardSize = (if lastBlockSize < blockSize
        then ⌈(lastBlockSize : ℚ) / ((4 : Nat) : ℚ)⌉₊ else 1048576) :=
  Info_Compute_derived_quantities ⟨4, 4, 32283, 1048576, []⟩ (by decide) (by decide)
    (by decide) (by decide)

/-! ## The erasure group -/

theorem successCount_map {D : Type} (f : D → Option Err × D) (disks : List D) :
    dataspace.erasure.successCount ((disks.map f).map Prod.fst)
      = disks.countP (fun d => (f d).1.isNone) := by
  unfold dataspace.erasure.successCount
  rw [List.map_map, List.countP_map]
  rfl

theorem fanOut_err {D : Type} (forward revert : D → Option Err × D)
    (ds : dataspace.erasure.Erasure D) :
    (dataspace.erasure.Erasure.fanOut forward revert ds).err = none ↔
      ds.minSuccess ≤ ds.shardDisks.countP (fun d => (forward d).1.isNone) := by
  unfold dataspace.erasure.Erasure.fanOut
  simp only [successCount_map]
  split_ifs with h
  · simp only [true_iff]; exact h
  · simp only [reduceCtorEq, false_iff]; exact h

/-- C16. For `RemoveTempFile`, `InitUpload`, `UploadPart`, `AbortUpload` and
`CompleteUpload` of an erasure group over any shard disks, the group call returns
no error exactly when the number of shard disks whose per-disk call returned no
error is at least `minSuccess` (for `CompleteUpload`: when `Compute` panics on no
part, so that the fan-out is reached, the per-disk call being made with the part
list `diskParts` of the first loop). -/
theorem Erasure_group_succeeds_iff_quorum {D : Type} (ops : dataspace.erasure.DiskOps D)
    (ds : dataspace.erasure.Erasure D) (filename uploadID partID tempFile dataID : String)
    (bitrotProtection : Bool) (parts : List dataspace.erasure.Part)
    (diskParts : List dataspace.disk.Part) (size : Nat)
    (hparts : dataspace.erasure.Erasure.diskParts parts = some (diskParts, size)) :
    ((dataspace.erasure.Erasure.RemoveTempFile ops ds filename bitrotProtection).err = none ↔
      ds.minSuccess ≤ ds.shardDisks.countP
        (fun d => (ops.RemoveTempFile filename bitrotProtection d).1.isNone)) ∧
    ((dataspace.erasure.Erasure.InitUpload ops ds uploadID).err = none ↔
      ds.minSuccess ≤ ds.shardDisks.countP (fun d => (ops.InitUpload uploadID d).1.isNone)) ∧
    ((dataspace.erasure.Erasure.UploadPart ops ds uploadID partID tempFile).err = none ↔
      ds.minSuccess ≤ ds.shardDisks.countP
        (fun d => (ops.UploadPart uploadID partID tempFile d).1.isNone)) ∧
    ((dataspace.erasure.Erasure.AbortUpload ops ds uploadID).err = none ↔
      ds.minSuccess ≤ ds.shardDisks.countP (fun d => (ops.AbortUpload uploadID d).1.isNone)) ∧
    ((dataspace.erasure.Erasure.CompleteUpload ops ds dataID uploadID parts).1.isOk = true ↔
      ds.minSuccess ≤ ds.shardDisks.countP
        (fun d => (ops.CompleteUpload dataID uploadID diskParts d).1.isNone)) := by
  refine ⟨?_, fanOut_err _ _ ds, fanOut_err _ _ ds, fanOut_err _ _ ds, ?_⟩
  · unfold dataspace.erasure.Erasure.RemoveTempFile
    simp only [successCount_map]
    split_ifs with h
    · simp only [reduceCtorEq, false_iff]; omega
    · simp only [true_iff]; omega
  · rw [← fanOut_err (ops.CompleteUpload dataID uploadID diskParts)
      (ops.RevertCompleteUpload dataID uploadID diskParts) ds]
    unfold dataspace.erasure.Erasure.CompleteUpload
    rw [hparts]
    simp only []
    cases (dataspace.erasure.Erasure.fanOut (ops.CompleteUpload dataID uploadID diskParts)
      (ops.RevertCompleteUpload dataID uploadID diskParts) ds).err with
    | none => simp [Except.isOk, Except.toBool]
    | some e => simp [Except.isOk, Except.toBool]

/-- The theorem on three shard disks of which the last two fail, `minSuccess = 2`,
and one part `Info{2, 1, 5, 2}`. -/
theorem Erasure_group_succeeds_iff_quorum_witness :
    ((dataspace.erasure.Erasure.RemoveTempFile logDiskOps
        ⟨[⟨false, []⟩, ⟨true, []⟩, ⟨true, []⟩], 2⟩ "f" true).err = none ↔
      2 ≤ ([⟨false, []⟩, ⟨true, []⟩, ⟨true, []⟩] : List LogDisk).countP
        (fun d => (logDiskOps.RemoveTempFile "f" true d).1.isNone)) ∧
    ((dataspace.erasure.Erasure.InitUpload logDiskOps
        ⟨[⟨false, []⟩, ⟨true, []⟩, ⟨true, []⟩], 2⟩ "u").err = none ↔
      2 ≤ ([⟨false, []⟩, ⟨true, []⟩, ⟨true, []⟩] : List LogDisk).countP
        (fun d => (logDiskOps.InitUpload "u" d).1.isNone)) ∧
    ((dataspace.erasure.Erasure.UploadPart logDiskOps
        ⟨[⟨false, []⟩, ⟨true, []⟩, ⟨true, []⟩], 2⟩ "u" "p" "t").err = none ↔
      2 ≤ ([⟨false, []⟩, ⟨true, []⟩, ⟨true, []⟩] : List LogDisk).countP
        (fun d => (logDiskOps.UploadPart "u" "p" "t" d).1.isNone)) ∧
    ((dataspace.erasure.Erasure.AbortUpload logDiskOps
        ⟨[⟨false, []⟩, ⟨true, []⟩, ⟨true, []⟩], 2⟩ "u").err = none ↔
      2 ≤ ([⟨false, []⟩, ⟨true, []⟩, ⟨true, []⟩] : List LogDisk).countP
        (fun d => (logDiskOps.AbortUpload "u" d).1.isNone)) ∧
    ((dataspace.erasure.Erasure.CompleteUpload logDiskOps
        ⟨[⟨false, []⟩, ⟨true, []⟩, ⟨true, []⟩], 2⟩ "d" "u"
        [⟨⟨2, 1, 5, 2, ["s0", "s1", "s2"]⟩, "p"⟩]).1.isOk = true ↔
      2 ≤ ([⟨false, []⟩, ⟨true, []⟩, ⟨true, []⟩] : List LogDisk).countP
        (fun d => (logDiskOps.CompleteUpload "d" "u" [⟨"p", 3⟩] d).1.isNone)) :=
  Erasure_group_succeeds_iff_quorum logDiskOps ⟨[⟨false, []⟩, ⟨true, []⟩, ⟨true, []⟩], 2⟩
    "f" "u" "p" "t" "d" true [⟨⟨2, 1, 5, 2, ["s0", "s1", "s2"]⟩, "p"⟩] [⟨"p", 3⟩] 5
    (by decide)

/-- C17 (the code departs from the claim). Three shard disks of which disks 1 and 2
fail the forward call, `minSuccess = 2`: the call fails the quorum, and the second
fan-out of `InitUpload`, `UploadPart`, `AbortUpload` and `CompleteUpload` calls the
paired revert on disks 1 and 2, whose forward call failed (`errs[i] != nil`), and
not on disk 0, the only one whose forward call succeeded. -/
theorem Erasure_revert_runs_on_the_failed_disks :
    (dataspace.erasure.Erasure.InitUpload logDiskOps
        ⟨[⟨false, []⟩, ⟨true, []⟩, ⟨true, []⟩], 2⟩ "u").shardDisks.map (fun d => d.calls)
      = [["InitUpload"], ["InitUpload", "RevertInitUpload"],
          ["InitUpload", "RevertInitUpload"]] ∧
    (dataspace.erasure.Erasure.UploadPart logDiskOps
        ⟨[⟨false, []⟩, ⟨true, []⟩, ⟨true, []⟩], 2⟩ "u" "p" "t").shardDisks.map
        (fun d => d.calls)
      = [["UploadPart"], ["UploadPart", "RevertUploadPart"],
          ["UploadPart", "RevertUploadPart"]] ∧
    (dataspace.erasure.Erasure.AbortUpload logDiskOps
        ⟨[⟨false, []⟩, ⟨true, []⟩, ⟨true, []⟩], 2⟩ "u").shardDisks.map (fun d => d.calls)
      = [["AbortUpload"], ["AbortUpload", "RevertAbortUpload"],
          ["AbortUpload", "RevertAbortUpload"]] ∧
    (dataspace.erasure.Erasure.CompleteUpload logDiskOps
        ⟨[⟨false, []⟩, ⟨true, []⟩, ⟨true, []⟩], 2⟩ "d" "u"
        [⟨⟨2, 1, 5, 2, ["s0", "s1", "s2"]⟩, "p"⟩]).2.shardDisks.map (fun d => d.calls)
      = [["CompleteUpload"], ["CompleteUpload", "RevertCompleteUpload"],
          ["CompleteUpload", "RevertCompleteUpload"]] ∧
    (dataspace.erasure.Erasure.InitUpload logDiskOps
        ⟨[⟨false, []⟩, ⟨true, []⟩, ⟨true, []⟩], 2⟩ "u").errs.map (fun e => e.isSome)
      = [false, true, true] ∧
    (dataspace.erasure.Erasure.InitUpload logDiskOps
        ⟨[⟨false, []⟩, ⟨true, []⟩, ⟨true, []⟩], 2⟩ "u").reverted = [false, true, true] := by
  decide

theorem diskPartList_spec (parts : List dataspace.erasure.Part) :
    ∀ diskParts : List dataspace.disk.Part,
      dataspace.erasure.Erasure.diskPartList parts = some diskParts →
      diskParts.map (fun p => p.ID) = parts.map (fun p => p.ID) ∧
      ∀ (i : Nat) (p : dataspace.erasure.Part), parts.get? i = some p →
        ∃ blockCount blockSize lastBlockSize lastShardSize : Nat,
          p.Info.Compute = some (blockCount, blockSize, lastBlockSize, lastShardSize) ∧
          (diskParts.get? i).map (fun q => q.Size)
            = some (uint64 ((lastShardSize : Int)
                + ((blockCount : Int) - 1) * (p.Info.ShardSize : Int))) := by
  induction parts with
  | nil =>
    intro diskParts h
    simp only [dataspace.erasure.Erasure.diskPartList, Option.some.injEq] at h
    subst h
    exact ⟨rfl, fun i p hp => by simp at hp⟩
  | cons part parts ih =>
    intro diskParts h
    unfold dataspace.erasure.Erasure.diskPartList at h
    cases hsz : dataspace.erasure.shardPartSize part with
    | none => rw [hsz] at h; simp at h
    | some sz =>
      cases hrest : dataspace.erasure.Erasure.diskPartList parts with
      | none => rw [hsz, hrest] at h; simp at h
      | some rest =>
        rw [hsz, hrest] at h
        simp only [Option.some.injEq] at h
        subst h
        obtain ⟨hids, hsizes⟩ := ih rest hrest
        refine ⟨by simp only [List.map_cons, hids], ?_⟩
        intro i p hp
        cases i with
        | zero =>
          simp only [List.get?_cons_zero, Option.some.injEq] at hp
          subst hp
          unfold dataspace.erasure.shardPartSize at hsz
          cases hc : part.Info.Compute with
          | none => rw [hc] at hsz; simp at hsz
          | some c =>
            rw [hc] at hsz
            simp only [Option.map_some', Option.some.injEq] at hsz
            obtain ⟨bc, bs, lbs, lss⟩ := c
            exact ⟨bc, bs, lbs, lss, rfl, by simp only [List.get?_cons_zero, Option.map_some', hsz]⟩
        | succ i =>
          simp only [List.get?_cons_succ] at hp ⊢
          exact hsizes i p hp

theorem foldl_size_mod (parts : List dataspace.erasure.Part) :
    ∀ a : Nat,
      parts.foldl (fun size part => (size + part.Info.Size) % 18446744073709551616)
          (a % 18446744073709551616)
        = (a + (parts.map (fun p => p.Info.Size)).sum) % 18446744073709551616 := by
  induction parts with
  | nil => intro a; simp
  | cons part parts ih =>
    intro a
    simp only [List.foldl_cons, List.map_cons, List.sum_cons]
    rw [ih (a % 18446744073709551616 + part.Info.Size)]
    omega

theorem fanOut_of_quorum {D : Type} (forward revert : D → Option Err × D)
    (ds : dataspace.erasure.Erasure D)
    (h : (dataspace.erasure.Erasure.fanOut forward revert ds).err = none) :
    (dataspace.erasure.Erasure.fanOut forward revert ds).errs
      = ds.shardDisks.map (fun d => (forward d).1) ∧
    (dataspace.erasure.Erasure.fanOut forward revert ds).shardDisks
      = ds.shardDisks.map (fun d => (forward d).2) := by
  unfold dataspace.erasure.Erasure.fanOut at h ⊢
  simp only [] at h ⊢
  split_ifs at h ⊢ with hq
  simp only [List.map_map]
  exact ⟨rfl, rfl⟩

/-- C18. When `Erasure.CompleteUpload` returns a `DataInfo`, its `Parts` are the given
parts, unchanged and in order, and its `Size` is the sum of the parts' `Info.Size`
(accumulated in `uint64`: the sum modulo `2^64`, the sum itself when it is below
`2^64`); every shard disk receives the per-disk `CompleteUpload` call with one part
list `diskParts`, which has the ids of the given parts in the same order and as
`i`-th size `lastShardSize + (blockCount-1)*ShardSize` in `uint64`, with `blockCount`
and `lastShardSize` as `Compute` returns them for the `i`-th part. -/
theorem Erasure_CompleteUpload_returns_parts_and_sizes {D : Type}
    (ops : dataspace.erasure.DiskOps D) (ds : dataspace.erasure.Erasure D)
    (dataID uploadID : String) (parts : List dataspace.erasure.Part)
    (info : dataspace.erasure.DataInfo)
    (h : (dataspace.erasure.Erasure.CompleteUpload ops ds dataID uploadID parts).1 = .ok info) :
    info.Parts = parts ∧
    info.Size = (parts.map (fun p => p.Info.Size)).sum % 18446744073709551616 ∧
    ((parts.map (fun p => p.Info.Size)).sum < 18446744073709551616 →
      info.Size = (parts.map (fun p => p.Info.Size)).sum) ∧
    ∃ diskParts : List dataspace.disk.Part,
      diskParts.map (fun p => p.ID) = parts.map (fun p => p.ID) ∧
      (∀ (i : Nat) (p : dataspace.erasure.Part), parts.get? i = some p →
        ∃ blockCount blockSize lastBlockSize lastShardSize : Nat,
          p.Info.Compute = some (blockCount, blockSize, lastBlockSize, lastShardSize) ∧
          (diskParts.get? i).map (fun q => q.Size)
            = some (uint64 ((lastShardSize : Int)
                + ((blockCount : Int) - 1) * (p.Info.ShardSize : Int)))) ∧
      (dataspace.erasure.Erasure.CompleteUpload ops ds dataID uploadID parts).2.errs
        = ds.shardDisks.map (fun d => (ops.CompleteUpload dataID uploadID diskParts d).1) ∧
      (dataspace.erasure.Erasure.CompleteUpload ops ds dataID uploadID parts).2.shardDisks
        = ds.shardDisks.map (fun d => (ops.CompleteUpload dataID uploadID diskParts d).2) := by
  unfold dataspace.erasure.Erasure.CompleteUpload at h ⊢
  unfold dataspace.erasure.Erasure.diskParts at h ⊢
  cases hl : dataspace.erasure.Erasure.diskPartList parts with
  | none => rw [hl] at h; simp at h
  | some diskParts =>
    rw [hl] at h
    simp only [Option.map_some'] at h ⊢
    have hsum := foldl_size_mod parts 0
    simp only [Nat.zero_mod, Nat.zero_add] at hsum
    obtain ⟨hids, hsizes⟩ := diskPartList_spec parts diskParts hl
    cases he : (dataspace.erasure.Erasure.fanOut (ops.CompleteUpload dataID uploadID diskParts)
        (ops.RevertCompleteUpload dataID uploadID diskParts) ds).err with
    | some e => rw [he] at h; simp at h
    | none =>
      rw [he] at h
      simp only [Except.ok.injEq] at h
      subst h
      simp only [he]
      obtain ⟨herrs, hdisks⟩ := fanOut_of_quorum _ _ ds he
      exact ⟨trivial, hsum, fun hlt => by rw [hsum, Nat.mod_eq_of_lt hlt], diskParts, hids,
        hsizes, herrs, hdisks⟩

/-- The theorem on three healthy shard disks with two parts, `Info{2, 1, 5, 2}` and
`Info{2, 1, 0, 2}`. -/
theorem Erasure_CompleteUpload_returns_parts_and_sizes_witness :
    (⟨[⟨⟨2, 1, 5, 2, ["s0", "s1", "s2"]⟩, "p"⟩, ⟨⟨2, 1, 0, 2, ["s0", "s1", "s2"]⟩, "q"⟩], 5⟩
        : dataspace.erasure.DataInfo).Parts
      = [⟨⟨2, 1, 5, 2, ["s0", "s1", "s2"]⟩, "p"⟩, ⟨⟨2, 1, 0, 2, ["s0", "s1", "s2"]⟩, "q"⟩] ∧
    (5 : Nat) = (([⟨⟨2, 1, 5, 2, ["s0", "s1", "s2"]⟩, "p"⟩,
        ⟨⟨2, 1, 0, 2, ["s0", "s1", "s2"]⟩, "q"⟩] : List dataspace.erasure.Part).map
          (fun p => p.Info.Size)).sum % 18446744073709551616 :=
  have h := Erasure_CompleteUpload_returns_parts_and_sizes logDiskOps
    ⟨[⟨false, []⟩, ⟨false, []⟩, ⟨false, []⟩], 2⟩ "d" "u"
    [⟨⟨2, 1, 5, 2, ["s0", "s1", "s2"]⟩, "p"⟩, ⟨⟨2, 1, 0, 2, ["s0", "s1", "s2"]⟩, "q"⟩]
    ⟨[⟨⟨2, 1, 5, 2, ["s0", "s1", "s2"]⟩, "p"⟩, ⟨⟨2, 1, 0, 2, ["s0", "s1", "s2"]⟩, "q"⟩], 5⟩
    (by decide)
  ⟨h.1, h.2.1⟩

/-! ## pkg/erasure: the quorum of Write -/

theorem padTake_length (l : List Byte) (n : Nat) : (padTake l n).length = n := by
  unfold padTake
  simp only [List.length_take, List.length_append, List.length_replicate]
  omega

theorem Buf_view_length (b : Buf) : b.view.length = b.len := padTake_length _ _

theorem Buf_setView_view (b : Buf) (v : List Byte) : (b.setView v).view = v := by
  unfold Buf.setView Buf.view padTake
  simp only [List.append_assoc]
  rw [List.take_append_of_le_length (le_refl _), List.take_length]

theorem setViews_length (bs : List Buf) : ∀ vs : List (List Byte),
    (setViews bs vs).length = bs.length := by
  induction bs with
  | nil => intro vs; rfl
  | cons b bs ih =>
    intro vs
    cases vs with
    | nil => rfl
    | cons v vs => simp only [setViews, List.length_cons, ih]

theorem setViews_view (bs : List Buf) : ∀ vs : List (List Byte), vs.length = bs.length →
    (setViews bs vs).map Buf.view = vs := by
  induction bs with
  | nil => intro vs h; cases vs with
    | nil => rfl
    | cons v vs => simp at h
  | cons b bs ih =>
    intro vs h
    cases vs with
    | nil => simp at h
    | cons v vs =>
      simp only [List.length_cons, Nat.add_right_cancel_iff] at h
      simp only [setViews, List.map_cons, Buf_setView_view, ih vs h]

theorem setViews_shape (L S : Nat) (bs : List Buf) : ∀ vs : List (List Byte),
    vs.length = bs.length → (∀ b ∈ bs, S ≤ b.cap) → (∀ v ∈ vs, v.length = L) →
    ∀ b ∈ setViews bs vs, b.len = L ∧ S ≤ b.cap := by
  induction bs with
  | nil => intro vs _ _ _ b hb; cases vs <;> simp [setViews] at hb
  | cons b0 bs ih =>
    intro vs h hcap hlen b hb
    cases vs with
    | nil => simp at h
    | cons v vs =>
      simp only [List.length_cons, Nat.add_right_cancel_iff] at h
      simp only [setViews, List.mem_cons] at hb
      rcases hb with hb | hb
      · subst hb
        have h1 := hlen v (List.mem_cons_self _ _)
        have h2 := hcap b0 (List.mem_cons_self _ _)
        simp only [Buf.setView]
        omega
      · exact ih vs h (fun b hb => hcap b (List.mem_cons_of_mem _ hb))
          (fun v hv => hlen v (List.mem_cons_of_mem _ hv)) b hb

theorem mem_set_shape (L S : Nat) (shards : List Buf) (s : Nat) (sh : Buf)
    (hsh : sh.len = L ∧ S ≤ sh.cap) (h : ∀ b ∈ shards, b.len = L ∧ S ≤ b.cap) :
    ∀ b ∈ shards.set s sh, b.len = L ∧ S ≤ b.cap := by
  intro b hb
  rcases List.mem_or_eq_of_mem_set hb with hb | hb
  · exact h b hb
  · subst hb; exact hsh

theorem SlotAt_length (k : Nat) (acqs : List (Except Err erasure.Writer))
    (slots : List erasure.WriteSlot) (h : List.Forall₂ (erasure.SlotAt k) acqs slots) :
    slots.length = acqs.length := (List.Forall₂.length_eq h).symm

theorem mapM_sliceTo (L S k : Nat) (hk : k ≤ S) : ∀ shards : List Buf,
    (∀ b ∈ shards, b.len = L ∧ S ≤ b.cap) →
    shards.mapM (fun (b : Buf) => b.sliceTo (k : Int))
      = some (shards.map (fun b => { b with len := k })) := by
  intro shards
  induction shards with
  | nil => intro _; rfl
  | cons b bs ih =>
    intro h
    have hb := h b (List.mem_cons_self _ _)
    have hrest := ih (fun b hb => h b (List.mem_cons_of_mem _ hb))
    have h1 : b.sliceTo (k : Int) = some { b with len := k } := by
      unfold Buf.sliceTo
      have : (0 : Int) ≤ (k : Int) ∧ (k : Int) ≤ (b.cap : Int) := by omega
      rw [if_pos this]
      simp
    simp only [List.mapM_cons, h1, hrest, List.map_cons]
    rfl

theorem Write_blocks_prepared (C : erasure.Codec) (info : erasure.Info)
    (minSuccessWriters blockCount lastBlockSize lastShardSize todo i : Nat)
    (st : erasure.WriteState)
    (hi : i + 1 = blockCount → st.blockSize = lastBlockSize ∧ st.shardSize = lastShardSize) :
    erasure.Write.blocks C info minSuccessWriters blockCount lastBlockSize lastShardSize
        (todo + 1) i st
      = (match erasure.readDataShards info.DataCount st.blockSize st.shardSize info.DataCount
            0 0 st.rs with
        | (some e, rs) => (some e, { st with rs := rs })
        | (none, rs) =>
          match C.encode info.DataCount info.ParityCount (rs.shards.map Buf.view) with
          | .error e => (some e, { st with rs := rs })
          | .ok views =>
            match C.verify info.DataCount info.ParityCount
                ((setViews rs.shards views).map Buf.view) with
            | .error e => (some e, { st with rs := { rs with shards := setViews rs.shards views } })
            | .ok false => (some Err.verifyFailed,
                { st with rs := { rs with shards := setViews rs.shards views } })
            | .ok true =>
              if ((List.zipWith erasure.writeSlot st.slots
                    ((setViews rs.shards views).map Buf.view)).filter
                    (fun sl => sl.err.isNone)).length < minSuccessWriters then
                (some Err.tooManyWriteErrors,
                  { st with rs := { rs with shards := setViews rs.shards views },
                            slots := List.zipWith erasure.writeSlot st.slots
                              ((setViews rs.shards views).map Buf.view) })
              else erasure.Write.blocks C info minSuccessWriters blockCount lastBlockSize
                lastShardSize todo (i + 1)
                  { st with rs := { rs with shards := setViews rs.shards views },
                            slots := List.zipWith erasure.writeSlot st.slots
                              ((setViews rs.shards views).map Buf.view) }) := by
  rw [erasure.Write.blocks]
  by_cases hlast : i + 1 = blockCount
  · obtain ⟨h1, h2⟩ := hi hlast
    obtain ⟨rs, slots, bsz, ssz⟩ := st
    simp only at h1 h2
    subst h1 h2
    have h : (i : Int) = (blockCount : Int) - 1 := by omega
    simp only [h, if_true, ne_eq, not_true_eq_false, if_false]
  · have h : ¬ ((i : Int) = (blockCount : Int) - 1) := by omega
    simp only [h, if_false]

theorem Write_blocks_prepare (C : erasure.Codec) (info : erasure.Info)
    (minSuccessWriters blockCount lastBlockSize lastShardSize i : Nat)
    (st : erasure.WriteState) (hi : i + 1 = blockCount)
    (hshape : ∀ b ∈ st.rs.shards, b.len = info.ShardSize ∧ info.ShardSize ≤ b.cap)
    (hss : st.shardSize = info.ShardSize) (hlss : lastShardSize ≤ info.ShardSize) :
    ∃ st1 : erasure.WriteState,
      (∀ todo : Nat,
        erasure.Write.blocks C info minSuccessWriters blockCount lastBlockSize lastShardSize
            (todo + 1) i st
          = erasure.Write.blocks C info minSuccessWriters blockCount lastBlockSize
            lastShardSize (todo + 1) i st1) ∧
      st1.blockSize = lastBlockSize ∧ st1.shardSize = lastShardSize ∧
      st1.slots = st.slots ∧ st1.rs.reader = st.rs.reader ∧
      st1.rs.shards.length = st.rs.shards.length ∧
      ∀ b ∈ st1.rs.shards, b.len = lastShardSize ∧ info.ShardSize ≤ b.cap := by
  obtain ⟨rs, slots, bsz, ssz⟩ := st
  simp only at hshape hss
  subst hss
  have h : (i : Int) = (blockCount : Int) - 1 := by omega
  by_cases hne : info.ShardSize = lastShardSize
  · refine ⟨⟨rs, slots, lastBlockSize, lastShardSize⟩, ?_, rfl, rfl, rfl, rfl, rfl, ?_⟩
    · intro todo
      rw [erasure.Write.blocks, erasure.Write.blocks]
      simp only [h, if_true, ne_eq, hne, not_true_eq_false, if_false]
    · intro b hb
      have := hshape b hb
      omega
  · refine ⟨⟨{ rs with shards := rs.shards.map (fun b => { b with len := lastShardSize }) },
        slots, lastBlockSize, lastShardSize⟩, ?_, rfl, rfl, rfl, rfl, ?_, ?_⟩
    · intro todo
      rw [erasure.Write.blocks, erasure.Write.blocks]
      simp only [h, if_true, ne_eq, hne, not_false_eq_true, not_true_eq_false, if_false,
        mapM_sliceTo _ _ _ hlss rs.shards hshape, Option.map_some']
    · simp only [List.length_map]
    · intro b hb
      simp only [List.mem_map] at hb
      obtain ⟨b0, hb0, rfl⟩ := hb
      exact ⟨rfl, (hshape b0 hb0).2⟩

theorem lengths_of_views (L S : Nat) (shards : List Buf) (vs : List (List Byte))
    (hshape : ∀ b ∈ shards, b.len = L ∧ S ≤ b.cap)
    (hl : vs.map List.length = (shards.map Buf.view).map List.length) :
    vs.length = shards.length ∧ ∀ v ∈ vs, v.length = L := by
  constructor
  · have := congrArg List.length hl
    simpa using this
  · intro v hv
    have h1 : v.length ∈ vs.map List.length := List.mem_map_of_mem _ hv
    rw [hl] at h1
    simp only [List.map_map, List.mem_map, Function.comp_apply] at h1
    obtain ⟨b, hb, hbl⟩ := h1
    rw [← hbl, Buf_view_length]
    exact (hshape b hb).1

theorem lastShardSize_arith (N S Z B : Nat) (hN : 0 < N) (hB : 0 < B) (hBle : B ≤ N * S) :
    ((Z - Z / B * B + N - 1) % 18446744073709551616) / N ≤ S := by
  have hr : Z - Z / B * B < B := by
    have := Nat.div_add_mod Z B
    have := Nat.mod_lt Z hB
    have := Nat.mul_comm (Z / B) B
    omega
  have hy := Nat.mod_le (Z - Z / B * B + N - 1) 18446744073709551616
  have e : (S + 1) * N = N * S + N := by ring
  have : ((Z - Z / B * B + N - 1) % 18446744073709551616) / N < S + 1 :=
    (Nat.div_lt_iff_lt_mul hN).mpr (by rw [e]; omega)
  omega

theorem Compute_lastShardSize_le (info : erasure.Info) (blockCount blockSize lastBlockSize
    lastShardSize : Nat)
    (h : info.Compute = some (blockCount, blockSize, lastBlockSize, lastShardSize)) :
    lastShardSize ≤ info.ShardSize := by
  unfold erasure.Info.Compute at h
  simp only at h
  split_ifs at h with h0 h1
  · simp only [Option.some.injEq, Prod.mk.injEq] at h
    obtain ⟨_, _, _, h4⟩ := h
    rw [← h4]
    exact lastShardSize_arith _ _ _ _ (by omega) (by omega) (Nat.mod_le _ _)
  · simp only [Option.some.injEq, Prod.mk.injEq] at h
    omega

theorem Write_of_preconditions (C : erasure.Codec) (H : Hasher)
    (getShardWriter : erasure.GetShardWriter) (shards : List Buf) (info : erasure.Info)
    (reader : Stream) (minSuccessWriters blockCount blockSize lastBlockSize lastShardSize : Nat)
    (hcompute : info.Compute = some (blockCount, blockSize, lastBlockSize, lastShardSize))
    (h64 : info.DataCount + info.ParityCount < 18446744073709551616)
    (hcount : shards.length = info.DataCount + info.ParityCount)
    (hshards : ∀ b ∈ shards, b.len = info.ShardSize ∧ b.len ≤ b.cap)
    (hids : info.ShardIDs.length = info.DataCount + info.ParityCount)
    (hnodup : info.ShardIDs.Nodup)
    (hvalid : C.valid info.DataCount info.ParityCount = true) :
    erasure.Write C H getShardWriter shards info reader minSuccessWriters
      = if erasure.liveSlots (erasure.acquiredSlots getShardWriter info.ShardIDs)
            < minSuccessWriters then
          ⟨.error Err.getShardWriter, erasure.acquiredSlots getShardWriter info.ShardIDs, reader⟩
        else
          match erasure.Write.blocks C info minSuccessWriters blockCount lastBlockSize
              lastShardSize blockCount 0
              ⟨⟨reader, shards, []⟩, erasure.acquiredSlots getShardWriter info.ShardIDs,
                blockSize, info.ShardSize⟩ with
          | (some e, st) => ⟨.error e, st.slots, st.rs.reader⟩
          | (none, st) =>
            ⟨.ok (st.slots.map (fun sl => match sl.hashed with
                | some h => H.hexSum h
                | none => []), H.hexSum st.rs.hashed), st.slots, st.rs.reader⟩ := by
  have hany : shards.any (fun b => decide (b.len ≠ info.ShardSize)) = false := by
    rw [List.any_eq_false]
    intro b hb
    simp only [ne_eq, decide_not, Bool.not_eq_eq_eq_not, Bool.not_true, decide_eq_false_iff_not,
      not_not]
    exact (hshards b hb).1
  unfold erasure.Write
  simp only [Nat.mod_eq_of_lt h64, hcount, hids, ne_eq, not_true_eq_false, if_false, hany,
    Bool.false_eq_true, hnodup, hvalid, hcompute]
  rfl

theorem xorShards_length (vs : List (List Byte)) (len : Nat) :
    (xorShards vs len).length = len := by
  unfold xorShards
  simp only [List.length_map, List.length_range]

theorem xorCodec_works (n m : Nat) (vs : List (List Byte)) :
    ∃ vs', xorCodec.encode n m vs = .ok vs' ∧ vs'.map List.length = vs.map List.length ∧
      xorCodec.verify n m vs' = .ok true := by
  refine ⟨vs.take n ++ (vs.drop n).map (fun p => xorShards (vs.take n) p.length), rfl, ?_, ?_⟩
  · simp only [List.map_append, List.map_map]
    have : (List.length ∘ fun (p : List Byte) => xorShards (List.take n vs) p.length)
        = List.length := by
      funext p
      simp only [Function.comp_apply, xorShards_length]
    rw [this, ← List.map_append, List.take_append_drop]
  · show Except.ok _ = Except.ok true
    congr 1
    rw [List.all_eq_true]
    intro p hp
    by_cases hn : n ≤ vs.length
    · have hlen : (vs.take n).length = n := by simp only [List.length_take]; omega
      rw [List.drop_append_of_le_length (le_of_eq hlen.symm),
        List.drop_of_length_le (le_of_eq hlen),
        List.nil_append] at hp
      simp only [hlen, Nat.sub_self, List.drop_zero, List.mem_map] at hp
      obtain ⟨q, _, rfl⟩ := hp
      rw [List.take_append_of_le_length (le_of_eq hlen.symm),
        List.take_of_length_le (le_of_eq hlen)]
      simp only [xorShards_length, decide_eq_true_eq]
    · have hd : vs.drop n = [] := List.drop_of_length_le (by omega)
      rw [hd] at hp
      simp only [List.map_nil, List.append_nil] at hp
      rw [List.drop_of_length_le (by simp only [List.length_take]; omega)] at hp
      simp at hp

/-- C23. For `size ≥ 0`, `offset ≥ 0`, `length ≥ 0` and `blockSize ≥ 1` (any
`blockCount`), `CalcBoundaries` panics exactly when `offset + length > size`: the
guard fires exactly then, and past the guard the divisor is never zero (a zero
remainder `size - (blockCount-1)*blockSize` is replaced by `blockSize`), so a
window with `offset + length ≤ size` always yields a result. -/
theorem CalcBoundaries_panics_iff_window_exceeds_size (size blockSize blockCount offset
    length : Int) (_hsize : 0 ≤ size) (hoff : 0 ≤ offset) (hlen : 0 ≤ length)
    (hbs : 1 ≤ blockSize) :
    (CalcBoundaries size blockSize blockCount offset length = none ↔ offset + length > size) ∧
    (offset + length ≤ size →
      ∃ b, CalcBoundaries size blockSize blockCount offset length = some b) := by
  have key : CalcBoundaries size blockSize blockCount offset length = none ↔
      offset + length > size := by
    unfold CalcBoundaries
    by_cases hg : offset > size ∨ length > size ∨ offset + length > size
    · rw [if_pos hg]
      simp only [true_iff]
      omega
    · rw [if_neg hg]
      have hle : ¬ offset + length > size := by omega
      simp only [hle, iff_false]
      have hdiv : ¬ ((if blockCount ≤ 1 then
            (if size - (blockCount - 1) * blockSize = 0 then blockSize
              else size - (blockCount - 1) * blockSize)
          else blockSize) = 0) := by
        split_ifs <;> omega
      simp only [hdiv, if_false]
      split_ifs <;> simp
  refine ⟨key, fun h => ?_⟩
  cases hc : CalcBoundaries size blockSize blockCount offset length with
  | none => exact absurd (key.mp hc) (by omega)
  | some b => exact ⟨b, rfl⟩

/-- The theorem at a file of 5 bytes in blocks of 4, window `[1, 4)`. -/
theorem CalcBoundaries_panics_iff_window_exceeds_size_witness :
    (CalcBoundaries 5 4 2 1 3 = none ↔ (1 : Int) + 3 > 5) ∧
    ((1 : Int) + 3 ≤ 5 → ∃ b, CalcBoundaries 5 4 2 1 3 = some b) :=
  CalcBoundaries_panics_iff_window_exceeds_size 5 4 2 1 3 (by decide) (by decide) (by decide)
    (by decide)

/-! ## pkg/erasure: dropped writers -/

theorem clearShards_length (shardSize : Nat) : ∀ (todo s : Nat) (shards shards' : List Buf),
    erasure.clearShards shardSize todo s shards = some shards' →
    shards'.length = shards.length := by
  intro todo
  induction todo with
  | zero =>
    intro s shards shards' h
    simp only [erasure.clearShards, Option.some.injEq] at h
    rw [← h]
  | succ todo ih =>
    intro s shards shards' h
    rw [erasure.clearShards] at h
    split at h
    · simp at h
    · split at h
      · simp at h
      · rw [ih _ _ _ h, List.length_set]

theorem readDataShards_length (DataCount blockSize shardSize : Nat) :
    ∀ (todo s bytesRead : Nat) (st : erasure.ReadState),
      (erasure.readDataShards DataCount blockSize shardSize todo s bytesRead st).2.shards.length
        = st.shards.length := by
  intro todo
  induction todo with
  | zero => intro s bytesRead st; rfl
  | succ todo ih =>
    intro s bytesRead st
    rw [erasure.readDataShards]
    split
    · rfl
    · split
      · rw [ih]; simp only [List.length_set]
      · simp only []
        split_ifs with hc
        · cases hcl : ((Buf.write _ _).clear _ shardSize).bind (fun sh =>
              erasure.clearShards shardSize (DataCount - (s + 1)) (s + 1) (st.shards.set s sh)) with
          | none => simp only [List.length_set]
          | some shards =>
            simp only []
            cases hb : (Buf.write _ _).clear _ shardSize with
            | none => rw [hb] at hcl; simp at hcl
            | some b =>
              rw [hb] at hcl
              simp only [Option.some_bind] at hcl
              rw [clearShards_length _ _ _ _ _ hcl, List.length_set]
        · simp only [List.length_set]

theorem acquiredSlots_inv (getShardWriter : erasure.GetShardWriter) (ids : List String) :
    (erasure.acquiredSlots getShardWriter ids).length = ids.length ∧
    ∀ sl ∈ erasure.acquiredSlots getShardWriter ids,
      sl.writer = none ↔ sl.err.isSome = true := by
  unfold erasure.acquiredSlots
  refine ⟨List.length_map _ _, ?_⟩
  intro sl hsl
  simp only [List.mem_map] at hsl
  obtain ⟨id, _, rfl⟩ := hsl
  cases getShardWriter id <;> simp


/-- C27 (the code departs from the claim). `N = 2`, `M = 1`, `shardSize = 1`, three stripes
`[1, 2]`, `[4, 8]`, `[16, 32]` (parity `3`, `12`, `48`), window `offset = 2`,
`length = 4`: stripes 1 and 2, `blocksToSkip = 1`.  The reader starts with the
shard window `(blockOffset, blockLength) = (1, 2)`.  After the first stripe of the
request `readBlock` has subtracted `shardSize` from both (decode.go:139-140), so
the window it passes to `getShardReader` from then on is `(0, 1)`, where `k = 1`
consumed stripes call for offset `(1 + 1) * 1 = 2`.  When shard `s1` fails on its
second read, the parity shard `s2` is opened with that window and delivers the
parity of stripe 0; the reader returns `[4, 8, 16, 19]` without an error, where
the data is `[4, 8, 16, 32]`.  A shard opened late before any stripe was consumed
(`s1` failing on its first read) gets the right window. -/
theorem decodeReader_late_shard_window_moves_backwards :
    (erasure.NewReader xorCodec (List.replicate 3 (Buf.make 1))
        ⟨2, 1, 6, 1, ["s0", "s1", "s2"]⟩ 2 4).map
        (fun dr => (dr.blockOffset, dr.blockLength)) = .ok (1, 2) ∧
    (erasure.NewReader xorCodec (List.replicate 3 (Buf.make 1))
        ⟨2, 1, 6, 1, ["s0", "s1", "s2"]⟩ 2 4).map
        (fun dr =>
          ((dr.Read xorCodec (breakingShardFiles
              [("s0", [1, 4, 16]), ("s1", [2, 8, 32]), ("s2", [3, 12, 48])] [("s1", 1)]) 2).1,
           (dr.Read xorCodec (breakingShardFiles
              [("s0", [1, 4, 16]), ("s1", [2, 8, 32]), ("s2", [3, 12, 48])] [("s1", 1)])
              2).2.2.blockOffset,
           (dr.Read xorCodec (breakingShardFiles
              [("s0", [1, 4, 16]), ("s1", [2, 8, 32]), ("s2", [3, 12, 48])] [("s1", 1)])
              2).2.2.blockLength)) = .ok ([4, 8], 0, 1) ∧
    erasure.copyStripes xorCodec
        (breakingShardFiles [("s0", [1, 4, 16]), ("s1", [2, 8, 32]), ("s2", [3, 12, 48])]
          [("s1", 1)])
        (List.replicate 3 (Buf.make 1)) ⟨2, 1, 6, 1, ["s0", "s1", "s2"]⟩ 2 4 16 6
      = .ok ([4, 8, 16, 19], none) ∧
    erasure.copyStripes xorCodec
        (breakingShardFiles [("s0", [1, 4, 16]), ("s1", [2, 8, 32]), ("s2", [3, 12, 48])]
          [("s1", 0)])
        (List.replicate 3 (Buf.make 1)) ⟨2, 1, 6, 1, ["s0", "s1", "s2"]⟩ 2 4 16 6
      = .ok ([4, 8, 16, 32], none) := by
  decide

/-- The digest lines of the first `k` blocks of `orig.take size`. -/
theorem WriteFile_lines_succ (H : Hasher) (bs : Nat) (all : List Byte) (k : Nat) :
    ((List.range (k + 1)).map (fun j => H.hexSum ((all.drop (j * bs)).take bs) ++ [10])).flatten =
      ((List.range k).map (fun j => H.hexSum ((all.drop (j * bs)).take bs) ++ [10])).flatten ++
        (H.hexSum ((all.drop (k * bs)).take bs) ++ [10]) := by
  rw [List.range_succ, List.map_append, List.flatten_append]
  simp

/-- The block loop of `WriteFile` on a reader that holds at least `size` bytes: from
block `i` on it writes the rest of the first `size` bytes and their digest lines. -/
theorem WriteFile_blocks_enough (H : Hasher) (bs size bc : Nat) (orig : List Byte) (fin : Err)
    (hbs : 0 < bs) (hlen : size ≤ orig.length) (hlo : (bc - 1) * bs < size)
    (hhi : size ≤ bc * bs) :
    ∀ todo i, i + (todo + 1) = bc →
      WriteFile.blocks H bs size bc (todo + 1) i ⟨orig.drop (i * bs), fin⟩ (orig.take (i * bs))
          ((List.range i).map
            (fun j => H.hexSum (((orig.take size).drop (j * bs)).take bs) ++ [10])).flatten =
        (none, orig.take size,
          ((List.range bc).map
            (fun j => H.hexSum (((orig.take size).drop (j * bs)).take bs) ++ [10])).flatten) := by
  intro todo
  induction todo with
  | zero =>
    intro i hi
    have hib : i = bc - 1 := by omega
    have hlt : i * bs < size := by rw [hib]; exact hlo
    rw [WriteFile.blocks]
    simp only [hib, if_true]
    rw [← hib]
    have hk : size - i * bs ≠ 0 := by omega
    have hle : size - i * bs ≤ (orig.drop (i * bs)).length := by
      rw [List.length_drop]; omega
    simp only [readFull, hk, if_false, hle, if_true, WriteFile.blocks]
    have hbc : bc = i + 1 := by omega
    have e1 : orig.take (i * bs) ++ (orig.drop (i * bs)).take (size - i * bs) = orig.take size := by
      have : size = i * bs + (size - i * bs) := by omega
      conv_rhs => rw [this, List.take_add]
    have e2 : ((orig.take size).drop (i * bs)).take bs
        = (orig.drop (i * bs)).take (size - i * bs) := by
      rw [List.drop_take, List.take_take]
      congr 1
      have : size ≤ (i + 1) * bs := hbc ▸ hhi
      have h2 : (i + 1) * bs = i * bs + bs := by ring
      omega
    rw [e1, hbc, WriteFile_lines_succ, e2]
  | succ todo ih =>
    intro i hi
    have hib : i ≠ bc - 1 := by omega
    have h1 : (i + 1) * bs ≤ (bc - 1) * bs := Nat.mul_le_mul_right _ (by omega)
    have h2 : (i + 1) * bs = i * bs + bs := by ring
    rw [WriteFile.blocks]
    simp only [hib, if_false]
    have hk : bs ≠ 0 := by omega
    have hle : bs ≤ (orig.drop (i * bs)).length := by
      rw [List.length_drop]; omega
    simp only [readFull, hk, if_false, hle, if_true]
    have e1 : orig.take (i * bs) ++ (orig.drop (i * bs)).take bs = orig.take ((i + 1) * bs) := by
      rw [h2, List.take_add]
    have e2 : ((orig.take size).drop (i * bs)).take bs = (orig.drop (i * bs)).take bs := by
      rw [List.drop_take, List.take_take]
      congr 1
      omega
    have e3 : (orig.drop (i * bs)).drop bs = orig.drop ((i + 1) * bs) := by
      rw [List.drop_drop, h2]
    rw [e1, e3, ← e2, ← WriteFile_lines_succ]
    exact ih (i + 1) (by omega)

/-- The block loop of `WriteFile` on a reader that ends before the bytes still to be
written: it stops with an error. -/
theorem WriteFile_blocks_short (H : Hasher) (bs size bc : Nat) (hbs : 0 < bs) :
    ∀ todo i data file body, i + (todo + 1) = bc → data.bytes.length < size - i * bs →
      (WriteFile.blocks H bs size bc (todo + 1) i data file body).1 ≠ none := by
  intro todo
  induction todo with
  | zero =>
    intro i data file body hi hshort
    have hib : i = bc - 1 := by omega
    rw [WriteFile.blocks]
    simp only [hib, if_true]
    rw [← hib]
    have hk : size - i * bs ≠ 0 := by omega
    have hle : ¬ size - i * bs ≤ data.bytes.length := by omega
    simp only [readFull, hk, if_false, hle]
    split_ifs <;> simp
  | succ todo ih =>
    intro i data file body hi hshort
    have hib : i ≠ bc - 1 := by omega
    have h2 : (i + 1) * bs = i * bs + bs := by ring
    rw [WriteFile.blocks]
    simp only [hib, if_false]
    have hk : bs ≠ 0 := by omega
    simp only [readFull, hk, if_false]
    by_cases hle : bs ≤ data.bytes.length
    · simp only [hle, if_true]
      apply ih (i + 1) _ _ _ (by omega)
      simp only [List.length_drop]
      omega
    · simp only [hle, if_false]
      split_ifs <;> simp

/-- The block count of `WriteFile` is the number of blocks that cover `size` bytes. -/
theorem WriteFile_blockCount (bs size : Nat) (hbs : 0 < bs) :
    let bc := if size / bs * bs < size then size / bs + 1 else size / bs
    (size = 0 → bc = 0) ∧ (0 < size → 0 < bc ∧ (bc - 1) * bs < size) ∧ size ≤ bc * bs := by
  intro bc
  have hd := Nat.div_add_mod size bs
  have hm := Nat.mod_lt size hbs
  have hc : bs * (size / bs) = size / bs * bs := Nat.mul_comm _ _
  simp only [bc]
  generalize size / bs = q at *
  generalize size % bs = r at *
  split_ifs with h
  · refine ⟨by intro h0; omega, fun _ => ⟨by omega, ?_⟩, ?_⟩
    · simp only [Nat.add_sub_cancel]; exact h
    · have : (q + 1) * bs = q * bs + bs := by ring
      omega
  · have hq : q * bs = size := by omega
    refine ⟨fun h0 => ?_, fun hs => ?_, by omega⟩
    · rcases Nat.eq_zero_or_pos q with h1 | h1
      · exact h1
      · have := Nat.le_mul_of_pos_left bs h1
        omega
    · have hq0 : q ≠ 0 := by
        intro h0; rw [h0] at hq; omega
      refine ⟨by omega, ?_⟩
      have h3 : (q - 1) * bs + bs = q * bs := by
        obtain ⟨p, rfl⟩ : ∃ p, q = p + 1 := ⟨q - 1, by omega⟩
        simp only [Nat.add_sub_cancel]
        ring
      omega

/-- The whole loop of `WriteFile` (with its block count) on a reader that holds at
least `size` bytes writes the first `size` bytes and one digest line per block. -/
theorem WriteFile_blocks_all (H : Hasher) (bs size : Nat) (data : Stream) (hbs : 0 < bs)
    (hlen : size ≤ data.bytes.length) :
    let bc := if size / bs * bs < size then size / bs + 1 else size / bs
    WriteFile.blocks H bs size bc bc 0 data [] [] =
      (none, data.bytes.take size,
        ((List.range bc).map
          (fun j => H.hexSum (((data.bytes.take size).drop (j * bs)).take bs) ++ [10])).flatten) := by
  intro bc
  obtain ⟨h0, h1, h2⟩ := WriteFile_blockCount bs size hbs
  by_cases hs : size = 0
  · have hb : bc = 0 := h0 hs
    rw [hb, hs]
    simp [WriteFile.blocks]
  · obtain ⟨hp, hlo⟩ := h1 (by omega)
    have key := WriteFile_blocks_enough H bs size bc data.bytes data.final hbs hlen hlo h2
      (bc - 1) 0 (by omega)
    simp only [Nat.zero_mul, List.drop_zero, List.take_zero, List.range_zero, List.map_nil,
      List.flatten_nil] at key
    have hb : bc - 1 + 1 = bc := by omega
    rw [hb] at key
    exact key

/-- The whole loop of `WriteFile` on a reader that ends before `size` bytes stops with
an error. -/
theorem WriteFile_blocks_all_short (H : Hasher) (bs size : Nat) (data : Stream) (hbs : 0 < bs)
    (hlen : data.bytes.length < size) :
    let bc := if size / bs * bs < size then size / bs + 1 else size / bs
    (WriteFile.blocks H bs size bc bc 0 data [] []).1 ≠ none := by
  intro bc
  obtain ⟨_, h1, _⟩ := WriteFile_blockCount bs size hbs
  obtain ⟨hp, hlo⟩ := h1 (by omega)
  have key := WriteFile_blocks_short H bs size bc hbs (bc - 1) 0 data [] [] (by omega)
    (by omega)
  have hb : bc - 1 + 1 = bc := by omega
  rw [hb] at key
  exact key

/-- The hash `WriteFile` uses: HighwayHash-256 with the default key. -/
theorem MustGetNewHash_default (lib : HashLib) :
    MustGetNewHash lib "HighwayHash256" none =
      some ⟨⟨fun data => hexEncode (lib.highway defaultHighwayHashKey data), 64⟩,
        "HighwayHash256", hexEncode defaultHighwayHashKey⟩ := by
  simp [MustGetNewHash, NewHash, NewHighwayHash256, defaultHighwayHashKey]

/-- C22: for every reader, size and prior content of the files, with and without
bitrot protection: when the reader holds at least `size` bytes `WriteFile` returns
the hex HighwayHash-256 (default key) of its first `size` bytes and has written
exactly those bytes from the start of the main file; and it returns an error
instead of a digest if and only if the reader holds fewer than `size` bytes. -/
theorem WriteFile_writes_size_bytes_and_returns_their_digest (J : HeaderJSON) (lib : HashLib)
    (prior : Files) (data : Stream) (size : Nat) (bitrot : Bool) :
    (size ≤ data.bytes.length →
      ∃ files, WriteFileOver J lib prior data size bitrot =
          some (.ok (hexEncode (lib.highway defaultHighwayHashKey (data.bytes.take size))),
            files) ∧
        files.main = some (overwrite (prior.main.getD []) (data.bytes.take size))) ∧
    ((∃ e files, WriteFileOver J lib prior data size bitrot = some (.error e, files)) ↔
      data.bytes.length < size) := by
  have hbs : 0 < defaultBlockSize := by decide
  have hok : size ≤ data.bytes.length →
      ∃ files, WriteFileOver J lib prior data size bitrot =
          some (.ok (hexEncode (lib.highway defaultHighwayHashKey (data.bytes.take size))),
            files) ∧
        files.main = some (overwrite (prior.main.getD []) (data.bytes.take size)) := by
    intro hlen
    have key := WriteFile_blocks_all
      (⟨fun data => hexEncode (lib.highway defaultHighwayHashKey data), 64⟩ : Hasher)
      defaultBlockSize size data hbs hlen
    simp only [] at key
    simp only [WriteFileOver, MustGetNewHash_default, WriteFileOverWith, key]
    exact ⟨_, rfl, rfl⟩
  refine ⟨hok, ⟨?_, ?_⟩⟩
  · rintro ⟨e, files, h⟩
    by_contra hn
    obtain ⟨files2, h2, _⟩ := hok (by omega)
    rw [h2] at h
    simp at h
  · intro hlen
    have key := WriteFile_blocks_all_short
      (⟨fun data => hexEncode (lib.highway defaultHighwayHashKey data), 64⟩ : Hasher)
      defaultBlockSize size data hbs hlen
    simp only [] at key
    simp only [WriteFileOver, MustGetNewHash_default, WriteFileOverWith]
    split
    · exact ⟨_, _, rfl⟩
    · rename_i h0
      exact absurd h0 key

/-- Witness for C22: three bytes written to a fresh name with bitrot protection. -/
theorem WriteFile_writes_size_bytes_and_returns_their_digest_witness :
    ∃ files, WriteFileOver lineJSON sumHashLib ⟨none, none⟩ ⟨[1, 2, 3], Err.eof⟩ 3 true =
        some (.ok (hexEncode (sumHashLib.highway defaultHighwayHashKey
          (List.take 3 [1, 2, 3]))), files) ∧
      files.main = some (overwrite ((none : Option (List Byte)).getD []) (List.take 3 [1, 2, 3])) :=
  (WriteFile_writes_size_bytes_and_returns_their_digest lineJSON sumHashLib ⟨none, none⟩
    ⟨[1, 2, 3], Err.eof⟩ 3 true).1 (by decide)

open dataspace.disk in
/-- Looking up `m` after the entry `n` was removed. -/
theorem entry_without {β : Type} (es : List (String × β)) (n m : String) :
    entry (without es n) m = if m = n then none else entry es m := by
  induction es with
  | nil => simp [without, entry]
  | cons e es ih =>
    obtain ⟨k, v⟩ := e
    unfold without at ih ⊢
    by_cases hk : k = n
    · subst hk
      rw [List.filter_cons_of_neg (by simp), ih]
      by_cases hm : m = k
      · simp [hm]
      · have : ¬ k = m := fun h => hm h.symm
        simp [entry, hm, this]
    · rw [List.filter_cons_of_pos (by simpa using hk)]
      simp only [entry]
      by_cases hkm : k = m
      · subst hkm; simp [hk]
      · simp only [hkm, if_false]; exact ih

open dataspace.disk in
/-- Looking up `m` after `n` was set to `v`. -/
theorem entry_withEntry {β : Type} (es : List (String × β)) (n m : String) (v : β) :
    entry (withEntry es n v) m = if m = n then some v else entry es m := by
  unfold withEntry
  simp only [entry]
  by_cases h : n = m
  · subst h; simp
  · have h2 : ¬ m = n := fun e => h e.symm
    simp only [h, h2, if_false, entry_without]

open dataspace.disk in
/-- Looking up `m` after `n` was changed in place to `v`. -/
theorem entry_setEntry {β : Type} (es : List (String × β)) (n m : String) (v : β) :
    entry (setEntry es n v) m = if m = n then (entry es n).map (fun _ => v) else entry es m := by
  induction es with
  | nil => simp [setEntry, entry]
  | cons e es ih =>
    obtain ⟨k, x⟩ := e
    by_cases hk : k = n
    · subst hk
      by_cases hm : m = k
      · subst hm; simp [setEntry, entry]
      · have : ¬ k = m := fun h => hm h.symm
        simp [setEntry, entry, hm, this]
    · by_cases hm : m = n
      · subst hm
        simp only [setEntry, hk, if_false, entry, ih, if_true]
      · simp only [setEntry, hk, if_false, entry, ih, hm]

open dataspace.disk in
/-- Changing an entry in place to what it holds changes nothing. -/
theorem setEntry_self {β : Type} (es : List (String × β)) (n : String) (v : β)
    (h : entry es n = some v) : setEntry es n v = es := by
  induction es with
  | nil => rfl
  | cons e es ih =>
    obtain ⟨k, x⟩ := e
    by_cases hk : k = n
    · subst hk
      simp only [entry, if_true, Option.some.injEq] at h
      simp [setEntry, h]
    · simp only [entry, hk, if_false] at h
      simp [setEntry, hk, ih h]

/-- A name differs from the name of its sidecar. -/
theorem ne_append_checksum (s : String) : s ≠ s ++ ".checksum" := by
  intro h
  have := congrArg String.length h
  rw [String.length_append] at this
  have h9 : (".checksum" : String).length = 9 := by decide
  omega

open dataspace.disk in
/-- The rename of a file and its sidecar fails, and moves nothing, when the sidecar
is missing. -/
theorem RenameFile_no_sidecar (src dst : Dir) (old new : String)
    (h : entry src (old ++ ".checksum") = none) :
    RenameFile src old dst new true = (some Err.notExist, src, dst) := by
  simp [RenameFile, osRenameFile, h]

open dataspace.disk in
/-- The rename of a file and its sidecar succeeds exactly when both are there, and
then moves both. -/
theorem RenameFile_ok (src dst : Dir) (old new : String)
    (h : (RenameFile src old dst new true).1 = none) :
    ∃ c d, entry src (old ++ ".checksum") = some c ∧ entry src old = some d ∧
      RenameFile src old dst new true =
        (none, without (without src (old ++ ".checksum")) old,
          withEntry (withEntry dst (new ++ ".checksum") c) new d) := by
  unfold RenameFile osRenameFile at h ⊢
  cases hc : entry src (old ++ ".checksum") with
  | none => simp [hc] at h
  | some c =>
    have hne : ¬ old = old ++ ".checksum" := ne_append_checksum old
    cases hd : entry src old with
    | none => simp [hc, entry_without, hne, hd] at h
    | some d => exact ⟨c, d, rfl, rfl, by simp [entry_without, hne, hd]⟩

open dataspace.disk in
/-- The rename of a file and its sidecar that are both there. -/
theorem RenameFile_of_both (src dst : Dir) (old new : String) (c d : List Byte)
    (hc : entry src (old ++ ".checksum") = some c) (hd : entry src old = some d) :
    RenameFile src old dst new true =
      (none, without (without src (old ++ ".checksum")) old,
        withEntry (withEntry dst (new ++ ".checksum") c) new d) := by
  have hne : ¬ old = old ++ ".checksum" := ne_append_checksum old
  simp [RenameFile, osRenameFile, hc, entry_without, hne, hd]

open dataspace.disk in
/-- C24: `Disk.Get` on a data id whose directory does not exist under `data/` returns
no reader and the error of opening `data.json` (`os.ErrNotExist`), which is not
`ErrDataIDNotFound`: for every disk with the directory of the id removed, and on the
empty disk. -/
theorem Disk_Get_of_unpublished_id_returns_the_open_error
    (decode : List Byte → Except Err DataInfo) (disk : Disk) (dataID : String) (offset : Int)
    (length : Nat) :
    Disk.Get decode { disk with data := without disk.data dataID } dataID offset length
        = .error Err.notExist ∧
      Err.notExist ≠ ErrDataIDNotFound ∧
      Exist (without disk.data dataID) dataID = false ∧
      Disk.Get decode ⟨[], [], [], []⟩ "d1" 0 0 = .error Err.notExist := by
  refine ⟨?_, by decide, ?_, rfl⟩
  · simp [Disk.Get, entry_without]
  · simp [Exist, entry_without]

open dataspace.disk in
/-- C26: `InitUpload` on an upload id whose directory exists fails with
`ErrUploadIDAlreadyExist`; `UploadPart` on an upload id whose directory does not
exist fails with `ErrUploadIDNotFound`; `UploadPart` naming a temp file that an
earlier successful `UploadPart` has moved fails; and in each case the disk is left
as it was. -/
theorem Disk_upload_id_checks_fail_and_change_nothing (disk : Disk)
    (uploadID partID tempFile uploadID2 partID2 : String) :
    (Exist disk.uploads uploadID = true →
      Disk.InitUpload uploadID disk = (some ErrUploadIDAlreadyExist, disk)) ∧
    (Exist disk.uploads uploadID = false →
      Disk.UploadPart uploadID partID tempFile disk = (some ErrUploadIDNotFound, disk)) ∧
    ((Disk.UploadPart uploadID partID tempFile disk).1 = none →
      ∃ e, Disk.UploadPart uploadID2 partID2 tempFile
          (Disk.UploadPart uploadID partID tempFile disk).2
        = (some e, (Disk.UploadPart uploadID partID tempFile disk).2)) := by
  refine ⟨?_, ?_, ?_⟩
  · intro h
    simp only [Exist] at h
    simp [Disk.InitUpload, osMkdir, h]
  · intro h
    simp [Disk.UploadPart, h]
  · intro h
    have hex : Exist disk.uploads uploadID = true := by
      by_contra hn
      simp [Disk.UploadPart, hn] at h
    have hstep : Disk.UploadPart uploadID partID tempFile disk =
        ((RenameFile disk.tmp tempFile ((entry disk.uploads uploadID).getD [])
            (partID ++ ".part") true).1,
          { disk with
            tmp := (RenameFile disk.tmp tempFile ((entry disk.uploads uploadID).getD [])
              (partID ++ ".part") true).2.1,
            uploads := setEntry disk.uploads uploadID
              (RenameFile disk.tmp tempFile ((entry disk.uploads uploadID).getD [])
                (partID ++ ".part") true).2.2 }) := by
      simp [Disk.UploadPart, hex]
    rw [hstep] at h ⊢
    obtain ⟨c, d, _, _, hr⟩ := RenameFile_ok _ _ _ _ h
    rw [hr]
    simp only []
    have hgone : entry (without (without disk.tmp (tempFile ++ ".checksum")) tempFile)
        (tempFile ++ ".checksum") = none := by
      simp [entry_without]
    by_cases h2 : Exist (setEntry disk.uploads uploadID
        (withEntry (withEntry ((entry disk.uploads uploadID).getD []) (partID ++ ".part" ++
          ".checksum") c) (partID ++ ".part") d)) uploadID2 = true
    · refine ⟨Err.notExist, ?_⟩
      simp only [Disk.UploadPart, h2, not_true, if_false, RenameFile_no_sidecar _ _ _ _ hgone]
      simp only [Exist, Option.isSome_iff_exists] at h2
      obtain ⟨dir, hdir⟩ := h2
      rw [hdir, Option.getD_some, setEntry_self _ _ _ hdir]
    · refine ⟨ErrUploadIDNotFound, ?_⟩
      simp [Disk.UploadPart, h2]
open dataspace.disk in
/-- Directories with the same entry under every name hold the same files. -/
theorem sameDir_of_forall (a b : Dir) (h : ∀ m, entry a m = entry b m) : sameDir a b = true := by
  simp only [sameDir, List.all_eq_true, decide_eq_true_eq]
  intro m _
  exact h m

open dataspace.disk in
/-- Trees whose directories are the same or hold the same files, id by id. -/
theorem sameDirs_of_forall (a b : List (String × Dir))
    (h : ∀ id, entry a id = entry b id ∨
      ∃ x y, entry a id = some x ∧ entry b id = some y ∧ ∀ m, entry x m = entry y m) :
    sameDirs a b = true := by
  simp only [sameDirs, List.all_eq_true]
  intro id _
  rcases h id with h1 | ⟨x, y, hx, hy, hxy⟩
  · rw [h1]
    cases entry b id with
    | none => rfl
    | some y => exact sameDir_of_forall y y (fun _ => rfl)
  · rw [hx, hy]
    exact sameDir_of_forall x y hxy

open dataspace.disk in
/-- The revert law holds for `InitUpload` and `RevertInitUpload` on every disk. -/
theorem revertLaw_InitUpload (disk : Disk) (uploadID : String) :
    revertLaw (Disk.InitUpload uploadID) (Disk.RevertInitUpload uploadID) disk := by
  intro h
  cases hu : entry disk.uploads uploadID with
  | some d => simp [Disk.InitUpload, osMkdir, hu] at h
  | none =>
    have h1 : Disk.InitUpload uploadID disk
        = (none, { disk with uploads := withEntry disk.uploads uploadID [] }) := by
      simp [Disk.InitUpload, osMkdir, hu]
    have h2 : Disk.RevertInitUpload uploadID
        { disk with uploads := withEntry disk.uploads uploadID [] }
        = (none, { disk with uploads := without (withEntry disk.uploads uploadID []) uploadID })
        := by
      simp [Disk.RevertInitUpload, osRemoveDir, entry_withEntry]
    have h3 : entry (without (withEntry disk.uploads uploadID []) uploadID) uploadID = none := by
      simp [entry_without]
    rw [h1]
    simp only []
    rw [h2]
    simp only []
    refine ⟨trivial, ?_, ?_, ?_⟩
    · simp only [Disk.sameOutsideTrash, Bool.and_eq_true]
      refine ⟨⟨sameDir_of_forall _ _ (fun _ => rfl), sameDirs_of_forall _ _ (fun id => ?_)⟩,
        sameDirs_of_forall _ _ (fun _ => Or.inl rfl)⟩
      left
      rw [entry_without, entry_withEntry]
      by_cases hid : id = uploadID
      · rw [if_pos hid, hid, hu]
      · rw [if_neg hid, if_neg hid]
    · simp [Disk.InitUpload, osMkdir, h3]
    · simp [Disk.RevertInitUpload, osRemoveDir, h3]

open dataspace.disk in
/-- The revert law holds for `AbortUpload` and `RevertAbortUpload` on every disk. -/
theorem revertLaw_AbortUpload (disk : Disk) (uploadID : String) :
    revertLaw (Disk.AbortUpload uploadID) (Disk.RevertAbortUpload uploadID) disk := by
  intro h
  cases hu : entry disk.uploads uploadID with
  | none => simp [Disk.AbortUpload, osRenameDir, hu] at h
  | some dir =>
    cases ht : entry disk.trash uploadID with
    | some d => simp [Disk.AbortUpload, osRenameDir, hu, ht] at h
    | none =>
      have h1 : Disk.AbortUpload uploadID disk
          = (none, { disk with uploads := without disk.uploads uploadID,
                               trash := withEntry disk.trash uploadID dir }) := by
        simp [Disk.AbortUpload, osRenameDir, hu, ht]
      have h2 : Disk.RevertAbortUpload uploadID
          { disk with uploads := without disk.uploads uploadID,
                      trash := withEntry disk.trash uploadID dir }
          = (none, { disk with
              uploads := withEntry (without disk.uploads uploadID) uploadID dir,
              trash := without (withEntry disk.trash uploadID dir) uploadID }) := by
        simp [Disk.RevertAbortUpload, osRenameDir, entry_withEntry, entry_without]
      rw [h1]
      simp only []
      rw [h2]
      simp only []
      refine ⟨trivial, ?_, ?_, ?_⟩
      · simp only [Disk.sameOutsideTrash, Bool.and_eq_true]
        refine ⟨⟨sameDir_of_forall _ _ (fun _ => rfl), sameDirs_of_forall _ _ (fun id => ?_)⟩,
          sameDirs_of_forall _ _ (fun _ => Or.inl rfl)⟩
        left
        rw [entry_withEntry, entry_without]
        by_cases hid : id = uploadID
        · rw [if_pos hid, hid, hu]
        · rw [if_neg hid, if_neg hid]
      · simp [Disk.AbortUpload, osRenameDir, entry_withEntry, entry_without]
      · simp [Disk.RevertAbortUpload, osRenameDir, entry_withEntry, entry_without]
open dataspace.disk in
/-- The call `UploadPart` on a disk that holds the upload directory. -/
theorem UploadPart_of_dir (disk : Disk) (uploadID partID tempFile : String) (dir : Dir)
    (hu : entry disk.uploads uploadID = some dir) :
    Disk.UploadPart uploadID partID tempFile disk =
      ((RenameFile disk.tmp tempFile dir (partID ++ ".part") true).1,
        { disk with
          tmp := (RenameFile disk.tmp tempFile dir (partID ++ ".part") true).2.1,
          uploads := setEntry disk.uploads uploadID
            (RenameFile disk.tmp tempFile dir (partID ++ ".part") true).2.2 }) := by
  simp [Disk.UploadPart, Exist, hu]

open dataspace.disk in
/-- The call `RevertUploadPart` on a disk that holds the upload directory. -/
theorem RevertUploadPart_of_dir (disk : Disk) (uploadID partID tempFile : String) (dir : Dir)
    (hu : entry disk.uploads uploadID = some dir) :
    Disk.RevertUploadPart uploadID partID tempFile disk =
      ((RenameFile dir (partID ++ ".part") disk.tmp tempFile true).1.map
          (fun e => if e = Err.notExist then ErrPartNotFound else e),
        { disk with
          tmp := (RenameFile dir (partID ++ ".part") disk.tmp tempFile true).2.2,
          uploads := setEntry disk.uploads uploadID
            (RenameFile dir (partID ++ ".part") disk.tmp tempFile true).2.1 }) := by
  simp [Disk.RevertUploadPart, Exist, hu]

open dataspace.disk in
/-- The revert law holds for `UploadPart` and `RevertUploadPart` on every disk whose
upload directory does not hold the part file or its sidecar yet. -/
theorem revertLaw_UploadPart (disk : Disk) (uploadID partID tempFile : String)
    (hfree : ∀ dir, entry disk.uploads uploadID = some dir →
      entry dir (partID ++ ".part") = none ∧ entry dir (partID ++ ".part" ++ ".checksum") = none) :
    revertLaw (Disk.UploadPart uploadID partID tempFile)
      (Disk.RevertUploadPart uploadID partID tempFile) disk := by
  intro h
  cases hu : entry disk.uploads uploadID with
  | none => simp [Disk.UploadPart, Exist, hu] at h
  | some dir =>
    obtain ⟨hp, hpc⟩ := hfree dir hu
    have hne : ¬ tempFile = tempFile ++ ".checksum" := ne_append_checksum tempFile
    have hne2 : ¬ tempFile ++ ".checksum" = tempFile := fun e => hne e.symm
    have hnp : ¬ partID ++ ".part" = partID ++ ".part" ++ ".checksum" := ne_append_checksum _
    have hnp2 : ¬ partID ++ ".part" ++ ".checksum" = partID ++ ".part" := fun e => hnp e.symm
    rw [UploadPart_of_dir disk uploadID partID tempFile dir hu] at h ⊢
    obtain ⟨c, d, hc, hd, hr⟩ := RenameFile_ok _ _ _ _ h
    rw [hr]
    simp only []
    -- the disk after `UploadPart`
    have hu1 : entry (setEntry disk.uploads uploadID
        (withEntry (withEntry dir (partID ++ ".part" ++ ".checksum") c) (partID ++ ".part") d))
        uploadID = some (withEntry (withEntry dir (partID ++ ".part" ++ ".checksum") c)
          (partID ++ ".part") d) := by
      simp [entry_setEntry, hu]
    rw [RevertUploadPart_of_dir _ uploadID partID tempFile _ hu1]
    simp only []
    rw [RenameFile_of_both _ _ _ _ c d (by simp [entry_withEntry, hnp2])
      (by simp [entry_withEntry])]
    simp only [Option.map_none']
    -- the disk after `RevertUploadPart`
    have hu2 : entry (setEntry (setEntry disk.uploads uploadID
        (withEntry (withEntry dir (partID ++ ".part" ++ ".checksum") c) (partID ++ ".part") d))
        uploadID (without (without (withEntry (withEntry dir (partID ++ ".part" ++ ".checksum") c)
          (partID ++ ".part") d) (partID ++ ".part" ++ ".checksum")) (partID ++ ".part")))
        uploadID = some (without (without (withEntry (withEntry dir
          (partID ++ ".part" ++ ".checksum") c) (partID ++ ".part") d)
          (partID ++ ".part" ++ ".checksum")) (partID ++ ".part")) := by
      simp [entry_setEntry, hu]
    refine ⟨trivial, ?_, ?_, ?_⟩
    · simp only [Disk.sameOutsideTrash, Bool.and_eq_true]
      refine ⟨⟨sameDir_of_forall _ _ (fun m => ?_), sameDirs_of_forall _ _ (fun id => ?_)⟩,
        sameDirs_of_forall _ _ (fun _ => Or.inl rfl)⟩
      · simp only [entry_withEntry, entry_without]
        by_cases h1 : m = tempFile
        · rw [if_pos h1, h1, hd]
        · rw [if_neg h1]
          by_cases h2 : m = tempFile ++ ".checksum"
          · rw [if_pos h2, h2, hc]
          · rw [if_neg h2, if_neg h1, if_neg h2]
      · by_cases hid : id = uploadID
        · right
          rw [hid]
          refine ⟨_, _, hu, hu2, fun m => ?_⟩
          simp only [entry_withEntry, entry_without]
          by_cases h1 : m = partID ++ ".part"
          · rw [if_pos h1, h1, hp]
          · rw [if_neg h1]
            by_cases h2 : m = partID ++ ".part" ++ ".checksum"
            · rw [if_pos h2, h2, hpc]
            · rw [if_neg h2, if_neg h1, if_neg h2]
        · left
          simp only [entry_setEntry, if_neg hid]
    · rw [UploadPart_of_dir _ uploadID partID tempFile _ hu2]
      simp only []
      rw [RenameFile_of_both _ _ _ _ c d (by simp [entry_withEntry, hne2])
        (by simp [entry_withEntry])]
    · rw [RevertUploadPart_of_dir _ uploadID partID tempFile _ hu2]
      simp only []
      rw [RenameFile_no_sidecar _ _ _ _ (by simp [entry_without, hnp2])]
      simp
open dataspace.disk in
/-- The revert law holds for `CompleteUpload` and `RevertCompleteUpload` on every disk
whose upload directory does not hold a `data.json` yet. -/
theorem revertLaw_CompleteUpload (encode : DataInfo → List Byte) (disk : Disk)
    (dataID uploadID : String) (parts : List Part)
    (hfree : ∀ dir, entry disk.uploads uploadID = some dir → entry dir "data.json" = none) :
    revertLaw (Disk.CompleteUpload encode dataID uploadID parts)
      (Disk.RevertCompleteUpload dataID uploadID parts) disk := by
  intro h
  cases hu : entry disk.uploads uploadID with
  | none => simp [Disk.CompleteUpload, Exist, hu] at h
  | some dir =>
    cases hd : entry disk.data dataID with
    | some x => simp [Disk.CompleteUpload, Exist, hu, hd] at h
    | none =>
      have hj := hfree dir hu
      generalize hjson : encode ⟨parts, parts.foldl
        (fun s part => (s + part.Size) % 18446744073709551616) 0⟩ = json
      have h1 : Disk.CompleteUpload encode dataID uploadID parts disk =
          (none, { disk with
            uploads := without (setEntry disk.uploads uploadID
              (withEntry dir "data.json" (overwrite [] json))) uploadID,
            data := withEntry disk.data dataID
              (withEntry dir "data.json" (overwrite [] json)) }) := by
        simp [Disk.CompleteUpload, Exist, hu, hd, hj, osRenameDir, entry_setEntry, hjson]
      have h2 : Disk.RevertCompleteUpload dataID uploadID parts
          { disk with
            uploads := without (setEntry disk.uploads uploadID
              (withEntry dir "data.json" (overwrite [] json))) uploadID,
            data := withEntry disk.data dataID
              (withEntry dir "data.json" (overwrite [] json)) } =
          (none, { disk with
            uploads := setEntry (withEntry (without (setEntry disk.uploads uploadID
                (withEntry dir "data.json" (overwrite [] json))) uploadID) uploadID
                (withEntry dir "data.json" (overwrite [] json))) uploadID
              (without (withEntry dir "data.json" (overwrite [] json)) "data.json"),
            data := without (withEntry disk.data dataID
              (withEntry dir "data.json" (overwrite [] json))) dataID }) := by
        simp [Disk.RevertCompleteUpload, osRenameDir, entry_withEntry, entry_without]
      rw [h1]
      simp only []
      rw [h2]
      simp only []
      refine ⟨trivial, ?_, ?_, ?_⟩
      · simp only [Disk.sameOutsideTrash, Bool.and_eq_true]
        refine ⟨⟨sameDir_of_forall _ _ (fun _ => rfl), sameDirs_of_forall _ _ (fun id => ?_)⟩,
          sameDirs_of_forall _ _ (fun id => ?_)⟩
        · by_cases hid : id = uploadID
          · right
            rw [hid]
            refine ⟨dir, without (withEntry dir "data.json" (overwrite [] json)) "data.json", hu,
              by simp [entry_setEntry, entry_withEntry], fun m => ?_⟩
            simp only [entry_withEntry, entry_without]
            by_cases h3 : m = "data.json"
            · rw [if_pos h3, h3, hj]
            · rw [if_neg h3, if_neg h3]
          · left
            simp only [entry_setEntry, entry_withEntry, entry_without, if_neg hid]
        · left
          simp only [entry_withEntry, entry_without]
          by_cases hid : id = dataID
          · rw [if_pos hid, hid, hd]
          · rw [if_neg hid, if_neg hid]
      · simp [Disk.CompleteUpload, Exist, osRenameDir, entry_setEntry, entry_withEntry,
          entry_without]
      · simp [Disk.RevertCompleteUpload, osRenameDir, entry_without]

open dataspace.disk in
/-- C25, as the specification states it, fails on a disk whose upload `u` already holds
part `1`: `UploadPart` replaces the part file and its sidecar with the temp file, and
`RevertUploadPart` moves the new content back to `tmp/`, so the part that was there
before is gone from the tree. -/
theorem revertLaw_fails_when_UploadPart_replaces_a_part :
    (Disk.UploadPart "u" "1" "t" partReplacingDisk).1 = none ∧
      (Disk.RevertUploadPart "u" "1" "t" (Disk.UploadPart "u" "1" "t" partReplacingDisk).2).1
        = none ∧
      entry partReplacingDisk.uploads "u" = some [("1.part", [7, 7]), ("1.part.checksum", [9])] ∧
      entry (Disk.RevertUploadPart "u" "1" "t"
        (Disk.UploadPart "u" "1" "t" partReplacingDisk).2).2.uploads "u" = some [] ∧
      ¬ revertLaw (Disk.UploadPart "u" "1" "t") (Disk.RevertUploadPart "u" "1" "t")
        partReplacingDisk := by
  refine ⟨by decide, by decide, by decide, by decide, ?_⟩
  intro h
  have h2 := (h (by decide)).2.1
  revert h2
  decide

open dataspace.disk in
/-- C25, amended: the revert law holds for `InitUpload` and `AbortUpload` on every disk,
for `UploadPart` on every disk whose upload directory does not yet hold the part
file or its sidecar, and for `CompleteUpload` on every disk whose upload directory
does not yet hold a `data.json`: whenever the operation succeeds, its revert right
after it succeeds and leaves the tree outside `trash/` as it was, a second run of the
operation succeeds, and a second revert fails. -/
theorem Disk_revert_law_when_nothing_is_replaced (encode : DataInfo → List Byte) (disk : Disk)
    (dataID uploadID partID tempFile : String) (parts : List Part) :
    revertLaw (Disk.InitUpload uploadID) (Disk.RevertInitUpload uploadID) disk ∧
    ((∀ dir, entry disk.uploads uploadID = some dir →
        entry dir (partID ++ ".part") = none ∧
          entry dir (partID ++ ".part" ++ ".checksum") = none) →
      revertLaw (Disk.UploadPart uploadID partID tempFile)
        (Disk.RevertUploadPart uploadID partID tempFile) disk) ∧
    revertLaw (Disk.AbortUpload uploadID) (Disk.RevertAbortUpload uploadID) disk ∧
    ((∀ dir, entry disk.uploads uploadID = some dir → entry dir "data.json" = none) →
      revertLaw (Disk.CompleteUpload encode dataID uploadID parts)
        (Disk.RevertCompleteUpload dataID uploadID parts) disk) :=
  ⟨revertLaw_InitUpload disk uploadID, revertLaw_UploadPart disk uploadID partID tempFile,
    revertLaw_AbortUpload disk uploadID,
    revertLaw_CompleteUpload encode disk dataID uploadID parts⟩

open dataspace.disk in
/-- Witness for C25: on a disk with an empty upload `u` and a temp file `t`,
`UploadPart` succeeds, so the four conclusions of the law hold there. -/
theorem Disk_revert_law_when_nothing_is_replaced_witness :
    (Disk.UploadPart "u" "1" "t" emptyUploadDisk).1 = none ∧
    (Disk.RevertUploadPart "u" "1" "t" (Disk.UploadPart "u" "1" "t" emptyUploadDisk).2).1
      = none ∧
    emptyUploadDisk.sameOutsideTrash (Disk.RevertUploadPart "u" "1" "t"
      (Disk.UploadPart "u" "1" "t" emptyUploadDisk).2).2 = true ∧
    (Disk.UploadPart "u" "1" "t" (Disk.RevertUploadPart "u" "1" "t"
      (Disk.UploadPart "u" "1" "t" emptyUploadDisk).2).2).1 = none ∧
    (Disk.RevertUploadPart "u" "1" "t" (Disk.RevertUploadPart "u" "1" "t"
      (Disk.UploadPart "u" "1" "t" emptyUploadDisk).2).2).1 ≠ none :=
  ⟨by decide,
    (Disk_revert_law_when_nothing_is_replaced (fun _ => []) emptyUploadDisk "d" "u" "1" "t"
      []).2.1 (by decide) (by decide)⟩

open dataspace.disk in
/-- Witness for C26: on a disk with an empty upload `u` and a temp file `t`, a second
`InitUpload` of `u`, `UploadPart` into the unknown upload `v`, and a second
`UploadPart` of the temp file `t` fail and leave the disk as it was. -/
theorem Disk_upload_id_checks_fail_and_change_nothing_witness :
    Disk.InitUpload "u" emptyUploadDisk = (some ErrUploadIDAlreadyExist, emptyUploadDisk) ∧
    Disk.UploadPart "v" "1" "t" emptyUploadDisk = (some ErrUploadIDNotFound, emptyUploadDisk) ∧
    ∃ e, Disk.UploadPart "u" "2" "t" (Disk.UploadPart "u" "1" "t" emptyUploadDisk).2
      = (some e, (Disk.UploadPart "u" "1" "t" emptyUploadDisk).2) :=
  ⟨(Disk_upload_id_checks_fail_and_change_nothing emptyUploadDisk "u" "1" "t" "u" "2").1
      (by decide),
    (Disk_upload_id_checks_fail_and_change_nothing emptyUploadDisk "v" "1" "t" "u" "2").2.1
      (by decide),
    (Disk_upload_id_checks_fail_and_change_nothing emptyUploadDisk "u" "1" "t" "u" "2").2.2
      (by decide)⟩

/-! ## pkg/erasure: the decode reader on healthy data shards -/

open erasure in
/-- The goroutines of `populate` on slots whose shards open: every slot of the range
holds its reader and no error afterwards, the slots before it are untouched. -/
theorem openSlots_healthy (g : GetShardReader) (off len : Int) (P : Stream → Prop) :
    ∀ (todo i : Nat) (dr : decodeReader),
      i + todo ≤ dr.readers.length → i + todo ≤ dr.errs.length →
      (∀ j, i ≤ j → j < i + todo →
        ∃ id rd, dr.info.ShardIDs.get? j = some id ∧ g id off len = .ok rd ∧ P rd) →
      ∃ R E, decodeReader.openSlots g off len todo i dr
          = some { dr with readers := R, errs := E } ∧
        R.length = dr.readers.length ∧ E.length = dr.errs.length ∧
        (∀ j, j < i → R.get? j = dr.readers.get? j ∧ E.get? j = dr.errs.get? j) ∧
        (∀ j, i ≤ j → j < i + todo →
          (∃ rd, R.get? j = some (some rd) ∧ P rd) ∧ E.get? j = some none) := by
  intro todo
  induction todo with
  | zero =>
    intro i dr _ _ _
    exact ⟨dr.readers, dr.errs, rfl, rfl, rfl, fun _ _ => ⟨rfl, rfl⟩,
      fun j h1 h2 => absurd h2 (by omega)⟩
  | succ todo ih =>
    intro i dr hr he h
    obtain ⟨id, rd, hid, hg, hP⟩ := h i (le_refl _) (by omega)
    have hcond : i < dr.readers.length ∧ i < dr.errs.length := ⟨by omega, by omega⟩
    rw [decodeReader.openSlots]
    simp only [hid, hcond, and_self, if_true, hg]
    obtain ⟨R, E, hopen, hRl, hEl, hbefore, hin⟩ := ih (i + 1)
      { dr with readers := dr.readers.set i (some rd), errs := dr.errs.set i none }
      (by simp only [List.length_set]; omega) (by simp only [List.length_set]; omega)
      (fun j h1 h2 => h j (by omega) (by omega))
    refine ⟨R, E, hopen, by simpa using hRl, by simpa using hEl, ?_, ?_⟩
    · intro j hj
      obtain ⟨h1, h2⟩ := hbefore j (by omega)
      simp only [List.get?_eq_getElem?] at h1 h2 ⊢
      rw [h1, h2, List.getElem?_set_ne (by omega), List.getElem?_set_ne (by omega)]
      exact ⟨rfl, rfl⟩
    · intro j h1 h2
      by_cases hj : j = i
      · subst hj
        obtain ⟨h3, h4⟩ := hbefore j (by omega)
        simp only [List.get?_eq_getElem?] at h3 h4 ⊢
        rw [h3, h4, List.getElem?_set_self (by omega), List.getElem?_set_self (by omega)]
        exact ⟨⟨rd, rfl, hP⟩, rfl⟩
      · exact hin j (by omega) (by omega)

open erasure in
/-- The goroutines of `populate` depend on `getShardReader` only at the shard ids of
the slots they open. -/
theorem openSlots_congr (g g' : GetShardReader) (off len : Int) :
    ∀ (todo i : Nat) (dr : decodeReader),
      (∀ j, i ≤ j → j < i + todo → ∀ id, dr.info.ShardIDs.get? j = some id →
        g' id off len = g id off len) →
      decodeReader.openSlots g' off len todo i dr = decodeReader.openSlots g off len todo i dr := by
  intro todo
  induction todo with
  | zero => intro i dr _; rfl
  | succ todo ih =>
    intro i dr h
    rw [decodeReader.openSlots, decodeReader.openSlots]
    cases hid : dr.info.ShardIDs.get? i with
    | none => rfl
    | some id =>
      simp only []
      rw [h i (le_refl _) (by omega) id hid]
      split_ifs with hc
      · cases hg : g id off len with
        | ok rd => exact ih (i + 1) _ (fun j h1 h2 => h j (by omega) (by omega))
        | error e => exact ih (i + 1) _ (fun j h1 h2 => h j (by omega) (by omega))
      · rfl

open erasure in
/-- All of `n` slots without an error are counted. -/
theorem countNil_all (errs : List (Option Err)) (s n : Nat)
    (h : ∀ j, j < n → errs.get? (s + j) = some none) : countNil errs s n = n := by
  unfold countNil
  rw [List.filter_eq_self.mpr, List.length_range]
  intro j hj
  have := h j (List.mem_range.mp hj)
  simp only [List.get?_eq_getElem?] at this
  simp [List.getD_eq_getElem?_getD, this]

open erasure in
/-- Go `populate` on a reader that has opened nothing yet, asked for `DataCount`
shards that all open: one pass. -/
theorem populate_healthy (g : GetShardReader) (off len : Int) (fuel count : Nat)
    (dr dr' : decodeReader) (h0 : dr.readersLen = 0) (hc : 1 ≤ count)
    (hlen : count ≤ dr.readers.length)
    (hopen : decodeReader.openSlots g off len count 0 dr = some dr')
    (hnil : countNil dr'.errs 0 count = count) :
    decodeReader.populate g off len (fuel + 2) dr count
      = (none, { dr' with readersLen := count }) := by
  rw [decodeReader.populate]
  have h1 : count ≠ 0 := by omega
  have h2 : ¬ 0 = dr.readers.length := by omega
  simp only [h1, if_false, h0, h2, hopen, hnil, Nat.sub_self, Nat.zero_add]
  rw [decodeReader.populate]
  simp
open erasure in
/-- The goroutines of `readShards` on `n` slots whose readers are open and hold `c`
bytes, the size of every shard slice: every reader has delivered `c` bytes and no
slot has an error; nothing else changes. -/
theorem readSlots_healthy (c : Nat) :
    ∀ (n : Nat) (dr : decodeReader),
      n ≤ dr.readers.length → n ≤ dr.shards.length → n ≤ dr.errs.length →
      (∀ sh ∈ dr.shards, sh.len = c) →
      (∀ j, j < n → ∃ r, dr.readers.get? j = some (some r) ∧ c ≤ r.bytes.length) →
      ∃ R Sh E,
        (List.range n).foldl
          (fun (dr : decodeReader) k =>
            let j := 0 + k
            match dr.readers.get? j, dr.shards.get? j, dr.errs.get? j with
            | some rd, some sh, some er =>
              let r := readSlot rd sh er
              { dr with readers := dr.readers.set j r.1, shards := dr.shards.set j r.2.1,
                        errs := dr.errs.set j r.2.2 }
            | _, _, _ => dr) dr
          = { dr with readers := R, shards := Sh, errs := E } ∧
        R.length = dr.readers.length ∧ Sh.length = dr.shards.length ∧
        E.length = dr.errs.length ∧
        (∀ sh ∈ Sh, sh.len = c) ∧
        (∀ j, n ≤ j → R.get? j = dr.readers.get? j) ∧
        (∀ j, j < n → E.get? j = some none) ∧
        (∀ j, j < n → ∃ r, dr.readers.get? j = some (some r) ∧
          R.get? j = some (some ⟨r.bytes.drop c, r.final⟩)) := by
  intro n
  induction n with
  | zero =>
    intro dr _ _ _ hl _
    exact ⟨dr.readers, dr.shards, dr.errs, rfl, rfl, rfl, rfl, hl, fun _ _ => rfl,
      fun j h => absurd h (by omega), fun j h => absurd h (by omega)⟩
  | succ n ih =>
    intro dr hrl hs he hl hr
    obtain ⟨R, Sh, E, hfold, hRl, hSl, hEl, hSlen, hRge, hEnil, hRlt⟩ :=
      ih dr (by omega) (by omega) (by omega) hl (fun j hj => hr j (by omega))
    rw [List.range_succ, List.foldl_append, hfold]
    obtain ⟨r, hrn, hrc⟩ := hr n (by omega)
    have h1 : R.get? n = some (some r) := by rw [hRge n (le_refl _)]; exact hrn
    have hnS : n < Sh.length := by omega
    obtain ⟨sh, hsh, hshm⟩ : ∃ sh, Sh.get? n = some sh ∧ sh ∈ Sh := by
      simp only [List.get?_eq_getElem?]
      exact ⟨Sh[n], List.getElem?_eq_getElem hnS, List.getElem_mem _⟩
    obtain ⟨er, her⟩ : ∃ er, E.get? n = some er := by
      simp only [List.get?_eq_getElem?]
      exact ⟨E[n], List.getElem?_eq_getElem (by omega)⟩
    have hshlen : sh.len = c := hSlen sh hshm
    have hslot : readSlot (some r) sh er
        = (some ⟨r.bytes.drop c, r.final⟩, sh.write (r.bytes.take c), none) := by
      unfold readSlot
      simp only [hshlen]
      by_cases hc0 : c = 0
      · subst hc0
        simp [readFull]
      · simp [readFull, hc0, hrc]
    simp only [List.foldl_cons, List.foldl_nil, Nat.zero_add, h1, hsh, her, hslot]
    refine ⟨_, _, _, rfl, by simp [hRl], by simp [hSl], by simp [hEl], ?_, ?_, ?_, ?_⟩
    · intro x hx
      rcases List.mem_or_eq_of_mem_set hx with h | h
      · exact hSlen x h
      · rw [h]; exact hshlen
    · intro j hj
      simp only [List.get?_eq_getElem?]
      rw [List.getElem?_set_ne (by omega)]
      have := hRge j (by omega)
      simpa only [List.get?_eq_getElem?] using this
    · intro j hj
      simp only [List.get?_eq_getElem?]
      by_cases hjn : j = n
      · subst hjn
        rw [List.getElem?_set_self (by omega)]
      · rw [List.getElem?_set_ne (fun h => hjn h.symm)]
        have := hEnil j (by omega)
        simpa only [List.get?_eq_getElem?] using this
    · intro j hj
      by_cases hjn : j = n
      · subst hjn
        refine ⟨r, hrn, ?_⟩
        simp only [List.get?_eq_getElem?]
        rw [List.getElem?_set_self (by omega)]
      · obtain ⟨r', h3, h4⟩ := hRlt j (by omega)
        refine ⟨r', h3, ?_⟩
        simp only [List.get?_eq_getElem?] at h4 ⊢
        rw [List.getElem?_set_ne (fun h => hjn h.symm)]
        exact h4
open erasure in
/-- The stages of `loadBlock`: the two cuts of the shard slices, then the rest. -/
theorem loadBlock_stages (C : Codec) (g : GetShardReader) (dr : decodeReader) :
    dr.loadBlock C g =
      match (if dr.index = 1 ∧ dr.bytesToSkipInFirstBlock > 0 then
          dr.mapShards (fun b => b.sliceTo dr.shardSize) else some dr) with
      | none => (some (Err.panic "slice bounds out of range"), dr)
      | some d1 =>
        match (if (d1.index : Int) = (d1.blocksToRead : Int) - 1 ∧ d1.shardSize ≠ d1.lastShardSize
            then ({ d1 with shardSize := d1.lastShardSize }).mapShards
              (fun b => b.sliceTo d1.lastShardSize) else some d1) with
        | none => (some (Err.panic "slice bounds out of range"), d1)
        | some d2 => d2.loadOpened C g := by
  unfold decodeReader.loadBlock decodeReader.loadOpened
  rfl

open erasure in
/-- One pass of the loop of lines 126-137 is enough when every opened slot reads
without an error. -/
theorem acquire_one (g : GetShardReader) (fuel : Nat) (dr : decodeReader)
    (h : (dr.readShards 0).2.info.DataCount ≤ (dr.readShards 0).1) :
    decodeReader.acquire g (fuel + 1) dr 0 0 = (none, (dr.readShards 0).2) := by
  rw [decodeReader.acquire]
  simp only [Nat.zero_add]
  rw [if_pos h]

open erasure in
/-- Lines 120-146 of `readBlock` on a reader whose data shards are healthy: either no
shard is open yet and the `DataCount` data shards open, or exactly these are open;
every reader holds the `c` bytes of this block.  The result is the same for every
coder and every `getShardReader` that agrees on the data shards: the data shard
readers have each delivered `c` bytes, and no further shard was opened. -/
theorem loadOpened_healthy (g : GetShardReader) (info : Info) (off len : Int) (c need : Nat)
    (d : decodeReader) (hinfo : d.info = info) (hN : 1 ≤ info.DataCount)
    (hr : info.DataCount ≤ d.readers.length) (he : info.DataCount ≤ d.errs.length)
    (hs : info.DataCount ≤ d.shards.length) (hlen : ∀ sh ∈ d.shards, sh.len = c)
    (hc : c ≤ need)
    (hopen : ∀ i, i < info.DataCount → ∃ id rd, info.ShardIDs.get? i = some id ∧
      g id off len = .ok rd ∧ need ≤ rd.bytes.length)
    (hstate : (d.readersLen = 0 ∧ d.blockOffset = off ∧ d.blockLength = len) ∨
      (d.readersLen = info.DataCount ∧ ∀ i, i < info.DataCount →
        ∃ r, d.readers.get? i = some (some r) ∧ need ≤ r.bytes.length)) :
    ∃ R Sh E bo bl,
      (∀ (C' : Codec) (g' : GetShardReader),
        (∀ i id, i < info.DataCount → info.ShardIDs.get? i = some id →
          g' id off len = g id off len) →
        d.loadOpened C' g' = (none,
          { d with
            readersLen := info.DataCount, readers := R, shards := Sh, errs := E,
            blockOffset := bo, blockLength := bl })) ∧
      R.length = d.readers.length ∧ Sh.length = d.shards.length ∧ E.length = d.errs.length ∧
      (∀ sh ∈ Sh, sh.len = c) ∧
      (∀ i, i < info.DataCount → ∃ r, R.get? i = some (some r) ∧ need - c ≤ r.bytes.length) := by
  -- the reader after `populate`
  obtain ⟨R0, E0, hpop, hR0, hE0, hread0⟩ : ∃ R0 E0,
      (∀ (g' : GetShardReader),
        (∀ i id, i < info.DataCount → info.ShardIDs.get? i = some id →
          g' id off len = g id off len) →
        (if d.readersLen = 0 then
            decodeReader.populate g' d.blockOffset d.blockLength (d.readers.length + 1) d
              d.info.DataCount
          else (none, d)) = (none,
            { d with
              readersLen := info.DataCount, readers := R0, errs := E0 })) ∧
      R0.length = d.readers.length ∧ E0.length = d.errs.length ∧
      (∀ i, i < info.DataCount → ∃ r, R0.get? i = some (some r) ∧ need ≤ r.bytes.length) := by
    rcases hstate with ⟨h0, hbo, hbl⟩ | ⟨hN2, hrd⟩
    · obtain ⟨R, E, hopenS, hRl, hEl, _, hin⟩ := openSlots_healthy g off len
        (fun rd => need ≤ rd.bytes.length) info.DataCount 0 d (by omega) (by omega)
        (fun j _ hj => by rw [hinfo]; exact hopen j (by omega))
      refine ⟨R, E, ?_, hRl, hEl, fun i hi => (hin i (Nat.zero_le _) (by omega)).1⟩
      intro g' hag
      obtain ⟨f, hf⟩ : ∃ f, d.readers.length + 1 = f + 2 := ⟨d.readers.length - 1, by omega⟩
      have hcongr := openSlots_congr g g' off len info.DataCount 0 d
        (fun j _ hj id hid => hag j id (by omega) (by rw [← hinfo]; exact hid))
      have hp := populate_healthy g' off len f info.DataCount d _ h0 hN hr (hcongr.trans hopenS)
        (countNil_all _ _ _ (fun j hj => by
          have := (hin j (Nat.zero_le _) (by omega)).2
          simpa using this))
      have hN' : d.info.DataCount = info.DataCount := by rw [hinfo]
      rw [← hbo, ← hbl] at hp
      rw [if_pos h0, hN', hf, hp]
    · refine ⟨d.readers, d.errs, ?_, rfl, rfl, hrd⟩
      intro g' _
      have hne : ¬ d.readersLen = 0 := by omega
      rw [if_neg hne]
      cases d
      simp only at hN2
      simp only [hN2]
  -- the reader after `readShards`
  obtain ⟨R, Sh, E, hfold, hRl, hSl, hEl, hSlen, _, hEnil, hRlt⟩ := readSlots_healthy c
    info.DataCount { d with readersLen := info.DataCount, readers := R0, errs := E0 }
    (by simp only [hR0]; exact hr) hs (by simp only [hE0]; exact he) hlen
    (fun j hj => by
      obtain ⟨r, h1, h2⟩ := hread0 j hj
      exact ⟨r, h1, by omega⟩)
  have hreadShards : decodeReader.readShards
      { d with readersLen := info.DataCount, readers := R0, errs := E0 } 0
      = (countNil E 0 info.DataCount,
        { d with readersLen := info.DataCount, readers := R, shards := Sh, errs := E }) := by
    unfold decodeReader.readShards decodeReader.readSlots
    simp only [Nat.sub_zero]
    rw [hfold]
  have hcount : countNil E 0 info.DataCount = info.DataCount :=
    countNil_all _ _ _ (fun j hj => by simpa using hEnil j hj)
  refine ⟨R, Sh, E, int64 (d.blockOffset - int64 d.shardSize),
    int64 (d.blockLength - int64 d.shardSize), ?_, by rw [hRl, hR0], hSl, by rw [hEl, hE0],
    hSlen, ?_⟩
  · intro C' g' hag
    unfold decodeReader.loadOpened
    rw [hpop g' hag]
    simp only []
    obtain ⟨f, hf⟩ : ∃ f, R0.length + 2 = f + 1 := ⟨R0.length + 1, rfl⟩
    rw [hf, acquire_one g' f _ (by rw [hreadShards]; simp only [hcount, hinfo]; exact le_refl _),
      hreadShards]
    simp only [hinfo, gt_iff_lt, lt_self_iff_false, if_false]
  · intro i hi
    obtain ⟨r, h1, h2⟩ := hRlt i hi
    obtain ⟨r0, h3, h4⟩ := hread0 i hi
    simp only [] at h1
    rw [h3] at h1
    simp only [Option.some.injEq] at h1
    subst h1
    exact ⟨_, h2, by simp only [List.length_drop]; omega⟩

open erasure in
/-- The stages of `loadBlock` when both cuts of the shard slices succeed. -/
theorem loadBlock_of_stages (C : Codec) (g : GetShardReader) (dr d1 d2 : decodeReader)
    (h1 : (if dr.index = 1 ∧ dr.bytesToSkipInFirstBlock > 0 then
      dr.mapShards (fun b => b.sliceTo dr.shardSize) else some dr) = some d1)
    (h2 : (if (d1.index : Int) = (d1.blocksToRead : Int) - 1 ∧ d1.shardSize ≠ d1.lastShardSize
      then ({ d1 with shardSize := d1.lastShardSize }).mapShards
        (fun b => b.sliceTo d1.lastShardSize) else some d1) = some d2) :
    dr.loadBlock C g = d2.loadOpened C g := by
  rw [loadBlock_stages, h1]
  simp only []
  rw [h2]

open erasure in
/-- The first cut of the shard slices panics. -/
theorem loadBlock_panic_first (C : Codec) (g : GetShardReader) (dr : decodeReader)
    (h1 : (if dr.index = 1 ∧ dr.bytesToSkipInFirstBlock > 0 then
      dr.mapShards (fun b => b.sliceTo dr.shardSize) else some dr) = none) :
    dr.loadBlock C g = (some (Err.panic "slice bounds out of range"), dr) := by
  rw [loadBlock_stages, h1]

open erasure in
/-- The second cut of the shard slices panics. -/
theorem loadBlock_panic_second (C : Codec) (g : GetShardReader) (dr d1 : decodeReader)
    (h1 : (if dr.index = 1 ∧ dr.bytesToSkipInFirstBlock > 0 then
      dr.mapShards (fun b => b.sliceTo dr.shardSize) else some dr) = some d1)
    (h2 : (if (d1.index : Int) = (d1.blocksToRead : Int) - 1 ∧ d1.shardSize ≠ d1.lastShardSize
      then ({ d1 with shardSize := d1.lastShardSize }).mapShards
        (fun b => b.sliceTo d1.lastShardSize) else some d1) = none) :
    dr.loadBlock C g = (some (Err.panic "slice bounds out of range"), d1) := by
  rw [loadBlock_stages, h1]
  simp only []
  rw [h2]

/-- Shard slices that were all cut to `n` bytes have `n` bytes. -/
theorem mapM_sliceTo_some (n : Nat) : ∀ (shards cut : List Buf),
    shards.mapM (fun (b : Buf) => b.sliceTo (n : Int)) = some cut →
    cut.length = shards.length ∧ ∀ b ∈ cut, b.len = n := by
  intro shards
  induction shards with
  | nil =>
    intro cut h
    simp only [List.mapM_nil] at h
    cases h
    exact ⟨rfl, fun b hb => absurd hb (List.not_mem_nil _)⟩
  | cons a l ih =>
    intro cut h
    rw [List.mapM_cons] at h
    cases ha : a.sliceTo (n : Int) with
    | none => rw [ha] at h; cases h
    | some a' =>
      cases hl : l.mapM (fun (b : Buf) => b.sliceTo (n : Int)) with
      | none => rw [ha, hl] at h; cases h
      | some l' =>
        rw [ha, hl] at h
        cases h
        obtain ⟨h1, h2⟩ := ih l' hl
        refine ⟨by simp [h1], ?_⟩
        intro b hb
        rcases List.mem_cons.mp hb with rfl | hb
        · unfold Buf.sliceTo at ha
          split_ifs at ha
          cases ha
          simp
        · exact h2 b hb

open erasure in
/-- Cutting the shard slices of a reader: a panic, or all slices have the new size
and nothing else changes. -/
theorem mapShards_sliceTo (dr : decodeReader) (n : Nat) :
    dr.mapShards (fun b => b.sliceTo (n : Int)) = none ∨
    ∃ cut, dr.mapShards (fun b => b.sliceTo (n : Int)) = some { dr with shards := cut } ∧
      cut.length = dr.shards.length ∧ ∀ b ∈ cut, b.len = n := by
  unfold decodeReader.mapShards
  cases h : dr.shards.mapM (fun (b : Buf) => b.sliceTo (n : Int)) with
  | none => left; rfl
  | some cut =>
    right
    exact ⟨cut, rfl, mapM_sliceTo_some n _ _ h⟩

open erasure in
/-- Go `loadBlock` (lines 103-146 of `readBlock`) on a healthy reader that has blocks
left: the result is the same for every coder and every `getShardReader` that agrees
on the data shards; it is a panic of a slice expression, or the block is loaded: the
data shard readers are the open ones, each has delivered the bytes of this block,
and the shard slices have the size `c` of this block. -/
theorem loadBlock_healthy (g : GetShardReader) (info : Info) (S L B : Nat) (off len : Int)
    (dr : decodeReader) (hinv : HealthyInv info S L B off len dr) (hk : dr.index < B)
    (hopen : ∀ i, i < info.DataCount → ∃ id rd, info.ShardIDs.get? i = some id ∧
      g id off len = .ok rd ∧ (B - 1) * S + L ≤ rd.bytes.length) :
    ∃ res : Option Err × decodeReader,
      (∀ (C' : Codec) (g' : GetShardReader),
        (∀ i id, i < info.DataCount → info.ShardIDs.get? i = some id →
          g' id off len = g id off len) →
        dr.loadBlock C' g' = res) ∧
      (isPanic res.1 = true ∨
        (res.1 = none ∧ ∃ R Sh E bo bl c,
          res.2 = { dr with readersLen := info.DataCount, readers := R, shards := Sh, errs := E,
                            blockOffset := bo, blockLength := bl, shardSize := c } ∧
          c = (if dr.index = B - 1 then L else S) ∧
          R.length = dr.readers.length ∧ Sh.length = dr.shards.length ∧
          E.length = dr.errs.length ∧ (∀ sh ∈ Sh, sh.len = c) ∧
          ∀ i, i < info.DataCount → ∃ r, R.get? i = some (some r) ∧
            (dr.index + 1 < B → (B - 1 - (dr.index + 1)) * S + L ≤ r.bytes.length))) := by
  obtain ⟨hinfo, hB, hL, hN, hr, he, hs, _, h0, hpos⟩ := hinv
  -- the first cut
  have hS : dr.shardSize = S := by
    rcases Nat.eq_zero_or_pos dr.index with hz | hp
    · exact (h0 hz).2.1
    · exact ((hpos hp).2 hk).1
  have hstep1 : (if dr.index = 1 ∧ dr.bytesToSkipInFirstBlock > 0 then
        dr.mapShards (fun b => b.sliceTo dr.shardSize) else some dr) = none ∨
      ∃ cut, (if dr.index = 1 ∧ dr.bytesToSkipInFirstBlock > 0 then
          dr.mapShards (fun b => b.sliceTo dr.shardSize) else some dr)
          = some { dr with shards := cut } ∧
        cut.length = dr.shards.length ∧ ∀ b ∈ cut, b.len = S := by
    by_cases hc1 : dr.index = 1 ∧ dr.bytesToSkipInFirstBlock > 0
    · have e : (fun (b : Buf) => b.sliceTo (dr.shardSize : Int))
          = (fun (b : Buf) => b.sliceTo (S : Int)) := by rw [hS]
      rw [if_pos hc1, e]
      exact mapShards_sliceTo dr S
    · rw [if_neg hc1]
      right
      refine ⟨dr.shards, rfl, rfl, ?_⟩
      rcases Nat.eq_zero_or_pos dr.index with hz | hp
      · exact (h0 hz).2.2.2.2
      · rcases ((hpos hp).2 hk).2.1 with h | h
        · exact absurd h hc1
        · exact h
  rcases hstep1 with h1 | ⟨cut1, h1, hcut1l, hcut1⟩
  · exact ⟨(some (Err.panic "slice bounds out of range"), dr),
      fun C' g' _ => loadBlock_panic_first C' g' dr h1, Or.inl rfl⟩
  -- the second cut
  have hstep2 : ∃ o : Option decodeReader,
      (if ((({ dr with shards := cut1 } : decodeReader).index : Nat) : Int)
            = ((({ dr with shards := cut1 } : decodeReader).blocksToRead : Nat) : Int) - 1 ∧
          ({ dr with shards := cut1 } : decodeReader).shardSize
            ≠ ({ dr with shards := cut1 } : decodeReader).lastShardSize
        then decodeReader.mapShards
          { ({ dr with shards := cut1 } : decodeReader) with
            shardSize := ({ dr with shards := cut1 } : decodeReader).lastShardSize }
          (fun b => b.sliceTo ({ dr with shards := cut1 } : decodeReader).lastShardSize)
        else some { dr with shards := cut1 }) = o ∧
      (o = none ∨ ∃ cut c, o = some { dr with shards := cut, shardSize := c } ∧
        c = (if dr.index = B - 1 then L else S) ∧
        cut.length = dr.shards.length ∧ ∀ b ∈ cut, b.len = c) := by
    refine ⟨_, rfl, ?_⟩
    simp only []
    by_cases hc2 : (dr.index : Int) = (dr.blocksToRead : Int) - 1 ∧ dr.shardSize ≠ dr.lastShardSize
    · rw [if_pos hc2]
      have hlast : dr.index = B - 1 := by omega
      rcases mapShards_sliceTo
        { dr with shards := cut1, shardSize := dr.lastShardSize } dr.lastShardSize with h | h
      · left; exact h
      · right
        obtain ⟨cut, hcut, hl, hlen⟩ := h
        refine ⟨cut, L, ?_, by rw [if_pos hlast], by rw [hl]; exact hcut1l, by rw [← hL]; exact hlen⟩
        rw [hcut, hL]
    · rw [if_neg hc2]
      right
      refine ⟨cut1, S, ?_, ?_, hcut1l, hcut1⟩
      · rw [← hS]
      · split_ifs with hlast
        · have : ¬ dr.shardSize ≠ dr.lastShardSize := fun hne => hc2 ⟨by omega, hne⟩
          rw [← hS, ← hL]
          exact not_not.mp this
        · rfl
  obtain ⟨o, h2, ho⟩ := hstep2
  rcases ho with rfl | ⟨cut, c, rfl, hc, hcutl, hcut⟩
  · exact ⟨(some (Err.panic "slice bounds out of range"), { dr with shards := cut1 }),
      fun C' g' _ => loadBlock_panic_second C' g' dr _ h1 h2, Or.inl rfl⟩
  -- the rest of the block
  have hneed : c ≤ (B - 1 - dr.index) * S + L := by
    rw [hc]
    split_ifs with hlast
    · omega
    · have : S ≤ (B - 1 - dr.index) * S := Nat.le_mul_of_pos_left S (by omega)
      omega
  have hle : (B - 1 - dr.index) * S ≤ (B - 1) * S := Nat.mul_le_mul_right S (by omega)
  obtain ⟨R, Sh, E, bo, bl, hload, hRl, hShl, hEl, hShlen, hRd⟩ := loadOpened_healthy g info off len
    c ((B - 1 - dr.index) * S + L) { dr with shards := cut, shardSize := c } hinfo hN hr he
    (by simp only [hcutl]; exact hs) hcut hneed
    (fun i hi => by
      obtain ⟨id, rd, h3, h4, h5⟩ := hopen i hi
      exact ⟨id, rd, h3, h4, by omega⟩)
    (by
      rcases Nat.eq_zero_or_pos dr.index with hz | hp
      · left
        exact ⟨(h0 hz).1, (h0 hz).2.2.1, (h0 hz).2.2.2.1⟩
      · right
        exact ⟨(hpos hp).1, ((hpos hp).2 hk).2.2⟩)
  refine ⟨_, fun C' g' hag => (loadBlock_of_stages C' g' dr _ _ h1 h2).trans (hload C' g' hag),
    Or.inr ⟨rfl, R, Sh, E, bo, bl, c, rfl, hc, hRl, by rw [hShl]; exact hcutl, hEl, hShlen, ?_⟩⟩
  intro i hi
  obtain ⟨r, h3, h4⟩ := hRd i hi
  refine ⟨r, h3, fun hnext => ?_⟩
  have hcS : c = S := by rw [hc, if_neg (by omega)]
  obtain ⟨m, hm⟩ : ∃ m, B - 1 - dr.index = m + 1 := ⟨B - 1 - dr.index - 1, by omega⟩
  have hm2 : B - 1 - (dr.index + 1) = m := by omega
  rw [hm2]
  rw [hm, Nat.succ_mul, hcS] at h4
  omega

open erasure in
/-- The loop of decode.go:154-162 changes the shard slices, the bytes to skip and the
shard index only; a positive number of bytes to skip stays positive, and with no
byte to skip every shard slice keeps its size. -/
theorem skipFirst_props : ∀ (todo : Nat) (dr dr' : decodeReader),
    decodeReader.skipFirst todo dr = some dr' →
    ∃ Sh sk si, dr' = { dr with shards := Sh, bytesToSkipInFirstBlock := sk, shardIndex := si } ∧
      Sh.length = dr.shards.length ∧
      (0 < dr.bytesToSkipInFirstBlock → 0 < sk) ∧
      (dr.bytesToSkipInFirstBlock = 0 →
        (∀ sh ∈ dr.shards, sh.len = dr.shardSize) → ∀ sh ∈ Sh, sh.len = dr.shardSize) := by
  intro todo
  induction todo with
  | zero =>
    intro dr dr' h
    simp only [decodeReader.skipFirst, Option.some.injEq] at h
    subst h
    exact ⟨dr.shards, dr.bytesToSkipInFirstBlock, dr.shardIndex, rfl, rfl, fun h => h,
      fun _ h => h⟩
  | succ todo ih =>
    intro dr dr' h
    rw [decodeReader.skipFirst] at h
    split_ifs at h with hgt
    · obtain ⟨Sh, sk, si, h1, h2, h3, _⟩ := ih _ _ h
      refine ⟨Sh, sk, si, h1, h2, fun _ => h3 (by simp only []; omega), fun h0 => ?_⟩
      omega
    · cases hb : dr.shards.get? dr.shardIndex with
      | none => rw [hb] at h; cases h
      | some b =>
        rw [hb] at h
        simp only [] at h
        cases hb2 : (b.copyFront dr.bytesToSkipInFirstBlock).bind
            (fun b => b.sliceTo ((dr.shardSize : Int) - dr.bytesToSkipInFirstBlock)) with
        | none => rw [hb2] at h; cases h
        | some b' =>
          rw [hb2] at h
          simp only [Option.some.injEq] at h
          subst h
          refine ⟨_, dr.bytesToSkipInFirstBlock, dr.shardIndex, rfl, by simp, fun h => h,
            fun h0 hall => ?_⟩
          intro sh hsh
          rcases List.mem_or_eq_of_mem_set hsh with hm | hm
          · exact hall sh hm
          · subst hm
            rw [h0] at hb2
            unfold Buf.copyFront at hb2
            split_ifs at hb2
            · simp only [Option.some_bind, Buf.sliceTo] at hb2
              split_ifs at hb2
              simp only [Option.some.injEq] at hb2
              rw [← hb2]
              simp
            · simp at hb2

open erasure in
/-- The loop of decode.go:179-181 changes the shard slices only. -/
theorem clearFrom_props : ∀ (todo i : Nat) (dr dr' : decodeReader),
    decodeReader.clearFrom todo i dr = some dr' →
    ∃ Sh, dr' = { dr with shards := Sh } ∧ Sh.length = dr.shards.length := by
  intro todo
  induction todo with
  | zero =>
    intro i dr dr' h
    simp only [decodeReader.clearFrom, Option.some.injEq] at h
    subst h
    exact ⟨dr.shards, rfl, rfl⟩
  | succ todo ih =>
    intro i dr dr' h
    rw [decodeReader.clearFrom] at h
    cases hb : dr.shards.get? i with
    | none => rw [hb] at h; cases h
    | some b =>
      rw [hb] at h
      obtain ⟨Sh, h1, h2⟩ := ih _ _ _ h
      exact ⟨Sh, h1, by simpa using h2⟩

open erasure in
/-- The loops of decode.go:169-181 change the shard slices and the bytes to read in
the last block only. -/
theorem trimLast_props : ∀ (todo i : Nat) (dr dr' : decodeReader),
    decodeReader.trimLast todo i dr = some dr' →
    ∃ Sh br, dr' = { dr with shards := Sh, bytesToReadInLastBlock := br } ∧
      Sh.length = dr.shards.length := by
  intro todo
  induction todo with
  | zero =>
    intro i dr dr' h
    simp only [decodeReader.trimLast, Option.some.injEq] at h
    subst h
    exact ⟨dr.shards, dr.bytesToReadInLastBlock, rfl, rfl⟩
  | succ todo ih =>
    intro i dr dr' h
    rw [decodeReader.trimLast] at h
    split_ifs at h with hgt
    · obtain ⟨Sh, br, h1, h2⟩ := ih _ _ _ h
      exact ⟨Sh, br, h1, h2⟩
    · cases hb : dr.shards.get? i with
      | none => rw [hb] at h; cases h
      | some b =>
        rw [hb] at h
        simp only [] at h
        cases hb2 : b.sliceTo dr.bytesToReadInLastBlock with
        | none => rw [hb2] at h; cases h
        | some b' =>
          rw [hb2] at h
          simp only [] at h
          obtain ⟨Sh, h1, h2⟩ := clearFrom_props _ _ _ _ h
          exact ⟨Sh, dr.bytesToReadInLastBlock, h1, by simpa using h2⟩

open erasure in
/-- Go `readBlock` depends on the coder and on `getShardReader` through `loadBlock`
only. -/
theorem readBlock_congr (C C' : Codec) (g g' : GetShardReader) (dr : decodeReader)
    (h : dr.loadBlock C' g' = dr.loadBlock C g) : dr.readBlock C' g' = dr.readBlock C g := by
  unfold decodeReader.readBlock
  rw [h]

open erasure in
/-- Go `readBlock` on a healthy reader: the result is the same for every coder and
every `getShardReader` that agrees on the data shards; it is a panic, `io.EOF` with
the reader unchanged, or a loaded block that leaves the reader healthy. -/
theorem readBlock_healthy (C : Codec) (g : GetShardReader) (info : Info) (S L B : Nat)
    (off len : Int) (dr : decodeReader) (hinv : HealthyInv info S L B off len dr)
    (hopen : ∀ i, i < info.DataCount → ∃ id rd, info.ShardIDs.get? i = some id ∧
      g id off len = .ok rd ∧ (B - 1) * S + L ≤ rd.bytes.length) :
    (∀ (C' : Codec) (g' : GetShardReader),
      (∀ i id, i < info.DataCount → info.ShardIDs.get? i = some id →
        g' id off len = g id off len) →
      dr.readBlock C' g' = dr.readBlock C g) ∧
    (isPanic (dr.readBlock C g).1 = true ∨ dr.readBlock C g = (some Err.eof, dr) ∨
      ((dr.readBlock C g).1 = none ∧ HealthyInv info S L B off len (dr.readBlock C g).2)) := by
  by_cases hidx : dr.index = dr.blocksToRead
  · have heof : ∀ (C' : Codec) (g' : GetShardReader), dr.readBlock C' g' = (some Err.eof, dr) := by
      intro C' g'
      unfold decodeReader.readBlock
      rw [if_pos hidx]
    exact ⟨fun C' g' _ => (heof C' g').trans (heof C g).symm, Or.inr (Or.inl (heof C g))⟩
  · have hinv' := hinv
    obtain ⟨hinfo, hB, hL, hN, hr, he, hs, hle, h0, hpos⟩ := hinv
    have hk : dr.index < B := by omega
    obtain ⟨res, hall, hres⟩ := loadBlock_healthy g info S L B off len dr hinv' hk hopen
    have hself := hall C g (fun _ _ _ _ => rfl)
    refine ⟨fun C' g' hag => readBlock_congr C C' g g' dr ((hall C' g' hag).trans hself.symm), ?_⟩
    generalize hrb : dr.readBlock C g = rb
    unfold decodeReader.readBlock at hrb
    rw [if_neg hidx, hself] at hrb
    obtain ⟨e, d⟩ := res
    rcases hres with hp | ⟨hnone, R, Sh, E, bo, bl, c, hd, hc, hRl, hShl, hEl, hShlen, hRd⟩
    · left
      cases e with
      | none => simp [isPanic] at hp
      | some e =>
        simp only [] at hrb
        rw [← hrb]
        exact hp
    · simp only [] at hnone hd
      subst hnone
      subst hd
      simp only [] at hrb
      split at hrb
      · left; rw [← hrb]; rfl
      · rename_i d1 hd1
        split at hrb
        · left; rw [← hrb]; rfl
        · rename_i d2 hd2
          right; right
          rw [← hrb]
          refine ⟨rfl, ?_⟩
          -- the shard slices, the bytes to skip and the cursor are all that changed
          have hfirst : ∃ Sh1 sk si ba, d1 =
              { dr with
                readersLen := info.DataCount, readers := R,
                shards := Sh1, errs := E, blockOffset := bo, blockLength := bl, shardSize := c,
                bytesToSkipInFirstBlock := sk, shardIndex := si, byteIndex := 0,
                bytesAvailable := ba } ∧ Sh1.length = dr.shards.length ∧
              ((dr.index = 0 ∧ 0 < sk) ∨ ∀ sh ∈ Sh1, sh.len = c) := by
            by_cases hz : dr.index = 0
            · rw [if_pos hz] at hd1
              obtain ⟨Sh1, sk, si, h1, h2, h3, h4⟩ := skipFirst_props _ _ _ hd1
              refine ⟨Sh1, sk, si, _, h1, by rw [h2]; exact hShl, ?_⟩
              rcases Nat.eq_zero_or_pos dr.bytesToSkipInFirstBlock with hsk | hsk
              · right; exact h4 hsk hShlen
              · left; exact ⟨hz, h3 hsk⟩
            · rw [if_neg hz] at hd1
              simp only [Option.some.injEq] at hd1
              exact ⟨Sh, dr.bytesToSkipInFirstBlock, 0, _, hd1.symm, hShl, Or.inr hShlen⟩
          obtain ⟨Sh1, sk, si, ba, rfl, hSh1l, hSh1⟩ := hfirst
          have hsecond : ∃ Sh2 br ba2, d2 =
              { dr with
                readersLen := info.DataCount, readers := R,
                shards := Sh2, errs := E, blockOffset := bo, blockLength := bl, shardSize := c,
                bytesToSkipInFirstBlock := sk, shardIndex := si, byteIndex := 0,
                bytesAvailable := ba2, bytesToReadInLastBlock := br } ∧
              Sh2.length = dr.shards.length ∧
              (dr.index + 1 < B → (dr.index = 0 ∧ 0 < sk) ∨ ∀ sh ∈ Sh2, sh.len = c) := by
            simp only [] at hd2
            by_cases hl : (dr.index : Int) = (dr.blocksToRead : Int) - 1
            · rw [if_pos hl] at hd2
              obtain ⟨Sh2, br, h1, h2⟩ := trimLast_props _ _ _ _ hd2
              exact ⟨Sh2, br, _, h1, by rw [h2]; exact hSh1l, fun hn => by omega⟩
            · rw [if_neg hl] at hd2
              simp only [Option.some.injEq] at hd2
              exact ⟨Sh1, dr.bytesToReadInLastBlock, ba, hd2.symm, hSh1l, fun _ => hSh1⟩
          obtain ⟨Sh2, br, ba2, rfl, hSh2l, hSh2⟩ := hsecond
          refine ⟨hinfo, hB, hL, hN, by simp only [hRl]; exact hr, by simp only [hEl]; exact he,
            by simp only [hSh2l]; exact hs, by simp only []; omega, fun h => by simp at h,
            fun _ => ⟨rfl, fun hn => ?_⟩⟩
          simp only [] at hn ⊢
          have hcS : c = S := by rw [hc, if_neg (by omega)]
          refine ⟨hcS, ?_, fun i hi => ?_⟩
          · rcases hSh2 hn with ⟨hz, hsk⟩ | hall
            · left; exact ⟨by omega, hsk⟩
            · right; rw [← hcS]; exact hall
          · obtain ⟨r, h1, h2⟩ := hRd i hi
            exact ⟨r, h1, h2 hn⟩

open erasure in
/-- The loop of `Read` on a healthy reader: the result is the same for every coder and
every `getShardReader` that agrees on the data shards, and unless a call panics the
reader stays healthy. -/
theorem readLoop_healthy (C : Codec) (g : GetShardReader) (info : Info) (S L B : Nat)
    (off len : Int)
    (hopen : ∀ i, i < info.DataCount → ∃ id rd, info.ShardIDs.get? i = some id ∧
      g id off len = .ok rd ∧ (B - 1) * S + L ≤ rd.bytes.length)
    (C' : Codec) (g' : GetShardReader)
    (hag : ∀ i id, i < info.DataCount → info.ShardIDs.get? i = some id →
      g' id off len = g id off len) :
    ∀ (fuel : Nat) (dr : decodeReader) (want : Nat) (acc : List Byte),
      HealthyInv info S L B off len dr →
      decodeReader.readLoop C' g' fuel dr want acc = decodeReader.readLoop C g fuel dr want acc ∧
      (isPanic (decodeReader.readLoop C g fuel dr want acc).2.1 = true ∨
        HealthyInv info S L B off len (decodeReader.readLoop C g fuel dr want acc).2.2) := by
  intro fuel
  induction fuel with
  | zero =>
    intro dr want acc hinv
    exact ⟨rfl, Or.inr hinv⟩
  | succ fuel ih =>
    intro dr want acc hinv
    have hblock := readBlock_healthy C g info S L B off len dr hinv hopen
    have hfacts : isPanic (if dr.bytesAvailable = 0 then dr.readBlock C g else (none, dr)).1 = true ∨
        (if dr.bytesAvailable = 0 then dr.readBlock C g else (none, dr)) = (some Err.eof, dr) ∨
        ((if dr.bytesAvailable = 0 then dr.readBlock C g else (none, dr)).1 = none ∧
          HealthyInv info S L B off len
            (if dr.bytesAvailable = 0 then dr.readBlock C g else (none, dr)).2) := by
      split_ifs
      · exact hblock.2
      · exact Or.inr (Or.inr ⟨rfl, hinv⟩)
    have heq : (if dr.bytesAvailable = 0 then dr.readBlock C' g' else (none, dr))
        = (if dr.bytesAvailable = 0 then dr.readBlock C g else (none, dr)) := by
      rw [hblock.1 C' g' hag]
    rw [decodeReader.readLoop, decodeReader.readLoop, heq]
    by_cases hw : want = 0
    · simp only [hw, if_true]
      exact ⟨trivial, Or.inr hinv⟩
    · simp only [hw, if_false]
      generalize (if dr.bytesAvailable = 0 then dr.readBlock C g else (none, dr)) = rb at hfacts ⊢
      obtain ⟨e, d⟩ := rb
      rcases hfacts with hp | hp | ⟨hnone, hd⟩
      · cases e with
        | none => simp [isPanic] at hp
        | some e => exact ⟨rfl, Or.inl hp⟩
      · simp only [Prod.mk.injEq] at hp
        obtain ⟨rfl, rfl⟩ := hp
        exact ⟨rfl, Or.inr hinv⟩
      · simp only [] at hnone hd
        subst hnone
        simp only []
        cases hsh : d.shards.get? d.shardIndex with
        | none => exact ⟨rfl, Or.inl rfl⟩
        | some sh =>
          simp only []
          split_ifs with h1 h2
          · exact ⟨rfl, Or.inl rfl⟩
          · exact ih _ _ _ hd
          · exact ih _ _ _ hd

open erasure in
/-- A sequence of `Read` calls on a healthy reader: the results are the same for every
coder and every `getShardReader` that agrees on the data shards, and unless a call
panics the reader stays healthy. -/
theorem reads_healthy (C : Codec) (g : GetShardReader) (info : Info) (S L B : Nat)
    (off len : Int)
    (hopen : ∀ i, i < info.DataCount → ∃ id rd, info.ShardIDs.get? i = some id ∧
      g id off len = .ok rd ∧ (B - 1) * S + L ≤ rd.bytes.length)
    (C' : Codec) (g' : GetShardReader)
    (hag : ∀ i id, i < info.DataCount → info.ShardIDs.get? i = some id →
      g' id off len = g id off len) :
    ∀ (ws : List Nat) (dr : decodeReader), HealthyInv info S L B off len dr →
      decodeReader.reads C' g' dr ws = decodeReader.reads C g dr ws ∧
      ∀ d, (decodeReader.reads C g dr ws).2 = some d → HealthyInv info S L B off len d := by
  intro ws
  induction ws with
  | nil =>
    intro dr hinv
    refine ⟨rfl, fun d hd => ?_⟩
    simp only [decodeReader.reads, Option.some.injEq] at hd
    exact hd ▸ hinv
  | cons w ws ih =>
    intro dr hinv
    obtain ⟨heq, hres⟩ := readLoop_healthy C g info S L B off len hopen C' g' hag
      (w + (dr.blocksToRead + 2) * (dr.shards.length + 2) + 1) dr w [] hinv
    have hread : dr.Read C' g' w = dr.Read C g w := heq
    rw [decodeReader.reads, decodeReader.reads, hread]
    have hres' : isPanic (dr.Read C g w).2.1 = true ∨
        HealthyInv info S L B off len (dr.Read C g w).2.2 := hres
    generalize dr.Read C g w = r at hres' ⊢
    obtain ⟨bs, e, d1⟩ := r
    simp only []
    by_cases hp : isPanic e = true
    · rw [if_pos hp, if_pos hp]
      exact ⟨rfl, fun d hd => by simp at hd⟩
    · rw [if_neg hp, if_neg hp]
      have hinv1 : HealthyInv info S L B off len d1 := by
        rcases hres' with h | h
        · exact absurd h hp
        · exact h
      obtain ⟨h1, h2⟩ := ih d1 hinv1
      exact ⟨by rw [h1], fun d hd => h2 d hd⟩

open erasure in
/-- The reader `NewReader` returns: nothing is opened or read yet, and the slices and
lists are the ones of the call. -/
theorem NewReader_ok_fields (C : Codec) (shards : List Buf) (info : Info) (offset : Int)
    (length : Nat) (dr : decodeReader) (h : NewReader C shards info offset length = .ok dr) :
    dr.info = info ∧ dr.readersLen = 0 ∧ dr.index = 0 ∧ dr.shardSize = info.ShardSize ∧
      dr.shards = shards ∧ dr.readers.length = shards.length ∧
      dr.errs.length = shards.length ∧ info.ShardIDs.length = shards.length ∧
      (∀ b ∈ shards, b.len = info.ShardSize) ∧ info.DataCount ≠ 0 := by
  have hN : info.Compute ≠ none → info.DataCount ≠ 0 := by
    intro hc h0
    apply hc
    unfold Info.Compute
    rw [h0]
    simp only [or_true, if_true]
  have hlen : ¬ (shards.any fun b => decide (b.len ≠ info.ShardSize)) = true →
      ∀ b ∈ shards, b.len = info.ShardSize := by
    intro h2 b hb
    simp only [List.any_eq_true, not_exists, not_and] at h2
    have := h2 b hb
    simpa using this
  -- the window computation is kept abstract while the matches are reduced
  obtain ⟨cbf, hcbf⟩ : ∃ cbf : Int → Int → Int → Int → Int → Option Boundaries,
      ∀ a b c d e, CalcBoundaries a b c d e = cbf a b c d e := ⟨_, fun _ _ _ _ _ => rfl⟩
  unfold NewReader at h
  simp only [hcbf] at h
  split_ifs at h with h1 h2 h3 h4 h5 h6 h7
  all_goals
    cases hc : info.Compute with
    | none => rw [hc] at h; simp only [reduceCtorEq] at h
    | some c =>
      obtain ⟨blockCount, blockSize, lastBlockSize, lastShardSize⟩ := c
      have hn := hN (by rw [hc]; exact fun e => by cases e)
      have hl := hlen h2
      rw [hc] at h
      simp only [] at h
      generalize cbf _ _ _ _ _ = cb at h
      cases cb with
      | none => simp only [reduceCtorEq] at h
      | some b =>
        simp only [Except.ok.injEq] at h
        have e1 := congrArg decodeReader.info h
        have e2 := congrArg decodeReader.readersLen h
        have e3 := congrArg decodeReader.index h
        have e4 := congrArg decodeReader.shardSize h
        have e5 := congrArg decodeReader.shards h
        have e6 := congrArg (fun d => d.readers.length) h
        have e7 := congrArg (fun d => d.errs.length) h
        simp only [List.length_replicate] at e6 e7
        exact ⟨e1.symm, e2.symm, e3.symm, e4.symm, e5.symm, by omega, by omega, by omega, hl, hn⟩

open erasure in
/-- C28: a decode reader made by `NewReader` whose `DataCount` data shards open and
hold the bytes of the blocks to be read (`getShardReader` is only ever called with
the window the reader was made with).  For every sequence of `Read` calls: the
results and the reader are the same for every other coder and every other
`getShardReader` that agrees on the data shard ids, so no parity shard is opened and
the Reed-Solomon reconstruction is not invoked; and `readersLen`, the number of slots
`0 .. readersLen-1` that `populate` has opened, each by one call of `getShardReader`
for its shard id, is 0 until the first block is loaded and `DataCount` from then
on. -/
theorem decodeReader_with_healthy_data_shards_opens_only_them (C C' : Codec)
    (g g' : GetShardReader) (shards : List Buf) (info : Info) (offset : Int) (length : Nat)
    (dr0 : decodeReader) (hnew : NewReader C shards info offset length = .ok dr0)
    (hopen : ∀ i, i < info.DataCount → ∃ id rd, info.ShardIDs.get? i = some id ∧
      g id dr0.blockOffset dr0.blockLength = .ok rd ∧
      (dr0.blocksToRead - 1) * info.ShardSize + dr0.lastShardSize ≤ rd.bytes.length)
    (hsame : ∀ i id, i < info.DataCount → info.ShardIDs.get? i = some id → g' id = g id)
    (ws : List Nat) :
    dr0.reads C' g' ws = dr0.reads C g ws ∧
    ∀ dr, (dr0.reads C g ws).2 = some dr →
      dr.readersLen = (if dr.index = 0 then 0 else info.DataCount) ∧
        dr.readersLen ≤ info.DataCount := by
  obtain ⟨hinfo, hrl, hidx, hss, hsh, hrlen, helen, hids, hlens, hN⟩ :=
    NewReader_ok_fields C shards info offset length dr0 hnew
  have hNle : info.DataCount ≤ shards.length := by
    obtain ⟨id, _, hid, _⟩ := hopen (info.DataCount - 1) (by omega)
    have := List.get?_eq_some.mp hid
    obtain ⟨hlt, _⟩ := this
    omega
  have hinv : HealthyInv info info.ShardSize dr0.lastShardSize dr0.blocksToRead dr0.blockOffset
      dr0.blockLength dr0 := by
    refine ⟨hinfo, rfl, rfl, by omega, by omega, by omega, by rw [hsh]; exact hNle,
      by omega, fun _ => ⟨hrl, hss, rfl, rfl, by rw [hsh]; exact hlens⟩, fun h => by omega⟩
  obtain ⟨h1, h2⟩ := reads_healthy C g info info.ShardSize dr0.lastShardSize dr0.blocksToRead
    dr0.blockOffset dr0.blockLength hopen C' g'
    (fun i id hi hid => by rw [hsame i id hi hid]) ws dr0 hinv
  refine ⟨h1, fun dr hdr => ?_⟩
  obtain ⟨_, _, _, _, _, _, _, _, hz, hp⟩ := h2 dr hdr
  by_cases h0 : dr.index = 0
  · rw [if_pos h0, (hz h0).1]
    exact ⟨rfl, Nat.zero_le _⟩
  · rw [if_neg h0, (hp (by omega)).1]
    exact ⟨rfl, le_refl _⟩

open erasure in
/-- Witness for C28: two data shards and one parity shard of 4 bytes each, window
`[1, 7)` of the 8 data bytes, read with buffers of 4, 4 and 1 bytes.  With a parity
shard that does not open and a coder whose reconstruction fails, the calls return
what they return with the healthy parity shard. -/
theorem decodeReader_with_healthy_data_shards_opens_only_them_witness :
    ∃ dr0, NewReader xorCodec (List.replicate 3 (Buf.make 2))
        ⟨2, 1, 8, 2, ["s0", "s1", "p0"]⟩ 1 6 = .ok dr0 ∧
      dr0.reads { xorCodec with reconstructData := fun _ _ _ => .error Err.verifyFailed }
          (failingShardFiles [("s0", [1, 2, 5, 6]), ("s1", [3, 4, 7, 8]), ("p0", [2, 6, 2, 14])]
            ["p0"] []) [4, 4, 1]
        = dr0.reads xorCodec
          (shardFiles [("s0", [1, 2, 5, 6]), ("s1", [3, 4, 7, 8]), ("p0", [2, 6, 2, 14])])
          [4, 4, 1] ∧
      (∀ dr, (dr0.reads xorCodec
          (shardFiles [("s0", [1, 2, 5, 6]), ("s1", [3, 4, 7, 8]), ("p0", [2, 6, 2, 14])])
          [4, 4, 1]).2 = some dr →
        dr.readersLen = (if dr.index = 0 then 0 else 2) ∧ dr.readersLen ≤ 2) ∧
      (dr0.reads xorCodec
          (shardFiles [("s0", [1, 2, 5, 6]), ("s1", [3, 4, 7, 8]), ("p0", [2, 6, 2, 14])])
          [4, 4, 1]).1 = [([2, 3, 4, 5], none), ([6, 7], some Err.eof), ([], some Err.eof)] ∧
      (dr0.reads xorCodec
          (shardFiles [("s0", [1, 2, 5, 6]), ("s1", [3, 4, 7, 8]), ("p0", [2, 6, 2, 14])])
          [4, 4, 1]).2.map (fun d => (d.readersLen, d.index)) = some (2, 2) :=
  by
  refine ⟨⟨0, ⟨2, 1, 8, 2, ["s0", "s1", "p0"]⟩, 0, 4, [none, none, none],
    [⟨[], 2, 2⟩, ⟨[], 2, 2⟩, ⟨[], 2, 2⟩], 2, 2, 2, 1, 3, [none, none, none], 0, 0, 0, 0⟩,
    by decide, ?_⟩
  have t := decodeReader_with_healthy_data_shards_opens_only_them xorCodec
    { xorCodec with reconstructData := fun _ _ _ => .error Err.verifyFailed }
    (shardFiles [("s0", [1, 2, 5, 6]), ("s1", [3, 4, 7, 8]), ("p0", [2, 6, 2, 14])])
    (failingShardFiles [("s0", [1, 2, 5, 6]), ("s1", [3, 4, 7, 8]), ("p0", [2, 6, 2, 14])]
      ["p0"] [])
    (List.replicate 3 (Buf.make 2)) ⟨2, 1, 8, 2, ["s0", "s1", "p0"]⟩ 1 6
    ⟨0, ⟨2, 1, 8, 2, ["s0", "s1", "p0"]⟩, 0, 4, [none, none, none],
      [⟨[], 2, 2⟩, ⟨[], 2, 2⟩, ⟨[], 2, 2⟩], 2, 2, 2, 1, 3, [none, none, none], 0, 0, 0, 0⟩
    (by decide)
    (fun i hi => by
      have hi2 : i < 2 := hi
      rcases (by omega : i = 0 ∨ i = 1) with rfl | rfl
      · exact ⟨"s0", ⟨[1, 2, 5, 6], Err.eof⟩, by decide, by decide, by decide⟩
      · exact ⟨"s1", ⟨[3, 4, 7, 8], Err.eof⟩, by decide, by decide, by decide⟩)
    (fun i id hi hid => by
      have hi2 : i < 2 := hi
      rcases (by omega : i = 0 ∨ i = 1) with rfl | rfl
      · have : id = "s0" := by simpa using hid.symm
        subst this
        rfl
      · have : id = "s1" := by simpa using hid.symm
        subst this
        rfl)
    [4, 4, 1]
  exact ⟨t.1, t.2, by decide, by decide⟩

/-! ## sql: Record.Range -/

/-- C34 (the code departs from the claim). `Set` numbers the columns from 1
(`atomic.AddInt64` returns the new value) and `Range` walks the indexes
`0 .. len - 1`: after one `Set` of column `x` the only call of `f` is `f("", nil)`, a
name that was never set, and `x` is not visited; after `Set` of `x` and then `y`,
`f` is called for `""` and for `x`, never for `y`. -/
theorem Record_Range_starts_at_index_zero (V : Type) (al : String) (a b : V) :
    (((sql.NewRecord al : sql.Record V).Set "x" (some a)).Range (fun _ _ => true)
      = [("", none)]) ∧
    ((((sql.NewRecord al : sql.Record V).Set "x" (some a)).Set "y" (some b)).Range
        (fun _ _ => true) = [("", none), ("x", some a)]) := by
  constructor <;> rfl

/-! ## s3select: the progress message -/

/-- C35 (the code departs from the claim). For all arguments, whatever the CRC: the
payload of `newProgressMessage` opens with the XML declaration and `<Progress>`,
and closes with `</Stats>`, so it does not close with `</Progress>`: the element
`Progress` is never closed and the payload is no well-formed XML document.  The
payload sits in the message between the 12 bytes of the preamble with the header
and the 4 bytes of the message CRC.  The arguments of the documented example
give the last equation. -/
theorem newProgressMessage_payload_closes_with_Stats (crc32 : List Byte → Nat) (a b c : Int) :
    (∃ body, s3select.progressPayload a b c =
      s3select.ascii "<?xml version=\"1.0\" encoding=\"UTF-8\"?><Progress>" ++ body ++
        s3select.ascii "</Stats>") ∧
    ¬ (s3select.ascii "</Progress>" <:+ s3select.progressPayload a b c) ∧
    (∃ front crc, s3select.newProgressMessage crc32 a b c =
        front ++ s3select.progressPayload a b c ++ crc ∧
      front.length = 12 + s3select.progressHeader.length ∧ crc.length = 4) ∧
    s3select.progressPayload 512 1024 1024 =
      s3select.ascii ("<?xml version=\"1.0\" encoding=\"UTF-8\"?><Progress>" ++
        "<BytesScanned>512</BytesScanned><BytesProcessed>1024</BytesProcessed>" ++
        "<BytesReturned>1024</BytesReturned></Stats>") := by
  refine ⟨?_, ?_, ?_, by decide⟩
  · refine ⟨s3select.ascii "<BytesScanned>" ++ s3select.FormatInt a ++
      s3select.ascii "</BytesScanned><BytesProcessed>" ++ s3select.FormatInt b ++
      s3select.ascii "</BytesProcessed><BytesReturned>" ++ s3select.FormatInt c ++
      s3select.ascii "</BytesReturned>", ?_⟩
    have e1 : s3select.ascii "<?xml version=\"1.0\" encoding=\"UTF-8\"?><Progress><BytesScanned>"
        = s3select.ascii "<?xml version=\"1.0\" encoding=\"UTF-8\"?><Progress>" ++
          s3select.ascii "<BytesScanned>" := by decide
    have e2 : s3select.ascii "</BytesReturned></Stats>"
        = s3select.ascii "</BytesReturned>" ++ s3select.ascii "</Stats>" := by decide
    rw [s3select.progressPayload, e1, e2]
    simp only [List.append_assoc]
  · rintro ⟨t, ht⟩
    have e2 : s3select.ascii "</BytesReturned></Stats>"
        = s3select.ascii "</BytesReturned>" ++ s3select.ascii "</Stats>" := by decide
    rw [s3select.progressPayload, e2, ← List.append_assoc] at ht
    have h3 := congrArg (fun l => l.reverse.take 3) ht
    simp only [List.reverse_append] at h3
    have l1 : (s3select.ascii "</Progress>").reverse = [62, 115, 115] ++ [101, 114, 103, 111, 114, 80, 47, 60] := by
      decide
    have l2 : (s3select.ascii "</Stats>").reverse = [62, 115, 116] ++ [97, 116, 83, 47, 60] := by
      decide
    rw [l1, l2] at h3
    simp only [List.append_assoc] at h3
    rw [List.take_left' (by rfl), List.take_left' (by rfl)] at h3
    exact absurd h3 (by decide)
  · let payload := s3select.progressPayload a b c
    let preamble :=
      s3select.bigEndian32 ((s3select.totalByteLength (s3select.progressHeader.length : Int)
          (payload.length : Int)) % 4294967296).toNat ++
        s3select.bigEndian32 (((s3select.progressHeader.length : Int)) % 4294967296).toNat
    let front := preamble ++ s3select.bigEndian32 (crc32 preamble) ++ s3select.progressHeader
    refine ⟨front, s3select.bigEndian32 (crc32 (front ++ payload)), ?_, ?_, ?_⟩
    · show s3select.genMessage crc32 s3select.progressHeader _ = _
      simp only [s3select.genMessage, front, preamble, payload, List.append_assoc]
    · simp only [front, preamble, List.length_append, s3select.bigEndian32, List.length_cons,
        List.length_nil]
    · rfl

/-! ## pkg/rand: the JSON form of a UUID -/

/-- A text whose first character is `-` is no hex text. -/
theorem hexDecode_dash (y : List Byte) : hexDecode (45 :: y) = none := by
  cases y with
  | nil => rfl
  | cons a l =>
    rw [hexDecode]
    have h : hexVal 45 = none := by decide
    rw [h]

/-- Two characters before a text that is no hex text give no hex text. -/
theorem hexDecode_cons_cons (a b : Byte) (r : List Byte) (h : hexDecode r = none) :
    hexDecode (a :: b :: r) = none := by
  rw [hexDecode, h]
  cases hexVal a <;> cases hexVal b <;> rfl

/-- Four characters and then a `-` are no hex text. -/
theorem hexDecode_four_dash (x y : List Byte) (hx : x.length = 4) :
    hexDecode (x ++ 45 :: y) = none := by
  rcases x with _ | ⟨a, _ | ⟨b, _ | ⟨c, _ | ⟨d, _ | ⟨e, x⟩⟩⟩⟩⟩ <;>
    simp only [List.length_cons, List.length_nil] at hx <;> try omega
  exact hexDecode_cons_cons _ _ _ (hexDecode_cons_cons _ _ _ (hexDecode_dash y))

/-- A string in double quotes parses as the string between them. -/
theorem parseUUID_quoted (s : List Byte) (hs : s.head? ≠ some 34) :
    rand.parseUUID ([34] ++ s ++ [34]) = rand.parseUUID s := by
  have h1 : ([34] ++ s ++ [34]).head? = some 34 := rfl
  have h2 : ([34] ++ s ++ [34]).getLast? = some 34 := List.getLast?_concat _
  have h3 : sliceRange ([34] ++ s ++ [34]) 1 ((([34] ++ s ++ [34]).length : Int) - 1) = some s := by
    have hl : ([34] ++ s ++ [34]).length = s.length + 2 := by
      simp only [List.length_append, List.length_cons, List.length_nil]; omega
    unfold sliceRange
    rw [hl, if_pos (by omega)]
    have e1 : ((((s.length + 2 : Nat) : Int) - 1) - 1).toNat = s.length := by omega
    rw [e1]
    show some (List.take s.length (List.drop 1 (34 :: (s ++ [34])))) = some s
    rw [List.drop_one, List.tail_cons, List.take_left']
    rfl
  unfold rand.parseUUID
  simp only [h1, h2, h3, and_self, if_true, hs, false_and, if_false]

/-- C40 (the code departs from the claim). For every `uuid` of 32 hex digits:
`Humanize` renders 36 characters with the dashes after 4, 6, 8 and 10 digits
(`xxxx-xx-xx-xx-` and 22 digits), `MarshalJSON` puts it in quotes, and `parseUUID`
(hence `ParseUUID`) rejects both that string and the quoted one with the error of
`hex.DecodeString`, because the first eight characters, read as hex, hold a dash;
`UnmarshalJSON` returns this error whenever the JSON decoder yields the string
between the quotes.  No UUID survives the round trip. -/
theorem UUID_JSON_form_is_rejected_by_parseUUID
    (jsonString : List Byte → Except Err (List Byte)) (u : rand.uuid)
    (h32 : u.value.length = 32) (hhex : ∀ c ∈ u.value, (hexVal c).isSome = true) :
    ∃ h, u.Humanize = some h ∧ h.length = 36 ∧
      h.get? 4 = some 45 ∧ h.get? 7 = some 45 ∧ h.get? 10 = some 45 ∧ h.get? 13 = some 45 ∧
      u.MarshalJSON = some ([34] ++ h ++ [34]) ∧
      rand.parseUUID h = .error rand.hexErr ∧
      rand.ParseUUID ([34] ++ h ++ [34]) = .error rand.hexErr ∧
      (jsonString ([34] ++ h ++ [34]) = .ok h →
        rand.uuid.UnmarshalJSON jsonString ([34] ++ h ++ [34]) = .error rand.hexErr) := by
  obtain ⟨v⟩ := u
  simp only at h32 hhex
  rcases v with _ | ⟨a0, _ | ⟨a1, _ | ⟨a2, _ | ⟨a3, _ | ⟨a4, _ | ⟨a5, _ | ⟨a6, _ | ⟨a7, _ |
    ⟨a8, _ | ⟨a9, rest⟩⟩⟩⟩⟩⟩⟩⟩⟩⟩ <;>
    simp only [List.length_cons, List.length_nil] at h32 <;> try omega
  have hrest : rest.length = 22 := by omega
  have ha0 : a0 ≠ 34 := by
    intro h
    have := hhex a0 (List.mem_cons_self _ _)
    rw [h] at this
    exact absurd this (by decide)
  have hparse : rand.parseUUID
      (a0 :: a1 :: a2 :: a3 :: 45 :: a4 :: a5 :: 45 :: a6 :: a7 :: 45 :: a8 :: a9 :: 45 :: rest)
      = .error rand.hexErr := by
    have h8 : hexDecode [a0, a1, a2, a3, 45, a4, a5, 45] = none :=
      hexDecode_four_dash [a0, a1, a2, a3] [a4, a5, 45] rfl
    simp only [rand.parseUUID, List.head?_cons, Option.some.injEq, ha0, false_and, if_false,
      List.length_cons, hrest, List.take_succ_cons, List.take_zero, h8]
    rfl
  refine ⟨a0 :: a1 :: a2 :: a3 :: 45 :: a4 :: a5 :: 45 :: a6 :: a7 :: 45 :: a8 :: a9 :: 45 :: rest,
    ?_, ?_, rfl, rfl, rfl, rfl, ?_, hparse, ?_, ?_⟩
  · simp only [rand.uuid.Humanize, List.length_cons, hrest]
    rfl
  · simp only [List.length_cons, hrest]
  · simp only [rand.uuid.MarshalJSON, rand.uuid.Humanize, List.length_cons, hrest]
    rfl
  · rw [rand.ParseUUID, parseUUID_quoted _ (by simpa using ha0), hparse]
  · intro hj
    rw [rand.uuid.UnmarshalJSON, hj]
    simp only [hparse]

/-- Witness for C40: the UUID `newUUID` makes of sixteen zero bytes,
`00000000000040008000000000000000`; its JSON form is
`"0000-00-00-00-0000040008000000000000000"` in quotes. -/
theorem UUID_JSON_form_is_rejected_by_parseUUID_witness :
    rand.newUUID (List.replicate 16 0) = some ⟨s3select.ascii "00000000000040008000000000000000"⟩ ∧
    ∃ h, (⟨s3select.ascii "00000000000040008000000000000000"⟩ : rand.uuid).Humanize = some h ∧
      h.length = 36 ∧
      h.get? 4 = some 45 ∧ h.get? 7 = some 45 ∧ h.get? 10 = some 45 ∧ h.get? 13 = some 45 ∧
      (⟨s3select.ascii "00000000000040008000000000000000"⟩ : rand.uuid).MarshalJSON
        = some ([34] ++ h ++ [34]) ∧
      rand.parseUUID h = .error rand.hexErr ∧
      rand.ParseUUID ([34] ++ h ++ [34]) = .error rand.hexErr ∧
      ((fun b : List Byte => (Except.ok (b.drop 1).dropLast : Except Err (List Byte)))
          ([34] ++ h ++ [34]) = .ok h →
        rand.uuid.UnmarshalJSON (fun b => .ok (b.drop 1).dropLast) ([34] ++ h ++ [34])
          = .error rand.hexErr) :=
  ⟨by decide, UUID_JSON_form_is_rejected_by_parseUUID (fun b => .ok (b.drop 1).dropLast)
    ⟨s3select.ascii "00000000000040008000000000000000"⟩ (by decide) (by decide)⟩

/-! ## Evaluations: the byte count of the decode reader -/

/-- C36 (the code departs from the claim). `N = 2`, `shardSize = 4`, one stripe holding
`[10 .. 17]`, every shard reader healthy, window `offset = 2, length = 6`.  The first
`readBlock` succeeds and leaves `bytesAvailable = 6` while the data shards from
`shardIndex = 0` on hold `2 + 2 = 4` bytes: the trimming loop (decode.go:169-177)
counts the full `shardSize` for data shard 0, which the skip loop had cut to two
bytes.  With `M = 0` the read delivers four bytes and then indexes `shards[2]`, an
index-out-of-range panic; with `M = 1` and a parity buffer that holds `[9, 9, 9, 9]`
it delivers these four parity bytes after the data bytes and then panics. -/
theorem decodeReader_bytesAvailable_exceeds_the_data_shards :
    (erasure.NewReader xorCodec (List.replicate 2 (Buf.make 4)) ⟨2, 0, 8, 4, ["s0", "s1"]⟩ 2 6).map
        (fun dr =>
          let r := dr.readBlock xorCodec
            (erasure.shardFiles [("s0", [10, 11, 12, 13]), ("s1", [14, 15, 16, 17])])
          (r.1, r.2.bytesAvailable, r.2.shardIndex, r.2.byteIndex,
            (r.2.shards.take 2).map (fun b => b.len)))
      = .ok (none, 6, 0, 0, [2, 2]) ∧
    erasure.copyStripes xorCodec
        (erasure.shardFiles [("s0", [10, 11, 12, 13]), ("s1", [14, 15, 16, 17])])
        (List.replicate 2 (Buf.make 4)) ⟨2, 0, 8, 4, ["s0", "s1"]⟩ 2 6 16 3
      = .ok ([12, 13, 14, 15], some (Err.panic "index out of range")) ∧
    erasure.copyStripes xorCodec
        (erasure.shardFiles [("s0", [10, 11, 12, 13]), ("s1", [14, 15, 16, 17]),
          ("s2", [4, 4, 28, 28])])
        [Buf.make 4, Buf.make 4, ⟨[9, 9, 9, 9], 4, 4⟩] ⟨2, 1, 8, 4, ["s0", "s1", "s2"]⟩ 2 6 16 3
      = .ok ([12, 13, 14, 15, 9, 9, 9, 9], some (Err.panic "index out of range")) := by
  decide

/-! ## pkg/boundary: the window stays inside the file -/

/-- A block index below the block count, from the position of a byte inside it. -/
theorem block_lt_of_byte (X B E r : Int) (hE : 0 < E) (hr : 0 < r) (h : X * E + r ≤ B * E) :
    X + 1 ≤ B := by
  by_contra hc
  have h1 : B ≤ X := by omega
  have h2 : B * E ≤ X * E := mul_le_mul_of_nonneg_right h1 (le_of_lt hE)
  omega

/-- A block index at most the block count, from the position of its start. -/
theorem block_le_of_start (X B E : Int) (hE : 0 < E) (h : X * E ≤ B * E) : X ≤ B :=
  le_of_mul_le_mul_right h hE

/-- The effective block size covers the file with `blockCount` blocks, and the last
of them starts inside the file. -/
theorem effectiveBlockSize_cover (size blockSize blockCount : Int) (hbs : 1 ≤ blockSize)
    (hsize : 0 ≤ size)
    (hcons : ((blockCount - 1) * blockSize < size ∧ size ≤ blockCount * blockSize) ∨
      (size = 0 ∧ blockCount = 0)) :
    size ≤ blockCount * effectiveBlockSize size blockSize blockCount ∧
    (1 ≤ blockCount →
      (if size - (blockCount - 1) * blockSize = 0 then blockSize
        else size - (blockCount - 1) * blockSize)
        = size - (blockCount - 1) * effectiveBlockSize size blockSize blockCount) := by
  unfold effectiveBlockSize
  rcases hcons with ⟨h1, h2⟩ | ⟨h1, h2⟩
  · have hb0 : 0 ≤ blockCount := by
      by_contra hc
      have h3 : blockCount * blockSize ≤ 0 :=
        mul_nonpos_of_nonpos_of_nonneg (by omega) (by omega)
      have h4 : size = 0 := by omega
      have h5 : (blockCount - 1) * blockSize ≤ (blockCount - 1) * 1 :=
        mul_le_mul_of_nonpos_left hbs (by omega)
      have h6 : blockCount * blockSize ≤ blockCount * 1 :=
        mul_le_mul_of_nonpos_left hbs (by omega)
      omega
    have hne : size - (blockCount - 1) * blockSize ≠ 0 := by omega
    by_cases hc : blockCount ≤ 1
    · rw [if_pos hc, if_neg hne]
      rcases (show blockCount = 0 ∨ blockCount = 1 by omega) with h0 | h0
      · subst h0
        simp only [zero_mul] at h2 ⊢
        exact ⟨h2, fun h => absurd h (by decide)⟩
      · subst h0
        simp only [sub_self, zero_mul, sub_zero, one_mul, le_refl, true_and]
        intro _
        simp
    · rw [if_neg hc, if_neg hne]
      exact ⟨h2, fun _ => rfl⟩
  · subst h1 h2
    simp

/-- C38. For `blockSize ≥ 1`, consistent `size` and `blockCount`, and a window
`offset ≥ 0`, `length ≥ 0`, `offset + length ≤ size`: `CalcBoundaries` returns, all five
values are non-negative, `blocksToSkip + blocksToRead ≤ blockCount`, and when at
least one block is read `bytesToReadInLastBlock` is at most the `lastBlockSize`
returned. -/
theorem CalcBoundaries_window_stays_inside_the_file (size blockSize blockCount offset
    length : Int) (hbs : 1 ≤ blockSize)
    (hcons : ((blockCount - 1) * blockSize < size ∧ size ≤ blockCount * blockSize) ∨
      (size = 0 ∧ blockCount = 0))
    (hoff : 0 ≤ offset) (hlen : 0 ≤ length) (hwin : offset + length ≤ size) :
    ∃ b, CalcBoundaries size blockSize blockCount offset length = some b ∧
      0 ≤ b.blocksToSkip ∧ 0 ≤ b.blocksToRead ∧ 0 ≤ b.bytesToSkipInFirstBlock ∧
      0 ≤ b.bytesToReadInLastBlock ∧ 0 ≤ b.lastBlockSize ∧
      b.blocksToSkip + b.blocksToRead ≤ blockCount ∧
      (1 ≤ b.blocksToRead → b.bytesToReadInLastBlock ≤ b.lastBlockSize) := by
  have hE := effectiveBlockSize_pos size blockSize blockCount hbs hcons
  have hg : ¬ (offset > size ∨ length > size ∨ offset + length > size) := by omega
  obtain ⟨hcov, hphys⟩ := effectiveBlockSize_cover size blockSize blockCount hbs (by omega) hcons
  rw [CalcBoundaries_eq size blockSize blockCount offset length hg (by omega)]
  generalize effectiveBlockSize size blockSize blockCount = E at hE hcov hphys ⊢
  have hphys0 : 1 ≤ (if size - (blockCount - 1) * blockSize = 0 then blockSize
        else size - (blockCount - 1) * blockSize) := by
    rcases hcons with ⟨h1, h2⟩ | ⟨h1, h2⟩
    · split_ifs <;> omega
    · subst h1 h2
      simp only [zero_sub, neg_mul, one_mul, sub_neg_eq_add, zero_add]
      split_ifs <;> omega
  generalize (if size - (blockCount - 1) * blockSize = 0 then blockSize
        else size - (blockCount - 1) * blockSize) = phys at hphys hphys0 ⊢
  simp only []
  obtain ⟨hq0, hs0, hs1⟩ := tdiv_spec offset E hoff (by omega)
  generalize hq : Int.tdiv offset E = q at hq0 hs0 hs1 ⊢
  generalize hs : offset - q * E = s at hs0 hs1 ⊢
  have hb1 : (blockCount - 1) * E = blockCount * E - E := by ring
  by_cases hA : s > 0 ∧ length ≤ E - s
  · rw [if_pos hA]
    have hlt : q + 1 ≤ blockCount :=
      block_lt_of_byte q blockCount E s (by omega) hA.1 (by omega)
    refine ⟨_, rfl, ?_⟩
    dsimp only
    exact ⟨hq0, by decide, hs0, hlen, by omega, hlt, fun _ => by omega⟩
  · rw [if_neg hA]
    by_cases hs' : s > 0
    · have hl0 : 0 ≤ length - (E - s) := by omega
      obtain ⟨hn0, hr0, hr1⟩ := tdiv_spec (length - (E - s)) E hl0 (by omega)
      simp only [hs', if_true]
      generalize hn : Int.tdiv (length - (E - s)) E = n at hn0 hr0 hr1 ⊢
      generalize hr : length - (E - s) - n * E = r at hr0 hr1 ⊢
      have hX : (q + 1 + n) * E = q * E + E + n * E := by ring
      by_cases hrp : r > 0
      · have hlt : q + 1 + n + 1 ≤ blockCount :=
          block_lt_of_byte (q + 1 + n) blockCount E r (by omega) hrp (by omega)
        simp only [hrp, if_true]
        refine ⟨_, rfl, ?_⟩
        dsimp only
        refine ⟨hq0, by omega, hs0, by omega, ?_, by omega, fun _ => ?_⟩
        · split_ifs with h1
          · omega
          · have := hphys (by omega); omega
        · split_ifs with h1
          · omega
          · have h2 := hphys (by omega)
            have h3 : blockCount - 1 = q + 1 + n := by
              simp only [ne_eq, not_not] at h1; omega
            rw [h3, hX] at h2
            omega
      · have hr00 : r = 0 := by omega
        have hle : q + 1 + n ≤ blockCount :=
          block_le_of_start (q + 1 + n) blockCount E (by omega) (by omega)
        have hnlt : ¬ r < 0 := by omega
        simp only [hrp, if_false, hnlt]
        refine ⟨_, rfl, ?_⟩
        dsimp only
        refine ⟨hq0, by omega, hs0, by omega, ?_, by omega, fun _ => ?_⟩
        · split_ifs with h1
          · omega
          · have hn1 : 1 ≤ n := by
              by_contra hc
              have : n = 0 := by omega
              subst this
              simp only [zero_mul] at hr
              omega
            have := hphys (by omega); omega
        · split_ifs with h1
          · omega
          · have hn1 : 1 ≤ n := by
              by_contra hc
              have : n = 0 := by omega
              subst this
              simp only [zero_mul] at hr
              omega
            have h2 := hphys (by omega)
            have h3 : blockCount = q + 1 + n := by
              simp only [ne_eq, not_not] at h1; omega
            have h4 : blockCount * E = (q + 1 + n) * E := by rw [h3]
            omega
    · have hs00 : s = 0 := by omega
      obtain ⟨hn0, hr0, hr1⟩ := tdiv_spec length E hlen (by omega)
      simp only [hs', if_false]
      generalize hn : Int.tdiv length E = n at hn0 hr0 hr1 ⊢
      generalize hr : length - n * E = r at hr0 hr1 ⊢
      have hX : (q + n) * E = q * E + n * E := by ring
      by_cases hrp : r > 0
      · have hlt : q + n + 1 ≤ blockCount :=
          block_lt_of_byte (q + n) blockCount E r (by omega) hrp (by omega)
        simp only [hrp, if_true]
        refine ⟨_, rfl, ?_⟩
        dsimp only
        refine ⟨hq0, by omega, hs0, by omega, ?_, by omega, fun _ => ?_⟩
        · split_ifs with h1
          · omega
          · have := hphys (by omega); omega
        · split_ifs with h1
          · omega
          · have h2 := hphys (by omega)
            have h3 : blockCount - 1 = q + n := by
              simp only [ne_eq, not_not] at h1; omega
            rw [h3, hX] at h2
            omega
      · have hr00 : r = 0 := by omega
        have hle : q + n ≤ blockCount :=
          block_le_of_start (q + n) blockCount E (by omega) (by omega)
        have hnlt : ¬ r < 0 := by omega
        simp only [hrp, if_false, hnlt]
        refine ⟨_, rfl, ?_⟩
        dsimp only
        refine ⟨hq0, by omega, hs0, by omega, ?_, by omega, fun h1r => ?_⟩
        · split_ifs with h1
          · omega
          · omega
        · split_ifs with h1
          · omega
          · have h2 := hphys (by omega)
            have h3 : blockCount = q + n := by
              simp only [ne_eq, not_not] at h1; omega
            have h4 : blockCount * E = (q + n) * E := by rw [h3]
            omega

/-- The theorem at a file of 5 bytes in two blocks of 4, window `[1, 5)`. -/
theorem CalcBoundaries_window_stays_inside_the_file_witness :
    ∃ b, CalcBoundaries 5 4 2 1 4 = some b ∧
      0 ≤ b.blocksToSkip ∧ 0 ≤ b.blocksToRead ∧ 0 ≤ b.bytesToSkipInFirstBlock ∧
      0 ≤ b.bytesToReadInLastBlock ∧ 0 ≤ b.lastBlockSize ∧
      b.blocksToSkip + b.blocksToRead ≤ 2 ∧
      (1 ≤ b.blocksToRead → b.bytesToReadInLastBlock ≤ b.lastBlockSize) :=
  CalcBoundaries_window_stays_inside_the_file 5 4 2 1 4 (by decide) (Or.inl (by decide))
    (by decide) (by decide) (by decide)

/-! ## pkg/erasure: the padding of the last stripe -/

/-- C39. For `DataCount = N ≥ 1` and `ShardSize ≥ 1`, with `N * ShardSize` and `Size + N`
below `2^64`: `Info.Compute` returns with `1 ≤ lastShardSize ≤ ShardSize`,
`1 ≤ lastBlockSize ≤ blockSize`, and `0 ≤ N * lastShardSize - lastBlockSize < N`: the `N`
data shards of the last stripe hold its `lastBlockSize` bytes with fewer than `N`
bytes of padding. -/
theorem Info_Compute_last_stripe_padding (info : erasure.Info) (hN : 1 ≤ info.DataCount)
    (hS : 1 ≤ info.ShardSize)
    (hbs : info.DataCount * info.ShardSize < 18446744073709551616)
    (hsz : info.Size + info.DataCount < 18446744073709551616) :
    ∃ blockCount blockSize lastBlockSize lastShardSize : Nat,
      info.Compute = some (blockCount, blockSize, lastBlockSize, lastShardSize) ∧
      1 ≤ lastShardSize ∧ lastShardSize ≤ info.ShardSize ∧
      1 ≤ lastBlockSize ∧ lastBlockSize ≤ blockSize ∧
      lastBlockSize ≤ info.DataCount * lastShardSize ∧
      info.DataCount * lastShardSize - lastBlockSize < info.DataCount := by
  obtain ⟨N, M, Z, S, ids⟩ := info
  simp only at hN hS hbs hsz ⊢
  have hpos : 0 < N * S := Nat.mul_pos hN hS
  have hdm := Nat.div_add_mod Z (N * S)
  have hml := Nat.mod_lt Z hpos
  have hsub : Z - Z / (N * S) * (N * S) = Z % (N * S) := by
    have : Z / (N * S) * (N * S) = N * S * (Z / (N * S)) := Nat.mul_comm _ _
    omega
  unfold erasure.Info.Compute
  simp only [Nat.mod_eq_of_lt hbs, hsub]
  have hne : ¬ (N * S = 0 ∨ N = 0) := by omega
  rw [if_neg hne]
  by_cases hr : Z % (N * S) > 0
  · rw [if_pos hr]
    have hle : Z % (N * S) ≤ Z := Nat.mod_le _ _
    have hsmall : Z % (N * S) + N - 1 < 18446744073709551616 := by omega
    rw [Nat.mod_eq_of_lt hsmall]
    have h1 := Nat.div_add_mod (Z % (N * S) + N - 1) N
    have h2 := Nat.mod_lt (Z % (N * S) + N - 1) (show 0 < N by omega)
    generalize hd : (Z % (N * S) + N - 1) / N = d at h1
    generalize Z % (N * S) = r at *
    generalize (r + N - 1) % N = m at *
    have hd1 : 1 ≤ d := by
      by_contra hc
      have : d = 0 := by omega
      subst this
      omega
    have hdS : d ≤ S := by
      by_contra hc
      have h3 : N * (S + 1) ≤ N * d := Nat.mul_le_mul_left N (by omega)
      have h4 : N * (S + 1) = N * S + N := by ring
      omega
    exact ⟨_, _, _, _, rfl, hd1, hdS, by omega, by omega, by omega, by omega⟩
  · rw [if_neg hr]
    exact ⟨_, _, _, _, rfl, hS, le_refl _, by omega, le_refl _, le_refl _, by omega⟩

/-- The theorem at the case `Info{4, 4, 32283, MiB}` of `TestInfoCompute`. -/
theorem Info_Compute_last_stripe_padding_witness :
    ∃ blockCount blockSize lastBlockSize lastShardSize : Nat,
      (⟨4, 4, 32283, 1048576, []⟩ : erasure.Info).Compute
        = some (blockCount, blockSize, lastBlockSize, lastShardSize) ∧
      1 ≤ lastShardSize ∧ lastShardSize ≤ 1048576 ∧
      1 ≤ lastBlockSize ∧ lastBlockSize ≤ blockSize ∧
      lastBlockSize ≤ 4 * lastShardSize ∧
      4 * lastShardSize - lastBlockSize < 4 :=
  Info_Compute_last_stripe_padding ⟨4, 4, 32283, 1048576, []⟩ (by decide) (by decide)
    (by decide) (by decide)

/-! ## pkg/os: WriteFile over an existing file -/

set_option maxRecDepth 4000 in
/-- C33 (the claim does not hold as stated). The file `f` holds `[9, 9, 9]` and its
sidecar 162 bytes; `WriteFile(f, data, 1, true)` with `data = [1]` succeeds, and
afterwards `f` holds `[1, 9, 9]`, not `[1]`, and the sidecar holds the new header
line and digest line (160 bytes) followed by the last two bytes of the earlier
sidecar: both files are opened without `O_TRUNC`. -/
theorem WriteFile_keeps_the_tail_of_a_longer_file :
    ∃ digest files,
      WriteFileOver lineJSON sumHashLib ⟨some [9, 9, 9], some (List.replicate 162 7)⟩
        ⟨[1], Err.eof⟩ 1 true = some (.ok digest, files) ∧
      files.main = some [1, 9, 9] ∧
      files.checksum = some (lineJSON.encode (specHeader 1) ++
        (hexEncode (sumHashLib.highway defaultHighwayHashKey [1]) ++ [10]) ++ [7, 7]) ∧
      (lineJSON.encode (specHeader 1) ++
        (hexEncode (sumHashLib.highway defaultHighwayHashKey [1]) ++ [10])).length = 160 := by
  refine ⟨_, _, rfl, ?_, ?_, ?_⟩ <;> decide

/-- C33 (amended). For every prior content of `filename` and of its sidecar, every
reader and size, with and without bitrot protection: when `WriteFile` succeeds,
the main file holds the `size` bytes written followed by the bytes of the earlier
file from position `size` on, so it is exactly the bytes written if and only if
the earlier file was not longer than `size`; with bitrot protection the sidecar
holds the header line and one digest line per block, followed by the bytes of the
earlier sidecar beyond that length; without it the sidecar is left as it was. -/
theorem WriteFile_overwrites_from_the_start_without_truncating (J : HeaderJSON) (lib : HashLib)
    (prior : Files) (data : Stream) (size : Nat) (bitrot : Bool) (digest : List Byte)
    (files : Files)
    (hok : WriteFileOver J lib prior data size bitrot = some (.ok digest, files)) :
    size ≤ data.bytes.length ∧
    files.main = some (data.bytes.take size ++ (prior.main.getD []).drop size) ∧
    (files.main = some (data.bytes.take size) ↔ (prior.main.getD []).length ≤ size) ∧
    (bitrot = true →
      files.checksum = some
        ((J.encode (specHeader size) ++
          ((List.range ((size + 1048575) / 1048576)).map (fun i =>
            hexEncode (lib.highway defaultHighwayHashKey (specBlock (data.bytes.take size) i))
              ++ [10])).flatten) ++
        (prior.checksum.getD []).drop
          (J.encode (specHeader size) ++
            ((List.range ((size + 1048575) / 1048576)).map (fun i =>
              hexEncode (lib.highway defaultHighwayHashKey (specBlock (data.bytes.take size) i))
                ++ [10])).flatten).length)) ∧
    (bitrot = false → files.checksum = prior.checksum) := by
  have hbs : 0 < defaultBlockSize := by decide
  have hbsv : defaultBlockSize = 1048576 := by decide
  have hbc : (if size / 1048576 * 1048576 < size then size / 1048576 + 1 else size / 1048576)
      = (size + 1048575) / 1048576 := by
    split_ifs <;> omega
  have hlen : size ≤ data.bytes.length := by
    by_contra hc
    have key := WriteFile_blocks_all_short
      (⟨fun data => hexEncode (lib.highway defaultHighwayHashKey data), 64⟩ : Hasher)
      defaultBlockSize size data hbs (by omega)
    simp only [] at key
    simp only [WriteFileOver, MustGetNewHash_default, WriteFileOverWith] at hok
    split at hok
    · simp at hok
    · rename_i h0
      exact key h0
  have key := WriteFile_blocks_all
    (⟨fun data => hexEncode (lib.highway defaultHighwayHashKey data), 64⟩ : Hasher)
    defaultBlockSize size data hbs hlen
  simp only [hbsv, hbc] at key
  have htl : (data.bytes.take size).length = size := by
    rw [List.length_take]; omega
  simp only [WriteFileOver, MustGetNewHash_default, WriteFileOverWith, hbsv, hbc, key,
    Option.some.injEq, Prod.mk.injEq, Except.ok.injEq] at hok
  obtain ⟨_, hfiles⟩ := hok
  have e : (⟨⟨64, 1048576, (size + 1048575) / 1048576, size⟩, "HighwayHash256",
      hexEncode defaultHighwayHashKey⟩ : checksumHeaderLine) = specHeader size := rfl
  have e2 : (fun j => hexEncode (lib.highway defaultHighwayHashKey
      (List.take 1048576 (List.drop (j * 1048576) (List.take size data.bytes)))) ++ [10])
      = (fun i => hexEncode (lib.highway defaultHighwayHashKey
        (specBlock (data.bytes.take size) i)) ++ [10]) := rfl
  rw [e, e2] at hfiles
  have hmain : files.main = some (data.bytes.take size ++ (prior.main.getD []).drop size) := by
    rw [← hfiles]
    simp only [overwrite, htl]
  refine ⟨hlen, hmain, ?_, ?_, ?_⟩
  · rw [hmain]
    constructor
    · intro h
      have h1 := congrArg (fun o => (o.getD []).length) h
      simp only [Option.getD_some, List.length_append, List.length_drop, htl] at h1
      omega
    · intro h
      rw [List.drop_of_length_le h, List.append_nil]
  · intro hb
    rw [← hfiles, hb]
    simp only [overwrite, if_true]
  · intro hb
    rw [← hfiles, hb]
    simp

/-- Witness for C33 (amended): one byte written over a file of three bytes. -/
theorem WriteFile_overwrites_from_the_start_without_truncating_witness :
    ∃ digest files,
      WriteFileOver lineJSON sumHashLib ⟨some [9, 9, 9], none⟩ ⟨[1], Err.eof⟩ 1 false
        = some (.ok digest, files) ∧
      1 ≤ (⟨[1], Err.eof⟩ : Stream).bytes.length ∧
      files.main = some (List.take 1 [1] ++
        List.drop 1 ((some [9, 9, 9] : Option (List Byte)).getD [])) := by
  have hok : WriteFileOver lineJSON sumHashLib ⟨some [9, 9, 9], none⟩ ⟨[1], Err.eof⟩ 1 false
      = some (.ok (hexEncode (sumHashLib.highway defaultHighwayHashKey [1])),
          ⟨some [1, 9, 9], none⟩) := by
    rw [WriteFileOver, MustGetNewHash_default]
    rfl
  have h := WriteFile_overwrites_from_the_start_without_truncating lineJSON sumHashLib
    ⟨some [9, 9, 9], none⟩ ⟨[1], Err.eof⟩ 1 false _ _ hok
  exact ⟨_, _, hok, h.1, h.2.1⟩

/-! ## pkg/erasure: the size of a shard file -/

theorem Buf_clear_shape (b b' : Buf) (o l : Nat) (h : b.clear o l = some b') :
    b'.len = b.len ∧ b'.cap = b.cap := by
  unfold Buf.clear at h
  split_ifs at h
  · simp only [Option.some.injEq] at h; subst h; exact ⟨rfl, rfl⟩
  · simp only [Option.some.injEq] at h; subst h; exact ⟨rfl, rfl⟩

theorem clearShards_shape (L S shardSize : Nat) :
    ∀ (todo s : Nat) (shards shards' : List Buf),
      erasure.clearShards shardSize todo s shards = some shards' →
      (∀ b ∈ shards, b.len = L ∧ S ≤ b.cap) → ∀ b ∈ shards', b.len = L ∧ S ≤ b.cap := by
  intro todo
  induction todo with
  | zero =>
    intro s shards shards' h hs
    simp only [erasure.clearShards, Option.some.injEq] at h
    rw [← h]; exact hs
  | succ todo ih =>
    intro s shards shards' h hs
    rw [erasure.clearShards] at h
    split at h
    · simp at h
    · rename_i b0 hb0
      split at h
      · simp at h
      · rename_i b1 hb1
        have h0 := hs b0 (List.get?_mem hb0)
        obtain ⟨c1, c2⟩ := Buf_clear_shape _ _ _ _ hb1
        exact ih _ _ _ h (mem_set_shape L S shards s b1 (by rw [c1, c2]; exact h0) hs)

theorem readDataShards_shape (DataCount blockSize shardSize L S : Nat) :
    ∀ (todo s bytesRead : Nat) (st : erasure.ReadState),
      (∀ b ∈ st.shards, b.len = L ∧ S ≤ b.cap) →
      ∀ b ∈ (erasure.readDataShards DataCount blockSize shardSize todo s bytesRead st).2.shards,
        b.len = L ∧ S ≤ b.cap := by
  intro todo
  induction todo with
  | zero => intro s bytesRead st hs; exact hs
  | succ todo ih =>
    intro s bytesRead st hs
    rw [erasure.readDataShards]
    split
    · exact hs
    · rename_i sh hsh
      have h0 := hs sh (List.get?_mem hsh)
      have hw : ∀ bs : List Byte, ∀ b ∈ st.shards.set s (sh.write bs), b.len = L ∧ S ≤ b.cap :=
        fun bs => mem_set_shape L S st.shards s (sh.write bs) h0 hs
      split
      · exact ih _ _ _ (hw _)
      · simp only []
        split_ifs with hc
        · cases hcl : ((Buf.write _ _).clear _ shardSize).bind (fun sh =>
              erasure.clearShards shardSize (DataCount - (s + 1)) (s + 1) (st.shards.set s sh)) with
          | none => exact hw _
          | some shards =>
            simp only []
            cases hb : (Buf.write _ _).clear _ shardSize with
            | none => rw [hb] at hcl; simp at hcl
            | some b =>
              rw [hb] at hcl
              simp only [Option.some_bind] at hcl
              obtain ⟨c1, c2⟩ := Buf_clear_shape _ _ _ _ hb
              exact clearShards_shape L S shardSize _ _ _ _ hcl
                (mem_set_shape L S st.shards s b (by rw [c1, c2]; exact h0) hs)
        · exact hw _

theorem SinkAt_writeSlot (g : erasure.GetShardWriter) (n : Nat) (id : String)
    (sl : erasure.WriteSlot) (shard : List Byte) (h : erasure.SinkAt g n id sl) :
    erasure.SinkAt g (n + shard.length) id (erasure.writeSlot sl shard) := by
  unfold erasure.writeSlot
  cases hw : sl.writer with
  | none =>
    intro w hw'
    exact absurd hw' (by simp)
  | some w =>
    obtain ⟨w0, h1, _, h3⟩ := h w hw
    simp only []
    unfold erasure.Writer.Write
    cases hf : w.failAfter with
    | none =>
      intro w' hw'
      simp only [Option.some.injEq] at hw'
      subst hw'
      exact ⟨w0, h1, rfl, by simp only [List.length_append]; omega⟩
    | some k =>
      cases k with
      | zero =>
        intro w' hw'
        simp at hw'
      | succ k =>
        intro w' hw'
        simp only [Option.some.injEq] at hw'
        subst hw'
        exact ⟨w0, h1, rfl, by simp only [List.length_append]; omega⟩

theorem SinkAt_zipWith (g : erasure.GetShardWriter) (n L : Nat) :
    ∀ (ids : List String) (slots : List erasure.WriteSlot) (views : List (List Byte)),
      List.Forall₂ (erasure.SinkAt g n) ids slots → views.length = slots.length →
      (∀ v ∈ views, v.length = L) →
      List.Forall₂ (erasure.SinkAt g (n + L)) ids
        (List.zipWith erasure.writeSlot slots views) := by
  intro ids slots views h
  induction h generalizing views with
  | nil => intro _ _; simp
  | cons hd _ ih =>
    intro hlen hv
    cases views with
    | nil => simp at hlen
    | cons v vs =>
      simp only [List.length_cons, Nat.add_right_cancel_iff] at hlen
      simp only [List.zipWith_cons_cons]
      refine List.Forall₂.cons ?_ (ih vs hlen (fun x hx => hv x (List.mem_cons_of_mem _ hx)))
      have := SinkAt_writeSlot g n _ _ v hd
      rw [hv v (List.mem_cons_self _ _)] at this
      exact this

theorem acquiredSlots_SinkAt (g : erasure.GetShardWriter) (ids : List String) :
    List.Forall₂ (erasure.SinkAt g 0) ids (erasure.acquiredSlots g ids) := by
  unfold erasure.acquiredSlots
  induction ids with
  | nil => exact List.Forall₂.nil
  | cons id ids ih =>
    simp only [List.map_cons]
    refine List.Forall₂.cons ?_ ih
    intro w hw
    cases hg : g id with
    | error e => rw [hg] at hw; simp at hw
    | ok w0 =>
      rw [hg] at hw
      simp only [Option.some.injEq] at hw
      subst hw
      exact ⟨_, rfl, rfl, rfl⟩

/-- One pass of the block loop of `Write` that goes on to the next block hands the
shard buffer, `L` bytes, to every live writer. -/
theorem Write_blocks_sinks_body (C : erasure.Codec) (info : erasure.Info)
    (minSuccessWriters blockCount lastBlockSize lastShardSize todo i L n : Nat)
    (g : erasure.GetShardWriter) (ids : List String) (s st' : erasure.WriteState)
    (hcodec : ∀ vs vs' : List (List Byte),
      C.encode info.DataCount info.ParityCount vs = .ok vs' →
      vs'.map List.length = vs.map List.length)
    (hprep : i + 1 = blockCount → s.blockSize = lastBlockSize ∧ s.shardSize = lastShardSize)
    (hshape : ∀ b ∈ s.rs.shards, b.len = L ∧ info.ShardSize ≤ b.cap)
    (hlen : s.rs.shards.length = s.slots.length)
    (hsl : List.Forall₂ (erasure.SinkAt g n) ids s.slots)
    (h : erasure.Write.blocks C info minSuccessWriters blockCount lastBlockSize lastShardSize
      (todo + 1) i s = (none, st')) :
    ∃ s2 : erasure.WriteState,
      erasure.Write.blocks C info minSuccessWriters blockCount lastBlockSize lastShardSize
        todo (i + 1) s2 = (none, st') ∧
      s2.shardSize = s.shardSize ∧ s2.rs.shards.length = s2.slots.length ∧
      List.Forall₂ (erasure.SinkAt g (n + L)) ids s2.slots ∧
      ∀ b ∈ s2.rs.shards, b.len = L ∧ info.ShardSize ≤ b.cap := by
  rw [Write_blocks_prepared C info minSuccessWriters blockCount lastBlockSize lastShardSize
    todo i s hprep] at h
  have hrl := readDataShards_length info.DataCount s.blockSize s.shardSize info.DataCount 0 0 s.rs
  have hrs := readDataShards_shape info.DataCount s.blockSize s.shardSize L info.ShardSize
    info.DataCount 0 0 s.rs hshape
  split at h
  · simp at h
  · rename_i rs hrd
    rw [hrd] at hrl hrs
    simp only [] at hrl hrs
    split at h
    · simp at h
    · rename_i views henc
      have hvl := hcodec _ _ henc
      obtain ⟨hv1, hv2⟩ := lengths_of_views L info.ShardSize rs.shards views hrs hvl
      have hview := setViews_view rs.shards views hv1
      rw [hview] at h
      split at h
      · simp at h
      · simp at h
      · split_ifs at h with hq
        · simp at h
        · refine ⟨_, h, rfl, ?_, ?_, ?_⟩
          · simp only [setViews_length, List.length_zipWith]
            omega
          · exact SinkAt_zipWith g n L ids s.slots views hsl (by omega) hv2
          · exact setViews_shape L info.ShardSize rs.shards views hv1
              (fun b hb => (hrs b hb).2) hv2

/-- The block loop of `Write`, when it ends without error, has handed
`shardBytesOfBlocks` bytes to every writer that is still live. -/
theorem Write_blocks_sinks (C : erasure.Codec) (info : erasure.Info)
    (minSuccessWriters blockCount lastBlockSize lastShardSize : Nat)
    (g : erasure.GetShardWriter) (ids : List String)
    (hcodec : ∀ vs vs' : List (List Byte),
      C.encode info.DataCount info.ParityCount vs = .ok vs' →
      vs'.map List.length = vs.map List.length)
    (hlss : lastShardSize ≤ info.ShardSize) :
    ∀ (todo i : Nat) (st st' : erasure.WriteState), i + todo = blockCount →
      st.rs.shards.length = st.slots.length →
      List.Forall₂ (erasure.SinkAt g (erasure.shardBytesOfBlocks info blockCount lastShardSize i))
        ids st.slots →
      (i < blockCount → st.shardSize = info.ShardSize ∧
        ∀ b ∈ st.rs.shards, b.len = info.ShardSize ∧ info.ShardSize ≤ b.cap) →
      erasure.Write.blocks C info minSuccessWriters blockCount lastBlockSize lastShardSize
        todo i st = (none, st') →
      List.Forall₂
        (erasure.SinkAt g (erasure.shardBytesOfBlocks info blockCount lastShardSize blockCount))
        ids st'.slots := by
  intro todo
  induction todo with
  | zero =>
    intro i st st' hi _ hsl _ h
    rw [erasure.Write.blocks] at h
    simp only [Prod.mk.injEq, true_and] at h
    subst h
    have : i = blockCount := by omega
    subst this
    exact hsl
  | succ todo ih =>
    intro i st st' hi hlen hsl hinv h
    obtain ⟨hss, hshape⟩ := hinv (by omega)
    have hb0 : erasure.shardBytesOfBlocks info blockCount lastShardSize i = i * info.ShardSize := by
      unfold erasure.shardBytesOfBlocks
      rw [if_pos (by omega)]
    rw [hb0] at hsl
    by_cases hl : i + 1 = blockCount
    · obtain ⟨st1, k1, k2, k3, k4, _, k6, k7⟩ := Write_blocks_prepare C info minSuccessWriters
        blockCount lastBlockSize lastShardSize i st hl hshape hss hlss
      rw [k1 todo] at h
      obtain ⟨s2, r1, _, r3, r4, _⟩ := Write_blocks_sinks_body C info minSuccessWriters blockCount
        lastBlockSize lastShardSize todo i lastShardSize (i * info.ShardSize) g ids st1 st' hcodec
        (fun _ => ⟨k2, k3⟩) k7 (by rw [k6, k4]; exact hlen) (by rw [k4]; exact hsl) h
      have hb1 : erasure.shardBytesOfBlocks info blockCount lastShardSize (i + 1)
          = i * info.ShardSize + lastShardSize := by
        unfold erasure.shardBytesOfBlocks
        rw [if_neg (by omega), if_neg (by omega)]
        have : blockCount - 1 = i := by omega
        rw [this]
      exact ih (i + 1) s2 st' (by omega) r3 (by rw [hb1]; exact r4)
        (fun hlt => absurd hlt (by omega)) r1
    · obtain ⟨s2, r1, r2, r3, r4, r5⟩ := Write_blocks_sinks_body C info minSuccessWriters
        blockCount lastBlockSize lastShardSize todo i info.ShardSize (i * info.ShardSize) g ids st
        st' hcodec (fun hc => absurd hc hl) hshape hlen hsl h
      have hb1 : erasure.shardBytesOfBlocks info blockCount lastShardSize (i + 1)
          = i * info.ShardSize + info.ShardSize := by
        unfold erasure.shardBytesOfBlocks
        rw [if_pos (by omega)]
        ring
      exact ih (i + 1) s2 st' (by omega) r3 (by rw [hb1]; exact r4)
        (fun _ => ⟨by rw [r2, hss], r5⟩) r1

/-- Conversion to `uint64` of a sum that does not overflow. -/
theorem uint64_add_small (a b : Nat) (h : a + b < 18446744073709551616) :
    uint64 ((a : Int) + (b : Int)) = a + b := by
  unfold uint64
  omega

/-- The per-shard size `lastShardSize + (blockCount-1)*ShardSize`, computed in `uint64`,
is the number of bytes of `blockCount` shard buffers, and `blockCount` is zero for
an empty input. -/
theorem shardFileSize_arith (info : erasure.Info) (blockCount blockSize lastBlockSize
    lastShardSize : Nat)
    (hcompute : info.Compute = some (blockCount, blockSize, lastBlockSize, lastShardSize))
    (hbs : info.DataCount * info.ShardSize < 18446744073709551616)
    (hsz : info.Size + info.DataCount < 18446744073709551616) :
    uint64 ((lastShardSize : Int) + ((blockCount : Int) - 1) * (info.ShardSize : Int))
      = erasure.shardBytesOfBlocks info blockCount lastShardSize blockCount ∧
    (info.Size = 0 → blockCount = 0) := by
  obtain ⟨N, M, Z, S, ids⟩ := info
  simp only at hbs hsz ⊢
  unfold erasure.Info.Compute at hcompute
  simp only [Nat.mod_eq_of_lt hbs] at hcompute
  have hq : Z / (N * S) * (N * S) ≤ Z := Nat.div_mul_le_self _ _
  generalize hqd : Z / (N * S) = q at hcompute hq
  split_ifs at hcompute with h0 h1
  · simp only [Option.some.injEq, Prod.mk.injEq] at hcompute
    obtain ⟨e1, _, _, e4⟩ := hcompute
    have hN : 1 ≤ N := by omega
    have hqS : q * S ≤ q * (N * S) :=
      Nat.mul_le_mul_left _ (Nat.le_mul_of_pos_left S (by omega))
    have hsmall : Z - q * (N * S) + N - 1 < 18446744073709551616 := by omega
    rw [Nat.mod_eq_of_lt hsmall] at e4
    have hd : N * lastShardSize ≤ Z - q * (N * S) + N - 1 := by
      rw [← e4]; exact Nat.mul_div_le _ _
    have hls : lastShardSize ≤ N * lastShardSize := Nat.le_mul_of_pos_left _ (by omega)
    have hsum : lastShardSize + q * S < 18446744073709551616 := by omega
    refine ⟨?_, fun hz => ?_⟩
    · subst e1
      unfold erasure.shardBytesOfBlocks
      rw [if_neg (lt_irrefl _), if_neg (Nat.succ_ne_zero q)]
      have hc : (((q + 1 : Nat) : Int) - 1) * (S : Int) = ((q * S : Nat) : Int) := by
        push_cast; ring
      simp only []
      rw [hc, uint64_add_small _ _ hsum]
      simp only [Nat.add_sub_cancel]
      omega
    · subst hz
      simp at h1
  · simp only [Option.some.injEq, Prod.mk.injEq] at hcompute
    obtain ⟨e1, _, _, e4⟩ := hcompute
    have hN : 1 ≤ N := by omega
    have hqS : q * S ≤ q * (N * S) :=
      Nat.mul_le_mul_left _ (Nat.le_mul_of_pos_left S (by omega))
    refine ⟨?_, fun hz => ?_⟩
    · subst e1 e4
      unfold erasure.shardBytesOfBlocks
      rw [if_neg (lt_irrefl _)]
      simp only []
      rcases Nat.eq_zero_or_pos q with hb | hb
      · subst hb
        simp [uint64]
      · obtain ⟨k, rfl⟩ := Nat.exists_eq_succ_of_ne_zero (show q ≠ 0 by omega)
        rw [if_neg (Nat.succ_ne_zero k)]
        simp only [Nat.succ_eq_add_one] at hq hqS
        have hks : (k + 1) * S = k * S + S := by ring
        have hsum : S + k * S < 18446744073709551616 := by omega
        have hc : (((k + 1 : Nat) : Int) - 1) * (S : Int) = ((k * S : Nat) : Int) := by
          push_cast; ring
        rw [Nat.succ_eq_add_one, hc, uint64_add_small _ _ hsum]
        simp only [Nat.add_sub_cancel]
        omega
    · subst hz
      rw [Nat.zero_div] at hqd
      omega

/-- C32. A run of `Write` that passes its precondition checks and returns no error,
for any encoder that keeps the lengths of the shards, any input, writers and quorum,
with `N * ShardSize` and `Size + N` below `2^64`: the value
`lastShardSize + (blockCount-1)*ShardSize` computed in `uint64` (the per-shard size of
`Erasure.SaveTempFile` and of the part list of `Erasure.CompleteUpload`) is the
number of bytes of `blockCount` shard buffers, it is 0 for `Size = 0`, and every
shard whose writer is still live at the end was handed exactly that many bytes. -/
theorem Write_hands_each_live_writer_the_shard_file_size (C : erasure.Codec) (H : Hasher)
    (getShardWriter : erasure.GetShardWriter) (shards : List Buf) (info : erasure.Info)
    (reader : Stream) (minSuccessWriters blockCount blockSize lastBlockSize lastShardSize : Nat)
    (hcompute : info.Compute = some (blockCount, blockSize, lastBlockSize, lastShardSize))
    (hbs : info.DataCount * info.ShardSize < 18446744073709551616)
    (hsz : info.Size + info.DataCount < 18446744073709551616)
    (h64 : info.DataCount + info.ParityCount < 18446744073709551616)
    (hcount : shards.length = info.DataCount + info.ParityCount)
    (hshards : ∀ b ∈ shards, b.len = info.ShardSize ∧ b.len ≤ b.cap)
    (hids : info.ShardIDs.length = info.DataCount + info.ParityCount)
    (hnodup : info.ShardIDs.Nodup)
    (hvalid : C.valid info.DataCount info.ParityCount = true)
    (hcodec : ∀ vs vs' : List (List Byte),
      C.encode info.DataCount info.ParityCount vs = .ok vs' →
      vs'.map List.length = vs.map List.length)
    (hok : (erasure.Write C H getShardWriter shards info reader minSuccessWriters).result.isOk
      = true) :
    ∃ sz : Nat,
      sz = uint64 ((lastShardSize : Int) + ((blockCount : Int) - 1) * (info.ShardSize : Int)) ∧
      (∀ id, dataspace.erasure.shardPartSize ⟨info, id⟩ = some sz) ∧
      sz = (if blockCount = 0 then 0 else (blockCount - 1) * info.ShardSize + lastShardSize) ∧
      (info.Size = 0 → blockCount = 0 ∧ sz = 0) ∧
      List.Forall₂
        (fun id sl => ∀ w, sl.writer = some w →
          ∃ w0, getShardWriter id = .ok w0 ∧ sl.sink.length = w0.written.length + sz)
        info.ShardIDs
        (erasure.Write C H getShardWriter shards info reader minSuccessWriters).slots := by
  obtain ⟨ha, hz⟩ := shardFileSize_arith info blockCount blockSize lastBlockSize lastShardSize
    hcompute hbs hsz
  have hsb : erasure.shardBytesOfBlocks info blockCount lastShardSize blockCount
      = (if blockCount = 0 then 0 else (blockCount - 1) * info.ShardSize + lastShardSize) := by
    unfold erasure.shardBytesOfBlocks
    rw [if_neg (lt_irrefl _)]
  refine ⟨_, rfl, ?_, by rw [ha, hsb], ?_, ?_⟩
  · intro id
    simp only [dataspace.erasure.shardPartSize, hcompute, Option.map_some']
  · intro h0
    have hb := hz h0
    refine ⟨hb, ?_⟩
    rw [ha, hsb, if_pos hb]
  · rw [Write_of_preconditions C H getShardWriter shards info reader minSuccessWriters blockCount
      blockSize lastBlockSize lastShardSize hcompute h64 hcount hshards hids hnodup hvalid] at hok ⊢
    split_ifs at hok ⊢ with hq
    · simp [Except.isOk, Except.toBool] at hok
    · cases hbl : erasure.Write.blocks C info minSuccessWriters blockCount lastBlockSize
          lastShardSize blockCount 0
          ⟨⟨reader, shards, []⟩, erasure.acquiredSlots getShardWriter info.ShardIDs,
            blockSize, info.ShardSize⟩ with
      | mk e st =>
        rw [hbl] at hok
        cases e with
        | some e => simp [Except.isOk, Except.toBool] at hok
        | none =>
          have h0 : erasure.shardBytesOfBlocks info blockCount lastShardSize 0 = 0 := by
            unfold erasure.shardBytesOfBlocks
            split_ifs with c1 c2
            · exact Nat.zero_mul _
            · rfl
            · omega
          have key := Write_blocks_sinks C info minSuccessWriters blockCount lastBlockSize
            lastShardSize getShardWriter info.ShardIDs hcodec
            (Compute_lastShardSize_le info _ _ _ _ hcompute) blockCount 0
            ⟨⟨reader, shards, []⟩, erasure.acquiredSlots getShardWriter info.ShardIDs,
              blockSize, info.ShardSize⟩ st (by omega)
            (by rw [(acquiredSlots_inv getShardWriter info.ShardIDs).1, hids]; exact hcount)
            (by rw [h0]; exact acquiredSlots_SinkAt getShardWriter info.ShardIDs)
            (fun _ => ⟨rfl, fun b hb => ⟨(hshards b hb).1, by
              have := hshards b hb; omega⟩⟩) hbl
          rw [ha]
          refine List.Forall₂.imp ?_ key
          intro id sl hs w hw
          obtain ⟨w0, g1, g2, g3⟩ := hs w hw
          exact ⟨w0, g1, by rw [g2, g3]⟩

/-- The theorem for `N = 2`, `M = 1`, `ShardSize = 2` and an input of 7 bytes: two
blocks, the last one of 3 bytes in shards of 2, and 4 bytes for every shard. -/
theorem Write_hands_each_live_writer_the_shard_file_size_witness :
    (erasure.Write xorCodec sumHasher healthyWriters (List.replicate 3 (Buf.make 2))
      ⟨2, 1, 7, 2, ["s0", "s1", "s2"]⟩ ⟨[1, 2, 3, 4, 5, 6, 7], Err.eof⟩ 3).result.isOk = true ∧
    ∃ sz : Nat,
      sz = uint64 (((2 : Nat) : Int) + (((2 : Nat) : Int) - 1) * ((2 : Nat) : Int)) ∧
      (∀ id, dataspace.erasure.shardPartSize ⟨⟨2, 1, 7, 2, ["s0", "s1", "s2"]⟩, id⟩ = some sz) ∧
      sz = (if 2 = 0 then 0 else (2 - 1) * 2 + 2) ∧
      ((7 : Nat) = 0 → 2 = 0 ∧ sz = 0) ∧
      List.Forall₂
        (fun id sl => ∀ w, sl.writer = some w →
          ∃ w0, healthyWriters id = .ok w0 ∧ sl.sink.length = w0.written.length + sz)
        ["s0", "s1", "s2"]
        (erasure.Write xorCodec sumHasher healthyWriters (List.replicate 3 (Buf.make 2))
          ⟨2, 1, 7, 2, ["s0", "s1", "s2"]⟩ ⟨[1, 2, 3, 4, 5, 6, 7], Err.eof⟩ 3).slots :=
  ⟨by decide,
    Write_hands_each_live_writer_the_shard_file_size xorCodec sumHasher healthyWriters
      (List.replicate 3 (Buf.make 2)) ⟨2, 1, 7, 2, ["s0", "s1", "s2"]⟩
      ⟨[1, 2, 3, 4, 5, 6, 7], Err.eof⟩ 3 2 4 3 2 (by decide) (by decide) (by decide) (by decide)
      (by decide) (by decide) (by decide) (by decide) (by decide)
      (fun vs vs' h => by
        obtain ⟨v, h1, h2, _⟩ := xorCodec_works 2 1 vs
        rw [h1] at h
        cases h
        exact h2)
      (by decide)⟩

/-! ## datasys/dataspace/erasure: the shard-file offset of a part -/

open dataspace.erasure in
/-- Every `Read` of the part walker is a `Step`. -/
theorem dataReader_Read_Step (C : erasure.Codec) (g : erasure.GetShardReader)
    (dr : dataReader) (want : Nat) : dataReader.Step dr (dr.Read C g want).2.2 := by
  obtain ⟨nr, hnr⟩ : ∃ nr : erasure.Codec → List Buf → erasure.Info → Int → Nat →
      Except Err erasure.decodeReader,
      ∀ a b c d e, erasure.NewReader a b c d e = nr a b c d e := ⟨_, fun _ _ _ _ _ => rfl⟩
  obtain ⟨rdf, hrdf⟩ : ∃ rdf : erasure.Codec → erasure.GetShardReader → erasure.decodeReader →
      Nat → List Byte × Option Err × erasure.decodeReader,
      ∀ a b c d, erasure.decodeReader.Read a b c d = rdf a b c d := ⟨_, fun _ _ _ _ => rfl⟩
  unfold dataReader.Read
  simp only [hnr, hrdf]
  cases herr : dr.err with
  | some e =>
    dsimp only
    exact ⟨rfl, rfl, rfl, Or.inl ⟨rfl, rfl, fun rd' b' h => ⟨rd', h⟩⟩⟩
  | none =>
    dsimp only
    cases hrd : dr.reader with
    | some rb =>
      obtain ⟨rd, base⟩ := rb
      dsimp only
      generalize rdf C (shiftedReader g base) rd want = res
      obtain ⟨bs, e, rd1⟩ := res
      cases e with
      | none =>
        exact ⟨rfl, rfl, rfl, Or.inl ⟨rfl, rfl, fun rd' b' h => by
          simp only [Option.some.injEq, Prod.mk.injEq] at h
          exact ⟨rd, by rw [hrd, ← h.2]⟩⟩⟩
      | some e =>
        exact ⟨rfl, rfl, rfl, Or.inl ⟨rfl, rfl, fun rd' b' h => by simp at h⟩⟩
    | none =>
      dsimp only
      cases hp : dr.parts.get? dr.index with
      | none =>
        exact ⟨rfl, rfl, rfl, Or.inl ⟨rfl, rfl, fun rd' b' h => ⟨rd', h⟩⟩⟩
      | some part =>
        dsimp only
        generalize nr C _ part.Info _ _ = r
        cases r with
        | error e =>
          exact ⟨rfl, rfl, rfl, Or.inl ⟨rfl, rfl, fun rd' b' h => by simp at h⟩⟩
        | ok rd =>
          dsimp only
          cases hs : shardPartSize part with
          | none =>
            exact ⟨rfl, rfl, rfl, Or.inl ⟨rfl, rfl, fun rd' b' h => ⟨rd', h⟩⟩⟩
          | some sz =>
            dsimp only
            generalize rdf C (shiftedReader g dr.shardPartsSize) rd want = res
            obtain ⟨bs, e, rd1⟩ := res
            cases e with
            | none =>
              exact ⟨rfl, rfl, rfl, Or.inr ⟨hrd, part, sz, hp, hs, rfl, rfl, fun rd' b' h => by
                simp only [Option.some.injEq, Prod.mk.injEq] at h
                exact h.2.symm⟩⟩
            | some e =>
              exact ⟨rfl, rfl, rfl, Or.inr ⟨hrd, part, sz, hp, hs, rfl, rfl,
                fun rd' b' h => by simp at h⟩⟩

open dataspace.erasure in
/-- The shard-file offset of part `n + 1` is the offset of part `n` plus the
per-shard size of part `n`, in `uint64`. -/
theorem shardPartsSizeBefore_succ : ∀ (parts : List Part) (n s : Nat) (part : Part) (sz : Nat),
    shardPartsSizeBefore parts n = some s → parts.get? n = some part →
    shardPartSize part = some sz →
    shardPartsSizeBefore parts (n + 1) = some ((s + sz) % 18446744073709551616) := by
  intro parts
  induction parts with
  | nil => intro n s part sz _ hp; simp at hp
  | cons p ps ih =>
    intro n s part sz hs hp hsz
    cases n with
    | zero =>
      simp only [shardPartsSizeBefore, Option.some.injEq] at hs
      simp only [List.get?_cons_zero, Option.some.injEq] at hp
      subst hs hp
      simp only [shardPartsSizeBefore, hsz, Nat.add_zero, Nat.zero_add]
    | succ k =>
      simp only [List.get?_cons_succ] at hp
      rw [shardPartsSizeBefore] at hs
      cases ha : shardPartSize p with
      | none => rw [ha] at hs; simp at hs
      | some a =>
        cases hr : shardPartsSizeBefore ps k with
        | none => rw [ha, hr] at hs; simp at hs
        | some r =>
          rw [ha, hr] at hs
          simp only [Option.some.injEq] at hs
          have h2 := ih k r part sz hr hp hsz
          rw [shardPartsSizeBefore, ha, h2]
          simp only [Option.some.injEq]
          omega

open dataspace.erasure in
/-- The shard-file offset of part `n` is the sum of the per-shard sizes of the parts
before it, modulo `2^64`. -/
theorem shardPartsSizeBefore_sum : ∀ (parts : List Part) (n s : Nat),
    shardPartsSizeBefore parts n = some s →
    n ≤ parts.length ∧ ∃ szs : List Nat, (parts.take n).map shardPartSize = szs.map some ∧
      s = szs.sum % 18446744073709551616 := by
  intro parts
  induction parts with
  | nil =>
    intro n s hs
    cases n with
    | zero =>
      simp only [shardPartsSizeBefore, Option.some.injEq] at hs
      subst hs
      exact ⟨le_refl _, [], rfl, rfl⟩
    | succ k => simp [shardPartsSizeBefore] at hs
  | cons p ps ih =>
    intro n s hs
    cases n with
    | zero =>
      simp only [shardPartsSizeBefore, Option.some.injEq] at hs
      subst hs
      exact ⟨Nat.zero_le _, [], rfl, rfl⟩
    | succ k =>
      rw [shardPartsSizeBefore] at hs
      cases ha : shardPartSize p with
      | none => rw [ha] at hs; simp at hs
      | some a =>
        cases hr : shardPartsSizeBefore ps k with
        | none => rw [ha, hr] at hs; simp at hs
        | some r =>
          rw [ha, hr] at hs
          simp only [Option.some.injEq] at hs
          obtain ⟨h1, szs, h2, h3⟩ := ih k r hr
          refine ⟨by simp only [List.length_cons]; omega, a :: szs, ?_, ?_⟩
          · simp only [List.take_succ_cons, List.map_cons, ha, h2]
          · simp only [List.sum_cons]
            omega

open dataspace.erasure in
/-- The `Read` that opens part `parts[index]`: the stripe reader is made for the
inner window of the part, and it is read through the shard readers shifted by the
shard-file offset the walker holds. -/
theorem dataReader_Read_opens (C : erasure.Codec) (g : erasure.GetShardReader)
    (dr : dataReader) (want : Nat) (part : Part) (rd : erasure.decodeReader) (sz : Nat)
    (herr : dr.err = none) (hrd : dr.reader = none)
    (hp : dr.parts.get? dr.index = some part)
    (hnew : erasure.NewReader C
      ((if dr.index = 0 then
          List.replicate ((part.Info.DataCount + part.Info.ParityCount) % 18446744073709551616)
            (Buf.make part.Info.ShardSize)
        else dr.shards).map (fun b => { b with len := b.cap }))
      part.Info (if dr.index = 0 then dr.bytesToSkip else 0)
      (if (dr.index : Int) = (dr.parts.length : Int) - 1 then uint64 dr.bytesToRead
        else uint64 ((part.Info.Size : Int) - uint64 (if dr.index = 0 then dr.bytesToSkip else 0)))
      = .ok rd)
    (hs : shardPartSize part = some sz) :
    (dr.Read C g want).1 = (rd.Read C (shiftedReader g dr.shardPartsSize) want).1 := by
  obtain ⟨nr, hnr⟩ : ∃ nr : erasure.Codec → List Buf → erasure.Info → Int → Nat →
      Except Err erasure.decodeReader,
      ∀ a b c d e, erasure.NewReader a b c d e = nr a b c d e := ⟨_, fun _ _ _ _ _ => rfl⟩
  obtain ⟨rdf, hrdf⟩ : ∃ rdf : erasure.Codec → erasure.GetShardReader → erasure.decodeReader →
      Nat → List Byte × Option Err × erasure.decodeReader,
      ∀ a b c d, erasure.decodeReader.Read a b c d = rdf a b c d := ⟨_, fun _ _ _ _ => rfl⟩
  rw [hnr] at hnew
  unfold dataReader.Read
  simp only [hnr, hrdf]
  rw [herr]
  dsimp only
  rw [hrd]
  dsimp only
  rw [hp]
  dsimp only
  rw [hnew]
  dsimp only
  rw [hs]
  dsimp only
  generalize rdf C (shiftedReader g dr.shardPartsSize) rd want = res
  obtain ⟨bs, e, rd1⟩ := res
  cases e <;> rfl

open dataspace.erasure in
/-- A `Read` while a stripe reader is open reads it through the shard readers shifted
by the offset it was opened with. -/
theorem dataReader_Read_open (C : erasure.Codec) (g : erasure.GetShardReader)
    (dr : dataReader) (want : Nat) (rd : erasure.decodeReader) (base : Nat)
    (herr : dr.err = none) (hrd : dr.reader = some (rd, base)) :
    (dr.Read C g want).1 = (rd.Read C (shiftedReader g base) want).1 := by
  obtain ⟨rdf, hrdf⟩ : ∃ rdf : erasure.Codec → erasure.GetShardReader → erasure.decodeReader →
      Nat → List Byte × Option Err × erasure.decodeReader,
      ∀ a b c d, erasure.decodeReader.Read a b c d = rdf a b c d := ⟨_, fun _ _ _ _ => rfl⟩
  unfold dataReader.Read
  simp only [hrdf]
  rw [herr]
  dsimp only
  rw [hrd]
  dsimp only
  generalize rdf C (shiftedReader g base) rd want = res
  obtain ⟨bs, e, rd1⟩ := res
  cases e <;> rfl

/-- An element of a slice of a list is the element of the list at the shifted index. -/
theorem sliceRange_get {α : Type} (l sel : List α) (lo hi : Int) (k : Nat) (a : α)
    (h : sliceRange l lo hi = some sel) (hk : sel.get? k = some a) :
    l.get? (lo.toNat + k) = some a := by
  unfold sliceRange at h
  split_ifs at h with hc
  simp only [Option.some.injEq] at h
  subst h
  rw [List.get?_eq_getElem?] at hk ⊢
  rw [List.getElem?_take] at hk
  split_ifs at hk
  rw [List.getElem?_drop] at hk
  exact hk

open dataspace.erasure in
/-- C31. For every `DataInfo`, window with `offset ≥ 0` that `newDataReader` accepts,
coder, shard readers and sequence of `Read` calls on the erasure part walker, with
`(startPart, endPart, skipInStart, readInEnd)` the result of `CalcPartBoundaries`:
the walker holds the parts `startPart .. endPart - 1`; the shard-file offset it
holds is the one of part `startPart + index`, the next to be opened; a stripe
reader that is open belongs to part `startPart + index - 1`, and every `Read` reads
it through shard readers whose offsets are shifted by the shard-file offset of
that part; the `Read` that opens part `parts[index]` makes the stripe reader for the
inner offset `skipInStart` when `index = 0` and `0` otherwise, and for `readInEnd`
bytes when the part is the last one, else up to the end of the part; and the
shard-file offset of part `p` is the sum over the parts `q < p` of
`lastShardSize_q + (blockCount_q - 1) * shardSize_q`, in `uint64` arithmetic. -/
theorem erasure_dataReader_reads_each_part_at_its_shard_file_offset (C : erasure.Codec)
    (g : erasure.GetShardReader) (dataInfo : DataInfo) (offset : Int) (length : Nat)
    (dr0 dr : dataReader) (ws : List Nat) (hoff : 0 ≤ offset)
    (hnew : newDataReader dataInfo offset length = .ok dr0)
    (hdr : dr0.after C g ws = dr) :
    ∃ startPart endPart skipInStart readInEnd : Int,
      CalcPartBoundaries (dataInfo.Parts.map (fun p => int64 p.Info.Size)) offset (int64 length)
        = (startPart, endPart, skipInStart, readInEnd) ∧
      sliceRange dataInfo.Parts startPart endPart = some dr.parts ∧
      shardPartsSizeBefore dataInfo.Parts (startPart.toNat + dr.index) = some dr.shardPartsSize ∧
      (∀ rd base, dr.reader = some (rd, base) →
        1 ≤ dr.index ∧
        shardPartsSizeBefore dataInfo.Parts (startPart.toNat + dr.index - 1) = some base ∧
        ∀ want, dr.err = none →
          (dr.Read C g want).1 = (rd.Read C (shiftedReader g base) want).1) ∧
      (∀ want part rd sz, dr.err = none → dr.reader = none →
        dr.parts.get? dr.index = some part →
        dataInfo.Parts.get? (startPart.toNat + dr.index) = some part ∧
        (erasure.NewReader C
            ((if dr.index = 0 then
                List.replicate
                  ((part.Info.DataCount + part.Info.ParityCount) % 18446744073709551616)
                  (Buf.make part.Info.ShardSize)
              else dr.shards).map (fun b => { b with len := b.cap }))
            part.Info (if dr.index = 0 then skipInStart else 0)
            (if (dr.index : Int) = (dr.parts.length : Int) - 1 then uint64 readInEnd
              else uint64 ((part.Info.Size : Int)
                - uint64 (if dr.index = 0 then skipInStart else 0))) = .ok rd →
          shardPartSize part = some sz →
          (dr.Read C g want).1 = (rd.Read C (shiftedReader g dr.shardPartsSize) want).1)) ∧
      (∀ (base : Nat) (id : String) (off len : Int),
        shiftedReader g base id off len = g id (int64 (int64 base + off)) len) ∧
      (∀ p s, shardPartsSizeBefore dataInfo.Parts p = some s →
        p ≤ dataInfo.Parts.length ∧
        ∃ szs : List Nat, (dataInfo.Parts.take p).map shardPartSize = szs.map some ∧
          s = szs.sum % 18446744073709551616) := by
  generalize hb : CalcPartBoundaries (dataInfo.Parts.map (fun p => int64 p.Info.Size)) offset
    (int64 length) = b
  obtain ⟨startPart, endPart, skipInStart, readInEnd⟩ := b
  refine ⟨startPart, endPart, skipInStart, readInEnd, rfl, ?_⟩
  -- the walker `newDataReader` returns
  have h0 : sliceRange dataInfo.Parts startPart endPart = some dr0.parts ∧
      dr0.bytesToSkip = skipInStart ∧ dr0.bytesToRead = readInEnd ∧
      shardPartsSizeBefore dataInfo.Parts (startPart.toNat + dr0.index)
        = some dr0.shardPartsSize ∧
      (∀ rd base, dr0.reader = some (rd, base) → 1 ≤ dr0.index ∧
        shardPartsSizeBefore dataInfo.Parts (startPart.toNat + dr0.index - 1) = some base) := by
    unfold newDataReader at hnew
    simp only [if_neg (not_lt.mpr hoff), hb] at hnew
    split_ifs at hnew
    split at hnew
    · simp at hnew
    · rename_i sps hsps
      split at hnew
      · simp at hnew
      · rename_i parts hparts
        simp only [Except.ok.injEq] at hnew
        subst hnew
        exact ⟨hparts, rfl, rfl, hsps, fun rd base h => by simp at h⟩
  -- every `Read` keeps it
  have hstep : ∀ d d' : dataReader, dataReader.Step d d' →
      (sliceRange dataInfo.Parts startPart endPart = some d.parts ∧
        d.bytesToSkip = skipInStart ∧ d.bytesToRead = readInEnd ∧
        shardPartsSizeBefore dataInfo.Parts (startPart.toNat + d.index)
          = some d.shardPartsSize ∧
        (∀ rd base, d.reader = some (rd, base) → 1 ≤ d.index ∧
          shardPartsSizeBefore dataInfo.Parts (startPart.toNat + d.index - 1) = some base)) →
      (sliceRange dataInfo.Parts startPart endPart = some d'.parts ∧
        d'.bytesToSkip = skipInStart ∧ d'.bytesToRead = readInEnd ∧
        shardPartsSizeBefore dataInfo.Parts (startPart.toNat + d'.index)
          = some d'.shardPartsSize ∧
        (∀ rd base, d'.reader = some (rd, base) → 1 ≤ d'.index ∧
          shardPartsSizeBefore dataInfo.Parts (startPart.toNat + d'.index - 1) = some base)) := by
    intro d d' hs ⟨i1, i2, i3, i4, i5⟩
    obtain ⟨s1, s2, s3, s4⟩ := hs
    rcases s4 with ⟨t1, t2, t3⟩ | ⟨t0, part, sz, t1, t2, t3, t4, t5⟩
    · refine ⟨by rw [s1]; exact i1, by rw [s2]; exact i2, by rw [s3]; exact i3,
        by rw [t1, t2]; exact i4, fun rd base h => ?_⟩
      obtain ⟨rd1, h1⟩ := t3 rd base h
      rw [t1]
      exact i5 rd1 base h1
    · have hget := sliceRange_get dataInfo.Parts d.parts startPart endPart d.index part i1 t1
      have hnext := shardPartsSizeBefore_succ dataInfo.Parts _ _ part sz i4 hget t2
      refine ⟨by rw [s1]; exact i1, by rw [s2]; exact i2, by rw [s3]; exact i3, ?_,
        fun rd base h => ?_⟩
      · rw [t3, t4, ← Nat.add_assoc]
        exact hnext
      · have hbase := t5 rd base h
        rw [t3, hbase]
        refine ⟨by omega, ?_⟩
        have : startPart.toNat + (d.index + 1) - 1 = startPart.toNat + d.index := by omega
        rw [this]
        exact i4
  have hrun : ∀ (ws : List Nat) (d : dataReader),
      (sliceRange dataInfo.Parts startPart endPart = some d.parts ∧
        d.bytesToSkip = skipInStart ∧ d.bytesToRead = readInEnd ∧
        shardPartsSizeBefore dataInfo.Parts (startPart.toNat + d.index)
          = some d.shardPartsSize ∧
        (∀ rd base, d.reader = some (rd, base) → 1 ≤ d.index ∧
          shardPartsSizeBefore dataInfo.Parts (startPart.toNat + d.index - 1) = some base)) →
      (sliceRange dataInfo.Parts startPart endPart = some (d.after C g ws).parts ∧
        (d.after C g ws).bytesToSkip = skipInStart ∧ (d.after C g ws).bytesToRead = readInEnd ∧
        shardPartsSizeBefore dataInfo.Parts (startPart.toNat + (d.after C g ws).index)
          = some (d.after C g ws).shardPartsSize ∧
        (∀ rd base, (d.after C g ws).reader = some (rd, base) → 1 ≤ (d.after C g ws).index ∧
          shardPartsSizeBefore dataInfo.Parts (startPart.toNat + (d.after C g ws).index - 1)
            = some base)) := by
    intro ws
    induction ws with
    | nil => intro d hd; exact hd
    | cons w ws ih =>
      intro d hd
      rw [dataReader.after]
      exact ih _ (hstep d _ (dataReader_Read_Step C g d w) hd)
  obtain ⟨j1, j2, j3, j4, j5⟩ := hrun ws dr0 h0
  rw [hdr] at j1 j2 j3 j4 j5
  refine ⟨j1, j4, fun rd base h => ?_, fun want part rd sz herr hrd hp => ?_,
    fun base id off len => rfl, fun p s hs => shardPartsSizeBefore_sum dataInfo.Parts p s hs⟩
  · obtain ⟨k1, k2⟩ := j5 rd base h
    exact ⟨k1, k2, fun want herr => dataReader_Read_open C g dr want rd base herr h⟩
  · refine ⟨sliceRange_get dataInfo.Parts dr.parts startPart endPart dr.index part j1 hp,
      fun hn hsz => ?_⟩
    rw [← j2, ← j3] at hn
    exact dataReader_Read_opens C g dr want part rd sz herr hrd hp hn hsz

open dataspace.erasure in
/-- The theorem for an object of two parts of 2 and 3 bytes (shards of 4 bytes, one
data shard), window `[1, 5)`, after one `Read`: part `a` is consumed, the walker is
at part 1 and holds the shard-file offset 2, the per-shard size of part `a`. -/
theorem erasure_dataReader_reads_each_part_at_its_shard_file_offset_witness :
    ∃ dr0,
      newDataReader
        ⟨[⟨⟨1, 1, 2, 4, ["s0", "s1"]⟩, "a"⟩, ⟨⟨1, 1, 3, 4, ["s0", "s1"]⟩, "b"⟩], 5⟩ 1 4
        = .ok dr0 ∧
      (dr0.after xorCodec
        (erasure.shardFiles [("s0", [1, 2, 3, 4, 5]), ("s1", [1, 2, 3, 4, 5])]) [8]).index = 1 ∧
      ∃ startPart endPart skipInStart readInEnd : Int,
        CalcPartBoundaries
          ((⟨[⟨⟨1, 1, 2, 4, ["s0", "s1"]⟩, "a"⟩, ⟨⟨1, 1, 3, 4, ["s0", "s1"]⟩, "b"⟩], 5⟩ :
            DataInfo).Parts.map (fun p => int64 p.Info.Size)) 1 (int64 4)
          = (startPart, endPart, skipInStart, readInEnd) ∧
        shardPartsSizeBefore
          [⟨⟨1, 1, 2, 4, ["s0", "s1"]⟩, "a"⟩, ⟨⟨1, 1, 3, 4, ["s0", "s1"]⟩, "b"⟩]
          (startPart.toNat + (dr0.after xorCodec
            (erasure.shardFiles [("s0", [1, 2, 3, 4, 5]), ("s1", [1, 2, 3, 4, 5])]) [8]).index)
          = some (dr0.after xorCodec
            (erasure.shardFiles [("s0", [1, 2, 3, 4, 5]), ("s1", [1, 2, 3, 4, 5])])
            [8]).shardPartsSize ∧
        (dr0.after xorCodec
          (erasure.shardFiles [("s0", [1, 2, 3, 4, 5]), ("s1", [1, 2, 3, 4, 5])])
          [8]).shardPartsSize = 2 := by
  refine ⟨⟨0, [⟨⟨1, 1, 2, 4, ["s0", "s1"]⟩, "a"⟩, ⟨⟨1, 1, 3, 4, ["s0", "s1"]⟩, "b"⟩], 0, 1, 3,
    none, [], none⟩, by decide, by decide, ?_⟩
  obtain ⟨s, e, k, r, h1, _, h3, _⟩ :=
    erasure_dataReader_reads_each_part_at_its_shard_file_offset xorCodec
      (erasure.shardFiles [("s0", [1, 2, 3, 4, 5]), ("s1", [1, 2, 3, 4, 5])])
      ⟨[⟨⟨1, 1, 2, 4, ["s0", "s1"]⟩, "a"⟩, ⟨⟨1, 1, 3, 4, ["s0", "s1"]⟩, "b"⟩], 5⟩ 1 4
      ⟨0, [⟨⟨1, 1, 2, 4, ["s0", "s1"]⟩, "a"⟩, ⟨⟨1, 1, 3, 4, ["s0", "s1"]⟩, "b"⟩], 0, 1, 3,
        none, [], none⟩ _ [8] (by decide) (by decide) rfl
  exact ⟨s, e, k, r, h1, h3, by decide⟩

/-! ## The part walkers at the end of a part -/

/-- C37 (the claim does not hold as stated). An object of two parts of 2 and 3 bytes,
`[1, 2]` and `[3, 4, 5]`, window `offset = 0, length = 5`; the file of part `a` was cut
to one byte after it was written.  The reader of part `a` reports
`io.ErrUnexpectedEOF` with no byte delivered; part `a` is not the last part, so the
walker of the disk layer drops the error and goes on with part `b`: the three
`Read` calls return no byte and nil, then `[3, 4, 5]` and `io.EOF`, then `io.EOF`, and a
copy ends without error after 3 of the 5 bytes.  With the part file intact the
copy delivers the 5 bytes. -/
theorem dataReader_goes_on_after_a_part_that_ends_early :
    (dataspace.disk.newDataReader ⟨[⟨"a", 2⟩, ⟨"b", 3⟩], 5⟩ 0 5).map (fun dr =>
        let dir := fun name =>
          if name = "a.part" then
            some { (WriteFile sumHasher ⟨[1, 2], Err.eof⟩ 2 true).2 with data := [1] }
          else if name = "b.part" then some (WriteFile sumHasher ⟨[3, 4, 5], Err.eof⟩ 3 true).2
          else none
        let r1 := dr.Read sumHasher dir 8
        let r2 := r1.2.2.Read sumHasher dir 8
        let r3 := r2.2.2.Read sumHasher dir 8
        ((r1.1, r1.2.1), (r2.1, r2.2.1), (r3.1, r3.2.1)))
      = .ok (([], none), ([3, 4, 5], some Err.eof), ([], some Err.eof)) ∧
    ((OpenFile (some { (WriteFile sumHasher ⟨[1, 2], Err.eof⟩ 2 true).2 with data := [1] })
        0 2 true).map (fun rc => ((rc.Read sumHasher 8).1, (rc.Read sumHasher 8).2.1)))
      = .ok ([], some Err.unexpectedEOF) ∧
    dataspace.disk.copyData sumHasher
        (fun name =>
          if name = "a.part" then
            some { (WriteFile sumHasher ⟨[1, 2], Err.eof⟩ 2 true).2 with data := [1] }
          else if name = "b.part" then some (WriteFile sumHasher ⟨[3, 4, 5], Err.eof⟩ 3 true).2
          else none)
        ⟨[⟨"a", 2⟩, ⟨"b", 3⟩], 5⟩ 0 5 8 6 = .ok ([3, 4, 5], none) ∧
    dataspace.disk.copyData sumHasher
        (fun name =>
          if name = "a.part" then some (WriteFile sumHasher ⟨[1, 2], Err.eof⟩ 2 true).2
          else if name = "b.part" then some (WriteFile sumHasher ⟨[3, 4, 5], Err.eof⟩ 3 true).2
          else none)
        ⟨[⟨"a", 2⟩, ⟨"b", 3⟩], 5⟩ 0 5 8 6 = .ok ([1, 2, 3, 4, 5], none) := by
  decide

open dataspace.disk in
/-- A `Read` of the disk part walker that holds an error returns it with no byte,
`io.EOF` in place of an `io.ErrUnexpectedEOF` once all parts were opened. -/
theorem disk_Read_of_err (H : Hasher) (dir : String → Option StoredFile) (dr : dataReader)
    (want : Nat) (e : Err) (herr : dr.err = some e) :
    dr.Read H dir want =
      ([], some (if e = Err.unexpectedEOF ∧ dr.index = dr.requiredParts.length then Err.eof else e),
        { dr with
          err := some (if e = Err.unexpectedEOF ∧ dr.index = dr.requiredParts.length then Err.eof
            else e) }) := by
  obtain ⟨rp, bts, btr, rc0, idx, err0⟩ := dr
  simp only at herr
  subst herr
  rfl

open dataspace.disk in
/-- A `Read` of the disk part walker on its open part reader: the bytes are those of
the part reader; `io.EOF` and `io.ErrUnexpectedEOF` of a part that is not the last
are dropped and the reader is closed; any other error is returned and kept. -/
theorem disk_Read_of_open (H : Hasher) (dir : String → Option StoredFile) (dr : dataReader)
    (want : Nat) (rc : FileReader) (herr : dr.err = none) (hrc : dr.rc = some rc) :
    dr.Read H dir want =
      match rc.Read H want with
      | (bs, none, rc') => (bs, none, { dr with rc := some rc' })
      | (bs, some e, _) =>
        if (e = Err.unexpectedEOF ∨ e = Err.eof) ∧ dr.index ≠ dr.requiredParts.length then
          (bs, none, { dr with rc := none, err := none })
        else (bs, some e, { dr with rc := none, err := some e }) := by
  obtain ⟨frd, hfrd⟩ : ∃ frd : Hasher → FileReader → Nat → List Byte × Option Err × FileReader,
      ∀ a b c, FileReader.Read a b c = frd a b c := ⟨_, fun _ _ _ => rfl⟩
  obtain ⟨rp, bts, btr, rc0, idx, err0⟩ := dr
  simp only at herr hrc
  subst herr hrc
  unfold dataReader.Read
  simp only [hfrd]
  dsimp only
  generalize frd H rc want = res
  obtain ⟨bs, e, rc1⟩ := res
  cases e with
  | none => rfl
  | some e =>
    dsimp only
    split_ifs <;> rfl

open dataspace.disk in
/-- A `Read` of the disk part walker with no part reader open opens the file of
`requiredParts[index]` and goes on as the walker with that reader does. -/
theorem disk_Read_opening (H : Hasher) (dir : String → Option StoredFile) (dr : dataReader)
    (want : Nat) (part : Part) (rc : FileReader) (herr : dr.err = none) (hrc : dr.rc = none)
    (hp : dr.requiredParts.get? dr.index = some part)
    (hopen : OpenFile (dir (part.ID ++ ".part")) (if dr.index = 0 then dr.bytesToSkip else 0)
      (if (dr.index : Int) = (dr.requiredParts.length : Int) - 1 then uint64 dr.bytesToRead
        else uint64 ((part.Size : Int) - uint64 (if dr.index = 0 then dr.bytesToSkip else 0)))
      true = .ok rc) :
    dr.Read H dir want
      = ({ dr with rc := some rc, index := dr.index + 1 } : dataReader).Read H dir want := by
  obtain ⟨opf, hopf⟩ : ∃ opf : Option StoredFile → Int → Nat → Bool → Except Err FileReader,
      ∀ a b c d, OpenFile a b c d = opf a b c d := ⟨_, fun _ _ _ _ => rfl⟩
  obtain ⟨frd, hfrd⟩ : ∃ frd : Hasher → FileReader → Nat → List Byte × Option Err × FileReader,
      ∀ a b c, FileReader.Read a b c = frd a b c := ⟨_, fun _ _ _ => rfl⟩
  obtain ⟨rp, bts, btr, rc0, idx, err0⟩ := dr
  simp only at herr hrc hp hopen
  subst herr hrc
  rw [hopf] at hopen
  unfold dataReader.Read
  simp only [hopf, hfrd]
  dsimp only
  rw [hp]
  dsimp only
  rw [hopen]

open dataspace.disk in
/-- Once the disk part walker holds an error, every later `Read` returns no byte and
that error, `io.EOF` in place of an `io.ErrUnexpectedEOF` once all parts were opened. -/
theorem disk_after_err (H : Hasher) (dir : String → Option StoredFile) :
    ∀ (ws : List Nat) (dr : dataReader) (e : Err) (want : Nat), dr.err = some e →
      ((dr.after H dir ws).Read H dir want).1 = [] ∧
      ((dr.after H dir ws).Read H dir want).2.1 =
        some (if e = Err.unexpectedEOF ∧ dr.index = dr.requiredParts.length then Err.eof
          else e) := by
  intro ws
  induction ws with
  | nil =>
    intro dr e want herr
    rw [dataReader.after, disk_Read_of_err H dir dr want e herr]
    exact ⟨rfl, rfl⟩
  | cons w ws ih =>
    intro dr e want herr
    rw [dataReader.after, disk_Read_of_err H dir dr w e herr]
    obtain ⟨h1, h2⟩ := ih
      { dr with
        err := some (if e = Err.unexpectedEOF ∧ dr.index = dr.requiredParts.length then Err.eof
          else e) }
      (if e = Err.unexpectedEOF ∧ dr.index = dr.requiredParts.length then Err.eof else e) want rfl
    refine ⟨h1, ?_⟩
    rw [h2]
    dsimp only
    by_cases c : e = Err.unexpectedEOF ∧ dr.index = dr.requiredParts.length
    · rw [if_pos c]
      split_ifs <;> rfl
    · rw [if_neg c, if_neg c]

open dataspace.erasure in
/-- A `Read` of the erasure part walker that holds an error returns it with no byte,
`io.EOF` in place of an `io.ErrUnexpectedEOF` once all parts were opened. -/
theorem erasure_Read_of_err (C : erasure.Codec) (g : erasure.GetShardReader) (dr : dataReader)
    (want : Nat) (e : Err) (herr : dr.err = some e) :
    dr.Read C g want =
      ([], some (if e = Err.unexpectedEOF ∧ dr.index = dr.parts.length then Err.eof else e),
        { dr with
          err := some (if e = Err.unexpectedEOF ∧ dr.index = dr.parts.length then Err.eof
            else e) }) := by
  obtain ⟨sps, parts, idx, bts, btr, rd0, shards, err0⟩ := dr
  simp only at herr
  subst herr
  rfl

open dataspace.erasure in
/-- A `Read` of the erasure part walker on its open stripe reader: the bytes are those
of the stripe reader; `io.EOF` and `io.ErrUnexpectedEOF` of a part that is not the
last are dropped and the reader is closed; any other error is returned and kept. -/
theorem erasure_Read_of_open (C : erasure.Codec) (g : erasure.GetShardReader) (dr : dataReader)
    (want : Nat) (rd : erasure.decodeReader) (base : Nat) (herr : dr.err = none)
    (hrd : dr.reader = some (rd, base)) :
    dr.Read C g want =
      match rd.Read C (shiftedReader g base) want with
      | (bs, none, rd') => (bs, none, { dr with reader := some (rd', base) })
      | (bs, some e, rd') =>
        if (e = Err.unexpectedEOF ∨ e = Err.eof) ∧ dr.index ≠ dr.parts.length then
          (bs, none, { dr with reader := none, shards := rd'.shards, err := none })
        else (bs, some e, { dr with reader := none, shards := rd'.shards, err := some e }) := by
  obtain ⟨rdf, hrdf⟩ : ∃ rdf : erasure.Codec → erasure.GetShardReader → erasure.decodeReader →
      Nat → List Byte × Option Err × erasure.decodeReader,
      ∀ a b c d, erasure.decodeReader.Read a b c d = rdf a b c d := ⟨_, fun _ _ _ _ => rfl⟩
  obtain ⟨sps, parts, idx, bts, btr, rd0, shards, err0⟩ := dr
  simp only at herr hrd
  subst herr hrd
  unfold dataReader.Read
  simp only [hrdf]
  dsimp only
  generalize rdf C (shiftedReader g base) rd want = res
  obtain ⟨bs, e, rd1⟩ := res
  cases e with
  | none => rfl
  | some e =>
    dsimp only
    split_ifs <;> rfl

open dataspace.erasure in
/-- Once the erasure part walker holds an error, every later `Read` returns no byte
and that error, `io.EOF` in place of an `io.ErrUnexpectedEOF` once all parts were
opened. -/
theorem erasure_after_err (C : erasure.Codec) (g : erasure.GetShardReader) :
    ∀ (ws : List Nat) (dr : dataReader) (e : Err) (want : Nat), dr.err = some e →
      ((dr.after C g ws).Read C g want).1 = [] ∧
      ((dr.after C g ws).Read C g want).2.1 =
        some (if e = Err.unexpectedEOF ∧ dr.index = dr.parts.length then Err.eof else e) := by
  intro ws
  induction ws with
  | nil =>
    intro dr e want herr
    rw [dataReader.after, erasure_Read_of_err C g dr want e herr]
    exact ⟨rfl, rfl⟩
  | cons w ws ih =>
    intro dr e want herr
    rw [dataReader.after, erasure_Read_of_err C g dr w e herr]
    obtain ⟨h1, h2⟩ := ih
      { dr with
        err := some (if e = Err.unexpectedEOF ∧ dr.index = dr.parts.length then Err.eof
          else e) }
      (if e = Err.unexpectedEOF ∧ dr.index = dr.parts.length then Err.eof else e) want rfl
    refine ⟨h1, ?_⟩
    rw [h2]
    dsimp only
    by_cases c : e = Err.unexpectedEOF ∧ dr.index = dr.parts.length
    · rw [if_pos c]
      split_ifs <;> rfl
    · rw [if_neg c, if_neg c]

/-- C37 (amended). Both part walkers, disk layer and erasure layer, in a state with
no error held and the reader of a part open: a `Read` delivers the bytes the part
reader delivers; when the part reader reports no error, neither does the walker;
when it reports `io.EOF` or `io.ErrUnexpectedEOF` and the part is not the last of
the window, the walker returns nil and is left with no error and no part reader, so
that the next `Read` opens the next part, whether or not the part delivered its
share; any other error, and any error of the last part, is returned, and every later
`Read` returns no byte and that error, `io.EOF` in place of `io.ErrUnexpectedEOF`. -/
theorem part_walkers_drop_the_end_of_a_part_that_is_not_the_last
    (H : Hasher) (dir : String → Option StoredFile) (C : erasure.Codec)
    (g : erasure.GetShardReader) (want : Nat)
    (dr : dataspace.disk.dataReader) (rc : FileReader)
    (er : dataspace.erasure.dataReader) (rd : erasure.decodeReader) (base : Nat)
    (hderr : dr.err = none) (hdrc : dr.rc = some rc)
    (heerr : er.err = none) (herd : er.reader = some (rd, base)) :
    ((dr.Read H dir want).1 = (rc.Read H want).1 ∧
      ((rc.Read H want).2.1 = none → (dr.Read H dir want).2.1 = none) ∧
      ∀ e, (rc.Read H want).2.1 = some e →
        ((e = Err.unexpectedEOF ∨ e = Err.eof) ∧ dr.index ≠ dr.requiredParts.length →
          (dr.Read H dir want).2.1 = none ∧
          (dr.Read H dir want).2.2 = { dr with rc := none }) ∧
        (¬ ((e = Err.unexpectedEOF ∨ e = Err.eof) ∧ dr.index ≠ dr.requiredParts.length) →
          (dr.Read H dir want).2.1 = some e ∧
          ∀ ws w,
            ((((dr.Read H dir want).2.2).after H dir ws).Read H dir w).1 = [] ∧
            ((((dr.Read H dir want).2.2).after H dir ws).Read H dir w).2.1 =
              some (if e = Err.unexpectedEOF then Err.eof else e))) ∧
    ((er.Read C g want).1 = (rd.Read C (dataspace.erasure.shiftedReader g base) want).1 ∧
      ((rd.Read C (dataspace.erasure.shiftedReader g base) want).2.1 = none →
        (er.Read C g want).2.1 = none) ∧
      ∀ e, (rd.Read C (dataspace.erasure.shiftedReader g base) want).2.1 = some e →
        ((e = Err.unexpectedEOF ∨ e = Err.eof) ∧ er.index ≠ er.parts.length →
          (er.Read C g want).2.1 = none ∧
          (er.Read C g want).2.2 =
            { er with
              reader := none,
              shards := (rd.Read C (dataspace.erasure.shiftedReader g base) want).2.2.shards }) ∧
        (¬ ((e = Err.unexpectedEOF ∨ e = Err.eof) ∧ er.index ≠ er.parts.length) →
          (er.Read C g want).2.1 = some e ∧
          ∀ ws w,
            ((((er.Read C g want).2.2).after C g ws).Read C g w).1 = [] ∧
            ((((er.Read C g want).2.2).after C g ws).Read C g w).2.1 =
              some (if e = Err.unexpectedEOF then Err.eof else e))) := by
  constructor
  · rw [disk_Read_of_open H dir dr want rc hderr hdrc]
    obtain ⟨frd, hfrd⟩ : ∃ frd : Hasher → FileReader → Nat → List Byte × Option Err × FileReader,
        ∀ a b c, FileReader.Read a b c = frd a b c := ⟨_, fun _ _ _ => rfl⟩
    simp only [hfrd]
    generalize frd H rc want = res
    obtain ⟨bs, e, rc1⟩ := res
    cases e with
    | none =>
      refine ⟨rfl, fun _ => rfl, fun e he => ?_⟩
      simp at he
    | some e0 =>
      dsimp only
      by_cases c : (e0 = Err.unexpectedEOF ∨ e0 = Err.eof) ∧ dr.index ≠ dr.requiredParts.length
      · rw [if_pos c]
        refine ⟨rfl, fun h => by simp at h, fun e he => ?_⟩
        simp only [Option.some.injEq] at he
        subst he
        refine ⟨fun _ => ⟨rfl, ?_⟩, fun h => absurd c h⟩
        dsimp only
        rw [← hderr]
      · rw [if_neg c]
        refine ⟨rfl, fun h => by simp at h, fun e he => ?_⟩
        simp only [Option.some.injEq] at he
        subst he
        refine ⟨fun h => absurd h c, fun _ => ⟨rfl, fun ws w => ?_⟩⟩
        dsimp only
        obtain ⟨h1, h2⟩ := disk_after_err H dir ws
          ({ dr with rc := none, err := some e0 } : dataspace.disk.dataReader) e0 w rfl
        refine ⟨h1, ?_⟩
        rw [h2]
        dsimp only
        by_cases hu : e0 = Err.unexpectedEOF
        · have hi : dr.index = dr.requiredParts.length := by
            by_contra hne
            exact c ⟨Or.inl hu, hne⟩
          rw [if_pos ⟨hu, hi⟩, if_pos hu]
        · rw [if_neg (fun h => hu h.1), if_neg hu]
  · rw [erasure_Read_of_open C g er want rd base heerr herd]
    obtain ⟨rdf, hrdf⟩ : ∃ rdf : erasure.Codec → erasure.GetShardReader → erasure.decodeReader →
        Nat → List Byte × Option Err × erasure.decodeReader,
        ∀ a b c d, erasure.decodeReader.Read a b c d = rdf a b c d := ⟨_, fun _ _ _ _ => rfl⟩
    simp only [hrdf]
    generalize rdf C (dataspace.erasure.shiftedReader g base) rd want = res
    obtain ⟨bs, e, rd1⟩ := res
    cases e with
    | none =>
      refine ⟨rfl, fun _ => rfl, fun e he => ?_⟩
      simp at he
    | some e0 =>
      dsimp only
      by_cases c : (e0 = Err.unexpectedEOF ∨ e0 = Err.eof) ∧ er.index ≠ er.parts.length
      · rw [if_pos c]
        refine ⟨rfl, fun h => by simp at h, fun e he => ?_⟩
        simp only [Option.some.injEq] at he
        subst he
        refine ⟨fun _ => ⟨rfl, ?_⟩, fun h => absurd c h⟩
        dsimp only
        rw [← heerr]
      · rw [if_neg c]
        refine ⟨rfl, fun h => by simp at h, fun e he => ?_⟩
        simp only [Option.some.injEq] at he
        subst he
        refine ⟨fun h => absurd h c, fun _ => ⟨rfl, fun ws w => ?_⟩⟩
        dsimp only
        obtain ⟨h1, h2⟩ := erasure_after_err C g ws
          ({ er with reader := none, shards := rd1.shards, err := some e0 } :
            dataspace.erasure.dataReader) e0 w rfl
        refine ⟨h1, ?_⟩
        rw [h2]
        dsimp only
        by_cases hu : e0 = Err.unexpectedEOF
        · have hi : er.index = er.parts.length := by
            by_contra hne
            exact c ⟨Or.inl hu, hne⟩
          rw [if_pos ⟨hu, hi⟩, if_pos hu]
        · rw [if_neg (fun h => hu h.1), if_neg hu]

/-- The theorem for the two walkers after they opened part `a` of an object of two
parts `a` (2 bytes) and `b` (3 bytes).  Disk layer, window `[0, 5)`: the file of part
`a` was cut to one byte, its reader reports `io.ErrUnexpectedEOF`, and the walker
returns nil.  Erasure layer, window `[1, 5)`, after a `Read` of one byte: the stripe
reader of part `a` reports `io.EOF`, and the walker returns nil. -/
theorem part_walkers_drop_the_end_of_a_part_that_is_not_the_last_witness :
    (FileReader.Read sumHasher
      (FileReader.verified ⟨[1], ⟨[6, 10], ⟨1, 1048576, 1, 2⟩, none⟩, 1, 0, 2, 2, none, 0, 0⟩)
      8).2.1 = some Err.unexpectedEOF ∧
    ((⟨[⟨"a", 2⟩, ⟨"b", 3⟩], 0, 3,
        some (FileReader.verified
          ⟨[1], ⟨[6, 10], ⟨1, 1048576, 1, 2⟩, none⟩, 1, 0, 2, 2, none, 0, 0⟩),
        1, none⟩ : dataspace.disk.dataReader).Read sumHasher
      (fun name =>
        if name = "a.part" then
          some { (WriteFile sumHasher ⟨[1, 2], Err.eof⟩ 2 true).2 with data := [1] }
        else if name = "b.part" then some (WriteFile sumHasher ⟨[3, 4, 5], Err.eof⟩ 3 true).2
        else none) 8).2.1 = none ∧
    (erasure.decodeReader.Read xorCodec
      (dataspace.erasure.shiftedReader
        (erasure.shardFiles [("s0", [1, 2, 3, 4, 5]), ("s1", [1, 2, 3, 4, 5])]) 0)
      ⟨1, ⟨1, 1, 2, 4, ["s0", "s1"]⟩, -2, 0, [some ⟨[], Err.eof⟩, none],
        [⟨[2, 2], 4, 1⟩, ⟨[], 4, 2⟩], 2, 2, 1, 1, 1, [none, none], 1, 1, 0, 0⟩
      8).2.1 = some Err.eof ∧
    ((⟨2, [⟨⟨1, 1, 2, 4, ["s0", "s1"]⟩, "a"⟩, ⟨⟨1, 1, 3, 4, ["s0", "s1"]⟩, "b"⟩], 1, 1, 3,
        some (⟨1, ⟨1, 1, 2, 4, ["s0", "s1"]⟩, -2, 0, [some ⟨[], Err.eof⟩, none],
          [⟨[2, 2], 4, 1⟩, ⟨[], 4, 2⟩], 2, 2, 1, 1, 1, [none, none], 1, 1, 0, 0⟩, 0),
        [⟨[], 4, 4⟩, ⟨[], 4, 4⟩], none⟩ : dataspace.erasure.dataReader).Read xorCodec
      (erasure.shardFiles [("s0", [1, 2, 3, 4, 5]), ("s1", [1, 2, 3, 4, 5])]) 8).2.1
      = none := by
  have h := part_walkers_drop_the_end_of_a_part_that_is_not_the_last sumHasher
    (fun name =>
      if name = "a.part" then
        some { (WriteFile sumHasher ⟨[1, 2], Err.eof⟩ 2 true).2 with data := [1] }
      else if name = "b.part" then some (WriteFile sumHasher ⟨[3, 4, 5], Err.eof⟩ 3 true).2
      else none)
    xorCodec (erasure.shardFiles [("s0", [1, 2, 3, 4, 5]), ("s1", [1, 2, 3, 4, 5])]) 8
    ⟨[⟨"a", 2⟩, ⟨"b", 3⟩], 0, 3,
      some (FileReader.verified
        ⟨[1], ⟨[6, 10], ⟨1, 1048576, 1, 2⟩, none⟩, 1, 0, 2, 2, none, 0, 0⟩),
      1, none⟩
    (FileReader.verified ⟨[1], ⟨[6, 10], ⟨1, 1048576, 1, 2⟩, none⟩, 1, 0, 2, 2, none, 0, 0⟩)
    ⟨2, [⟨⟨1, 1, 2, 4, ["s0", "s1"]⟩, "a"⟩, ⟨⟨1, 1, 3, 4, ["s0", "s1"]⟩, "b"⟩], 1, 1, 3,
      some (⟨1, ⟨1, 1, 2, 4, ["s0", "s1"]⟩, -2, 0, [some ⟨[], Err.eof⟩, none],
        [⟨[2, 2], 4, 1⟩, ⟨[], 4, 2⟩], 2, 2, 1, 1, 1, [none, none], 1, 1, 0, 0⟩, 0),
      [⟨[], 4, 4⟩, ⟨[], 4, 4⟩], none⟩
    ⟨1, ⟨1, 1, 2, 4, ["s0", "s1"]⟩, -2, 0, [some ⟨[], Err.eof⟩, none],
      [⟨[2, 2], 4, 1⟩, ⟨[], 4, 2⟩], 2, 2, 1, 1, 1, [none, none], 1, 1, 0, 0⟩
    0 rfl rfl rfl rfl
  have hd : (FileReader.Read sumHasher
      (FileReader.verified ⟨[1], ⟨[6, 10], ⟨1, 1048576, 1, 2⟩, none⟩, 1, 0, 2, 2, none, 0, 0⟩)
      8).2.1 = some Err.unexpectedEOF := by decide
  have he : (erasure.decodeReader.Read xorCodec
      (dataspace.erasure.shiftedReader
        (erasure.shardFiles [("s0", [1, 2, 3, 4, 5]), ("s1", [1, 2, 3, 4, 5])]) 0)
      ⟨1, ⟨1, 1, 2, 4, ["s0", "s1"]⟩, -2, 0, [some ⟨[], Err.eof⟩, none],
        [⟨[2, 2], 4, 1⟩, ⟨[], 4, 2⟩], 2, 2, 1, 1, 1, [none, none], 1, 1, 0, 0⟩
      8).2.1 = some Err.eof := by decide
  exact ⟨hd, ((h.1.2.2 _ hd).1 ⟨Or.inl rfl, by decide⟩).1, he,
    ((h.2.2.2 _ he).1 ⟨Or.inr rfl, by decide⟩).1⟩

end Goat
